import Mathlib

/-!
# Geometrix trigonometry: range reduction, quadrant selection, polynomial evaluation

A shallow embedding of `include/trigonometry.hpp`, `include/trigonometry_const.hpp`
and `include/constants.hpp`.

Floating point values are modelled in exact arithmetic over an ordered field `α`
with a floor function (instantiated at `ℚ` to run the code and at `ℝ` to compare
with the true sine and cosine).  The C++ `int` is the 32 bit two's complement
integer: a float-to-int conversion whose truncated value is not representable and a
signed overflow are undefined behaviour and are reported as a `Fault`, as is a
floating point division by zero.
-/

namespace Geometrix

/-! ## Machine level helpers -/

/-- Ways in which an evaluation leaves the defined behaviour of the source. -/
inductive Fault where
  | intConversion
  | intOverflow
  | divByZero
  | assertion
  | outOfBounds
  | shiftCount
  | misaligned
  | floatConversion
  | illFormed
  deriving DecidableEq, Repr

/-- Smallest value of the 32 bit `int`. -/
def INT_MIN : Int := -2147483648

/-- Largest value of the 32 bit `int`. -/
def INT_MAX : Int := 2147483647

/-- Truncation toward zero, the value of `(int)t` when it is representable. -/
def truncInt {α : Type} [LinearOrderedField α] [FloorRing α] (t : α) : Int :=
  if 0 ≤ t then ⌊t⌋ else ⌈t⌉

/-- The conversion `(int)t`: undefined when the truncated value does not fit an `int`. -/
def toInt {α : Type} [LinearOrderedField α] [FloorRing α] (t : α) : Except Fault Int :=
  if INT_MIN ≤ truncInt t ∧ truncInt t ≤ INT_MAX then .ok (truncInt t)
  else .error Fault.intConversion

/-- Signed `int` multiplication: overflow is undefined behaviour. -/
def imul (a b : Int) : Except Fault Int :=
  if INT_MIN ≤ a * b ∧ a * b ≤ INT_MAX then .ok (a * b) else .error Fault.intOverflow

/-- Signed `int` negation: overflow is undefined behaviour. -/
def ineg (a : Int) : Except Fault Int :=
  if INT_MIN ≤ -a ∧ -a ≤ INT_MAX then .ok (-a) else .error Fault.intOverflow

/-- The expression `q >= 0 ? q : -q` on `int`. -/
def iabs (q : Int) : Except Fault Int :=
  if q ≥ 0 then .ok q else ineg q

/-- Floating point division, with a zero divisor reported. -/
def fdiv {α : Type} [LinearOrderedField α] (a b : α) : Except Fault α :=
  if b = 0 then .error Fault.divByZero else .ok (a / b)

/-- A floating point value: a finite number, an infinity or a NaN. -/
inductive Fp (α : Type) where
  | finite (v : α)
  | posInf
  | negInf
  | nan
  deriving DecidableEq, Repr

/-! ## constants.hpp -/

/-- The literal `DEG_TO_RAD`. -/
def DEG_TO_RAD : ℚ := 1.7453292519943295769236907684886e-2

/-- The literal `HALF_PI`. -/
def HALF_PI : ℚ := 1.5707963267948966192

/-- The literal `QUARTER_PI`. -/
def QUARTER_PI : ℚ := 7.853981633974483096e-1

/-- The constant `INV_QUARTER_PI = 1 / QUARTER_PI`. -/
def INV_QUARTER_PI : ℚ := 1 / QUARTER_PI

/-- The constant `INV_HALF_PI = 1 / HALF_PI`. -/
def INV_HALF_PI : ℚ := 1 / HALF_PI

/-- The enumerator `Pi3by2_2Pi` of `Quads`, used as the mask of the quadrant switch. -/
def Pi3by2_2Pi : Int := 3

/-- The enumerator `PiPi3by4_2Pi` of `Octants`, used as the mask of the octant switch. -/
def PiPi3by4_2Pi : Int := 7

/-! ## trigonometry_const.hpp: range reduction -/

/-- The struct `ReductionRes`. -/
structure ReductionRes where
  quad : Int
  noReduciton : Bool
  deriving DecidableEq, Repr

/-- The function `addRangeReduce`; the reference parameter `arg` is returned as the second
component of the result. -/
def addRangeReduce {α : Type} [LinearOrderedField α] [FloorRing α]
    (arg maxRange invMaxRange : α) : Except Fault (ReductionRes × α) :=
  if (if arg ≥ 0 then arg else -arg) ≤ maxRange then
    .ok ({ quad := 0, noReduciton := true }, arg)
  else
    match toInt (arg * invMaxRange) with
    | .error e => .error e
    | .ok quad => .ok ({ quad := quad, noReduciton := false }, arg - (quad : α) * maxRange)

/-! ## trigonometry_const.hpp: polynomial tables -/

/-- The coefficient array SIN_DEGREE_3, lowest degree first. -/
def SIN_DEGREE_3 : List ℚ :=
  [0.992787728983164233059810507773856991,
   -0.146210290215383029232877806264248677]

/-- The coefficient array SIN_DEGREE_5, lowest degree first. -/
def SIN_DEGREE_5 : List ℚ :=
  [0.999891821255810892885564707156941565,
   -0.165960116540878989063185380996540407,
   0.00760290334336935120704015646842617915]

/-- The coefficient array SIN_DEGREE_7, lowest degree first. -/
def SIN_DEGREE_7 : List ℚ :=
  [0.999999060898976336474926982596043563,
   -0.166655540927576933646197607200949732,
   0.00831189980138987918776159520367912155,
   -0.000184881402886071911033139680005197992]

/-- The coefficient array SIN_DEGREE_9, lowest degree first. -/
def SIN_DEGREE_9 : List ℚ :=
  [0.999999994686007336752316120259640318,
   -0.166666566840071513590695269999128453,
   0.00833302513896936729848481553136180314,
   -0.000198074187274269708745741141088641071,
   2.60190306765146018582500885337773154e-6]

/-- The coefficient array SIN_DEGREE_11, lowest degree first. -/
def SIN_DEGREE_11 : List ℚ :=
  [0.99999999997884898600402426033768998,
   -0.166666666088260696413164261885310067,
   0.00833333072055773645376566203656709979,
   -0.000198408328232619552901560108010257242,
   2.75239710746326498401791551303359689e-6,
   -2.3868346521031027639830001794722295e-8]

/-- The coefficient array SIN_DEGREE_13, lowest degree first. -/
def SIN_DEGREE_13 : List ℚ :=
  [0.999999999999937559931818667019042,
   -0.166666666664323314581815742382489749,
   0.00833333331876551401513171161164153048,
   -0.00019841266411622150098365220068523596,
   2.75569319265949080406017672747752072e-6,
   -2.50295188656032073490380438676828409e-8,
   1.54011703714146442508663314577356389e-10]

/-- The coefficient array SIN_DEGREE_15, lowest degree first. -/
def SIN_DEGREE_15 : List ℚ :=
  [0.99999999999999985783856947280351013,
   -0.166666666666659653164780128859839316,
   0.00833333333327592139676057538106745659,
   -0.000198412698232225093689107237380802637,
   2.75573164212929639596445204076151988e-6,
   -2.5051870883490902518590017165648945e-8,
   1.6047844633018114428263064708844387e-10,
   -7.37066278281678179293546235379257048e-13]

/-- The coefficient array SIN_DEGREE_17, lowest degree first. -/
def SIN_DEGREE_17 : List ℚ :=
  [0.99999999999999999974277490079943975,
   -0.166666666666666650522767323353840604,
   0.00833333333333316503140948668861163462,
   -0.00019841269841201840459252750531485886,
   2.75573192101527564362114785169078252e-6,
   -2.50521067982746148969440582709985054e-8,
   1.60589364903732230834314189302038183e-10,
   -7.64291780693694318128770390349958602e-13,
   2.72047909631134875287705126898888084e-15]

/-- The coefficient array COS_DEGREE_4, lowest degree first. -/
def COS_DEGREE_4 : List ℚ :=
  [0.997372645040477990699027658698347186,
   -0.490966242354240750313919970830772248,
   0.0351569652103601536791893003031729288]

/-- The coefficient array COS_DEGREE_6, lowest degree first. -/
def COS_DEGREE_6 : List ℚ :=
  [0.999970210689953068626323587055728078,
   -0.499782706704688809140466617726333455,
   0.0413661149638482252569383872576459943,
   -0.0012412397582398600702129604944720102]

/-- The coefficient array COS_DEGREE_8, lowest degree first. -/
def COS_DEGREE_8 : List ℚ :=
  [0.999999792271214939267553805222053911,
   -0.499997347307564798261689263275170926,
   0.0416605522442190334337486569138386962,
   -0.0013835791854080904305903409668113965,
   0.0000228155780226852578391801303428006217]

/-- The coefficient array COS_DEGREE_10, lowest degree first. -/
def COS_DEGREE_10 : List ℚ :=
  [0.99999999901810067632218592152414676,
   -0.49999998049253581064488831264724178,
   0.0416665985274352494970529831079268818,
   -0.00138879697151174993540500936074733546,
   0.00002474324689798977846771995314323317,
   -2.57924183182520559803981154578763508e-7]

/-- The coefficient array COS_DEGREE_12, lowest degree first. -/
def COS_DEGREE_12 : List ℚ :=
  [0.99999999999664497762294088303450344,
   -0.499999999904093446864749737540127153,
   0.0416666661919898461055893453767336909,
   -0.00138888797032770920681384355560203468,
   0.0000248007136556145113256051130495176344,
   -2.75135611164571371141959208910569516e-7,
   1.97644182995841772799444848310451781e-9]

/-- The coefficient array COS_DEGREE_14, lowest degree first. -/
def COS_DEGREE_14 : List ℚ :=
  [0.9999999999999913246735627197920925,
   -0.499999999999662298517775822702998135,
   0.041666666664412501559930358186670219,
   -0.00138888888296507330038783473947564241,
   0.0000248015794582964580010321673714486073,
   -2.75567434405946778860326965959718338e-7,
   2.08529198807394186029297197627654707e-9,
   -1.094796343456433735930433763570635e-11]

/-- The coefficient array COS_DEGREE_16, lowest degree first. -/
def COS_DEGREE_16 : List ℚ :=
  [0.99999999999999998243004448007448662,
   -0.499999999999999105881272803474436268,
   0.041666666666658914344068844317924505,
   -0.00138888888886231429175747130897185107,
   0.0000248015872549765577961155967511699095,
   -2.75573145508960795189972565635584642e-7,
   2.08764776731016710219609723288490596e-9,
   -1.14608862231521440480830153964369191e-11,
   4.58927688754481747776178904291483144e-14]

/-- The coefficient array COS_DEGREE_18, lowest degree first. -/
def COS_DEGREE_18 : List ℚ :=
  [0.99999999999999999997137279452082542,
   -0.499999999999999998154315099318475409,
   0.0416666666666666464830761430785494906,
   -0.00138888888888880138354292714761533424,
   0.000024801587301391185639801128147609099,
   -2.75573191983631520203018748182144674e-7,
   2.08767549239714497727103009851893486e-9,
   -1.1470641559691907631205172698119569e-11,
   4.77627556974286641810975958891813886e-14,
   -1.50677871898184264862447669562686491e-16]

/-- The coefficient array TAN_DEGREE_2. -/
def TAN_DEGREE_2 : List ℚ :=
  [-3.6112171,
   -4.6133253]

/-- The coefficient array TAN_DEGREE_4. -/
def TAN_DEGREE_4 : List ℚ :=
  [211.849369664121,
   -12.5288887278440,
   269.7350131214121,
   -71.4145309347748]

/-- The table `SIN_POLIES`: the sine coefficient arrays by polynomial index. -/
def SIN_POLIES : List (List ℚ) :=
  [SIN_DEGREE_3, SIN_DEGREE_5, SIN_DEGREE_7, SIN_DEGREE_9,
   SIN_DEGREE_11, SIN_DEGREE_13, SIN_DEGREE_15, SIN_DEGREE_17]

/-- The table `COS_POLIES`: the cosine coefficient arrays by polynomial index. -/
def COS_POLIES : List (List ℚ) :=
  [COS_DEGREE_4, COS_DEGREE_6, COS_DEGREE_8, COS_DEGREE_10,
   COS_DEGREE_12, COS_DEGREE_14, COS_DEGREE_16, COS_DEGREE_18]

/-- The constant `SIN_COS_ACC_MAP_COUNT`. -/
def SIN_COS_ACC_MAP_COUNT : Nat := 11

/-- The table `SIN_COS_ACC_MAP`: accuracy level to polynomial index. -/
def SIN_COS_ACC_MAP : List Nat := [1, 2, 3, 3, 4, 4, 5, 6, 6, 7, 7]

/-- The constant `SP_ERROR_DEGREE_INDEX`. -/
def SP_ERROR_DEGREE_INDEX : Nat := 5

/-- The constant `DP_ERROR_DEGREE_INDEX`. -/
def DP_ERROR_DEGREE_INDEX : Nat := 7

/-! ## trigonometry.hpp: polynomial evaluation -/

/-- The Horner loop shared by the inner polynomials:
`res = data[polySize-1]; for (i = polySize-2; i >= 0; --i) res = res * x2 + data[i]`. -/
def hornerLoop {α : Type} [LinearOrderedField α] (data : List ℚ) (x2 : α) : α :=
  match data.reverse with
  | [] => 0
  | top :: rest => rest.foldl (fun (res : α) (c : ℚ) => res * x2 + (c : α)) (top : α)

/-- The function `sin_inner_polinomial`, `accuracy` being the polynomial index. -/
def sin_inner_polinomial {α : Type} [LinearOrderedField α] (accuracy : Nat) (x : α) : α :=
  if x = 0 then x
  else
    let x2 := x * x
    hornerLoop (SIN_POLIES.getD accuracy []) x2 * x

/-- The function `cos_inner_polinomial`, `accuracy` being the polynomial index. -/
def cos_inner_polinomial {α : Type} [LinearOrderedField α] (accuracy : Nat) (x : α) : α :=
  if x = 0 then 1
  else
    let x2 := x * x
    hornerLoop (COS_POLIES.getD accuracy []) x2

/-- The function `tan_inner_polynomial`. -/
def tan_inner_polynomial {α : Type} [LinearOrderedField α] (fast : Bool) (x : α) :
    Except Fault α :=
  let x := x * (INV_QUARTER_PI : α)
  let x2 := x * x
  if fast then
    fdiv (x * ((TAN_DEGREE_2.getD 0 0 : ℚ) : α)) (((TAN_DEGREE_2.getD 1 0 : ℚ) : α) + x2)
  else
    fdiv (x * (((TAN_DEGREE_4.getD 0 0 : ℚ) : α) + ((TAN_DEGREE_4.getD 1 0 : ℚ) : α) * x2))
      (((TAN_DEGREE_4.getD 2 0 : ℚ) : α) + x2 * (((TAN_DEGREE_4.getD 3 0 : ℚ) : α) + x2))

/-! ## trigonometry.hpp: quadrant and octant selection

The selectors are written over the inner evaluators and the period constants, so that
they can be studied with the exact functions in place of the approximations. -/

/-- The polynomial branch of `Trig::cos` after the infinity guard, over the inner
evaluators `S`, `C` and the constants `halfPi`, `invHalfPi`. -/
def cosPolyWith {α : Type} [LinearOrderedField α] [FloorRing α]
    (S C : α → α) (halfPi invHalfPi : α) (x : α) : Except Fault α := do
  let (res, x) ← addRangeReduce x halfPi invHalfPi
  if res.noReduciton then
    return C x
  let sign : Int := if res.quad ≥ 0 then 1 else -1
  let x := x * (sign : α)
  let m ← imul res.quad sign
  let k := Int.land m Pi3by2_2Pi
  if k = 0 then return C x
  else if k = 1 then return -S x
  else if k = 2 then return -C x
  else if k = 3 then return S x
  else return x

/-- The polynomial branch of `Trig::sin` after the infinity guard, over the inner
evaluators `S`, `C` and the constants `halfPi`, `invHalfPi`. -/
def sinPolyWith {α : Type} [LinearOrderedField α] [FloorRing α]
    (S C : α → α) (halfPi invHalfPi : α) (x : α) : Except Fault α := do
  let (res, x) ← addRangeReduce x halfPi invHalfPi
  if res.noReduciton then
    return S x
  let sign : Int := if res.quad ≥ 0 then 1 else -1
  let x := x * (sign : α)
  let m ← imul res.quad sign
  let k := Int.land m Pi3by2_2Pi
  if k = 0 then return (sign : α) * S x
  else if k = 1 then return (sign : α) * C x
  else if k = 2 then return ((-sign : Int) : α) * S x
  else if k = 3 then return ((-sign : Int) : α) * C x
  else return x

/-- The table branch of `Trig::cos` after the infinity guard, over the table lookups
`cosT`, `sinT` and the constants `quarterPi`, `invQuarterPi`. -/
def cosTableWith {α : Type} [LinearOrderedField α] [FloorRing α]
    (cosT sinT : α → α) (quarterPi invQuarterPi : α) (x : α) : Except Fault α := do
  let (res, x) ← addRangeReduce x quarterPi invQuarterPi
  let sign : Int := if x ≥ 0 then 1 else -1
  let x := x * (sign : α)
  if res.noReduciton then
    return cosT x
  let quad ← iabs res.quad
  let k := Int.land quad PiPi3by4_2Pi
  if k = 0 then return cosT x
  else if k = 1 then return sinT (quarterPi - x)
  else if k = 2 then return -sinT x
  else if k = 3 then return -cosT (quarterPi - x)
  else if k = 4 then return -cosT x
  else if k = 5 then return -sinT (quarterPi - x)
  else if k = 6 then return sinT x
  else if k = 7 then return cosT (quarterPi - x)
  else return x

/-- The table branch of `Trig::sin` after the infinity guard:
`cos<T,accuracy,polyApprox>(HALF_PI - x)`. -/
def sinTableWith {α : Type} [LinearOrderedField α] [FloorRing α]
    (cosT sinT : α → α) (halfPi quarterPi invQuarterPi : α) (x : α) : Except Fault α :=
  cosTableWith cosT sinT quarterPi invQuarterPi (halfPi - x)

/-- The function `Trig::tan` over the inner evaluator `T` and the constants `quarterPi`,
`invQuarterPi`. -/
def tanWith {α : Type} [LinearOrderedField α] [FloorRing α]
    (T : α → Except Fault α) (quarterPi invQuarterPi : α) (x : α) :
    Except Fault (Fp α) := do
  let sign : Int := if x ≥ 0 then 1 else -1
  let (res, x) ← addRangeReduce x quarterPi invQuarterPi
  let x := x * (sign : α)
  if x = 0 ∧ (res.quad = 2 * sign ∨ res.quad = 6 * sign) then
    return Fp.posInf
  let m ← imul res.quad sign
  let k := Int.land m PiPi3by4_2Pi
  if k = 0 then
    let t ← T x
    return Fp.finite ((sign : α) * t)
  else if k = 1 then
    let t ← T (quarterPi - x)
    let r ← fdiv (sign : α) t
    return Fp.finite r
  else if k = 2 then
    let t ← T x
    let r ← fdiv ((-sign : Int) : α) t
    return Fp.finite r
  else if k = 3 then
    let t ← T (quarterPi - x)
    return Fp.finite (((-sign : Int) : α) * t)
  else if k = 4 then
    let t ← T x
    return Fp.finite ((sign : α) * t)
  else if k = 5 then
    let t ← T (quarterPi - x)
    let r ← fdiv (sign : α) t
    return Fp.finite r
  else if k = 6 then
    let t ← T x
    let r ← fdiv ((-sign : Int) : α) t
    return Fp.finite r
  else if k = 7 then
    let t ← T (quarterPi - x)
    return Fp.finite (((-sign : Int) : α) * t)
  else return Fp.finite x

/-! ## trigonometry.hpp: the public functions

`sinPoly`, `cosPoly` and `tan` are the bodies of `Trig::sin`, `Trig::cos` (polynomial
branch, after the infinity guard) and `Trig::tan` on a finite argument.  The functions of
the namespace `Trig` take an `Fp` argument and include the guard. -/

/-- The polynomial index `SIN_COS_ACC_MAP[accuracy]`. -/
def polyIndex (accuracy : Fin 11) : Nat := SIN_COS_ACC_MAP.getD accuracy.val 0

/-- The function `Trig::cos<T, accuracy, true>` on a finite argument. -/
def cosPoly {α : Type} [LinearOrderedField α] [FloorRing α] (accuracy : Fin 11) (x : α) :
    Except Fault α :=
  cosPolyWith (sin_inner_polinomial (polyIndex accuracy))
    (cos_inner_polinomial (polyIndex accuracy)) (HALF_PI : α) (INV_HALF_PI : α) x

/-- The function `Trig::sin<T, accuracy, true>` on a finite argument. -/
def sinPoly {α : Type} [LinearOrderedField α] [FloorRing α] (accuracy : Fin 11) (x : α) :
    Except Fault α :=
  sinPolyWith (sin_inner_polinomial (polyIndex accuracy))
    (cos_inner_polinomial (polyIndex accuracy)) (HALF_PI : α) (INV_HALF_PI : α) x

/-- The function `Trig::tan<T, fast>` on a finite argument. -/
def tan {α : Type} [LinearOrderedField α] [FloorRing α] (fast : Bool) (x : α) :
    Except Fault (Fp α) :=
  tanWith (tan_inner_polynomial fast) (QUARTER_PI : α) (INV_QUARTER_PI : α) x

namespace Trig

/-- The function `degToRad`: `value * DEG_TO_RAD`, the factor being positive and finite. -/
def degToRad {α : Type} [LinearOrderedField α] (value : Fp α) : Fp α :=
  match value with
  | Fp.finite v => Fp.finite (v * (DEG_TO_RAD : α))
  | Fp.posInf => Fp.posInf
  | Fp.negInf => Fp.negInf
  | Fp.nan => Fp.nan

/-- The function `Trig::cos<T, accuracy, true>`.  The guard compares with
`numeric_limits<T>::infinity()`.  On a non-finite argument that passes the guard,
`addRangeReduce` finds `|arg| <= maxRange` false and converts the non-finite product
`temp * invMaxRange` to `int`. -/
def cos {α : Type} [LinearOrderedField α] [FloorRing α] (accuracy : Fin 11) (x : Fp α) :
    Except Fault (Fp α) :=
  if x = Fp.posInf then .ok Fp.nan
  else
    match x with
    | Fp.finite v => Fp.finite <$> cosPoly accuracy v
    | _ => .error Fault.intConversion

/-- The function `Trig::sin<T, accuracy, true>`, modelled like `Trig.cos`. -/
def sin {α : Type} [LinearOrderedField α] [FloorRing α] (accuracy : Fin 11) (x : Fp α) :
    Except Fault (Fp α) :=
  if x = Fp.posInf then .ok Fp.nan
  else
    match x with
    | Fp.finite v => Fp.finite <$> sinPoly accuracy v
    | _ => .error Fault.intConversion

/-- The floating point overload of `cosDeg`. -/
def cosDeg {α : Type} [LinearOrderedField α] [FloorRing α] (accuracy : Fin 11)
    (degrees : Fp α) : Except Fault (Fp α) :=
  if degrees = Fp.posInf then .ok Fp.nan
  else cos accuracy (degToRad degrees)

/-- The floating point overload of `sinDeg`. -/
def sinDeg {α : Type} [LinearOrderedField α] [FloorRing α] (accuracy : Fin 11)
    (degrees : Fp α) : Except Fault (Fp α) :=
  if degrees = Fp.posInf then .ok Fp.nan
  else sin accuracy (degToRad degrees)

/-- The function `sinFast`, over the kernel currently installed in `sinPtrf` / `sinPtrd`. -/
def sinFast {α : Type} [LinearOrderedField α]
    (sinPtr : Fp α → Except Fault (Fp α)) (x : Fp α) : Except Fault (Fp α) :=
  if x = Fp.posInf then .ok Fp.nan
  else sinPtr x

/-- The function `cosFast`, over the kernel currently installed in `cosPtrf` / `cosPtrd`. -/
def cosFast {α : Type} [LinearOrderedField α]
    (cosPtr : Fp α → Except Fault (Fp α)) (x : Fp α) : Except Fault (Fp α) :=
  if x = Fp.posInf then .ok Fp.nan
  else cosPtr x

/-- The floating point overloads of `sinFastDeg`. -/
def sinFastDeg {α : Type} [LinearOrderedField α]
    (sinPtr : Fp α → Except Fault (Fp α)) (degrees : Fp α) : Except Fault (Fp α) :=
  sinFast sinPtr (degToRad degrees)

/-- The floating point overloads of `cosFastDeg`. -/
def cosFastDeg {α : Type} [LinearOrderedField α]
    (cosPtr : Fp α → Except Fault (Fp α)) (degrees : Fp α) : Except Fault (Fp α) :=
  cosFast cosPtr (degToRad degrees)

/-- The integral overload of `cos`: `cos<double,accuracy,polyApprox>(double(x))`. -/
def cosInt {α : Type} [LinearOrderedField α] [FloorRing α] (accuracy : Fin 11) (x : Int) :
    Except Fault (Fp α) :=
  cos accuracy (Fp.finite (x : α))

/-- The integral overload of `sin`: `sin<double,accuracy,polyApprox>(double(x))`. -/
def sinInt {α : Type} [LinearOrderedField α] [FloorRing α] (accuracy : Fin 11) (x : Int) :
    Except Fault (Fp α) :=
  sin accuracy (Fp.finite (x : α))

/-- The integral overload of `cosDeg`:
`cos<double,accuracy,polyApprox>(degToRad(double(degrees)))`. -/
def cosDegInt {α : Type} [LinearOrderedField α] [FloorRing α] (accuracy : Fin 11)
    (degrees : Int) : Except Fault (Fp α) :=
  cos accuracy (degToRad (Fp.finite (degrees : α)))

/-- The integral overload of `sinDeg`:
`sin<double,accuracy,polyApprox>(degToRad(double(degrees)))`. -/
def sinDegInt {α : Type} [LinearOrderedField α] [FloorRing α] (accuracy : Fin 11)
    (degrees : Int) : Except Fault (Fp α) :=
  sin accuracy (degToRad (Fp.finite (degrees : α)))

/-- The integral overload of `sinFast`: `sinFast(double(x))`. -/
def sinFastInt {α : Type} [LinearOrderedField α]
    (sinPtr : Fp α → Except Fault (Fp α)) (x : Int) : Except Fault (Fp α) :=
  sinFast sinPtr (Fp.finite (x : α))

/-- The integral overload of `cosFast`: `cosFast(double(x))`. -/
def cosFastInt {α : Type} [LinearOrderedField α]
    (cosPtr : Fp α → Except Fault (Fp α)) (x : Int) : Except Fault (Fp α) :=
  cosFast cosPtr (Fp.finite (x : α))

/-- The integral overload of `sinFastDeg`: `sinFastDeg(degToRad(double(degrees)))`. -/
def sinFastDegInt {α : Type} [LinearOrderedField α]
    (sinPtr : Fp α → Except Fault (Fp α)) (degrees : Int) : Except Fault (Fp α) :=
  sinFastDeg sinPtr (degToRad (Fp.finite (degrees : α)))

/-- The integral overload of `cosFastDeg`: `cosFastDeg(degToRad(double(degrees)))`. -/
def cosFastDegInt {α : Type} [LinearOrderedField α]
    (cosPtr : Fp α → Except Fault (Fp α)) (degrees : Int) : Except Fault (Fp α) :=
  cosFastDeg cosPtr (degToRad (Fp.finite (degrees : α)))

/-- The fallback kernels `&std::sin` and `&std::cos` of the dispatch slots, over the
function `f` they compute on finite values; a non-finite argument gives a NaN. -/
def stdKernel {α : Type} (f : α → α) (x : Fp α) : Except Fault (Fp α) :=
  match x with
  | Fp.finite v => .ok (Fp.finite (f v))
  | _ => .ok Fp.nan

end Trig

/-! ## tests/unit_tests/trigonometry/test_sin_cos.cpp -/

/-- The error bounds `expecterError` that `SinAccuracyTester` and `CosAccuracyTester` pass
to `accuracyTest` for the polynomial implementation, by accuracy level. -/
def errorBound (accuracy : Fin 11) : ℚ :=
  [0.1, 0.09, 0.009, 0.0009, 0.00009, 0.000009, 0.0000009, 0.00000009, 0.000000009,
    0.0000000009, 0.0000000009].getD accuracy.val 0

/-! ## Reference forms used by the statements -/

/-- The sign `quad >= 0 ? 1 : -1`. -/
def signOf (q : Int) : Int := if q ≥ 0 then 1 else -1

/-- The value `[S(r), C(r), -S(r), -C(r)][k]` of the sine selector in quadrant `k`. -/
def quadSin {α : Type} [LinearOrderedField α] (S C : α → α) (k : Int) (r : α) : α :=
  if k = 0 then S r else if k = 1 then C r else if k = 2 then -S r else -C r

/-- The value `[C(r), -S(r), -C(r), S(r)][k]` of the cosine selector in quadrant `k`. -/
def quadCos {α : Type} [LinearOrderedField α] (S C : α → α) (k : Int) (r : α) : α :=
  if k = 0 then C r else if k = 1 then -S r else if k = 2 then -C r else S r

/-- The value the table branch of `Trig::cos` takes in octant `k` at the remainder `r`:
the eight cases of the switch, with `quarterPi - r` on the odd octants. -/
def octCos {α : Type} [LinearOrderedField α] (cosT sinT : α → α) (quarterPi : α)
    (k : Int) (r : α) : α :=
  if k = 0 then cosT r
  else if k = 1 then sinT (quarterPi - r)
  else if k = 2 then -sinT r
  else if k = 3 then -cosT (quarterPi - r)
  else if k = 4 then -cosT r
  else if k = 5 then -sinT (quarterPi - r)
  else if k = 6 then sinT r
  else cosT (quarterPi - r)

/-! ## Series and polynomial bounds used by the accuracy statements -/

/-- Partial sums of the cosine series. -/
def cosSeries {α : Type} [Field α] (n : ℕ) (x : α) : α :=
  ∑ k ∈ Finset.range n, (-1) ^ k * x ^ (2 * k) / ((2 * k).factorial : α)

/-- Partial sums of the sine series. -/
def sinSeries {α : Type} [Field α] (n : ℕ) (x : α) : α :=
  ∑ k ∈ Finset.range n, (-1) ^ k * x ^ (2 * k + 1) / ((2 * k + 1).factorial : α)

/-- Evaluation of the polynomial with coefficients `cs`, lowest degree first, at `y`. -/
def polyEval {α : Type} [Field α] (cs : List ℚ) (y : α) : α :=
  cs.foldr (fun (c : ℚ) (acc : α) => (c : α) + y * acc) 0

/-- Coefficients of the difference of two polynomials. -/
def polyDiff : List ℚ → List ℚ → List ℚ
  | [], bs => bs.map (fun b => -b)
  | a :: as, [] => a :: as
  | a :: as, b :: bs => (a - b) :: polyDiff as bs

/-- The first ten coefficients of the sine series in `x * (x^2)^i`. -/
def sinTaylor : List ℚ :=
  [1, -1/6, 1/120, -1/5040, 1/362880, -1/39916800, 1/6227020800, -1/1307674368000,
    1/355687428096000, -1/121645100408832000]

/-- The first ten coefficients of the cosine series in `(x^2)^i`. -/
def cosTaylor : List ℚ :=
  [1, -1/2, 1/24, -1/720, 1/40320, -1/3628800, 1/479001600, -1/87178291200,
    1/20922789888000, -1/6402373705728000]

/-- A bound of the approximation error of the inner polynomials of index `p` on
`[-1.5708, 1.5708]`. -/
def polyErr (p : Nat) : ℚ :=
  [1, 0.02, 0.001, 0.00003, 0.0000006, 0.00000001, 0.0000000002, 0.000000000002].getD p 1

/-- The radius `1.5708 > π/2` on which the inner polynomials are compared with the series. -/
def evalRadius : ℚ := 1.5708

/-- Coefficient-wise bound of the distance between the sine polynomial of index `p` and
the sine on `[-evalRadius, evalRadius]`: the distance to the series polynomial plus the
series remainder. -/
def sinErrQ (p : Nat) : ℚ :=
  evalRadius * polyEval ((polyDiff (SIN_POLIES.getD p []) sinTaylor).map (fun c => |c|))
      (evalRadius ^ 2)
    + evalRadius ^ 21 / 51090942171709440000

/-- Coefficient-wise bound of the distance between the cosine polynomial of index `p` and
the cosine on `[-evalRadius, evalRadius]`. -/
def cosErrQ (p : Nat) : ℚ :=
  polyEval ((polyDiff (COS_POLIES.getD p []) cosTaylor).map (fun c => |c|)) (evalRadius ^ 2)
    + evalRadius ^ 20 / 2432902008176640000

/-! ## Further machine level helpers -/

/-- Smallest value of `int64_t`. -/
def INT64_MIN : Int := -9223372036854775808

/-- Largest value of `int64_t`. -/
def INT64_MAX : Int := 9223372036854775807

/-- The conversion `(int64_t)t`: undefined when the truncated value does not fit. -/
def toInt64 {α : Type} [LinearOrderedField α] [FloorRing α] (t : α) : Except Fault Int :=
  if INT64_MIN ≤ truncInt t ∧ truncInt t ≤ INT64_MAX then .ok (truncInt t)
  else .error Fault.intConversion

/-- Signed `int` addition: overflow is undefined behaviour. -/
def iadd (a b : Int) : Except Fault Int :=
  if INT_MIN ≤ a + b ∧ a + b ≤ INT_MAX then .ok (a + b) else .error Fault.intOverflow

/-- Conversion of an integer to `int`, modulo `2^32`. -/
def wrapInt (z : Int) : Int := (z + 2147483648) % 4294967296 - 2147483648

/-- Conversion of an integer to `std::size_t`, modulo `2^64`. -/
def toSizeT (z : Int) : Nat := (z % 18446744073709551616).toNat

/-- The macro `M_PI` of `<cmath>`. -/
def M_PI : ℚ := 3.14159265358979323846

/-- The value `numeric_limits<double>::epsilon()`. -/
def DBL_EPSILON : ℚ := 1 / 4503599627370496

/-- The value `numeric_limits<float>::epsilon()`. -/
def FLT_EPSILON : ℚ := 1 / 8388608

/-! ## trigonometry_const.hpp: nearest integer and arctangent constants -/

/-- The function `getNearestInt`, `epsilon` being `numeric_limits<T>::epsilon()`. -/
def getNearestInt {α : Type} [LinearOrderedField α] [FloorRing α] (epsilon : α) (x : α) :
    Except Fault Int :=
  let h : α := 1 / 2 - epsilon
  let sign : α := if x > 0 then 1 else -1
  toInt64 (x + sign * h)

/-- The coefficient array `ATAN_DEGREE_3`. -/
def ATAN_DEGREE_3 : List ℚ :=
  [2.455098112113773822784423828125e-2,
   0.97382764215581119060516357421875,
   -0.258666165173053741455078125,
   2.37673334777355194091796875e-2]

/-- The constant `ATAN_LINEAR_DEGREE_3_A`. -/
def ATAN_LINEAR_DEGREE_3_A : ℚ := 1.9725882448256015777587890625e-3

/-- The constant `ATAN_LINEAR_DEGREE_3_B`. -/
def ATAN_LINEAR_DEGREE_3_B : ℚ := 1.422767855226993560791015625

/-- The coefficient array `ATAN_DEGREE_8`. -/
def ATAN_DEGREE_8 : List ℚ :=
  [-7.31612509080248329951246e-3,
   1.143813058225298884273968,
   -0.44571262228579688891017,
   9.96300443419767534081188e-2,
   -1.327626395338410425495113e-2,
   1.067967536814928841693018e-3,
   -5.070853471655922817262763e-5,
   1.305791235250985948823654e-6,
   -1.404127114579267754379543e-8]

/-- The constant `ATAN_LINEAR_DEGREE_8_A`. -/
def ATAN_LINEAR_DEGREE_8_A : ℚ := 4.99484112940984381623366e-4

/-- The constant `ATAN_LINEAR_DEGREE_8_B`. -/
def ATAN_LINEAR_DEGREE_8_B : ℚ := 1.518475007238157314937155

/-- The constant `ATAN_APPROX_SWITCH_DEGREE_3`. -/
def ATAN_APPROX_SWITCH_DEGREE_3 : Nat := 5

/-- The constant `ATAN_APPROX_SWITCH_DEGREE_8`. -/
def ATAN_APPROX_SWITCH_DEGREE_8 : Nat := 20

/-! ## trigonometry.hpp: arccosine, arcsine and arctangent -/

/-- The function `Trig::acos` on a finite argument; the `assert` on the argument range is
a fault. -/
def acos {α : Type} [LinearOrderedField α] (x : α) : Except Fault α :=
  if x ≥ -1 ∧ x ≤ 1 then
    let c1 : α := ((-0.939115566365855 : ℚ) : α)
    let c2 : α := ((0.9217841528914573 : ℚ) : α)
    let c3 : α := ((-1.2845906244690837 : ℚ) : α)
    let c4 : α := ((0.295624144969963174 : ℚ) : α)
    let x2 := x * x
    let x3 := x * x * x
    let x4 := x * x * x * x
    match fdiv (c1 * x + c2 * x3) (1 + c3 * x2 + c4 * x4) with
    | .error e => .error e
    | .ok q => .ok ((HALF_PI : α) + q)
  else .error Fault.assertion

/-- The function `Trig::asin`: `HALF_PI - acos<T>(x)`. -/
def asin {α : Type} [LinearOrderedField α] (x : α) : Except Fault α :=
  match acos x with
  | .error e => .error e
  | .ok a => .ok ((HALF_PI : α) - a)

/-- The function `Trig::atan<T, fast>` on a finite argument. -/
def atan {α : Type} [LinearOrderedField α] (fast : Bool) (x : α) : α :=
  if x = 0 then x
  else
    let sign : Int := if x ≥ 0 then 1 else -1
    let x := x * (sign : α)
    if fast then
      if x > (ATAN_APPROX_SWITCH_DEGREE_3 : α) then
        (sign : α) * min (HALF_PI : α)
          ((ATAN_LINEAR_DEGREE_3_A : α) * x + (ATAN_LINEAR_DEGREE_3_B : α))
      else
        (sign : α) * hornerLoop ATAN_DEGREE_3 x
    else
      if x > (ATAN_APPROX_SWITCH_DEGREE_8 : α) then
        (sign : α) * min (HALF_PI : α)
          ((ATAN_LINEAR_DEGREE_8_A : α) * x + (ATAN_LINEAR_DEGREE_8_B : α))
      else
        (sign : α) * hornerLoop ATAN_DEGREE_8 x

/-! ## lut_generator.hpp and trigonometry.hpp: lookup tables -/

/-- The constant `SIN_COS_FOLDING_RATIO`. -/
def SIN_COS_FOLDING_RATIO : Int := 8

/-- The function `constLUTSizeFromAcc`:
`int(M_PI / Trig::acos(1 - relError) / ratio) + 1`. -/
def constLUTSizeFromAcc {α : Type} [LinearOrderedField α] [FloorRing α]
    (relError : α) (ratio : Int) : Except Fault Int := do
  let a ← acos (1 - relError)
  let q ← fdiv (M_PI : α) a
  let r ← fdiv q (ratio : α)
  let n ← toInt r
  iadd n 1

/-- The table `SC_LUT_ACC_MAP`: accuracy level to the relative error of the table size. -/
def SC_LUT_ACC_MAP : List ℚ :=
  [0.1, 0.01, 0.001, 0.00001, 0.00001, 0.00001, 0.00001, 0.00001, 0.00001, 0.00001, 0.00001]

/-- The static members `size`, `startValue`, `endValue` and `step` of `LUTInfo`. -/
structure LUTInfo (α : Type) where
  size : Nat
  startValue : α
  endValue : α
  step : α

/-- The values of the members of `LUTInfo<T, Func, foldingRatio, acc>`. -/
def lutInfo {α : Type} [LinearOrderedField α] [FloorRing α] (foldingRatio : Int)
    (acc : Fin 11) : Except Fault (LUTInfo α) := do
  let n ← constLUTSizeFromAcc (((SC_LUT_ACC_MAP.getD acc.val 0 : ℚ)) : α) foldingRatio
  let size := toSizeT n
  let endValue ← fdiv (2 * (M_PI : α)) (((toSizeT foldingRatio : Nat) : α))
  let step ← fdiv endValue (size : α)
  return { size := size, startValue := 0, endValue := endValue, step := step }

/-- The loop of `generateLUT`: the entries `data[i]`, ..., for `n` remaining indices, from
the current argument and the value of the previous entry. -/
def generateLUTLoop {α : Type} [LinearOrderedField α]
    (f : α → α → Except Fault (α × α)) (step : α) :
    Nat → α → α → Except Fault (List (α × α))
  | 0, _, _ => .ok []
  | n + 1, currentArg, prev =>
    match f currentArg prev with
    | .error e => .error e
    | .ok entry =>
      match generateLUTLoop f step n (currentArg + step) entry.1 with
      | .error e => .error e
      | .ok rest => .ok (entry :: rest)

/-- The function `generateLUT`: `data[0] = f(startValue, 0)`, then
`data[i] = f(currentArg, get<0>(data[i-1]))` with `currentArg` advanced by `step`. -/
def generateLUT {α : Type} [LinearOrderedField α]
    (f : α → α → Except Fault (α × α)) (info : LUTInfo α) :
    Except Fault (List (α × α)) :=
  if info.size = 0 then .error Fault.outOfBounds
  else
    match f info.startValue 0 with
    | .error e => .error e
    | .ok first =>
      match generateLUTLoop f info.step (info.size - 1) (info.startValue + info.step)
          first.1 with
      | .error e => .error e
      | .ok rest => .ok (first :: rest)

/-- The initializer `getLUT`: the generator applied to the entry function
`(arg, prevValue) -> (Func(arg), Func(arg) - prevValue)`. -/
def getLUT {α : Type} [LinearOrderedField α]
    (Func : α → Except Fault α) (info : LUTInfo α) : Except Fault (List (α × α)) :=
  generateLUT (fun arg prevValue =>
    match Func arg with
    | .error e => .error e
    | .ok value => .ok (value, value - prevValue)) info

/-- Element access `table[i]`: outside the array it is a fault. -/
def tableAt {α : Type} (table : List (α × α)) (i : Int) : Except Fault (α × α) :=
  if 0 ≤ i then
    match table.get? i.toNat with
    | some e => .ok e
    | none => .error Fault.outOfBounds
  else .error Fault.outOfBounds

/-- The function `generic_inner_table` over the members of its `TableInfo` and the table,
`epsilon` being `numeric_limits<T>::epsilon()`. -/
def generic_inner_table {α : Type} [LinearOrderedField α] [FloorRing α] (epsilon : α)
    (info : LUTInfo α) (table : List (α × α)) (x : α) : Except Fault α := do
  let x := x / info.endValue * (info.size : α)
  let nearest ← getNearestInt epsilon x
  let index : Int :=
    if nearest % 18446744073709551616 = (info.size : Int) then nearest - 1 else nearest
  let diff : α := x - (index : α)
  let gradIndex : Int := wrapInt (if diff < 0 ∧ index > 0 then index - 1 else index)
  let entry ← tableAt table index
  let grad ← tableAt table gradIndex
  return entry.1 + diff * grad.2

/-- The accuracy `sinCosAcc<double>` that `Trig::sin` and `Trig::cos` take when they are
used as the `Func` of a table. -/
def sinCosAccDouble : Fin 11 := 7

/-- The accuracy `sinCosAcc<float>`. -/
def sinCosAccFloat : Fin 11 := 5

/-- The lookup `generic_inner_table<T, LUTInfo<double, Func, SIN_COS_FOLDING_RATIO, accuracy>>`
of the table branch. -/
def lutLookup {α : Type} [LinearOrderedField α] [FloorRing α] (epsilon : α)
    (Func : α → Except Fault α) (accuracy : Fin 11) (x : α) : Except Fault α := do
  let info ← lutInfo SIN_COS_FOLDING_RATIO accuracy
  let table ← getLUT Func info
  generic_inner_table epsilon info table x

/-- The table branch of `Trig::cos` after the infinity guard, over fallible lookups
`cosT`, `sinT`. -/
def cosTableOver {α : Type} [LinearOrderedField α] [FloorRing α]
    (cosT sinT : α → Except Fault α) (quarterPi invQuarterPi : α) (x : α) :
    Except Fault α := do
  let (res, x) ← addRangeReduce x quarterPi invQuarterPi
  let sign : Int := if x ≥ 0 then 1 else -1
  let x := x * (sign : α)
  if res.noReduciton then
    let v ← cosT x
    return v
  let quad ← iabs res.quad
  let k := Int.land quad PiPi3by4_2Pi
  if k = 0 then
    let v ← cosT x
    return v
  else if k = 1 then
    let v ← sinT (quarterPi - x)
    return v
  else if k = 2 then
    let v ← sinT x
    return -v
  else if k = 3 then
    let v ← cosT (quarterPi - x)
    return -v
  else if k = 4 then
    let v ← cosT x
    return -v
  else if k = 5 then
    let v ← sinT (quarterPi - x)
    return -v
  else if k = 6 then
    let v ← sinT x
    return v
  else if k = 7 then
    let v ← cosT (quarterPi - x)
    return v
  else return x

/-- The function `Trig::cos<T, accuracy, false>` on a finite argument. -/
def cosTable {α : Type} [LinearOrderedField α] [FloorRing α] (epsilon : α)
    (accuracy : Fin 11) (x : α) : Except Fault α :=
  cosTableOver (lutLookup epsilon (cosPoly sinCosAccDouble) accuracy)
    (lutLookup epsilon (sinPoly sinCosAccDouble) accuracy)
    (QUARTER_PI : α) (INV_QUARTER_PI : α) x

/-- The function `Trig::sin<T, accuracy, false>` on a finite argument:
`cos<T,accuracy,polyApprox>(HALF_PI - x)`. -/
def sinTable {α : Type} [LinearOrderedField α] [FloorRing α] (epsilon : α)
    (accuracy : Fin 11) (x : α) : Except Fault α :=
  cosTable epsilon accuracy ((HALF_PI : α) - x)

/-! ## Reference forms used in the statements about the tables -/

/-- The tail of `generic_inner_table` once the index is fixed: the entry at `index` plus
`diff` times the stored difference at `gradIndex`, `s` being the scaled argument. -/
def tableInterpolate {α : Type} [LinearOrderedField α] (table : List (α × α)) (s : α)
    (index : Int) : Except Fault α := do
  let diff : α := s - (index : α)
  let gradIndex : Int := wrapInt (if diff < 0 ∧ index > 0 then index - 1 else index)
  let entry ← tableAt table index
  let grad ← tableAt table gradIndex
  return entry.1 + diff * grad.2

/-! ## Re-expansion of a polynomial around a centre -/

/-- Coefficients of the sum of two polynomials. -/
def polyAdd : List ℚ → List ℚ → List ℚ
  | [], bs => bs
  | a :: as, [] => a :: as
  | a :: as, b :: bs => (a + b) :: polyAdd as bs

/-- Coefficients of the polynomial `cs` re-expanded around `m`: the polynomial in `t` with
the values of `cs` at `m + t`. -/
def polyShift : List ℚ → ℚ → List ℚ
  | [], _ => []
  | c :: cs, m =>
    polyAdd [c] (polyAdd ((polyShift cs m).map (fun d => m * d)) (0 :: polyShift cs m))

/-! ## trigonometry.hpp: the selectors compiled with assertions

Each of `Trig::sin`, `Trig::cos` and `Trig::tan` ends in
`assert(false && "invalid range"); return x;` after its `switch`.  The selectors above are
the functions without the assertion (`NDEBUG`); the ones below are the same functions with
the assertion compiled in: falling out of the `switch` is the fault `Fault.assertion`. -/

/-- The polynomial branch of `Trig::cos` with the trailing assertion compiled in. -/
def cosPolyWithAssert {α : Type} [LinearOrderedField α] [FloorRing α]
    (S C : α → α) (halfPi invHalfPi : α) (x : α) : Except Fault α := do
  let (res, x) ← addRangeReduce x halfPi invHalfPi
  if res.noReduciton then
    return C x
  let sign : Int := if res.quad ≥ 0 then 1 else -1
  let x := x * (sign : α)
  let m ← imul res.quad sign
  let k := Int.land m Pi3by2_2Pi
  if k = 0 then return C x
  else if k = 1 then return -S x
  else if k = 2 then return -C x
  else if k = 3 then return S x
  else Except.error Fault.assertion

/-- The polynomial branch of `Trig::sin` with the trailing assertion compiled in. -/
def sinPolyWithAssert {α : Type} [LinearOrderedField α] [FloorRing α]
    (S C : α → α) (halfPi invHalfPi : α) (x : α) : Except Fault α := do
  let (res, x) ← addRangeReduce x halfPi invHalfPi
  if res.noReduciton then
    return S x
  let sign : Int := if res.quad ≥ 0 then 1 else -1
  let x := x * (sign : α)
  let m ← imul res.quad sign
  let k := Int.land m Pi3by2_2Pi
  if k = 0 then return (sign : α) * S x
  else if k = 1 then return (sign : α) * C x
  else if k = 2 then return ((-sign : Int) : α) * S x
  else if k = 3 then return ((-sign : Int) : α) * C x
  else Except.error Fault.assertion

/-- The table branch of `Trig::cos` with the trailing assertion compiled in. -/
def cosTableOverAssert {α : Type} [LinearOrderedField α] [FloorRing α]
    (cosT sinT : α → Except Fault α) (quarterPi invQuarterPi : α) (x : α) :
    Except Fault α := do
  let (res, x) ← addRangeReduce x quarterPi invQuarterPi
  let sign : Int := if x ≥ 0 then 1 else -1
  let x := x * (sign : α)
  if res.noReduciton then
    let v ← cosT x
    return v
  let quad ← iabs res.quad
  let k := Int.land quad PiPi3by4_2Pi
  if k = 0 then
    let v ← cosT x
    return v
  else if k = 1 then
    let v ← sinT (quarterPi - x)
    return v
  else if k = 2 then
    let v ← sinT x
    return -v
  else if k = 3 then
    let v ← cosT (quarterPi - x)
    return -v
  else if k = 4 then
    let v ← cosT x
    return -v
  else if k = 5 then
    let v ← sinT (quarterPi - x)
    return -v
  else if k = 6 then
    let v ← sinT x
    return v
  else if k = 7 then
    let v ← cosT (quarterPi - x)
    return v
  else Except.error Fault.assertion

/-- The function `Trig::tan` with the trailing assertion compiled in. -/
def tanWithAssert {α : Type} [LinearOrderedField α] [FloorRing α]
    (T : α → Except Fault α) (quarterPi invQuarterPi : α) (x : α) :
    Except Fault (Fp α) := do
  let sign : Int := if x ≥ 0 then 1 else -1
  let (res, x) ← addRangeReduce x quarterPi invQuarterPi
  let x := x * (sign : α)
  if x = 0 ∧ (res.quad = 2 * sign ∨ res.quad = 6 * sign) then
    return Fp.posInf
  let m ← imul res.quad sign
  let k := Int.land m PiPi3by4_2Pi
  if k = 0 then
    let t ← T x
    return Fp.finite ((sign : α) * t)
  else if k = 1 then
    let t ← T (quarterPi - x)
    let r ← fdiv (sign : α) t
    return Fp.finite r
  else if k = 2 then
    let t ← T x
    let r ← fdiv ((-sign : Int) : α) t
    return Fp.finite r
  else if k = 3 then
    let t ← T (quarterPi - x)
    return Fp.finite (((-sign : Int) : α) * t)
  else if k = 4 then
    let t ← T x
    return Fp.finite ((sign : α) * t)
  else if k = 5 then
    let t ← T (quarterPi - x)
    let r ← fdiv (sign : α) t
    return Fp.finite r
  else if k = 6 then
    let t ← T x
    let r ← fdiv ((-sign : Int) : α) t
    return Fp.finite r
  else if k = 7 then
    let t ← T (quarterPi - x)
    return Fp.finite (((-sign : Int) : α) * t)
  else Except.error Fault.assertion

/-- The value `Trig::tan` takes in octant `k` at the remainder `r` of a non-negative
argument: the eight cases of the switch without the factor `sign`, over a total inner
tangent `T`. -/
def octTan {α : Type} [LinearOrderedField α] (T : α → α) (quarterPi : α) (k : Int) (r : α) : α :=
  if k = 0 then T r
  else if k = 1 then 1 / T (quarterPi - r)
  else if k = 2 then -1 / T r
  else if k = 3 then -T (quarterPi - r)
  else if k = 4 then T r
  else if k = 5 then 1 / T (quarterPi - r)
  else if k = 6 then -1 / T r
  else -T (quarterPi - r)


/-! ## optimizer.hpp: CPU features and dispatch slots

The enumerators of the feature `enum`, the feature word, the CPU as the answers of `cpuid`
and `xgetbv`, and the dispatch slots as the kernel each function pointer holds. -/

/-- The enumerator `CPU_X86_MMX`. -/
def CPU_X86_MMX : Nat := 0

/-- The enumerator `CPU_X86_x64`. -/
def CPU_X86_x64 : Nat := 1

/-- The enumerator `CPU_X86_ABM`. -/
def CPU_X86_ABM : Nat := 2

/-- The enumerator `CPU_X86_RDRAND`. -/
def CPU_X86_RDRAND : Nat := 3

/-- The enumerator `CPU_X86_RDSEED`. -/
def CPU_X86_RDSEED : Nat := 4

/-- The enumerator `CPU_X86_BMI1`. -/
def CPU_X86_BMI1 : Nat := 5

/-- The enumerator `CPU_X86_BMI2`. -/
def CPU_X86_BMI2 : Nat := 6

/-- The enumerator `CPU_X86_ADX`. -/
def CPU_X86_ADX : Nat := 7

/-- The enumerator `CPU_X86_MPX`. -/
def CPU_X86_MPX : Nat := 8

/-- The enumerator `CPU_X86_PREFETCHW`. -/
def CPU_X86_PREFETCHW : Nat := 9

/-- The enumerator `CPU_X86_PREFETCHWT1`. -/
def CPU_X86_PREFETCHWT1 : Nat := 10

/-- The enumerator `CPU_X86_RDPID`. -/
def CPU_X86_RDPID : Nat := 11

/-- The enumerator `CPU_X86_SSE`. -/
def CPU_X86_SSE : Nat := 12

/-- The enumerator `CPU_X86_SSE2`. -/
def CPU_X86_SSE2 : Nat := 13

/-- The enumerator `CPU_X86_SSE3`. -/
def CPU_X86_SSE3 : Nat := 14

/-- The enumerator `CPU_X86_SSSE3`. -/
def CPU_X86_SSSE3 : Nat := 15

/-- The enumerator `CPU_X86_SSE41`. -/
def CPU_X86_SSE41 : Nat := 16

/-- The enumerator `CPU_X86_SSE42`. -/
def CPU_X86_SSE42 : Nat := 17

/-- The enumerator `CPU_X86_SSE4a`. -/
def CPU_X86_SSE4a : Nat := 18

/-- The enumerator `CPU_X86_AES`. -/
def CPU_X86_AES : Nat := 19

/-- The enumerator `CPU_X86_SHA`. -/
def CPU_X86_SHA : Nat := 20

/-- The enumerator `CPU_X86_AVX`. -/
def CPU_X86_AVX : Nat := 21

/-- The enumerator `CPU_X86_XOP`. -/
def CPU_X86_XOP : Nat := 22

/-- The enumerator `CPU_X86_FMA3`. -/
def CPU_X86_FMA3 : Nat := 23

/-- The enumerator `CPU_X86_FMA4`. -/
def CPU_X86_FMA4 : Nat := 24

/-- The enumerator `CPU_X86_AVX2`. -/
def CPU_X86_AVX2 : Nat := 25

/-- The enumerator `CPU_X86_AVX512_F`. -/
def CPU_X86_AVX512_F : Nat := 26

/-- The enumerator `CPU_X86_AVX512_CD`. -/
def CPU_X86_AVX512_CD : Nat := 27

/-- The enumerator `CPU_X86_AVX512_PF`. -/
def CPU_X86_AVX512_PF : Nat := 28

/-- The enumerator `CPU_X86_AVX512_ER`. -/
def CPU_X86_AVX512_ER : Nat := 29

/-- The enumerator `CPU_X86_AVX512_VL`. -/
def CPU_X86_AVX512_VL : Nat := 30

/-- The enumerator `CPU_X86_AVX512_BW`. -/
def CPU_X86_AVX512_BW : Nat := 31

/-- The enumerator `CPU_X86_AVX512_DQ`. -/
def CPU_X86_AVX512_DQ : Nat := 32

/-- The enumerator `CPU_X86_AVX512_IFMA`. -/
def CPU_X86_AVX512_IFMA : Nat := 33

/-- The enumerator `CPU_X86_AVX512_VBMI`. -/
def CPU_X86_AVX512_VBMI : Nat := 34

/-- The enumerator `CPU_X86_AVX512_VPOPCNTDQ`. -/
def CPU_X86_AVX512_VPOPCNTDQ : Nat := 35

/-- The enumerator `CPU_X86_AVX512_4FMAPS`. -/
def CPU_X86_AVX512_4FMAPS : Nat := 36

/-- The enumerator `CPU_X86_AVX512_4VNNIW`. -/
def CPU_X86_AVX512_4VNNIW : Nat := 37

/-- The enumerator `CPU_X86_AVX512_VNNI`. -/
def CPU_X86_AVX512_VNNI : Nat := 38

/-- The enumerator `CPU_X86_AVX512_BF16`. -/
def CPU_X86_AVX512_BF16 : Nat := 39

/-- The enumerator `CPU_X86_AVX512_VBMI2`. -/
def CPU_X86_AVX512_VBMI2 : Nat := 40

/-- The enumerator `CPU_X86_GFNI`. -/
def CPU_X86_GFNI : Nat := 41

/-- The enumerator `CPU_X86_VAES`. -/
def CPU_X86_VAES : Nat := 42

/-- The enumerator `CPU_X86_AVX512_VPCLMUL`. -/
def CPU_X86_AVX512_VPCLMUL : Nat := 43

/-- The enumerator `CPU_X86_AVX512_BITALG`. -/
def CPU_X86_AVX512_BITALG : Nat := 44

/-- The enumerator `NUM_X86_FEATURES`. -/
def NUM_X86_FEATURES : Nat := 45

/-- The processor as seen by `init`: `cpuid leaf subleaf i` is `out[i]` after
`cpuid(out, leaf, subleaf)`, read as an unsigned 32 bit pattern, and `xgetbv index` the value
of `xgetbv(index)`. -/
structure Cpu where
  cpuid : Nat → Nat → Nat → Nat
  xgetbv : Nat → Nat

/-- The test `(info & ((int)1 << i)) != 0` of bit `i` of a register. -/
def infoBit (info : Nat) (i : Nat) : Bool := Nat.testBit info i

/-- The constant `_XCR_XFEATURE_ENABLED_MASK`. -/
def XCR_XFEATURE_ENABLED_MASK : Nat := 0

/-- The function `detect_OS_x64` of the Linux branch. -/
def detect_OS_x64 : Bool := true

/-- The function `detect_OS_AVX`. -/
def detect_OS_AVX (cpu : Cpu) : Bool :=
  let osUsesXSAVE_XRSTORE := infoBit (cpu.cpuid 1 0 2) 27
  let cpuAVXSuport := infoBit (cpu.cpuid 1 0 2) 28
  if osUsesXSAVE_XRSTORE && cpuAVXSuport then
    let xcrFeatureMask := cpu.xgetbv XCR_XFEATURE_ENABLED_MASK
    xcrFeatureMask &&& 6 == 6
  else false

/-- The function `detect_OS_AVX512`. -/
def detect_OS_AVX512 (cpu : Cpu) : Bool :=
  if !detect_OS_AVX cpu then false
  else
    let xcrFeatureMask := cpu.xgetbv XCR_XFEATURE_ENABLED_MASK
    xcrFeatureMask &&& 230 == 230

/-- The statement `if (c) features |= 1ull << f;`. -/
def setFeature (c : Bool) (f : Nat) (features : Nat) : Nat :=
  if c then features ||| (2 ^ f % 18446744073709551616) else features

/-- The block `if (nIds >= 0x00000001)` of `init`. -/
def detectLeaf1 (cpu : Cpu) (OS_AVX : Bool) (features : Nat) : Nat :=
  let features := setFeature (infoBit (cpu.cpuid 1 0 3) 23) CPU_X86_MMX features
  let features := setFeature (infoBit (cpu.cpuid 1 0 3) 25) CPU_X86_SSE features
  let features := setFeature (infoBit (cpu.cpuid 1 0 3) 26) CPU_X86_SSE2 features
  let features := setFeature (infoBit (cpu.cpuid 1 0 2) 0) CPU_X86_SSE3 features
  let features := setFeature (infoBit (cpu.cpuid 1 0 2) 9) CPU_X86_SSSE3 features
  let features := setFeature (infoBit (cpu.cpuid 1 0 2) 19) CPU_X86_SSE41 features
  let features := setFeature (infoBit (cpu.cpuid 1 0 2) 20) CPU_X86_SSE42 features
  let features := setFeature (infoBit (cpu.cpuid 1 0 2) 25) CPU_X86_AES features
  let features := setFeature (infoBit (cpu.cpuid 1 0 2) 28 && OS_AVX) CPU_X86_AVX features
  let features := setFeature (infoBit (cpu.cpuid 1 0 2) 12) CPU_X86_FMA3 features
  let features := setFeature (infoBit (cpu.cpuid 1 0 2) 30) CPU_X86_RDRAND features
  features

/-- The block `if (nIds >= 0x00000007)` of `init`, with both `cpuid` calls. -/
def detectLeaf7 (cpu : Cpu) (OS_AVX OS_AVX512 : Bool) (features : Nat) : Nat :=
  let features := setFeature (infoBit (cpu.cpuid 7 0 1) 5 && OS_AVX) CPU_X86_AVX2 features
  let features := setFeature (infoBit (cpu.cpuid 7 0 1) 3) CPU_X86_BMI1 features
  let features := setFeature (infoBit (cpu.cpuid 7 0 1) 8) CPU_X86_BMI2 features
  let features := setFeature (infoBit (cpu.cpuid 7 0 1) 19) CPU_X86_ADX features
  let features := setFeature (infoBit (cpu.cpuid 7 0 1) 14) CPU_X86_MPX features
  let features := setFeature (infoBit (cpu.cpuid 7 0 1) 29) CPU_X86_SHA features
  let features := setFeature (infoBit (cpu.cpuid 7 0 1) 18) CPU_X86_RDSEED features
  let features := setFeature (infoBit (cpu.cpuid 7 0 2) 0) CPU_X86_PREFETCHWT1 features
  let features := setFeature (infoBit (cpu.cpuid 7 0 2) 22) CPU_X86_RDPID features
  let features := setFeature (infoBit (cpu.cpuid 7 0 1) 16 && OS_AVX512) CPU_X86_AVX512_F features
  let features := setFeature (infoBit (cpu.cpuid 7 0 1) 28 && OS_AVX512) CPU_X86_AVX512_CD features
  let features := setFeature (infoBit (cpu.cpuid 7 0 1) 26 && OS_AVX512) CPU_X86_AVX512_PF features
  let features := setFeature (infoBit (cpu.cpuid 7 0 1) 27 && OS_AVX512) CPU_X86_AVX512_ER features
  let features := setFeature (infoBit (cpu.cpuid 7 0 1) 31 && OS_AVX512) CPU_X86_AVX512_VL features
  let features := setFeature (infoBit (cpu.cpuid 7 0 1) 30 && OS_AVX512) CPU_X86_AVX512_BW features
  let features := setFeature (infoBit (cpu.cpuid 7 0 1) 17 && OS_AVX512) CPU_X86_AVX512_DQ features
  let features := setFeature (infoBit (cpu.cpuid 7 0 1) 21 && OS_AVX512) CPU_X86_AVX512_IFMA features
  let features := setFeature (infoBit (cpu.cpuid 7 0 2) 1 && OS_AVX512) CPU_X86_AVX512_VBMI features
  let features := setFeature (infoBit (cpu.cpuid 7 0 2) 14 && OS_AVX512) CPU_X86_AVX512_VPOPCNTDQ features
  let features := setFeature (infoBit (cpu.cpuid 7 0 3) 2 && OS_AVX512) CPU_X86_AVX512_4FMAPS features
  let features := setFeature (infoBit (cpu.cpuid 7 0 3) 3 && OS_AVX512) CPU_X86_AVX512_4VNNIW features
  let features := setFeature (infoBit (cpu.cpuid 7 0 2) 11 && OS_AVX512) CPU_X86_AVX512_VNNI features
  let features := setFeature (infoBit (cpu.cpuid 7 0 2) 6 && OS_AVX512) CPU_X86_AVX512_VBMI2 features
  let features := setFeature (infoBit (cpu.cpuid 7 0 2) 8) CPU_X86_GFNI features
  let features := setFeature (infoBit (cpu.cpuid 7 0 2) 9) CPU_X86_VAES features
  let features := setFeature (infoBit (cpu.cpuid 7 0 2) 10 && OS_AVX512) CPU_X86_AVX512_VPCLMUL features
  let features := setFeature (infoBit (cpu.cpuid 7 0 2) 12 && OS_AVX512) CPU_X86_AVX512_BITALG features
  let features := setFeature (infoBit (cpu.cpuid 7 1 0) 5 && OS_AVX512) CPU_X86_AVX512_BF16 features
  features

/-- The block `if (nExIds >= 0x80000001)` of `init`. -/
def detectLeafExt (cpu : Cpu) (OS_x64 : Bool) (features : Nat) : Nat :=
  let features := setFeature (infoBit (cpu.cpuid 2147483649 0 3) 29 && OS_x64) CPU_X86_x64 features
  let features := setFeature (infoBit (cpu.cpuid 2147483649 0 2) 5) CPU_X86_ABM features
  let features := setFeature (infoBit (cpu.cpuid 2147483649 0 2) 6) CPU_X86_SSE4a features
  let features := setFeature (infoBit (cpu.cpuid 2147483649 0 2) 16) CPU_X86_FMA4 features
  let features := setFeature (infoBit (cpu.cpuid 2147483649 0 2) 11) CPU_X86_XOP features
  let features := setFeature (infoBit (cpu.cpuid 2147483649 0 2) 8) CPU_X86_PREFETCHW features
  features

/-- The feature detection of `init`: the value of `features` before the slots are
assigned. -/
def detectFeatures (cpu : Cpu) : Nat :=
  let features : Nat := 0
  let OS_x64 := detect_OS_x64
  let OS_AVX := detect_OS_AVX cpu
  let OS_AVX512 := detect_OS_AVX512 cpu
  let nIds : Int := wrapInt ((cpu.cpuid 0 0 0 : Nat) : Int)
  let nExIds : Nat := cpu.cpuid 2147483648 0 0 % 4294967296
  let features := if nIds ≥ 1 then detectLeaf1 cpu OS_AVX features else features
  let features := if nIds ≥ 7 then detectLeaf7 cpu OS_AVX OS_AVX512 features else features
  let features := if nExIds ≥ 2147483649 then detectLeafExt cpu OS_x64 features else features
  features

/-- The function `Optimizer::hasFeature`: `features & (1 << mask)` with `1 << mask` an
`int`.  A shift count outside `0..31` is undefined; `1 << 31` is `INT_MIN`, which the
conversion to `uint64_t` extends with ones. -/
def hasFeature (features : Nat) (mask : Int) : Except Fault Bool :=
  if 0 ≤ mask ∧ mask < 32 then
    .ok (features &&& toSizeT (wrapInt (2 ^ mask.toNat)) != 0)
  else .error Fault.shiftCount

/-- The functions a slot of the sine and cosine can point to: `std::sin` / `std::cos`, the
fallback `sinCosFallbackImplementation`, or the SSE implementation. -/
inductive TrigKernel where
  | stdLibrary
  | fallbackImplementation
  | sseImplementation
  deriving DecidableEq, Repr

/-- The functions a slot of the vector and matrix operations can point to. -/
inductive ArithKernel where
  | fallbackImplementation
  | intrinImplementation
  deriving DecidableEq, Repr

/-- The globals of `_OptimizerInternal`: the dispatch slots and the feature word. -/
structure Optimizer where
  sinCosPtrf : TrigKernel
  sinCosPtrd : TrigKernel
  sinPtrf : TrigKernel
  sinPtrd : TrigKernel
  cosPtrf : TrigKernel
  cosPtrd : TrigKernel
  subTwoVec4f : ArithKernel
  addTwoVec4f : ArithKernel
  mulTwoVec4f : ArithKernel
  divTwoVec4f : ArithKernel
  subVecSingle4f : ArithKernel
  addVecSingle4f : ArithKernel
  mulVecSingle4f : ArithKernel
  divVecSingle4f : ArithKernel
  subTwoVec4d : ArithKernel
  addTwoVec4d : ArithKernel
  mulTwoVec4d : ArithKernel
  divTwoVec4d : ArithKernel
  subVecSingle4d : ArithKernel
  addVecSingle4d : ArithKernel
  mulVecSingle4d : ArithKernel
  divVecSingle4d : ArithKernel
  subTwoMatrix4 : ArithKernel
  addTwoMatrix4 : ArithKernel
  mulTwoMatrix4 : ArithKernel
  divTwoMatrix4 : ArithKernel
  subMatrixSingle4 : ArithKernel
  addMatrixSingle4 : ArithKernel
  mulMatrixSingle4 : ArithKernel
  divMatrixSingle4 : ArithKernel
  features : Nat
  deriving DecidableEq

/-- The state at program start: every slot at its initialiser, `features` zero. -/
def Optimizer.start : Optimizer :=
  { sinCosPtrf := TrigKernel.fallbackImplementation,
    sinCosPtrd := TrigKernel.fallbackImplementation,
    sinPtrf := TrigKernel.stdLibrary,
    sinPtrd := TrigKernel.stdLibrary,
    cosPtrf := TrigKernel.stdLibrary,
    cosPtrd := TrigKernel.stdLibrary,
    subTwoVec4f := ArithKernel.fallbackImplementation,
    addTwoVec4f := ArithKernel.fallbackImplementation,
    mulTwoVec4f := ArithKernel.fallbackImplementation,
    divTwoVec4f := ArithKernel.fallbackImplementation,
    subVecSingle4f := ArithKernel.fallbackImplementation,
    addVecSingle4f := ArithKernel.fallbackImplementation,
    mulVecSingle4f := ArithKernel.fallbackImplementation,
    divVecSingle4f := ArithKernel.fallbackImplementation,
    subTwoVec4d := ArithKernel.fallbackImplementation,
    addTwoVec4d := ArithKernel.fallbackImplementation,
    mulTwoVec4d := ArithKernel.fallbackImplementation,
    divTwoVec4d := ArithKernel.fallbackImplementation,
    subVecSingle4d := ArithKernel.fallbackImplementation,
    addVecSingle4d := ArithKernel.fallbackImplementation,
    mulVecSingle4d := ArithKernel.fallbackImplementation,
    divVecSingle4d := ArithKernel.fallbackImplementation,
    subTwoMatrix4 := ArithKernel.fallbackImplementation,
    addTwoMatrix4 := ArithKernel.fallbackImplementation,
    mulTwoMatrix4 := ArithKernel.fallbackImplementation,
    divTwoMatrix4 := ArithKernel.fallbackImplementation,
    subMatrixSingle4 := ArithKernel.fallbackImplementation,
    addMatrixSingle4 := ArithKernel.fallbackImplementation,
    mulMatrixSingle4 := ArithKernel.fallbackImplementation,
    divMatrixSingle4 := ArithKernel.fallbackImplementation,
    features := 0 }

/-- The preprocessor symbols `__SSE2__`, `__FMA__`, `__AVX__` and `__AVX512F__` the slot
assignment of `init` depends on. -/
structure Build where
  sse2 : Bool
  fma : Bool
  avx : Bool
  avx512f : Bool
  deriving DecidableEq

/-- The assignments under `if (hasFeature(CPU_X86_FMA3))`. -/
def assignTrig (s : Optimizer) : Optimizer :=
  { s with
    sinPtrf := TrigKernel.sseImplementation,
    sinPtrd := TrigKernel.sseImplementation,
    cosPtrf := TrigKernel.sseImplementation,
    cosPtrd := TrigKernel.sseImplementation,
    sinCosPtrf := TrigKernel.sseImplementation,
    sinCosPtrd := TrigKernel.sseImplementation }

/-- The assignments of the `float` vector slots. -/
def assignVec4f (s : Optimizer) : Optimizer :=
  { s with
    addTwoVec4f := ArithKernel.intrinImplementation,
    addVecSingle4f := ArithKernel.intrinImplementation,
    subTwoVec4f := ArithKernel.intrinImplementation,
    subVecSingle4f := ArithKernel.intrinImplementation,
    mulTwoVec4f := ArithKernel.intrinImplementation,
    mulVecSingle4f := ArithKernel.intrinImplementation,
    divTwoVec4f := ArithKernel.intrinImplementation,
    divVecSingle4f := ArithKernel.intrinImplementation }

/-- The assignments of the `double` vector slots. -/
def assignVec4d (s : Optimizer) : Optimizer :=
  { s with
    addTwoVec4d := ArithKernel.intrinImplementation,
    addVecSingle4d := ArithKernel.intrinImplementation,
    subTwoVec4d := ArithKernel.intrinImplementation,
    subVecSingle4d := ArithKernel.intrinImplementation,
    mulTwoVec4d := ArithKernel.intrinImplementation,
    mulVecSingle4d := ArithKernel.intrinImplementation,
    divTwoVec4d := ArithKernel.intrinImplementation,
    divVecSingle4d := ArithKernel.intrinImplementation }

/-- The assignments of the `float` 4x4 matrix slots. -/
def assignMatrix4 (s : Optimizer) : Optimizer :=
  { s with
    subTwoMatrix4 := ArithKernel.intrinImplementation,
    subMatrixSingle4 := ArithKernel.intrinImplementation,
    addTwoMatrix4 := ArithKernel.intrinImplementation,
    addMatrixSingle4 := ArithKernel.intrinImplementation,
    mulTwoMatrix4 := ArithKernel.intrinImplementation,
    mulMatrixSingle4 := ArithKernel.intrinImplementation,
    divTwoMatrix4 := ArithKernel.intrinImplementation,
    divMatrixSingle4 := ArithKernel.intrinImplementation }

/-- The block under `#ifdef __FMA__`. -/
def assignFma (build : Build) (s : Optimizer) : Except Fault Optimizer :=
  if build.fma then
    match hasFeature s.features CPU_X86_FMA3 with
    | .error e => .error e
    | .ok h => if h then .ok (assignTrig s) else .ok s
  else .ok s

/-- The block under `#ifdef __SSE2__`, with the block of `__FMA__` nested in it. -/
def assignSse (build : Build) (s : Optimizer) : Except Fault Optimizer :=
  if build.sse2 then
    match hasFeature s.features CPU_X86_SSE with
    | .error e => .error e
    | .ok h =>
      if h then
        match assignFma build s with
        | .error e => .error e
        | .ok s => .ok (assignVec4f s)
      else .ok s
  else assignFma build s

/-- The block under `#if defined(__AVX__)`. -/
def assignAvx (build : Build) (s : Optimizer) : Except Fault Optimizer :=
  if build.avx then
    match hasFeature s.features CPU_X86_AVX with
    | .error e => .error e
    | .ok h => if h then .ok (assignVec4d s) else .ok s
  else .ok s

/-- The block under `#if defined(__AVX512F__)`. -/
def assignAvx512 (build : Build) (s : Optimizer) : Except Fault Optimizer :=
  if build.avx512f then
    match hasFeature s.features CPU_X86_AVX512_F with
    | .error e => .error e
    | .ok h => if h then .ok (assignMatrix4 s) else .ok s
  else .ok s

/-- The function `Optimizer::init` on the processor `cpu`, compiled under `build`, from
the state `s`. -/
def Optimizer.init (build : Build) (cpu : Cpu) (s : Optimizer) : Except Fault Optimizer := do
  let s := { s with features := detectFeatures cpu }
  let s ← assignSse build s
  let s ← assignAvx build s
  assignAvx512 build s

/-- The `float` vector slots. -/
def Optimizer.vec4f (s : Optimizer) : List ArithKernel :=
  [s.subTwoVec4f, s.addTwoVec4f, s.mulTwoVec4f, s.divTwoVec4f,
   s.subVecSingle4f, s.addVecSingle4f, s.mulVecSingle4f, s.divVecSingle4f]

/-- The `double` vector slots. -/
def Optimizer.vec4d (s : Optimizer) : List ArithKernel :=
  [s.subTwoVec4d, s.addTwoVec4d, s.mulTwoVec4d, s.divTwoVec4d,
   s.subVecSingle4d, s.addVecSingle4d, s.mulVecSingle4d, s.divVecSingle4d]

/-- The `float` 4x4 matrix slots. -/
def Optimizer.matrix4 (s : Optimizer) : List ArithKernel :=
  [s.subTwoMatrix4, s.addTwoMatrix4, s.mulTwoMatrix4, s.divTwoMatrix4,
   s.subMatrixSingle4, s.addMatrixSingle4, s.mulMatrixSingle4, s.divMatrixSingle4]

/-- The sine and cosine slots. -/
def Optimizer.trig (s : Optimizer) : List TrigKernel :=
  [s.sinCosPtrf, s.sinCosPtrd, s.sinPtrf, s.sinPtrd, s.cosPtrf, s.cosPtrd]

/-- The state with the feature word `F` in which the groups of slots for which the
condition holds are assigned their accelerated kernels. -/
def Optimizer.assigned (trig vec4f vec4d matrix4 : Bool) (F : Nat) (s : Optimizer) :
    Optimizer :=
  let s : Optimizer := { s with features := F }
  let s := if trig then assignTrig s else s
  let s := if vec4f then assignVec4f s else s
  let s := if vec4d then assignVec4d s else s
  if matrix4 then assignMatrix4 s else s

/-- A processor for which `init` detects AVX and AVX512_DQ only: `cpuid(0)` reports seven
leaves, leaf 1 reports OSXSAVE and AVX, `xgetbv` reports the full AVX-512 state and leaf 7
reports AVX512DQ. -/
def cpuOnlyDQ : Cpu where
  cpuid := fun leaf subleaf i =>
    if leaf = 0 ∧ i = 0 then 7
    else if leaf = 1 ∧ i = 2 then 402653184
    else if leaf = 7 ∧ subleaf = 0 ∧ i = 1 then 131072
    else 0
  xgetbv := fun _ => 230

/-! ## matrix_implementation.hpp: fallback and intrinsic kernels

A kernel receives references to objects; the objects live in a memory indexed by their
addresses, so that two references may or may not name the same object.  The aligned loads
and stores of the intrinsic kernels (`_mm_load_ps`, `_mm_store_ps` on 16 bytes,
`_mm256_load_pd`, `_mm256_store_pd` on 32, `_mm512_load_ps`, `_mm512_store_ps` on 64) fault
on an address that is not a multiple of their width.  The element type `α` carries the
arithmetic of the machine type. -/

/-- The objects of type `T[4]`, by address. -/
abbrev VecMem (α : Type) := Nat → Fin 4 → α

/-- The objects of type `float[4][4]`, by address. -/
abbrev MatMem (α : Type) := Nat → Fin 4 → Fin 4 → α

/-- The assignment `p[i] = v`. -/
def storeVec {α : Type} (mem : VecMem α) (p : Nat) (i : Fin 4) (v : α) : VecMem α :=
  Function.update mem p (Function.update (mem p) i v)

/-- The assignment `p[i][j] = v`. -/
def storeMat {α : Type} (mem : MatMem α) (p : Nat) (i j : Fin 4) (v : α) : MatMem α :=
  Function.update mem p (Function.update (mem p) i (Function.update (mem p i) j v))

/-- The body shared by the four `*VecFallbackImplementation`:
`result[0] = a[0] op b[0]; ...; result[3] = a[3] op b[3];`. -/
def vecFallback {α : Type} (op : α → α → α) (a b result : Nat) (mem : VecMem α) : VecMem α :=
  let mem := storeVec mem result 0 (op (mem a 0) (mem b 0))
  let mem := storeVec mem result 1 (op (mem a 1) (mem b 1))
  let mem := storeVec mem result 2 (op (mem a 2) (mem b 2))
  let mem := storeVec mem result 3 (op (mem a 3) (mem b 3))
  mem

/-- The body shared by the four `*VecSingleFallbackImplementation`:
`result[0] = a[0] op b; ...; result[3] = a[3] op b;`. -/
def vecSingleFallback {α : Type} (op : α → α → α) (a : Nat) (b : α) (result : Nat)
    (mem : VecMem α) : VecMem α :=
  let mem := storeVec mem result 0 (op (mem a 0) b)
  let mem := storeVec mem result 1 (op (mem a 1) b)
  let mem := storeVec mem result 2 (op (mem a 2) b)
  let mem := storeVec mem result 3 (op (mem a 3) b)
  mem

/-- The two floating point types of the intrinsic vector kernels. -/
inductive Precision where
  | float
  | double
  deriving DecidableEq, Repr

/-- The width of the vector load of each overload: `_mm_load_ps` reads 16 bytes,
`_mm256_load_pd` reads 32. -/
def vecAlignment : Precision → Nat
  | Precision.float => 16
  | Precision.double => 32

/-- An aligned vector load of the object at `p`. -/
def simdLoad {β : Type} (alignment : Nat) (mem : Nat → β) (p : Nat) : Except Fault β :=
  if p % alignment = 0 then .ok (mem p) else .error Fault.misaligned

/-- An aligned vector store of `v` into the object at `p`. -/
def simdStore {β : Type} (alignment : Nat) (mem : Nat → β) (p : Nat) (v : β) :
    Except Fault (Nat → β) :=
  if p % alignment = 0 then .ok (Function.update mem p v) else .error Fault.misaligned

/-- The body shared by the `*VecIntrinImplementation` of both overloads:
`store(result, op(load(a), load(b)))`. -/
def vecIntrin {α : Type} (op : α → α → α) (T : Precision) (a b result : Nat)
    (mem : VecMem α) : Except Fault (VecMem α) := do
  let x ← simdLoad (vecAlignment T) mem a
  let y ← simdLoad (vecAlignment T) mem b
  simdStore (vecAlignment T) mem result (fun i => op (x i) (y i))

/-- The body shared by the `*VecSingleIntrinImplementation` of both overloads:
`store(result, op(load(a), set1(b)))`. -/
def vecSingleIntrin {α : Type} (op : α → α → α) (T : Precision) (a : Nat) (b : α)
    (result : Nat) (mem : VecMem α) : Except Fault (VecMem α) := do
  let x ← simdLoad (vecAlignment T) mem a
  let y : Fin 4 → α := fun _ => b
  simdStore (vecAlignment T) mem result (fun i => op (x i) (y i))

/-- The body shared by the four `*MatrixFallbackImplementation`:
`for (int i = 4; i--;) for (int j = 4; j--; a[i][j] op= b[i][j]);`, which does not use
its parameter `result`. -/
def matrixFallback {α : Type} (op : α → α → α) (a b _result : Nat) (mem : MatMem α) :
    MatMem α :=
  ([3, 2, 1, 0] : List (Fin 4)).foldl
    (fun mem i =>
      ([3, 2, 1, 0] : List (Fin 4)).foldl
        (fun mem j => storeMat mem a i j (op (mem a i j) (mem b i j))) mem)
    mem

/-- The body shared by the four `*MatrixSingleFallbackImplementation`:
`for (int i = 4; i--;) for (int j = 4; j--; a[i][j] op= b);`, which does not use its
parameter `result`. -/
def matrixSingleFallback {α : Type} (op : α → α → α) (a : Nat) (b : α) (_result : Nat)
    (mem : MatMem α) : MatMem α :=
  ([3, 2, 1, 0] : List (Fin 4)).foldl
    (fun mem i =>
      ([3, 2, 1, 0] : List (Fin 4)).foldl
        (fun mem j => storeMat mem a i j (op (mem a i j) b)) mem)
    mem

/-- The body shared by the four `*MatrixIntrinImplementation`:
`_mm512_store_ps(result, op(_mm512_load_ps(a), _mm512_load_ps(b)))`. -/
def matrixIntrin {α : Type} (op : α → α → α) (a b result : Nat) (mem : MatMem α) :
    Except Fault (MatMem α) := do
  let x ← simdLoad 64 mem a
  let y ← simdLoad 64 mem b
  simdStore 64 mem result (fun i j => op (x i j) (y i j))

/-- The body shared by the four `*MatrixSingleIntrinImplementation`:
`_mm512_store_ps(result, op(_mm512_load_ps(a), _mm512_set1_ps(b)))`. -/
def matrixSingleIntrin {α : Type} (op : α → α → α) (a : Nat) (b : α) (result : Nat)
    (mem : MatMem α) : Except Fault (MatMem α) := do
  let x ← simdLoad 64 mem a
  let y : Fin 4 → Fin 4 → α := fun _ _ => b
  simdStore 64 mem result (fun i j => op (x i j) (y i j))

/-- The function `subVecFallbackImplementation`. -/
def subVecFallbackImplementation {α : Type} [Sub α] (a b result : Nat) (mem : VecMem α) :
    VecMem α :=
  vecFallback (fun x y => x - y) a b result mem

/-- The function `subVecSingleFallbackImplementation`. -/
def subVecSingleFallbackImplementation {α : Type} [Sub α] (a : Nat) (b : α)
    (result : Nat) (mem : VecMem α) : VecMem α :=
  vecSingleFallback (fun x y => x - y) a b result mem

/-- The two overloads of `subVecIntrinImplementation`. -/
def subVecIntrinImplementation {α : Type} [Sub α] (T : Precision) (a b result : Nat)
    (mem : VecMem α) : Except Fault (VecMem α) :=
  vecIntrin (fun x y => x - y) T a b result mem

/-- The two overloads of `subVecSingleIntrinImplementation`. -/
def subVecSingleIntrinImplementation {α : Type} [Sub α] (T : Precision) (a : Nat)
    (b : α) (result : Nat) (mem : VecMem α) : Except Fault (VecMem α) :=
  vecSingleIntrin (fun x y => x - y) T a b result mem

/-- The function `subMatrixFallbackImplementation`. -/
def subMatrixFallbackImplementation {α : Type} [Sub α] (a b result : Nat)
    (mem : MatMem α) : MatMem α :=
  matrixFallback (fun x y => x - y) a b result mem

/-- The function `subMatrixSingleFallbackImplementation`. -/
def subMatrixSingleFallbackImplementation {α : Type} [Sub α] (a : Nat) (b : α)
    (result : Nat) (mem : MatMem α) : MatMem α :=
  matrixSingleFallback (fun x y => x - y) a b result mem

/-- The function `subMatrixIntrinImplementation`. -/
def subMatrixIntrinImplementation {α : Type} [Sub α] (a b result : Nat)
    (mem : MatMem α) : Except Fault (MatMem α) :=
  matrixIntrin (fun x y => x - y) a b result mem

/-- The function `subMatrixSingleIntrinImplementation`. -/
def subMatrixSingleIntrinImplementation {α : Type} [Sub α] (a : Nat) (b : α)
    (result : Nat) (mem : MatMem α) : Except Fault (MatMem α) :=
  matrixSingleIntrin (fun x y => x - y) a b result mem

/-- The function `addVecFallbackImplementation`. -/
def addVecFallbackImplementation {α : Type} [Add α] (a b result : Nat) (mem : VecMem α) :
    VecMem α :=
  vecFallback (fun x y => x + y) a b result mem

/-- The function `addVecSingleFallbackImplementation`. -/
def addVecSingleFallbackImplementation {α : Type} [Add α] (a : Nat) (b : α)
    (result : Nat) (mem : VecMem α) : VecMem α :=
  vecSingleFallback (fun x y => x + y) a b result mem

/-- The two overloads of `addVecIntrinImplementation`. -/
def addVecIntrinImplementation {α : Type} [Add α] (T : Precision) (a b result : Nat)
    (mem : VecMem α) : Except Fault (VecMem α) :=
  vecIntrin (fun x y => x + y) T a b result mem

/-- The two overloads of `addVecSingleIntrinImplementation`. -/
def addVecSingleIntrinImplementation {α : Type} [Add α] (T : Precision) (a : Nat)
    (b : α) (result : Nat) (mem : VecMem α) : Except Fault (VecMem α) :=
  vecSingleIntrin (fun x y => x + y) T a b result mem

/-- The function `addMatrixFallbackImplementation`. -/
def addMatrixFallbackImplementation {α : Type} [Add α] (a b result : Nat)
    (mem : MatMem α) : MatMem α :=
  matrixFallback (fun x y => x + y) a b result mem

/-- The function `addMatrixSingleFallbackImplementation`. -/
def addMatrixSingleFallbackImplementation {α : Type} [Add α] (a : Nat) (b : α)
    (result : Nat) (mem : MatMem α) : MatMem α :=
  matrixSingleFallback (fun x y => x + y) a b result mem

/-- The function `addMatrixIntrinImplementation`. -/
def addMatrixIntrinImplementation {α : Type} [Add α] (a b result : Nat)
    (mem : MatMem α) : Except Fault (MatMem α) :=
  matrixIntrin (fun x y => x + y) a b result mem

/-- The function `addMatrixSingleIntrinImplementation`. -/
def addMatrixSingleIntrinImplementation {α : Type} [Add α] (a : Nat) (b : α)
    (result : Nat) (mem : MatMem α) : Except Fault (MatMem α) :=
  matrixSingleIntrin (fun x y => x + y) a b result mem

/-- The function `mulVecFallbackImplementation`. -/
def mulVecFallbackImplementation {α : Type} [Mul α] (a b result : Nat) (mem : VecMem α) :
    VecMem α :=
  vecFallback (fun x y => x * y) a b result mem

/-- The function `mulVecSingleFallbackImplementation`. -/
def mulVecSingleFallbackImplementation {α : Type} [Mul α] (a : Nat) (b : α)
    (result : Nat) (mem : VecMem α) : VecMem α :=
  vecSingleFallback (fun x y => x * y) a b result mem

/-- The two overloads of `mulVecIntrinImplementation`. -/
def mulVecIntrinImplementation {α : Type} [Mul α] (T : Precision) (a b result : Nat)
    (mem : VecMem α) : Except Fault (VecMem α) :=
  vecIntrin (fun x y => x * y) T a b result mem

/-- The two overloads of `mulVecSingleIntrinImplementation`. -/
def mulVecSingleIntrinImplementation {α : Type} [Mul α] (T : Precision) (a : Nat)
    (b : α) (result : Nat) (mem : VecMem α) : Except Fault (VecMem α) :=
  vecSingleIntrin (fun x y => x * y) T a b result mem

/-- The function `mulMatrixFallbackImplementation`. -/
def mulMatrixFallbackImplementation {α : Type} [Mul α] (a b result : Nat)
    (mem : MatMem α) : MatMem α :=
  matrixFallback (fun x y => x * y) a b result mem

/-- The function `mulMatrixSingleFallbackImplementation`. -/
def mulMatrixSingleFallbackImplementation {α : Type} [Mul α] (a : Nat) (b : α)
    (result : Nat) (mem : MatMem α) : MatMem α :=
  matrixSingleFallback (fun x y => x * y) a b result mem

/-- The function `mulMatrixIntrinImplementation`. -/
def mulMatrixIntrinImplementation {α : Type} [Mul α] (a b result : Nat)
    (mem : MatMem α) : Except Fault (MatMem α) :=
  matrixIntrin (fun x y => x * y) a b result mem

/-- The function `mulMatrixSingleIntrinImplementation`. -/
def mulMatrixSingleIntrinImplementation {α : Type} [Mul α] (a : Nat) (b : α)
    (result : Nat) (mem : MatMem α) : Except Fault (MatMem α) :=
  matrixSingleIntrin (fun x y => x * y) a b result mem

/-- The function `divVecFallbackImplementation`. -/
def divVecFallbackImplementation {α : Type} [Div α] (a b result : Nat) (mem : VecMem α) :
    VecMem α :=
  vecFallback (fun x y => x / y) a b result mem

/-- The function `divVecSingleFallbackImplementation`. -/
def divVecSingleFallbackImplementation {α : Type} [Div α] (a : Nat) (b : α)
    (result : Nat) (mem : VecMem α) : VecMem α :=
  vecSingleFallback (fun x y => x / y) a b result mem

/-- The two overloads of `divVecIntrinImplementation`. -/
def divVecIntrinImplementation {α : Type} [Div α] (T : Precision) (a b result : Nat)
    (mem : VecMem α) : Except Fault (VecMem α) :=
  vecIntrin (fun x y => x / y) T a b result mem

/-- The two overloads of `divVecSingleIntrinImplementation`. -/
def divVecSingleIntrinImplementation {α : Type} [Div α] (T : Precision) (a : Nat)
    (b : α) (result : Nat) (mem : VecMem α) : Except Fault (VecMem α) :=
  vecSingleIntrin (fun x y => x / y) T a b result mem

/-- The function `divMatrixFallbackImplementation`. -/
def divMatrixFallbackImplementation {α : Type} [Div α] (a b result : Nat)
    (mem : MatMem α) : MatMem α :=
  matrixFallback (fun x y => x / y) a b result mem

/-- The function `divMatrixSingleFallbackImplementation`. -/
def divMatrixSingleFallbackImplementation {α : Type} [Div α] (a : Nat) (b : α)
    (result : Nat) (mem : MatMem α) : MatMem α :=
  matrixSingleFallback (fun x y => x / y) a b result mem

/-- The function `divMatrixIntrinImplementation`. -/
def divMatrixIntrinImplementation {α : Type} [Div α] (a b result : Nat)
    (mem : MatMem α) : Except Fault (MatMem α) :=
  matrixIntrin (fun x y => x / y) a b result mem

/-- The function `divMatrixSingleIntrinImplementation`. -/
def divMatrixSingleIntrinImplementation {α : Type} [Div α] (a : Nat) (b : α)
    (result : Nat) (mem : MatMem α) : Except Fault (MatMem α) :=
  matrixSingleIntrin (fun x y => x / y) a b result mem

/-! ## matrix.hpp: the compound arithmetic operators

A matrix value is the content of `_data`.  The four arithmetic operators of a class differ
in the arithmetic symbol only, so each class has one operator over the element operation
`op` (the machine operation, which may be undefined) for a matrix argument and one for a
scalar argument.  The binary operators of `matrix.hpp` are
`operator op(lhs, rhs) { return lhs op= rhs; }` on a copy of `lhs`, so their value is the
value of the compound operator. -/

/-- The statement `_data[k] op= v`. -/
def assignAt {n : Nat} {β γ : Type} (op : β → γ → Except Fault β) (data : Fin n → β)
    (k : Fin n) (v : γ) : Except Fault (Fin n → β) :=
  match op (data k) v with
  | .error e => .error e
  | .ok r => .ok (Function.update data k r)

/-- The operators `op=(Matrix m)` of `Matrix<T,1,D>`:
`for (std::size_t j = Columns; j--; _data[j] op= m._data[j]);`. -/
def vectorAssign {D : Nat} {α : Type} (op : α → α → Except Fault α) (data m : Fin D → α) :
    Except Fault (Fin D → α) :=
  (List.finRange D).reverse.foldlM (fun data j => assignAt op data j (m j)) data

/-- The operators `op=(T m)` of `Matrix<T,1,D>`:
`for (std::size_t j = Columns; j--; _data[j] op= m);`. -/
def vectorAssignScalar {D : Nat} {α : Type} (op : α → α → Except Fault α) (data : Fin D → α)
    (m : α) : Except Fault (Fin D → α) :=
  (List.finRange D).reverse.foldlM (fun data j => assignAt op data j m) data

/-- The operators `op=(Matrix m)` of `Matrix<T,R,C>`:
`for (i = Rows; i--;) for (j = Columns; j--; _data[i][j] op= m._data[i][j]);`. -/
def matrixAssign {R C : Nat} {α : Type} (op : α → α → Except Fault α)
    (data m : Fin R → Fin C → α) : Except Fault (Fin R → Fin C → α) :=
  (List.finRange R).reverse.foldlM
    (fun data i =>
      (List.finRange C).reverse.foldlM
        (fun data j => assignAt (fun row v => assignAt op row j v) data i (m i j)) data)
    data

/-- The operators `op=(T m)` of `Matrix<T,R,C>`:
`for (i = Rows; i--;) for (j = Columns; j--; _data[i][j] op= m);`. -/
def matrixAssignScalar {R C : Nat} {α : Type} (op : α → α → Except Fault α)
    (data : Fin R → Fin C → α) (m : α) : Except Fault (Fin R → Fin C → α) :=
  (List.finRange R).reverse.foldlM
    (fun data i =>
      (List.finRange C).reverse.foldlM
        (fun data j => assignAt (fun row v => assignAt op row j v) data i m) data)
    data

/-- The unrolled body `_data[0] op= m._data[0]; _data[1] op= m._data[1];` of the
specialisations with two components. -/
def assign2 {β γ : Type} (op : β → γ → Except Fault β) (data : Fin 2 → β) (m : Fin 2 → γ) :
    Except Fault (Fin 2 → β) := do
  let data ← assignAt op data 0 (m 0)
  let data ← assignAt op data 1 (m 1)
  pure data

/-- The unrolled body `_data[0] op= m; _data[1] op= m;`. -/
def assignScalar2 {β γ : Type} (op : β → γ → Except Fault β) (data : Fin 2 → β) (m : γ) :
    Except Fault (Fin 2 → β) := do
  let data ← assignAt op data 0 m
  let data ← assignAt op data 1 m
  pure data

/-- The unrolled body of the specialisations with three components. -/
def assign3 {β γ : Type} (op : β → γ → Except Fault β) (data : Fin 3 → β) (m : Fin 3 → γ) :
    Except Fault (Fin 3 → β) := do
  let data ← assignAt op data 0 (m 0)
  let data ← assignAt op data 1 (m 1)
  let data ← assignAt op data 2 (m 2)
  pure data

/-- The unrolled body `_data[0] op= m; _data[1] op= m; _data[2] op= m;`. -/
def assignScalar3 {β γ : Type} (op : β → γ → Except Fault β) (data : Fin 3 → β) (m : γ) :
    Except Fault (Fin 3 → β) := do
  let data ← assignAt op data 0 m
  let data ← assignAt op data 1 m
  let data ← assignAt op data 2 m
  pure data

/-- The unrolled body of the specialisations with four components. -/
def assign4 {β γ : Type} (op : β → γ → Except Fault β) (data : Fin 4 → β) (m : Fin 4 → γ) :
    Except Fault (Fin 4 → β) := do
  let data ← assignAt op data 0 (m 0)
  let data ← assignAt op data 1 (m 1)
  let data ← assignAt op data 2 (m 2)
  let data ← assignAt op data 3 (m 3)
  pure data

/-- The unrolled body `_data[0] op= m; ...; _data[3] op= m;`. -/
def assignScalar4 {β γ : Type} (op : β → γ → Except Fault β) (data : Fin 4 → β) (m : γ) :
    Except Fault (Fin 4 → β) := do
  let data ← assignAt op data 0 m
  let data ← assignAt op data 1 m
  let data ← assignAt op data 2 m
  let data ← assignAt op data 3 m
  pure data

/-- The operators `op=(Matrix m)` of `Matrix<T,1,2>`. -/
def Matrix12.opAssign {α : Type} (op : α → α → Except Fault α) (data m : Fin 2 → α) :
    Except Fault (Fin 2 → α) :=
  assign2 op data m

/-- The operators `op=(T m)` of `Matrix<T,1,2>`. -/
def Matrix12.opAssignScalar {α : Type} (op : α → α → Except Fault α) (data : Fin 2 → α)
    (m : α) : Except Fault (Fin 2 → α) :=
  assignScalar2 op data m

/-- The operators `op=(Matrix m)` of `Matrix<T,1,3>`. -/
def Matrix13.opAssign {α : Type} (op : α → α → Except Fault α) (data m : Fin 3 → α) :
    Except Fault (Fin 3 → α) :=
  assign3 op data m

/-- The operators `op=(T m)` of `Matrix<T,1,3>`. -/
def Matrix13.opAssignScalar {α : Type} (op : α → α → Except Fault α) (data : Fin 3 → α)
    (m : α) : Except Fault (Fin 3 → α) :=
  assignScalar3 op data m

/-- The operators `op=(Matrix m)` of the primary `Matrix<T,1,4>`. -/
def Matrix14.opAssign {α : Type} (op : α → α → Except Fault α) (data m : Fin 4 → α) :
    Except Fault (Fin 4 → α) :=
  assign4 op data m

/-- The operators `op=(T m)` of the primary `Matrix<T,1,4>`. -/
def Matrix14.opAssignScalar {α : Type} (op : α → α → Except Fault α) (data : Fin 4 → α)
    (m : α) : Except Fault (Fin 4 → α) :=
  assignScalar4 op data m

/-- The operators `op=(Matrix m)` of `Matrix<T,2,2>`: the rows are `Matrix<T,1,2>`. -/
def Matrix22.opAssign {α : Type} (op : α → α → Except Fault α) (data m : Fin 2 → Fin 2 → α) :
    Except Fault (Fin 2 → Fin 2 → α) :=
  assign2 (Matrix12.opAssign op) data m

/-- The operators `op=(T m)` of `Matrix<T,2,2>`. -/
def Matrix22.opAssignScalar {α : Type} (op : α → α → Except Fault α)
    (data : Fin 2 → Fin 2 → α) (m : α) : Except Fault (Fin 2 → Fin 2 → α) :=
  assignScalar2 (Matrix12.opAssignScalar op) data m

/-- The operators `op=(Matrix m)` of `Matrix<T,3,3>`: the rows are `Matrix<T,1,3>`. -/
def Matrix33.opAssign {α : Type} (op : α → α → Except Fault α) (data m : Fin 3 → Fin 3 → α) :
    Except Fault (Fin 3 → Fin 3 → α) :=
  assign3 (Matrix13.opAssign op) data m

/-- The operators `op=(T m)` of `Matrix<T,3,3>`. -/
def Matrix33.opAssignScalar {α : Type} (op : α → α → Except Fault α)
    (data : Fin 3 → Fin 3 → α) (m : α) : Except Fault (Fin 3 → Fin 3 → α) :=
  assignScalar3 (Matrix13.opAssignScalar op) data m

/-- The operators `op=(Matrix m)` of the primary `Matrix<T,4,4>`, over the operator
`rowAssign` of its rows `Matrix<T,1,4>` (the primary one, or the specialisation for
`double`). -/
def Matrix44.opAssign {α : Type}
    (rowAssign : (Fin 4 → α) → (Fin 4 → α) → Except Fault (Fin 4 → α))
    (data m : Fin 4 → Fin 4 → α) : Except Fault (Fin 4 → Fin 4 → α) :=
  assign4 rowAssign data m

/-- The operators `op=(T m)` of the primary `Matrix<T,4,4>`, over the scalar operator of its
rows. -/
def Matrix44.opAssignScalar {α : Type}
    (rowAssignScalar : (Fin 4 → α) → α → Except Fault (Fin 4 → α))
    (data : Fin 4 → Fin 4 → α) (m : α) : Except Fault (Fin 4 → Fin 4 → α) :=
  assignScalar4 rowAssignScalar data m

/-- The operator `Matrix<T,1,1>::operator-=(Matrix m)`, whose body is
`_data[0] -= m._data[0];` on the scalar member `_data`: the subscript of a scalar is
ill-formed, the member cannot be instantiated. -/
def Matrix11.subAssign {α : Type} (_data _m : α) : Except Fault α :=
  .error Fault.illFormed

/-- The operators `+=`, `*=`, `/=` with a `Matrix` argument of `Matrix<T,1,1>`:
`_data op= m._data;`. -/
def Matrix11.opAssign {α : Type} (op : α → α → Except Fault α) (data m : α) :
    Except Fault α :=
  op data m

/-- The operators `op=(T m)` of `Matrix<T,1,1>`: `_data op= m;`. -/
def Matrix11.opAssignScalar {α : Type} (op : α → α → Except Fault α) (data m : α) :
    Except Fault α :=
  op data m

/-- A call through a slot of type `TwoArgRetVecFP<T>`. -/
def callVec {α : Type} (slot : ArithKernel) (op : α → α → α) (T : Precision)
    (a b result : Nat) (mem : VecMem α) : Except Fault (VecMem α) :=
  match slot with
  | ArithKernel.fallbackImplementation => .ok (vecFallback op a b result mem)
  | ArithKernel.intrinImplementation => vecIntrin op T a b result mem

/-- A call through a slot of type `TwoArgRetVecSingleFP<T>`. -/
def callVecSingle {α : Type} (slot : ArithKernel) (op : α → α → α) (T : Precision)
    (a : Nat) (b : α) (result : Nat) (mem : VecMem α) : Except Fault (VecMem α) :=
  match slot with
  | ArithKernel.fallbackImplementation => .ok (vecSingleFallback op a b result mem)
  | ArithKernel.intrinImplementation => vecSingleIntrin op T a b result mem

/-- A call through a slot of type `TwoArgRetMatrixFP<float>`. -/
def callMatrix {α : Type} (slot : ArithKernel) (op : α → α → α) (a b result : Nat)
    (mem : MatMem α) : Except Fault (MatMem α) :=
  match slot with
  | ArithKernel.fallbackImplementation => .ok (matrixFallback op a b result mem)
  | ArithKernel.intrinImplementation => matrixIntrin op a b result mem

/-- A call through a slot of type `TwoArgRetMatrixSingleFP<float>`. -/
def callMatrixSingle {α : Type} (slot : ArithKernel) (op : α → α → α) (a : Nat) (b : α)
    (result : Nat) (mem : MatMem α) : Except Fault (MatMem α) :=
  match slot with
  | ArithKernel.fallbackImplementation => .ok (matrixSingleFallback op a b result mem)
  | ArithKernel.intrinImplementation => matrixSingleIntrin op a b result mem

/-- The operators `op=(Matrix m)` of the specialisations `Matrix<float,1,4>` and
`Matrix<double,1,4>`: `slot(*this, m, *this)`.  The class is `alignas(16)`, respectively
`alignas(32)`; `*this` is the object at address `0` and the parameter `m`, a copy, the
object at the next aligned address. -/
def MatrixSimd14.opAssign {α : Type} (T : Precision) (slot : ArithKernel) (op : α → α → α)
    (data m : Fin 4 → α) : Except Fault (Fin 4 → α) :=
  let mem : VecMem α := fun p => if p = 0 then data else m
  match callVec slot op T 0 (vecAlignment T) 0 mem with
  | .error e => .error e
  | .ok mem => .ok (mem 0)

/-- The operators `op=(float m)` of the specialisation `Matrix<float,1,4>`:
`slot(*this, m, *this)`. -/
def MatrixFloat14.opAssignScalar {α : Type} (slot : ArithKernel) (op : α → α → α)
    (data : Fin 4 → α) (m : α) : Except Fault (Fin 4 → α) :=
  let mem : VecMem α := fun _ => data
  match callVecSingle slot op Precision.float 0 m 0 mem with
  | .error e => .error e
  | .ok mem => .ok (mem 0)

/-- Rounding to the nearest integer, a tie going to the even one. -/
def roundHalfEven {α : Type} [LinearOrderedField α] [FloorRing α] (y : α) : Int :=
  if y - (⌊y⌋ : α) < 1 / 2 then ⌊y⌋
  else if y - (⌊y⌋ : α) > 1 / 2 then ⌊y⌋ + 1
  else if ⌊y⌋ % 2 = 0 then ⌊y⌋ else ⌊y⌋ + 1

/-- The constant `FLT_MAX`, `(2 - 2^-23) * 2^127`. -/
def FLT_MAX : ℚ := 340282346638528859811704183484516925440

/-- The conversion of a `double` to `float`: undefined beyond `FLT_MAX`, else the nearest
value with a significand of 24 bits (of the spacing `2^-149` below `2^-126`), ties to
even. -/
def floatCast {α : Type} [LinearOrderedField α] [FloorRing α] (x : α) : Except Fault α :=
  if |x| > (FLT_MAX : α) then .error Fault.floatConversion
  else if x = 0 then .ok 0
  else
    let e : Int := max (Int.log 2 |x|) (-126)
    let ulp : α := (2 : α) ^ (e - 23)
    .ok ((roundHalfEven (x / ulp) : α) * ulp)

/-- The operators `op=(float m)` of the specialisation `Matrix<double,1,4>`: the argument
is converted to `float` at the call of the operator, then `slot(*this, m, *this)`. -/
def MatrixDouble14.opAssignScalar {α : Type} [LinearOrderedField α] [FloorRing α]
    (slot : ArithKernel) (op : α → α → α) (data : Fin 4 → α) (m : α) :
    Except Fault (Fin 4 → α) :=
  match floatCast m with
  | .error e => .error e
  | .ok m =>
    let mem : VecMem α := fun _ => data
    match callVecSingle slot op Precision.double 0 m 0 mem with
    | .error e => .error e
    | .ok mem => .ok (mem 0)

/-- The operators `op=(Matrix m)` of the specialisation `Matrix<float,4,4>`:
`slot(*this, m, *this)`, the class being `alignas(64)`. -/
def MatrixFloat44.opAssign {α : Type} (slot : ArithKernel) (op : α → α → α)
    (data m : Fin 4 → Fin 4 → α) : Except Fault (Fin 4 → Fin 4 → α) :=
  let mem : MatMem α := fun p => if p = 0 then data else m
  match callMatrix slot op 0 64 0 mem with
  | .error e => .error e
  | .ok mem => .ok (mem 0)

/-- The operators `op=(float m)` of the specialisation `Matrix<float,4,4>`. -/
def MatrixFloat44.opAssignScalar {α : Type} (slot : ArithKernel) (op : α → α → α)
    (data : Fin 4 → Fin 4 → α) (m : α) : Except Fault (Fin 4 → Fin 4 → α) :=
  let mem : MatMem α := fun _ => data
  match callMatrixSingle slot op 0 m 0 mem with
  | .error e => .error e
  | .ok mem => .ok (mem 0)

/-! ## Memory contents of the examples -/

/-- A memory of 4-vectors for the examples: component `i` of the vector at address `p` is
`p + i + 1`. -/
def exampleVecMem : VecMem ℚ := fun p i => (p : ℚ) + (i.val : ℚ) + 1

/-- A memory of 4x4 matrices for the examples: element `(i, j)` of the matrix at address
`p` is `p + 4 i + j + 1`. -/
def exampleMatMem : MatMem ℚ := fun p i j => (p : ℚ) + 4 * (i.val : ℚ) + (j.val : ℚ) + 1

/-! ## trigonometry_implementation.hpp: the SSE and FMA kernels

The kernels are written over exact arithmetic: a fused multiply-add is `a * b + c` and the
conversion of a `double` coefficient to `float` is the identity.  A vector register is
modelled by the lanes the kernel reads back. -/

/-- One lane of `_mm_fmadd_ps` / `_mm_fmadd_pd`. -/
def fmadd {α : Type} [LinearOrderedField α] (a b c : α) : α := a * b + c

/-- Element `i` of a coefficient array. -/
def coeff {α : Type} [LinearOrderedField α] (data : List ℚ) (i : Nat) : α :=
  ((data.getD i 0 : ℚ) : α)

/-- The overload `float inner_poly_intrin(float x, bool sin)`. -/
def inner_poly_intrin_float {α : Type} [LinearOrderedField α] (x : α) (sin : Bool) : α :=
  let x2 := x * x
  let argSquared := x2
  if sin then
    let fmaRes : α := coeff SIN_DEGREE_9 4
    let add : α := coeff SIN_DEGREE_9 3
    let fmaRes := fmadd fmaRes argSquared add
    let add : α := coeff SIN_DEGREE_9 2
    let fmaRes := fmadd fmaRes argSquared add
    let add : α := coeff SIN_DEGREE_9 1
    let fmaRes := fmadd fmaRes argSquared add
    let add : α := coeff SIN_DEGREE_9 0
    let fmaRes := fmadd fmaRes argSquared add
    fmaRes * x
  else
    let fmaRes : α := coeff COS_DEGREE_10 5
    let add : α := coeff COS_DEGREE_10 4
    let fmaRes := fmadd fmaRes argSquared add
    let add : α := coeff COS_DEGREE_10 3
    let fmaRes := fmadd fmaRes argSquared add
    let add : α := coeff COS_DEGREE_10 2
    let fmaRes := fmadd fmaRes argSquared add
    let add : α := coeff COS_DEGREE_10 1
    let fmaRes := fmadd fmaRes argSquared add
    let add : α := coeff COS_DEGREE_10 0
    let fmaRes := fmadd fmaRes argSquared add
    fmaRes

/-- The overload `double inner_poly_intrin(double x, bool sin)`. -/
def inner_poly_intrin_double {α : Type} [LinearOrderedField α] (x : α) (sin : Bool) : α :=
  let x2 := x * x
  let argSquared := x2
  if sin then
    let fmaRes : α := coeff SIN_DEGREE_17 8
    let add : α := coeff SIN_DEGREE_17 7
    let fmaRes := fmadd fmaRes argSquared add
    let add : α := coeff SIN_DEGREE_17 6
    let fmaRes := fmadd fmaRes argSquared add
    let add : α := coeff SIN_DEGREE_17 5
    let fmaRes := fmadd fmaRes argSquared add
    let add : α := coeff SIN_DEGREE_17 4
    let fmaRes := fmadd fmaRes argSquared add
    let add : α := coeff SIN_DEGREE_17 3
    let fmaRes := fmadd fmaRes argSquared add
    let add : α := coeff SIN_DEGREE_17 2
    let fmaRes := fmadd fmaRes argSquared add
    let add : α := coeff SIN_DEGREE_17 1
    let fmaRes := fmadd fmaRes argSquared add
    let add : α := coeff SIN_DEGREE_17 0
    let fmaRes := fmadd fmaRes argSquared add
    fmaRes * x
  else
    let fmaRes : α := coeff COS_DEGREE_18 9
    let add : α := coeff COS_DEGREE_18 8
    let fmaRes := fmadd fmaRes argSquared add
    let add : α := coeff COS_DEGREE_18 7
    let fmaRes := fmadd fmaRes argSquared add
    let add : α := coeff COS_DEGREE_18 6
    let fmaRes := fmadd fmaRes argSquared add
    let add : α := coeff COS_DEGREE_18 5
    let fmaRes := fmadd fmaRes argSquared add
    let add : α := coeff COS_DEGREE_18 4
    let fmaRes := fmadd fmaRes argSquared add
    let add : α := coeff COS_DEGREE_18 3
    let fmaRes := fmadd fmaRes argSquared add
    let add : α := coeff COS_DEGREE_18 2
    let fmaRes := fmadd fmaRes argSquared add
    let add : α := coeff COS_DEGREE_18 1
    let fmaRes := fmadd fmaRes argSquared add
    let add : α := coeff COS_DEGREE_18 0
    let fmaRes := fmadd fmaRes argSquared add
    fmaRes

/-- The function `inner_poly_intrin`, by the overload. -/
def inner_poly_intrin {α : Type} [LinearOrderedField α] (T : Precision) (x : α)
    (sin : Bool) : α :=
  match T with
  | Precision.float => inner_poly_intrin_float x sin
  | Precision.double => inner_poly_intrin_double x sin

/-- The control variables `sign`, `useSinCoeffs` and the reduced `x` of
`sinFastSSEImplementation`; the `default` of the `switch` is an assertion. -/
def sinFastSSEControl {α : Type} [LinearOrderedField α] (res : ReductionRes) (x : α) :
    Except Fault (Int × Bool × α) :=
  if res.noReduciton then .ok (1, true, x)
  else
    let sign : Int := if res.quad ≥ 0 then 1 else -1
    let x := x * (sign : α)
    match imul res.quad sign with
    | .error e => .error e
    | .ok m =>
      let k := Int.land m Pi3by2_2Pi
      if k = 0 then .ok (sign, true, x)
      else if k = 1 then .ok (sign, false, x)
      else if k = 2 then .ok (-sign, true, x)
      else if k = 3 then .ok (-sign, false, x)
      else .error Fault.assertion

/-- The control variables of `cosFastSSEImplementation`. -/
def cosFastSSEControl {α : Type} [LinearOrderedField α] (res : ReductionRes) (x : α) :
    Except Fault (Int × Bool × α) :=
  if res.noReduciton then .ok (1, false, x)
  else
    let sign : Int := if res.quad ≥ 0 then 1 else -1
    let x := x * (sign : α)
    match imul res.quad sign with
    | .error e => .error e
    | .ok m =>
      let k := Int.land m Pi3by2_2Pi
      if k = 0 then .ok (1, false, x)
      else if k = 1 then .ok (-1, true, x)
      else if k = 2 then .ok (-1, false, x)
      else if k = 3 then .ok (1, true, x)
      else .error Fault.assertion

/-- The common tail of the two scalar kernels:
`if (x == 0) return sign * (useSinCoeffs ? 0 : 1); return sign * inner_poly_intrin(x, useSinCoeffs);`. -/
def fastSSETail {α : Type} [LinearOrderedField α] (T : Precision) (sign : Int)
    (useSinCoeffs : Bool) (x : α) : α :=
  if x = 0 then (((sign * (if useSinCoeffs then 0 else 1) : Int) : Int) : α)
  else (sign : α) * inner_poly_intrin T x useSinCoeffs

/-- The function `sinFastSSEImplementation<T>` on a finite argument. -/
def sinFastSSEImplementation {α : Type} [LinearOrderedField α] [FloorRing α]
    (T : Precision) (x : α) : Except Fault α :=
  match addRangeReduce x (HALF_PI : α) (INV_HALF_PI : α) with
  | .error e => .error e
  | .ok (res, x) =>
    match sinFastSSEControl res x with
    | .error e => .error e
    | .ok (sign, useSinCoeffs, x) => .ok (fastSSETail T sign useSinCoeffs x)

/-- The function `cosFastSSEImplementation<T>` on a finite argument. -/
def cosFastSSEImplementation {α : Type} [LinearOrderedField α] [FloorRing α]
    (T : Precision) (x : α) : Except Fault α :=
  match addRangeReduce x (HALF_PI : α) (INV_HALF_PI : α) with
  | .error e => .error e
  | .ok (res, x) =>
    match cosFastSSEControl res x with
    | .error e => .error e
    | .ok (sign, useSinCoeffs, x) => .ok (fastSSETail T sign useSinCoeffs x)

namespace Trig

/-- A kernel of a dispatch slot on a floating point argument, over its body on finite
values: on a non-finite argument the range reduction converts a non-finite product to
`int`. -/
def sseKernel {α β : Type} (body : α → Except Fault β) (x : Fp α) : Except Fault β :=
  match x with
  | Fp.finite v => body v
  | _ => .error Fault.intConversion

/-- The kernel `sinFastSSEImplementation<T>` as installed in a slot. -/
def sinFastSSE {α : Type} [LinearOrderedField α] [FloorRing α] (T : Precision)
    (x : Fp α) : Except Fault (Fp α) :=
  sseKernel (fun v => Fp.finite <$> sinFastSSEImplementation T v) x

/-- The kernel `cosFastSSEImplementation<T>` as installed in a slot. -/
def cosFastSSE {α : Type} [LinearOrderedField α] [FloorRing α] (T : Precision)
    (x : Fp α) : Except Fault (Fp α) :=
  sseKernel (fun v => Fp.finite <$> cosFastSSEImplementation T v) x

end Trig

/-! ## matrix.hpp: element access, comparison and the operators with the scalar on the left -/

/-- The member `operator[]` of a class whose `_data` has `n` entries:
`assert(pos < n); return _data[pos];`. -/
def subscript {n : Nat} {β : Type} (data : Fin n → β) (pos : Nat) : Except Fault β :=
  if h : pos < n then .ok (data ⟨pos, h⟩) else .error Fault.assertion

/-- The built-in access `_data[i]` of an array of `n` entries: outside the array it is
undefined. -/
def readAt {n : Nat} {β : Type} (data : Fin n → β) (i : Nat) : Except Fault β :=
  if h : i < n then .ok (data ⟨i, h⟩) else .error Fault.outOfBounds

/-- The built-in store `_data[i] = v` of an array of `n` entries. -/
def storeAt {n : Nat} {β : Type} (data : Fin n → β) (i : Nat) (v : β) :
    Except Fault (Fin n → β) :=
  if h : i < n then .ok (Function.update data ⟨i, h⟩ v) else .error Fault.outOfBounds

/-- The loop `for (std::size_t i = n; i--;) if (differ(i)) return true; return false;` of
the comparison operators: whether an index with a difference was found. -/
def compareLoop (differ : Nat → Except Fault Bool) : Nat → Except Fault Bool
  | 0 => .ok false
  | i + 1 =>
    match differ i with
    | .error e => .error e
    | .ok true => .ok true
    | .ok false => compareLoop differ i

/-- The function `operator!=(const Matrix<T,Row,Col> lhs, const Matrix<T,Row,Col> rhs)`,
over the test `lhs[i] != rhs[i]` of the class: the loop runs over `Col`. -/
def operatorNe (Col : Nat) (differ : Nat → Except Fault Bool) : Except Fault Bool :=
  compareLoop differ Col

/-- The function `operator==(Matrix<T,Row,Col> lhs, Matrix<T,Row,Col> rhs)`, over the test
`lhs[i] != rhs[i]` of the class: the loop runs over `Col` and returns `false` at the first
difference. -/
def operatorEq (Col : Nat) (differ : Nat → Except Fault Bool) : Except Fault Bool :=
  match compareLoop differ Col with
  | .error e => .error e
  | .ok found => .ok (!found)

/-- The test `lhs[i] != rhs[i]` of the vector classes: `operator[]` yields an element. -/
def vectorDiffer {D : Nat} {α : Type} [DecidableEq α] (lhs rhs : Fin D → α) (i : Nat) :
    Except Fault Bool :=
  match subscript lhs i, subscript rhs i with
  | .ok a, .ok b => .ok (decide (a ≠ b))
  | .error e, _ => .error e
  | _, .error e => .error e

/-- The test `lhs[i] != rhs[i]` of the matrix classes whose `operator[]` yields a row
`Matrix<T,1,C>`: the rows are compared by `operator!=`. -/
def matrixDiffer {R C : Nat} {α : Type} [DecidableEq α] (lhs rhs : Fin R → Fin C → α)
    (i : Nat) : Except Fault Bool :=
  match subscript lhs i, subscript rhs i with
  | .ok a, .ok b => operatorNe C (vectorDiffer a b)
  | .error e, _ => .error e
  | _, .error e => .error e

/-- The test `lhs[i] != rhs[i]` inside `operator!=` on `Matrix<float,4,4>`: the `const`
`operator[]` of this class yields `const float (&)[4]`, so the test compares the addresses
of the two rows, `lhsAddr` and `rhsAddr` being the addresses of the two parameters. -/
def MatrixFloat44.constDiffer (lhsAddr rhsAddr : Nat) (i : Nat) : Except Fault Bool :=
  if i < 16 then .ok (decide (lhsAddr + 16 * i ≠ rhsAddr + 16 * i))
  else .error Fault.assertion

/-- The operators `operator op(const U rhs, Matrix<T,Rows,Cols> lhs)` with the scalar on
the left: `return lhs op= rhs;`, over the scalar operator `op=` of the class. -/
def scalarLeft {M α : Type} (opAssignScalar : M → α → Except Fault M) (rhs : α) (lhs : M) :
    Except Fault M :=
  opAssignScalar lhs rhs

/-! ## matrix.hpp: length and unit of the generic vector -/

/-- The loop `for (std::size_t i = Size; i++; accum += _data[i] * _data[i]);` of
`Matrix<T,1,D>::length`: the condition `i++` tests `i` and increments it modulo `2^64`,
then the step reads `_data[i]`. -/
def vectorLengthLoop {D : Nat} {α : Type} [Add α] [Mul α] (data : Fin D → α) (i : Nat)
    (accum : α) : Except Fault α :=
  if i % 18446744073709551616 = 0 then .ok accum
  else
    match readAt data ((i + 1) % 18446744073709551616) with
    | .error e => .error e
    | .ok v => vectorLengthLoop data ((i + 1) % 18446744073709551616) (accum + v * v)
termination_by (18446744073709551616 - i % 18446744073709551616) % 18446744073709551616
decreasing_by omega

/-- The member `Matrix<T,1,D>::length`, `sqrtFloat` being
`static_cast<Type>(sqrt(static_cast<float>(accum)))`. -/
def Vector.length {D : Nat} {α : Type} [Zero α] [Add α] [Mul α] (sqrtFloat : α → α)
    (data : Fin D → α) : Except Fault α :=
  match vectorLengthLoop data D 0 with
  | .error e => .error e
  | .ok accum => .ok (sqrtFloat accum)

/-- The loop `for (std::size_t i = Size; i++; _data[i] *= k);` of `Matrix<T,1,D>::unit`. -/
def vectorUnitLoop {D : Nat} {α : Type} [Mul α] (k : α) (data : Fin D → α) (i : Nat) :
    Except Fault (Fin D → α) :=
  if i % 18446744073709551616 = 0 then .ok data
  else
    match readAt data ((i + 1) % 18446744073709551616) with
    | .error e => .error e
    | .ok v =>
      match storeAt data ((i + 1) % 18446744073709551616) (v * k) with
      | .error e => .error e
      | .ok data => vectorUnitLoop k data ((i + 1) % 18446744073709551616)
termination_by (18446744073709551616 - i % 18446744073709551616) % 18446744073709551616
decreasing_by omega

/-- The member `Matrix<T,1,D>::unit`: `auto k = T(1) / length();` and the loop. -/
def Vector.unit {D : Nat} {α : Type} [LinearOrderedField α] (sqrtFloat : α → α)
    (data : Fin D → α) : Except Fault (Fin D → α) :=
  match Vector.length sqrtFloat data with
  | .error e => .error e
  | .ok len =>
    match fdiv 1 len with
    | .error e => .error e
    | .ok k => vectorUnitLoop k data D

/-! ## matrix.hpp: submatrix, determinant, minor, transpose and invert -/

/-- The loop `for (std::size_t i = n; i--;) body(i);` (also written `i-- > 0`). -/
def loopDown {σ : Type} (body : Nat → σ → Except Fault σ) : Nat → σ → Except Fault σ
  | 0, s => .ok s
  | i + 1, s =>
    match body i s with
    | .error e => .error e
    | .ok s => loopDown body i s

/-- The loop `for (std::size_t i = 0; i < n; ++i) body(i);`. -/
def loopUp {σ : Type} (body : Nat → σ → Except Fault σ) : Nat → σ → Except Fault σ
  | 0, s => .ok s
  | n + 1, s =>
    match loopUp body n s with
    | .error e => .error e
    | .ok s => body n s

/-- The decrement `--n` of a `std::size_t`. -/
def decr (n : Nat) : Nat := (n + 18446744073709551615) % 18446744073709551616

/-- The expression `m[i][j]`: both `operator[]` assert their index. -/
def elemAt {R C : Nat} {α : Type} (m : Fin R → Fin C → α) (i j : Nat) : Except Fault α :=
  match subscript m i with
  | .error e => .error e
  | .ok row => subscript row j

/-- The statement `result[i][j] = v`: both `operator[]` assert their index. -/
def assignElem {R C : Nat} {α : Type} (result : Fin R → Fin C → α) (i j : Nat) (v : α) :
    Except Fault (Fin R → Fin C → α) :=
  if h : i < R then
    if h2 : j < C then
      .ok (Function.update result ⟨i, h⟩ (Function.update (result ⟨i, h⟩) ⟨j, h2⟩ v))
    else .error Fault.assertion
  else .error Fault.assertion

/-- The statement `if (j != subCol) result[si][--sj] = m[i][j];` of the inner loop of
`submatrix`, on the state `(si, sj, result)`. -/
def submatrixColumnStep {R C : Nat} {α : Type} (m : Fin (R + 1) → Fin (C + 1) → α)
    (subCol i j : Nat) (st : Nat × Nat × (Fin R → Fin C → α)) :
    Except Fault (Nat × Nat × (Fin R → Fin C → α)) :=
  if j ≠ subCol then
    match elemAt m i j with
    | .error e => .error e
    | .ok v =>
      match assignElem st.2.2 st.1 (decr st.2.1) v with
      | .error e => .error e
      | .ok result => .ok (st.1, decr st.2.1, result)
  else .ok st

/-- The body of the outer loop of `submatrix`:
`if (i != subRow) { sj = C - 1; --si; for (std::size_t j = C; j-- > 0;) ... }`. -/
def submatrixRowStep {R C : Nat} {α : Type} (m : Fin (R + 1) → Fin (C + 1) → α)
    (subRow subCol i : Nat) (st : Nat × Nat × (Fin R → Fin C → α)) :
    Except Fault (Nat × Nat × (Fin R → Fin C → α)) :=
  if i ≠ subRow then
    loopDown (submatrixColumnStep m subCol i) (C + 1) (decr st.1, C, st.2.2)
  else .ok st

/-- The generic `submatrix(m, subRow, subCol)` on a matrix of `R + 1` rows and `C + 1`
columns.  The state of the loops is `(si, sj, result)`, with `si = R - 1` at the start;
`result` is declared without an initial value, its contents are `indeterminate`. -/
def submatrix {R C : Nat} {α : Type} (indeterminate : Nat → Nat → α)
    (m : Fin (R + 1) → Fin (C + 1) → α) (subRow subCol : Nat) :
    Except Fault (Fin R → Fin C → α) :=
  if subRow < R + 1 ∧ subCol < C + 1 then
    match loopDown (submatrixRowStep m subRow subCol) (R + 1)
        (R, 0, fun i j => indeterminate i.val j.val) with
    | .error e => .error e
    | .ok st => .ok st.2.2
  else .error Fault.assertion

/-- The specialisation `T submatrix(const Matrix<T,2,2> &m, subRow, subCol)`. -/
def submatrix22 {α : Type} (m : Fin 2 → Fin 2 → α) (subRow subCol : Nat) : Except Fault α :=
  if subRow < 2 ∧ subCol < 2 then
    if subRow = 0 then
      if subCol = 0 then .ok (m 1 1) else .ok (m 1 0)
    else if subCol = 0 then .ok (m 0 1)
    else .ok (m 0 0)
  else .error Fault.assertion

/-- The body `result += o * m[0][i] * determinant(submatrix(m, 0, i)); o *= -1;` of the
loop of the generic `determinant`, on the state `(o, result)`, over the determinant `det`
of the matrices one smaller. -/
def cofactorStep {n : Nat} {α : Type} [Ring α] (indeterminate : Nat → Nat → α)
    (det : (Fin n → Fin n → α) → Except Fault α) (m : Fin (n + 1) → Fin (n + 1) → α)
    (i : Nat) (st : Int × α) : Except Fault (Int × α) :=
  match elemAt m 0 i with
  | .error e => .error e
  | .ok a =>
    match submatrix indeterminate m 0 i with
    | .error e => .error e
    | .ok sub =>
      match det sub with
      | .error e => .error e
      | .ok d => .ok (st.1 * -1, st.2 + (st.1 : α) * a * d)

/-- The overloads of `determinant`: the conversion of a `Matrix<T,1,1>`, the closed forms
for `2 x 2` and `3 x 3`, and for the other dimensions the loop over the first row, from
`o = 1` and `result = 0`.  A matrix without rows is not a type of the library. -/
def determinant {α : Type} [Ring α] (indeterminate : Nat → Nat → α) :
    (n : Nat) → (Fin n → Fin n → α) → Except Fault α
  | 0, _ => .error Fault.illFormed
  | 1, m => .ok (m 0 0)
  | 2, m => .ok (m 0 0 * m 1 1 - m 0 1 * m 1 0)
  | 3, m =>
    .ok (m 0 0 * (m 1 1 * m 2 2 - m 1 2 * m 2 1) -
         m 0 1 * (m 1 0 * m 2 2 - m 2 0 * m 1 2) +
         m 0 2 * (m 1 0 * m 2 1 - m 2 0 * m 1 1))
  | n + 4, m =>
    match loopUp (cofactorStep indeterminate (determinant indeterminate (n + 3)) m)
        (n + 4) (1, 0) with
    | .error e => .error e
    | .ok st => .ok st.2

/-- The statement `result[i][j] = entry(i, j)`. -/
def fillStep {R C : Nat} {α : Type} (entry : Nat → Nat → Except Fault α) (i j : Nat)
    (result : Fin R → Fin C → α) : Except Fault (Fin R → Fin C → α) :=
  match entry i j with
  | .error e => .error e
  | .ok v => assignElem result i j v

/-- The loops `for (i = R; i--;) for (j = C; j--; result[i][j] = entry(i, j));` on a
`result` declared without an initial value. -/
def fillDown {R C : Nat} {α : Type} (indeterminate : Nat → Nat → α)
    (entry : Nat → Nat → Except Fault α) : Except Fault (Fin R → Fin C → α) :=
  loopDown (fun i result => loopDown (fillStep entry i) C result) R
    (fun i j => indeterminate i.val j.val)

/-- The function `minor(m)`: `result[i][j] = determinant(submatrix(m, i, j))` for `i` and
`j` from `Dim - 1` down.  For `Dim = 2` the submatrix is the number returned by the
specialisation, and `determinant` of a number is the number; for `Dim = 1` the generic
`submatrix` subscripts a `Matrix<T,1,1>`, which has no `operator[]`. -/
def minor {α : Type} [Ring α] (indeterminate : Nat → Nat → α) :
    (n : Nat) → (Fin n → Fin n → α) → Except Fault (Fin n → Fin n → α)
  | 0, _ => .error Fault.illFormed
  | 1, _ => .error Fault.illFormed
  | 2, m => fillDown indeterminate (fun i j => submatrix22 m i j)
  | n + 3, m =>
    fillDown indeterminate
      (fun i j =>
        match submatrix indeterminate m i j with
        | .error e => .error e
        | .ok sub => determinant indeterminate (n + 2) sub)

/-- The statement `result[j][i] = matrix[i][j]` of `transpose`. -/
def transposeStep {R C : Nat} {α : Type} (matrix : Fin R → Fin C → α) (i j : Nat)
    (result : Fin C → Fin R → α) : Except Fault (Fin C → Fin R → α) :=
  match elemAt matrix i j with
  | .error e => .error e
  | .ok v => assignElem result j i v

/-- The function `transpose(matrix)`:
`for (i = Rows; i--;) for (j = Cols; j--; result[j][i] = matrix[i][j]);`. -/
def transpose {R C : Nat} {α : Type} (indeterminate : Nat → Nat → α)
    (matrix : Fin R → Fin C → α) : Except Fault (Fin C → Fin R → α) :=
  loopDown (fun i result => loopDown (transposeStep matrix i) C result) R
    (fun i j => indeterminate i.val j.val)

/-- The lambda `sing` of `invert`: `1` when `i + j` is even, else `-1`. -/
def sing {α : Type} [Ring α] (i j : Nat) : α :=
  if ((i + j) % 18446744073709551616) % 2 = 0 then 1 else -1

/-- The statement `result[i][j] *= sing(i, j);` of `invert`. -/
def signStep {n : Nat} {α : Type} [Ring α] (i j : Nat) (result : Fin n → Fin n → α) :
    Except Fault (Fin n → Fin n → α) :=
  match elemAt result i j with
  | .error e => .error e
  | .ok v => assignElem result i j (v * sing i j)

/-- The loops `for (i = 0; i < rows; ++i) for (j = 0; j < columns; j++)
result[i][j] *= sing(i, j);` of `invert`. -/
def applySigns {n : Nat} {α : Type} [Ring α] (result : Fin n → Fin n → α) :
    Except Fault (Fin n → Fin n → α) :=
  loopUp (fun i result => loopUp (signStep i) n result) n result

/-- The function `invert(d, correctness)` over the operator `result /= det` of the matrix
class, `divAssign`.  The pointer `correctness` is `none` when null, the result holds the
value stored through it.  With a zero determinant and a pointer the function returns
`result` as declared, without an initial value. -/
def invert {α : Type} [Ring α] [DecidableEq α] (indeterminate : Nat → Nat → α) (n : Nat)
    (divAssign : (Fin n → Fin n → α) → α → Except Fault (Fin n → Fin n → α))
    (d : Fin n → Fin n → α) (correctness : Option Bool) :
    Except Fault ((Fin n → Fin n → α) × Option Bool) :=
  if n < 2 then .error Fault.illFormed
  else
    match determinant indeterminate n d with
    | .error e => .error e
    | .ok det =>
      if correctness.isSome ∧ det = 0 then
        .ok (fun i j => indeterminate i.val j.val, some false)
      else
        match minor indeterminate n d with
        | .error e => .error e
        | .ok result =>
          match applySigns result with
          | .error e => .error e
          | .ok result =>
            match transpose indeterminate result with
            | .error e => .error e
            | .ok result =>
              match divAssign result det with
              | .error e => .error e
              | .ok result => .ok (result, correctness.map (fun _ => true))

/-- A `4 x 4` matrix of `double` for the examples: the diagonal matrix of
`1 + 2^-30, 1, 1, 1`. -/
def exampleDiagonal : Fin 4 → Fin 4 → ℚ :=
  fun i j => if i = j then (if i.val = 0 then 1 + 1 / 2 ^ 30 else 1) else 0

/-! # Verification -/

set_option linter.unusedSectionVars false

/-! ## Range reduction -/

section RangeReduction
variable {α : Type} [LinearOrderedField α] [FloorRing α]

theorem abs_ite_eq (x : α) : (if x ≥ 0 then x else -x) = |x| := by
  split_ifs with h
  · exact (abs_of_nonneg h).symm
  · exact (abs_of_neg (not_le.mp h)).symm

theorem truncInt_of_nonneg {t : α} (h : 0 ≤ t) : truncInt t = ⌊t⌋ := by
  simp [truncInt, h]

theorem truncInt_of_neg {t : α} (h : t < 0) : truncInt t = ⌈t⌉ := by
  simp [truncInt, not_le.mpr h]

theorem addRangeReduce_of_le (x P inv : α) (h : |x| ≤ P) :
    addRangeReduce x P inv = .ok ({ quad := 0, noReduciton := true }, x) := by
  simp [addRangeReduce, abs_ite_eq, h]

theorem addRangeReduce_of_gt (x P inv : α) (h : P < |x|)
    (hr : INT_MIN ≤ truncInt (x * inv) ∧ truncInt (x * inv) ≤ INT_MAX) :
    addRangeReduce x P inv
      = .ok ({ quad := truncInt (x * inv), noReduciton := false },
          x - (truncInt (x * inv) : α) * P) := by
  simp [addRangeReduce, abs_ite_eq, not_le.mpr h, toInt, hr]

theorem addRangeReduce_of_gt_error (x P inv : α) (h : P < |x|)
    (hr : ¬ (INT_MIN ≤ truncInt (x * inv) ∧ truncInt (x * inv) ≤ INT_MAX)) :
    addRangeReduce x P inv = .error Fault.intConversion := by
  simp only [addRangeReduce, abs_ite_eq, not_le.mpr h, toInt, hr, if_false]

/-- Truncated quotient and remainder of a positive argument beyond the period. -/
theorem trunc_quot_pos (x P : α) (hP : 0 < P) (hx : P < x) :
    1 ≤ truncInt (x / P) ∧ 0 ≤ x - (truncInt (x / P) : α) * P
      ∧ x - (truncInt (x / P) : α) * P < P := by
  have ht : 1 < x / P := by rwa [lt_div_iff₀ hP, one_mul]
  have h0 : 0 ≤ x / P := by linarith
  rw [truncInt_of_nonneg h0]
  have hfl : (⌊x / P⌋ : α) ≤ x / P := Int.floor_le _
  have hlt : x / P < ⌊x / P⌋ + 1 := Int.lt_floor_add_one _
  have hxe : x = x / P * P := by field_simp
  refine ⟨?_, ?_, ?_⟩
  · have : (1 : α) ≤ x / P := ht.le
    exact Int.le_floor.mpr (by simpa using this)
  · have : (⌊x / P⌋ : α) * P ≤ x / P * P := mul_le_mul_of_nonneg_right hfl hP.le
    linarith
  · have : x / P * P < ((⌊x / P⌋ : α) + 1) * P := mul_lt_mul_of_pos_right hlt hP
    linarith

theorem truncInt_neg (t : α) : truncInt (-t) = -truncInt t := by
  rcases lt_trichotomy t 0 with h | h | h
  · rw [truncInt_of_neg h, truncInt_of_nonneg (by linarith : (0:α) ≤ -t), Int.floor_neg]
  · subst h; simp [truncInt]
  · rw [truncInt_of_nonneg h.le, truncInt_of_neg (by linarith : -t < 0), Int.ceil_neg]

/-- Truncated quotient and remainder of a negative argument beyond the period. -/
theorem trunc_quot_neg (x P : α) (hP : 0 < P) (hx : x < -P) :
    truncInt (x / P) ≤ -1 ∧ x - (truncInt (x / P) : α) * P ≤ 0
      ∧ -P < x - (truncInt (x / P) : α) * P := by
  have h := trunc_quot_pos (-x) P hP (by linarith)
  rw [neg_div, truncInt_neg] at h
  obtain ⟨h1, h2, h3⟩ := h
  push_cast at h2 h3
  refine ⟨by linarith, by linarith, by linarith⟩

/-- The reduction of an argument beyond the period: quotient, remainder and their signs. -/
theorem addRangeReduce_of_gt_facts (x P : α) (hP : 0 < P) (hx : P < |x|)
    (hr : INT_MIN ≤ truncInt (x / P) ∧ truncInt (x / P) ≤ INT_MAX) :
    addRangeReduce x P (1 / P)
        = .ok ({ quad := truncInt (x / P), noReduciton := false },
            x - (truncInt (x / P) : α) * P)
      ∧ truncInt (x / P) ≠ 0
      ∧ (0 < x → 0 < truncInt (x / P))
      ∧ (x < 0 → truncInt (x / P) < 0)
      ∧ |x - (truncInt (x / P) : α) * P| < P
      ∧ (0 < x → 0 ≤ x - (truncInt (x / P) : α) * P)
      ∧ (x < 0 → x - (truncInt (x / P) : α) * P ≤ 0) := by
  have hmul : x * (1 / P) = x / P := by ring
  have hred := addRangeReduce_of_gt x P (1 / P) hx (by rwa [hmul])
  rw [hmul] at hred
  refine ⟨hred, ?_⟩
  rcases lt_or_le x 0 with hneg | hpos
  · have hx2 : x < -P := by
      rw [abs_of_neg hneg] at hx; linarith
    obtain ⟨h1, h2, h3⟩ := trunc_quot_neg x P hP hx2
    refine ⟨by omega, fun h => absurd h (by linarith), fun _ => by omega, ?_,
      fun h => absurd h (by linarith), fun _ => h2⟩
    rw [abs_lt]; exact ⟨h3, by linarith⟩
  · have hx2 : P < x := by
      rwa [abs_of_nonneg hpos] at hx
    obtain ⟨h1, h2, h3⟩ := trunc_quot_pos x P hP hx2
    refine ⟨by omega, fun _ => by omega, fun h => absurd h (by linarith), ?_,
      fun _ => h2, fun h => absurd h (by linarith)⟩
    rw [abs_lt]; exact ⟨by linarith, h3⟩

/-- C5: `addRangeReduce(x, P, 1/P)` reports `noReduciton = true` exactly when `|x| ≤ P`,
and then it returns `quad = 0` and leaves `x` unchanged. -/
theorem addRangeReduce_noReduction_iff (x P : α) :
    ((∃ q y, addRangeReduce x P (1 / P) = .ok ({ quad := q, noReduciton := true }, y))
        ↔ |x| ≤ P)
      ∧ (|x| ≤ P →
          addRangeReduce x P (1 / P) = .ok ({ quad := 0, noReduciton := true }, x)) := by
  refine ⟨⟨?_, fun h => ⟨0, x, addRangeReduce_of_le x P _ h⟩⟩, addRangeReduce_of_le x P _⟩
  rintro ⟨q, y, h⟩
  by_contra hgt
  rw [not_le] at hgt
  by_cases hr : INT_MIN ≤ truncInt (x * (1 / P)) ∧ truncInt (x * (1 / P)) ≤ INT_MAX
  · rw [addRangeReduce_of_gt x P _ hgt hr] at h
    simp at h
  · rw [addRangeReduce_of_gt_error x P _ hgt hr] at h
    simp at h

/-- Witness for C5 at `x = 1`, `P = 2`. -/
theorem addRangeReduce_noReduction_iff_witness :
    |(1 : ℚ)| ≤ 2
      ∧ addRangeReduce (1 : ℚ) 2 (1 / 2) = .ok ({ quad := 0, noReduciton := true }, 1) :=
  ⟨by norm_num, (addRangeReduce_noReduction_iff (1 : ℚ) 2).2 (by norm_num)⟩

end RangeReduction

/-! ## Quadrant and octant selection -/

section
variable {α : Type} [LinearOrderedField α] [FloorRing α]

theorem land_three_eq_mod (m : Int) (h : 0 ≤ m) : Int.land m 3 = m % 4 := by
  obtain ⟨n, rfl⟩ := Int.eq_ofNat_of_zero_le h
  show ((n &&& 3 : Nat) : Int) = (n : Int) % 4
  have : n &&& 3 = n % 4 := Nat.and_pow_two_sub_one_eq_mod n 2
  rw [this]; rfl

theorem mul_signOf (q : Int) : q * signOf q = |q| := by
  unfold signOf
  split_ifs with h
  · rw [abs_of_nonneg h, mul_one]
  · rw [abs_of_neg (not_le.mp h)]; ring

theorem imul_signOf (q : Int) (h : INT_MIN < q ∧ q ≤ INT_MAX) :
    imul q (signOf q) = .ok |q| := by
  have h1 : INT_MIN ≤ |q| ∧ |q| ≤ INT_MAX := by
    unfold INT_MIN INT_MAX at *
    constructor
    · have := abs_nonneg q; omega
    · rw [abs_le]; omega
  simp [imul, mul_signOf, h1]

theorem sinPolyWith_of_reduced (S C : α → α) (P inv x y : α) (q : Int)
    (h : addRangeReduce x P inv = .ok ({ quad := q, noReduciton := false }, y))
    (hq : INT_MIN < q ∧ q ≤ INT_MAX) :
    sinPolyWith S C P inv x
      = .ok ((signOf q : α) * quadSin S C (|q| % 4) (y * (signOf q : α))) := by
  have hk : |q| % 4 = 0 ∨ |q| % 4 = 1 ∨ |q| % 4 = 2 ∨ |q| % 4 = 3 := by
    have := abs_nonneg q; omega
  have hs : (if q ≥ 0 then (1 : Int) else -1) = signOf q := rfl
  simp only [sinPolyWith, h, bind, Except.bind, hs, imul_signOf q hq, Pi3by2_2Pi,
    land_three_eq_mod _ (abs_nonneg q), pure, Except.pure]
  rcases hk with hk | hk | hk | hk <;> simp [hk, quadSin]

theorem cosPolyWith_of_reduced (S C : α → α) (P inv x y : α) (q : Int)
    (h : addRangeReduce x P inv = .ok ({ quad := q, noReduciton := false }, y))
    (hq : INT_MIN < q ∧ q ≤ INT_MAX) :
    cosPolyWith S C P inv x = .ok (quadCos S C (|q| % 4) (y * (signOf q : α))) := by
  have hk : |q| % 4 = 0 ∨ |q| % 4 = 1 ∨ |q| % 4 = 2 ∨ |q| % 4 = 3 := by
    have := abs_nonneg q; omega
  have hs : (if q ≥ 0 then (1 : Int) else -1) = signOf q := rfl
  simp only [cosPolyWith, h, bind, Except.bind, hs, imul_signOf q hq, Pi3by2_2Pi,
    land_three_eq_mod _ (abs_nonneg q), pure, Except.pure]
  rcases hk with hk | hk | hk | hk <;> simp [hk, quadCos]

theorem sinPolyWith_of_le (S C : α → α) (P inv x : α) (h : |x| ≤ P) :
    sinPolyWith S C P inv x = .ok (S x) := by
  simp [sinPolyWith, addRangeReduce_of_le x P inv h, bind, Except.bind, pure, Except.pure]

theorem cosPolyWith_of_le (S C : α → α) (P inv x : α) (h : |x| ≤ P) :
    cosPolyWith S C P inv x = .ok (C x) := by
  simp [cosPolyWith, addRangeReduce_of_le x P inv h, bind, Except.bind, pure, Except.pure]


theorem abs_truncInt_le (t : α) : ((|truncInt t| : Int) : α) ≤ |t| := by
  rcases le_or_lt 0 t with h | h
  · rw [truncInt_of_nonneg h, abs_of_nonneg (Int.floor_nonneg.mpr h), abs_of_nonneg h]
    exact Int.floor_le t
  · rw [truncInt_of_neg h, abs_of_neg h]
    have hc : ⌈t⌉ ≤ 0 := Int.ceil_le.mpr (by simpa using h.le)
    rw [abs_of_nonpos hc]
    push_cast
    have := Int.le_ceil t
    linarith

theorem truncInt_in_range (t : α) (h : |t| < 2147483648) :
    INT_MIN < truncInt t ∧ truncInt t ≤ INT_MAX := by
  have h1 := abs_truncInt_le t
  have h2 : ((|truncInt t| : Int) : α) < ((2147483648 : Int) : α) := by
    push_cast; push_cast at h1; linarith
  have h3 : |truncInt t| < 2147483648 := by exact_mod_cast h2
  rw [abs_lt] at h3
  unfold INT_MIN INT_MAX
  omega

end

open Real in
theorem real_sin_add_quadrants (r : ℝ) (m : Int) :
    Real.sin (r + (m : ℝ) * (π / 2)) = quadSin Real.sin Real.cos (m % 4) r := by
  have hm : m = m % 4 + 4 * (m / 4) := (Int.emod_add_ediv m 4).symm
  have hk : m % 4 = 0 ∨ m % 4 = 1 ∨ m % 4 = 2 ∨ m % 4 = 3 := by omega
  have e : r + (m : ℝ) * (π / 2) = (r + ((m % 4 : Int) : ℝ) * (π / 2)) + ((m / 4 : Int) : ℝ) * (2 * π) := by
    conv_lhs => rw [hm]
    push_cast; ring
  rw [e, Real.sin_add_int_mul_two_pi]
  rcases hk with hk | hk | hk | hk <;> rw [hk] <;> simp [quadSin]
  · exact Real.sin_add_pi_div_two r
  · have : r + 2 * (π / 2) = r + π := by ring
    rw [this, Real.sin_add_pi]
  · have : r + 3 * (π / 2) = (r + π / 2) + π := by ring
    rw [this, Real.sin_add_pi, Real.sin_add_pi_div_two]

open Real in
theorem real_cos_add_quadrants (r : ℝ) (m : Int) :
    Real.cos (r + (m : ℝ) * (π / 2)) = quadCos Real.sin Real.cos (m % 4) r := by
  have hm : m = m % 4 + 4 * (m / 4) := (Int.emod_add_ediv m 4).symm
  have hk : m % 4 = 0 ∨ m % 4 = 1 ∨ m % 4 = 2 ∨ m % 4 = 3 := by omega
  have e : r + (m : ℝ) * (π / 2) = (r + ((m % 4 : Int) : ℝ) * (π / 2)) + ((m / 4 : Int) : ℝ) * (2 * π) := by
    conv_lhs => rw [hm]
    push_cast; ring
  rw [e, Real.cos_add_int_mul_two_pi]
  rcases hk with hk | hk | hk | hk <;> rw [hk] <;> simp [quadCos]
  · exact Real.cos_add_pi_div_two r
  · have : r + 2 * (π / 2) = r + π := by ring
    rw [this, Real.cos_add_pi]
  · have : r + 3 * (π / 2) = (r + π / 2) + π := by ring
    rw [this, Real.cos_add_pi, Real.cos_add_pi_div_two, neg_neg]


section
variable {α : Type} [LinearOrderedField α] [FloorRing α]

theorem signOf_cast_mul_self (q : Int) : ((signOf q : Int) : α) * ((signOf q : Int) : α) = 1 := by
  unfold signOf; split_ifs <;> simp

/-- Everything the selectors use about a reduced argument, in terms of `|x|`. -/
theorem reduce_facts (x P : α) (hP : 0 < P) (hx : P < |x|) (hr : |x / P| < 2147483648) :
    addRangeReduce x P (1 / P)
        = .ok ({ quad := truncInt (x / P), noReduciton := false },
            x - (truncInt (x / P) : α) * P)
      ∧ (INT_MIN < truncInt (x / P) ∧ truncInt (x / P) ≤ INT_MAX)
      ∧ (x - (truncInt (x / P) : α) * P) * ((signOf (truncInt (x / P)) : Int) : α)
          = |x - (truncInt (x / P) : α) * P|
      ∧ |x - (truncInt (x / P) : α) * P| < P
      ∧ x = ((signOf (truncInt (x / P)) : Int) : α) * |x|
      ∧ |x| = |x - (truncInt (x / P) : α) * P| + ((|truncInt (x / P)| : Int) : α) * P := by
  have hq := truncInt_in_range (x / P) hr
  obtain ⟨h1, h2, h3, h4, h5, h6, h7⟩ :=
    addRangeReduce_of_gt_facts x P hP hx ⟨hq.1.le, hq.2⟩
  refine ⟨h1, hq, ?_, h5, ?_, ?_⟩
  all_goals
    rcases lt_or_le x 0 with hneg | hpos
    · have hqn := h4 hneg
      have hyn := h7 hneg
      have hs : signOf (truncInt (x / P)) = -1 := by
        unfold signOf; rw [if_neg (by omega)]
      try rw [hs]
      try rw [abs_of_neg hneg]
      try rw [abs_of_nonpos hyn]
      try rw [abs_of_neg hqn]
      push_cast; ring
    · have hx0 : 0 < x := by
        rw [abs_of_nonneg hpos] at hx; linarith
      have hqp := h3 hx0
      have hyp := h6 hx0
      have hs : signOf (truncInt (x / P)) = 1 := by
        unfold signOf; rw [if_pos (by omega)]
      try rw [hs]
      try rw [abs_of_pos hx0]
      try rw [abs_of_nonneg hyp]
      try rw [abs_of_pos hqp]
      push_cast; ring

end

open Real in
theorem abs_div_pi_lt (x c : ℝ) (hc : 0 < c) (hc4 : c ≤ 4) (hx : |x| ≤ 100) :
    |x / (π / c)| < 2147483648 := by
  have hpi := Real.pi_gt_three
  have hP : (0 : ℝ) < π / c := by positivity
  rw [abs_div, abs_of_pos hP, div_lt_iff₀ hP]
  have h1 : (3 : ℝ) / 4 ≤ π / c := by
    rw [div_le_div_iff₀ (by norm_num) hc]; nlinarith
  nlinarith [abs_nonneg x]

open Real in
/-- C2: with the exact sine and cosine on `[-π/2, π/2]` as inner evaluators and
`HALF_PI = π/2`, the polynomial branches of `Trig::sin` and `Trig::cos` return the true
sine and cosine of every `x` with `|x / HALF_PI|` in `int` range; on a reduced argument,
with `k = |quad| mod 4` and `r = |remainder|`, sine is `sign(quad) * [S r, C r, -S r, -C r][k]`
and cosine is `[C r, -S r, -C r, S r][k]`. -/
theorem polySelector_exact (S C : ℝ → ℝ)
    (hS : ∀ t : ℝ, |t| ≤ π / 2 → S t = Real.sin t)
    (hC : ∀ t : ℝ, |t| ≤ π / 2 → C t = Real.cos t)
    (x : ℝ) (hr : |x / (π / 2)| < 2147483648) :
    sinPolyWith S C (π / 2) (1 / (π / 2)) x = .ok (Real.sin x)
      ∧ cosPolyWith S C (π / 2) (1 / (π / 2)) x = .ok (Real.cos x)
      ∧ (π / 2 < |x| →
          sinPolyWith S C (π / 2) (1 / (π / 2)) x
              = .ok (((signOf (truncInt (x / (π / 2))) : Int) : ℝ)
                  * quadSin S C (|truncInt (x / (π / 2))| % 4)
                      |x - (truncInt (x / (π / 2)) : ℝ) * (π / 2)|)
            ∧ cosPolyWith S C (π / 2) (1 / (π / 2)) x
              = .ok (quadCos S C (|truncInt (x / (π / 2))| % 4)
                      |x - (truncInt (x / (π / 2)) : ℝ) * (π / 2)|)) := by
  have hP : (0 : ℝ) < π / 2 := by positivity
  rcases le_or_lt |x| (π / 2) with hle | hgt
  · refine ⟨?_, ?_, fun h => absurd h (not_lt.mpr hle)⟩
    · rw [sinPolyWith_of_le S C _ _ x hle, hS x hle]
    · rw [cosPolyWith_of_le S C _ _ x hle, hC x hle]
  · obtain ⟨h1, hq, h3, h4, h5, h6⟩ := reduce_facts x (π / 2) hP hgt hr
    have hsin := sinPolyWith_of_reduced S C _ _ x _ _ h1 hq
    have hcos := cosPolyWith_of_reduced S C _ _ x _ _ h1 hq
    rw [h3] at hsin hcos
    set q := truncInt (x / (π / 2)) with hqdef
    set y := x - (q : ℝ) * (π / 2) with hydef
    have hy : |(|y|)| ≤ π / 2 := by rw [abs_abs]; exact h4.le
    have hSq : quadSin S C (|q| % 4) |y| = quadSin Real.sin Real.cos (|q| % 4) |y| := by
      simp only [quadSin, hS _ hy, hC _ hy]
    have hCq : quadCos S C (|q| % 4) |y| = quadCos Real.sin Real.cos (|q| % 4) |y| := by
      simp only [quadCos, hS _ hy, hC _ hy]
    have hsx : Real.sin x = ((signOf q : Int) : ℝ) * Real.sin |x| := by
      conv_lhs => rw [h5]
      unfold signOf; split_ifs <;> simp
    have hcx : Real.cos x = Real.cos |x| := (Real.cos_abs x).symm
    have hsa : Real.sin |x| = quadSin Real.sin Real.cos (|q| % 4) |y| := by
      rw [h6]; exact real_sin_add_quadrants _ _
    have hca : Real.cos |x| = quadCos Real.sin Real.cos (|q| % 4) |y| := by
      rw [h6]; exact real_cos_add_quadrants _ _
    refine ⟨?_, ?_, fun _ => ⟨hsin, hcos⟩⟩
    · rw [hsin, hSq, hsx, hsa]
    · rw [hcos, hCq, hcx, hca]


open Real in
/-- Witness for C2 at `x = 2`, with the real sine and cosine as inner evaluators. -/
theorem polySelector_exact_witness :
    |(2 : ℝ) / (π / 2)| < 2147483648
      ∧ sinPolyWith Real.sin Real.cos (π / 2) (1 / (π / 2)) 2 = .ok (Real.sin 2)
      ∧ cosPolyWith Real.sin Real.cos (π / 2) (1 / (π / 2)) 2 = .ok (Real.cos 2) :=
  have h : |(2 : ℝ) / (π / 2)| < 2147483648 :=
    abs_div_pi_lt 2 2 (by norm_num) (by norm_num) (by norm_num)
  ⟨h, (polySelector_exact Real.sin Real.cos (fun _ _ => rfl) (fun _ _ => rfl) 2 h).1,
    (polySelector_exact Real.sin Real.cos (fun _ _ => rfl) (fun _ _ => rfl) 2 h).2.1⟩

section
variable {α : Type} [LinearOrderedField α] [FloorRing α]

theorem land_seven_eq_mod (m : Int) (h : 0 ≤ m) : Int.land m 7 = m % 8 := by
  obtain ⟨n, rfl⟩ := Int.eq_ofNat_of_zero_le h
  show ((n &&& 7 : Nat) : Int) = (n : Int) % 8
  have : n &&& 7 = n % 8 := Nat.and_pow_two_sub_one_eq_mod n 3
  rw [this]; rfl

theorem iabs_eq (q : Int) (h : INT_MIN < q ∧ q ≤ INT_MAX) : iabs q = .ok |q| := by
  unfold iabs
  split_ifs with h0
  · rw [abs_of_nonneg h0]
  · have h1 : INT_MIN ≤ -q ∧ -q ≤ INT_MAX := by
      unfold INT_MIN INT_MAX at *; omega
    rw [abs_of_neg (not_le.mp h0)]
    simp [ineg, h1]

theorem mul_sign_self (y : α) : y * (((if y ≥ 0 then 1 else -1 : Int) : Int) : α) = |y| := by
  split_ifs with h
  · rw [abs_of_nonneg h]; simp
  · rw [abs_of_neg (not_le.mp h)]; simp

theorem cosTableWith_of_le (cosT sinT : α → α) (P inv x : α) (h : |x| ≤ P) :
    cosTableWith cosT sinT P inv x = .ok (cosT |x|) := by
  simp only [cosTableWith, addRangeReduce_of_le x P inv h, bind, Except.bind, mul_sign_self,
    if_true, pure, Except.pure]

theorem cosTableWith_of_reduced (cosT sinT : α → α) (P inv x y : α) (q : Int)
    (h : addRangeReduce x P inv = .ok ({ quad := q, noReduciton := false }, y))
    (hq : INT_MIN < q ∧ q ≤ INT_MAX) :
    cosTableWith cosT sinT P inv x = .ok (octCos cosT sinT P (|q| % 8) |y|) := by
  have hk : |q| % 8 = 0 ∨ |q| % 8 = 1 ∨ |q| % 8 = 2 ∨ |q| % 8 = 3 ∨ |q| % 8 = 4
      ∨ |q| % 8 = 5 ∨ |q| % 8 = 6 ∨ |q| % 8 = 7 := by
    have := abs_nonneg q; omega
  simp only [cosTableWith, h, bind, Except.bind, mul_sign_self, iabs_eq q hq,
    PiPi3by4_2Pi, land_seven_eq_mod _ (abs_nonneg q), pure, Except.pure]
  rcases hk with hk | hk | hk | hk | hk | hk | hk | hk <;> simp [hk, octCos]

theorem cosTableWith_of_error (cosT sinT : α → α) (P inv x : α) (e : Fault)
    (h : addRangeReduce x P inv = .error e) :
    cosTableWith cosT sinT P inv x = .error e := by
  simp only [cosTableWith, h, bind, Except.bind]

end

open Real in
theorem real_cos_add_octants (r : ℝ) (m : Int) :
    Real.cos (r + (m : ℝ) * (π / 4)) = octCos Real.cos Real.sin (π / 4) (m % 8) r := by
  have hm : m = m % 8 + 8 * (m / 8) := (Int.emod_add_ediv m 8).symm
  have hk : m % 8 = 0 ∨ m % 8 = 1 ∨ m % 8 = 2 ∨ m % 8 = 3 ∨ m % 8 = 4
      ∨ m % 8 = 5 ∨ m % 8 = 6 ∨ m % 8 = 7 := by omega
  have e : r + (m : ℝ) * (π / 4)
      = (r + ((m % 8 : Int) : ℝ) * (π / 4)) + ((m / 8 : Int) : ℝ) * (2 * π) := by
    conv_lhs => rw [hm]
    push_cast; ring
  rw [e, Real.cos_add_int_mul_two_pi]
  rcases hk with hk | hk | hk | hk | hk | hk | hk | hk <;> rw [hk] <;> simp [octCos]
  · have : r + π / 4 = π / 2 - (π / 4 - r) := by ring
    rw [this, Real.cos_pi_div_two_sub]
  · have : r + 2 * (π / 4) = r + π / 2 := by ring
    rw [this, Real.cos_add_pi_div_two]
  · have : r + 3 * (π / 4) = π - (π / 4 - r) := by ring
    rw [this, Real.cos_pi_sub]
  · have : r + 4 * (π / 4) = r + π := by ring
    rw [this, Real.cos_add_pi]
  · have : r + 5 * (π / 4) = (π / 2 - (π / 4 - r)) + π := by ring
    rw [this, Real.cos_add_pi, Real.cos_pi_div_two_sub]
  · have : r + 6 * (π / 4) = (r + π / 2) + π := by ring
    rw [this, Real.cos_add_pi, Real.cos_add_pi_div_two, neg_neg]
  · have : r + 7 * (π / 4) = -(π / 4 - r) + 2 * π := by ring
    rw [this, Real.cos_add_two_pi, Real.cos_neg]

open Real in
theorem cosTable_exact (cosT sinT : ℝ → ℝ)
    (hc : ∀ t : ℝ, 0 ≤ t → t ≤ π / 4 → cosT t = Real.cos t)
    (hs : ∀ t : ℝ, 0 ≤ t → t ≤ π / 4 → sinT t = Real.sin t)
    (x : ℝ) (hr : |x / (π / 4)| < 2147483648) :
    cosTableWith cosT sinT (π / 4) (1 / (π / 4)) x = .ok (Real.cos x) := by
  have hP : (0 : ℝ) < π / 4 := by positivity
  rcases le_or_lt |x| (π / 4) with hle | hgt
  · rw [cosTableWith_of_le cosT sinT _ _ x hle, hc _ (abs_nonneg x) hle, Real.cos_abs]
  · obtain ⟨h1, hq, h3, h4, h5, h6⟩ := reduce_facts x (π / 4) hP hgt hr
    rw [cosTableWith_of_reduced cosT sinT _ _ x _ _ h1 hq]
    set q := truncInt (x / (π / 4)) with hqdef
    set y := x - (q : ℝ) * (π / 4) with hydef
    have hy0 : 0 ≤ |y| := abs_nonneg y
    have hm0 : 0 ≤ π / 4 - |y| := by linarith
    have hm1 : π / 4 - |y| ≤ π / 4 := by linarith
    have hq8 : octCos cosT sinT (π / 4) (|q| % 8) |y|
        = octCos Real.cos Real.sin (π / 4) (|q| % 8) |y| := by
      simp only [octCos, hc _ hy0 h4.le, hs _ hy0 h4.le, hc _ hm0 hm1, hs _ hm0 hm1]
    rw [hq8, ← Real.cos_abs x, h6]
    exact congrArg _ (real_cos_add_octants _ _).symm

open Real in
/-- C3 (amended): with the exact cosine and sine on `[0, π/4]` as table lookups,
`QUARTER_PI = π/4` and `HALF_PI = π/2`, the table branch of `Trig::cos` returns `cos x` for
every `x` with `|x / QUARTER_PI|` in `int` range, and the table branch of `Trig::sin`
returns `sin x` for every `x` with `|(HALF_PI - x) / QUARTER_PI|` in `int` range. -/
theorem tableSelector_exact (cosT sinT : ℝ → ℝ)
    (hc : ∀ t : ℝ, 0 ≤ t → t ≤ π / 4 → cosT t = Real.cos t)
    (hs : ∀ t : ℝ, 0 ≤ t → t ≤ π / 4 → sinT t = Real.sin t) (x : ℝ) :
    (|x / (π / 4)| < 2147483648 →
        cosTableWith cosT sinT (π / 4) (1 / (π / 4)) x = .ok (Real.cos x))
      ∧ (|(π / 2 - x) / (π / 4)| < 2147483648 →
        sinTableWith cosT sinT (π / 2) (π / 4) (1 / (π / 4)) x = .ok (Real.sin x)) := by
  refine ⟨cosTable_exact cosT sinT hc hs x, fun h => ?_⟩
  unfold sinTableWith
  rw [cosTable_exact cosT sinT hc hs _ h, Real.cos_pi_div_two_sub]

open Real in
/-- Witness for the amended C3 at `x = 1`, with the real cosine and sine as lookups. -/
theorem tableSelector_exact_witness :
    (|(1 : ℝ) / (π / 4)| < 2147483648 ∧ |(π / 2 - 1) / (π / 4)| < 2147483648)
      ∧ cosTableWith Real.cos Real.sin (π / 4) (1 / (π / 4)) 1 = .ok (Real.cos 1)
      ∧ sinTableWith Real.cos Real.sin (π / 2) (π / 4) (1 / (π / 4)) 1 = .ok (Real.sin 1) :=
  have h1 : |(1 : ℝ) / (π / 4)| < 2147483648 :=
    abs_div_pi_lt 1 4 (by norm_num) (by norm_num) (by norm_num)
  have h2 : |(π / 2 - 1) / (π / 4)| < 2147483648 :=
    abs_div_pi_lt _ 4 (by norm_num) (by norm_num) (by
      rw [abs_le]; constructor <;> linarith [Real.pi_gt_three, Real.pi_lt_d2])
  ⟨⟨h1, h2⟩,
    (tableSelector_exact Real.cos Real.sin (fun _ _ _ => rfl) (fun _ _ _ => rfl) 1).1 h1,
    (tableSelector_exact Real.cos Real.sin (fun _ _ _ => rfl) (fun _ _ _ => rfl) 1).2 h2⟩

open Real in
/-- C3 (counterexample): at `x = 2^31 * π/4` the table branch of `Trig::cos`, given the
exact cosine and sine as lookups, does not return `cos x`: the quotient `2^31` does not fit
an `int` and the conversion in `addRangeReduce` is undefined. -/
theorem tableSelector_exact_fails :
    cosTableWith Real.cos Real.sin (π / 4) (1 / (π / 4)) (2147483648 * (π / 4))
        = .error Fault.intConversion
      ∧ cosTableWith Real.cos Real.sin (π / 4) (1 / (π / 4)) (2147483648 * (π / 4))
        ≠ .ok (Real.cos (2147483648 * (π / 4))) := by
  have hP : (0 : ℝ) < π / 4 := by positivity
  have hx : π / 4 < |2147483648 * (π / 4)| := by
    rw [abs_of_pos (by positivity)]; nlinarith
  have ht : (2147483648 * (π / 4)) * (1 / (π / 4)) = (2147483648 : ℝ) := by
    field_simp
  have hq : truncInt ((2147483648 * (π / 4)) * (1 / (π / 4))) = 2147483648 := by
    rw [ht, truncInt_of_nonneg (by norm_num)]
    exact_mod_cast Int.floor_intCast (2147483648 : Int)
  have he : cosTableWith Real.cos Real.sin (π / 4) (1 / (π / 4)) (2147483648 * (π / 4))
      = .error Fault.intConversion := by
    apply cosTableWith_of_error
    apply addRangeReduce_of_gt_error _ _ _ hx
    rw [hq]; unfold INT_MIN INT_MAX; omega
  exact ⟨he, by rw [he]; simp⟩


section
variable {α : Type} [LinearOrderedField α] [FloorRing α]

theorem sin_inner_polinomial_neg (p : Nat) (x : α) :
    sin_inner_polinomial p (-x) = -sin_inner_polinomial p x := by
  unfold sin_inner_polinomial
  by_cases h : x = 0
  · simp [h]
  · simp [h, neg_mul_neg]

theorem cos_inner_polinomial_neg (p : Nat) (x : α) :
    cos_inner_polinomial p (-x) = cos_inner_polinomial p x := by
  unfold cos_inner_polinomial
  by_cases h : x = 0
  · simp [h]
  · simp [h, neg_mul_neg]

theorem signOf_neg (q : Int) (h : q ≠ 0) : signOf (-q) = -signOf q := by
  unfold signOf
  split_ifs <;> omega

theorem sinPolyWith_fault (S C : α → α) (P inv x : α) (h : P < |x|)
    (hq : ¬ (INT_MIN < truncInt (x * inv) ∧ truncInt (x * inv) ≤ INT_MAX)) :
    (sinPolyWith S C P inv x).toOption = none := by
  by_cases hr : INT_MIN ≤ truncInt (x * inv) ∧ truncInt (x * inv) ≤ INT_MAX
  · have hmin : truncInt (x * inv) = INT_MIN := by omega
    have hi : imul INT_MIN (-1) = .error Fault.intOverflow := by
      simp [imul, INT_MIN, INT_MAX]
    have hs : (if INT_MIN ≥ 0 then (1 : Int) else -1) = -1 := by decide
    simp only [sinPolyWith, addRangeReduce_of_gt x P inv h hr, bind, Except.bind, hmin, hs, hi]
    rfl
  · simp only [sinPolyWith, addRangeReduce_of_gt_error x P inv h hr, bind, Except.bind]
    rfl

theorem cosPolyWith_fault (S C : α → α) (P inv x : α) (h : P < |x|)
    (hq : ¬ (INT_MIN < truncInt (x * inv) ∧ truncInt (x * inv) ≤ INT_MAX)) :
    (cosPolyWith S C P inv x).toOption = none := by
  by_cases hr : INT_MIN ≤ truncInt (x * inv) ∧ truncInt (x * inv) ≤ INT_MAX
  · have hmin : truncInt (x * inv) = INT_MIN := by omega
    have hi : imul INT_MIN (-1) = .error Fault.intOverflow := by
      simp [imul, INT_MIN, INT_MAX]
    have hs : (if INT_MIN ≥ 0 then (1 : Int) else -1) = -1 := by decide
    simp only [cosPolyWith, addRangeReduce_of_gt x P inv h hr, bind, Except.bind, hmin, hs, hi]
    rfl
  · simp only [cosPolyWith, addRangeReduce_of_gt_error x P inv h hr, bind, Except.bind]
    rfl

/-- Symmetry of the polynomial selectors over an odd `S` and an even `C`. -/
theorem polyWith_neg (S C : α → α) (hS : ∀ t, S (-t) = -S t) (hC : ∀ t, C (-t) = C t)
    (P : α) (hP : 0 < P) (x : α) :
    (sinPolyWith S C P (1 / P) (-x)).toOption
        = (sinPolyWith S C P (1 / P) x).toOption.map (fun v => -v)
      ∧ (cosPolyWith S C P (1 / P) (-x)).toOption = (cosPolyWith S C P (1 / P) x).toOption
      ∧ (|x / P| < 2147483648 →
          ∃ s c, sinPolyWith S C P (1 / P) x = .ok s ∧ cosPolyWith S C P (1 / P) x = .ok c
            ∧ sinPolyWith S C P (1 / P) (-x) = .ok (-s)
            ∧ cosPolyWith S C P (1 / P) (-x) = .ok c) := by
  rcases le_or_lt |x| P with hle | hgt
  · have hle2 : |-x| ≤ P := by rwa [abs_neg]
    rw [sinPolyWith_of_le S C _ _ x hle, sinPolyWith_of_le S C _ _ _ hle2,
      cosPolyWith_of_le S C _ _ x hle, cosPolyWith_of_le S C _ _ _ hle2, hS, hC]
    exact ⟨rfl, rfl, fun _ => ⟨_, _, rfl, rfl, rfl, rfl⟩⟩
  · have hgt2 : P < |-x| := by rwa [abs_neg]
    have hmul : x * (1 / P) = x / P := by ring
    have hmul2 : -x * (1 / P) = -(x / P) := by ring
    by_cases hq : INT_MIN < truncInt (x / P) ∧ truncInt (x / P) ≤ INT_MAX
    · have hq1 : INT_MIN ≤ truncInt (x / P) ∧ truncInt (x / P) ≤ INT_MAX := ⟨hq.1.le, hq.2⟩
      have hq2 : INT_MIN < truncInt (-x / P) ∧ truncInt (-x / P) ≤ INT_MAX := by
        rw [neg_div, truncInt_neg]; unfold INT_MIN INT_MAX at *; omega
      obtain ⟨h1, h2, -⟩ := addRangeReduce_of_gt_facts x P hP hgt hq1
      obtain ⟨h3, -⟩ := addRangeReduce_of_gt_facts (-x) P hP hgt2 ⟨hq2.1.le, hq2.2⟩
      have e1 := sinPolyWith_of_reduced S C _ _ _ _ _ h1 hq
      have e2 := sinPolyWith_of_reduced S C _ _ _ _ _ h3 hq2
      have e3 := cosPolyWith_of_reduced S C _ _ _ _ _ h1 hq
      have e4 := cosPolyWith_of_reduced S C _ _ _ _ _ h3 hq2
      have hy : (-x - ((truncInt (-x / P) : Int) : α) * P)
            * ((signOf (truncInt (-x / P)) : Int) : α)
          = (x - ((truncInt (x / P) : Int) : α) * P) * ((signOf (truncInt (x / P)) : Int) : α) := by
        rw [neg_div, truncInt_neg, signOf_neg _ h2]; push_cast; ring
      have hk : |truncInt (-x / P)| = |truncInt (x / P)| := by
        rw [neg_div, truncInt_neg, abs_neg]
      have hsg : ((signOf (truncInt (-x / P)) : Int) : α)
          = -((signOf (truncInt (x / P)) : Int) : α) := by
        rw [neg_div, truncInt_neg, signOf_neg _ h2]; push_cast; ring
      rw [hy, hk, hsg] at e2
      rw [hy, hk] at e4
      rw [e1, e2, e3, e4]
      refine ⟨?_, rfl, fun _ => ⟨_, _, rfl, rfl, ?_, rfl⟩⟩
      · simp [Except.toOption]
      · rw [neg_mul]
    · have hq2 : ¬ (INT_MIN < truncInt (-x * (1 / P)) ∧ truncInt (-x * (1 / P)) ≤ INT_MAX) := by
        rw [hmul2, truncInt_neg]; unfold INT_MIN INT_MAX at *; omega
      have hq1 : ¬ (INT_MIN < truncInt (x * (1 / P)) ∧ truncInt (x * (1 / P)) ≤ INT_MAX) := by
        rwa [hmul]
      rw [sinPolyWith_fault S C _ _ x hgt hq1, sinPolyWith_fault S C _ _ _ hgt2 hq2,
        cosPolyWith_fault S C _ _ x hgt hq1, cosPolyWith_fault S C _ _ _ hgt2 hq2]
      refine ⟨rfl, rfl, fun hr => absurd (truncInt_in_range _ hr) hq⟩

/-- C6: for every accuracy level and every `x`, the polynomial branches satisfy
`sin(-x) = -sin(x)` and `cos(-x) = cos(x)` exactly: the evaluation at `-x` is defined exactly
when the evaluation at `x` is, and the values are then opposite (sine) or equal (cosine);
for `|x / HALF_PI|` in `int` range both are defined, reduced or not. -/
theorem poly_symmetry (a : Fin 11) (x : α) :
    (sinPoly a (-x)).toOption = (sinPoly a x).toOption.map (fun v => -v)
      ∧ (cosPoly a (-x)).toOption = (cosPoly a x).toOption
      ∧ (|x / (HALF_PI : α)| < 2147483648 →
          ∃ s c, sinPoly a x = .ok s ∧ cosPoly a x = .ok c
            ∧ sinPoly a (-x) = .ok (-s) ∧ cosPoly a (-x) = .ok c) := by
  have hP : (0 : α) < (HALF_PI : α) := by
    have : (0 : ℚ) < HALF_PI := by norm_num [HALF_PI]
    exact_mod_cast this
  have hinv : ((INV_HALF_PI : ℚ) : α) = 1 / (HALF_PI : α) := by
    simp [INV_HALF_PI]
  unfold sinPoly cosPoly
  rw [hinv]
  exact polyWith_neg _ _ (sin_inner_polinomial_neg _) (cos_inner_polinomial_neg _) _ hP x


/-- Witness for C6 at accuracy level `0` and `x = 2` over the rationals. -/
theorem poly_symmetry_witness :
    |(2 : ℚ) / ((HALF_PI : ℚ) : ℚ)| < 2147483648
      ∧ ∃ s c, sinPoly (0 : Fin 11) (2 : ℚ) = .ok s ∧ cosPoly (0 : Fin 11) (2 : ℚ) = .ok c
          ∧ sinPoly (0 : Fin 11) (-2 : ℚ) = .ok (-s) ∧ cosPoly (0 : Fin 11) (-2 : ℚ) = .ok c :=
  have h : |(2 : ℚ) / ((HALF_PI : ℚ) : ℚ)| < 2147483648 := by
    norm_num [HALF_PI, abs_of_pos]
  ⟨h, (poly_symmetry (0 : Fin 11) (2 : ℚ)).2.2 h⟩

end
/-! ## Tangent at the asymptotes -/

theorem truncInt_intCast {α : Type} [LinearOrderedField α] [FloorRing α] (n : Int) :
    truncInt ((n : Int) : α) = n := by
  unfold truncInt
  split_ifs <;> simp

theorem tan_inner_polynomial_zero {α : Type} [LinearOrderedField α] (fast : Bool) :
    tan_inner_polynomial fast (0 : α) = .ok 0 := by
  cases fast
  · have h : ((TAN_DEGREE_4.getD 2 0 : ℚ) : α) ≠ 0 := by
      have : (TAN_DEGREE_4.getD 2 0 : ℚ) ≠ 0 := by norm_num [TAN_DEGREE_4]
      exact_mod_cast this
    simp only [tan_inner_polynomial, fdiv, zero_mul, mul_zero, add_zero, Bool.false_eq_true,
      if_false, if_neg h, zero_div]
  · have h : ((TAN_DEGREE_2.getD 1 0 : ℚ) : α) ≠ 0 := by
      have : (TAN_DEGREE_2.getD 1 0 : ℚ) ≠ 0 := by norm_num [TAN_DEGREE_2]
      exact_mod_cast this
    simp only [tan_inner_polynomial, fdiv, zero_mul, mul_zero, add_zero, if_true, if_neg h,
      zero_div]

/-- Reduction of an integer multiple of `QUARTER_PI`: the quotient is the multiple and the
remainder is exactly zero. -/
theorem reduce_mul_quarter_pi (n : Int) (h2 : 2 ≤ n) (h100 : n ≤ 100) :
    addRangeReduce ((n : ℚ) * QUARTER_PI) QUARTER_PI INV_QUARTER_PI
      = .ok ({ quad := n, noReduciton := false }, 0) := by
  have hn : (2 : ℚ) ≤ (n : ℚ) := by exact_mod_cast h2
  have hQ : (0 : ℚ) < QUARTER_PI := by norm_num [QUARTER_PI]
  have hx : (QUARTER_PI : ℚ) < |(n : ℚ) * QUARTER_PI| := by
    rw [abs_of_pos (by positivity)]; nlinarith
  have ht : ((n : ℚ) * QUARTER_PI) * INV_QUARTER_PI = ((n : Int) : ℚ) := by
    unfold INV_QUARTER_PI; field_simp
  have hq : truncInt (((n : ℚ) * QUARTER_PI) * INV_QUARTER_PI) = n := by
    rw [ht, truncInt_intCast]
  rw [addRangeReduce_of_gt _ _ _ hx (by rw [hq]; unfold INT_MIN INT_MAX; omega), hq]
  simp

/-- C8 (the code at a failing input): the reduction of `x = 10 * QUARTER_PI` by
`QUARTER_PI` leaves the remainder zero in octant `10 mod 8 = 2`, and `Trig::tan`, in both
modes, does not return `+infinity` there but divides by `tan_inner_polynomial(0) = 0`; the
guard only recognises `quad = ±2` and `quad = ±6`, as at `2 * QUARTER_PI` and
`6 * QUARTER_PI`. -/
theorem tan_asymptote_second_period (fast : Bool) :
    addRangeReduce (10 * QUARTER_PI : ℚ) QUARTER_PI INV_QUARTER_PI
        = .ok ({ quad := 10, noReduciton := false }, 0)
      ∧ tan fast (10 * QUARTER_PI : ℚ) = .error Fault.divByZero
      ∧ tan fast (10 * QUARTER_PI : ℚ) ≠ .ok Fp.posInf
      ∧ tan fast (2 * QUARTER_PI : ℚ) = .ok Fp.posInf
      ∧ tan fast (6 * QUARTER_PI : ℚ) = .ok Fp.posInf := by
  have hQ : (0 : ℚ) < QUARTER_PI := by norm_num [QUARTER_PI]
  have hx10 : (10 * QUARTER_PI : ℚ) ≥ 0 := by positivity
  have hx2 : (2 * QUARTER_PI : ℚ) ≥ 0 := by positivity
  have hx6 : (6 * QUARTER_PI : ℚ) ≥ 0 := by positivity
  have r10 := reduce_mul_quarter_pi 10 (by norm_num) (by norm_num)
  have r2 := reduce_mul_quarter_pi 2 (by norm_num) (by norm_num)
  have r6 := reduce_mul_quarter_pi 6 (by norm_num) (by norm_num)
  push_cast at r10 r2 r6
  have hl : Int.land 10 7 = 2 := by decide
  have hi : imul 10 1 = .ok 10 := by simp [imul, INT_MIN, INT_MAX]
  have h : tan fast (10 * QUARTER_PI : ℚ) = .error Fault.divByZero := by
    simp only [tan, tanWith, Rat.cast_id, r10, bind, Except.bind, hx10, if_true, PiPi3by4_2Pi]
    norm_num [hi, hl, tan_inner_polynomial_zero, fdiv, pure, Except.pure]
  refine ⟨r10, h, by rw [h]; simp, ?_, ?_⟩
  · simp only [tan, tanWith, Rat.cast_id, r2, bind, Except.bind, hx2, if_true]
    norm_num [pure, Except.pure]
  · simp only [tan, tanWith, Rat.cast_id, r6, bind, Except.bind, hx6, if_true]
    norm_num [pure, Except.pure]

/-! ## The infinity guard -/

/-- C9 (the code at a failing input): at `+infinity` each of `sin`, `cos`, `sinDeg`,
`cosDeg`, `sinFast`, `cosFast` returns a NaN from its guard; at `-infinity` the guard,
which compares with `+infinity` only, does not fire: `sin`, `cos`, `sinDeg`, `cosDeg` go on
to the range reduction and its undefined conversion to `int`, and `sinFast`, `cosFast`
hand `-infinity` to the installed kernel. -/
theorem infinity_guard {α : Type} [LinearOrderedField α] [FloorRing α] (a : Fin 11)
    (sinPtr cosPtr : Fp α → Except Fault (Fp α)) :
    (Trig.sin a (Fp.posInf : Fp α) = .ok Fp.nan ∧ Trig.cos a (Fp.posInf : Fp α) = .ok Fp.nan
        ∧ Trig.sinDeg a (Fp.posInf : Fp α) = .ok Fp.nan
        ∧ Trig.cosDeg a (Fp.posInf : Fp α) = .ok Fp.nan
        ∧ Trig.sinFast sinPtr Fp.posInf = .ok Fp.nan
        ∧ Trig.cosFast cosPtr Fp.posInf = .ok Fp.nan)
      ∧ Trig.sin a (Fp.negInf : Fp α) = .error Fault.intConversion
      ∧ Trig.cos a (Fp.negInf : Fp α) = .error Fault.intConversion
      ∧ Trig.sinDeg a (Fp.negInf : Fp α) = .error Fault.intConversion
      ∧ Trig.cosDeg a (Fp.negInf : Fp α) = .error Fault.intConversion
      ∧ Trig.sinFast sinPtr Fp.negInf = sinPtr Fp.negInf
      ∧ Trig.cosFast cosPtr Fp.negInf = cosPtr Fp.negInf := by
  refine ⟨⟨rfl, rfl, rfl, rfl, rfl, rfl⟩, rfl, rfl, rfl, rfl, rfl, rfl⟩

/-! ## Integer overloads -/

theorem deg90_bounds :
    (1.5707 : ℝ) ≤ 90 * ((DEG_TO_RAD : ℚ) : ℝ) ∧ 90 * ((DEG_TO_RAD : ℚ) : ℝ) ≤ 1.5708
      ∧ 0 ≤ 90 * ((DEG_TO_RAD : ℚ) : ℝ) * ((DEG_TO_RAD : ℚ) : ℝ)
      ∧ 90 * ((DEG_TO_RAD : ℚ) : ℝ) * ((DEG_TO_RAD : ℚ) : ℝ) ≤ 0.03 := by
  have h : ((DEG_TO_RAD : ℚ) : ℝ) = 1.7453292519943295769236907684886e-2 := by
    unfold DEG_TO_RAD; norm_num
  rw [h]; norm_num

open Real in
theorem sin_deg90_bounds :
    Real.sin (90 * ((DEG_TO_RAD : ℚ) : ℝ) * ((DEG_TO_RAD : ℚ) : ℝ)) ≤ 0.03
      ∧ 0.99 ≤ Real.sin (90 * ((DEG_TO_RAD : ℚ) : ℝ))
      ∧ 0.99 ≤ Real.cos (90 * ((DEG_TO_RAD : ℚ) : ℝ) * ((DEG_TO_RAD : ℚ) : ℝ))
      ∧ Real.cos (90 * ((DEG_TO_RAD : ℚ) : ℝ)) ≤ 0.03 := by
  obtain ⟨h1, h2, h3, h4⟩ := deg90_bounds
  set u := 90 * ((DEG_TO_RAD : ℚ) : ℝ) with hu
  set v := 90 * ((DEG_TO_RAD : ℚ) : ℝ) * ((DEG_TO_RAD : ℚ) : ℝ) with hv
  have hpi1 := Real.pi_gt_d2
  have hpi2 := Real.pi_lt_d2
  have hd : |π / 2 - u| ≤ 0.01 := by
    rw [abs_le]; constructor <;> linarith
  have hd2 : (π / 2 - u) ^ 2 ≤ 0.0001 := by
    have := sq_le_sq' (by linarith [(abs_le.mp hd).1]) (abs_le.mp hd).2
    nlinarith
  refine ⟨le_trans (Real.sin_le h3) h4, ?_, ?_, ?_⟩
  · have := Real.one_sub_sq_div_two_le_cos (x := π / 2 - u)
    rw [Real.cos_pi_div_two_sub] at this
    linarith
  · have := Real.one_sub_sq_div_two_le_cos (x := v)
    nlinarith
  · have h := Real.abs_sin_le_abs (x := π / 2 - u)
    rw [Real.sin_pi_div_two_sub] at h
    have := le_abs_self (Real.cos u)
    linarith

/-- C10 (the code at a failing input): the integral overloads of `sinDeg` and `cosDeg`
return what the floating point overloads return on `double(n)`, but the integral overloads
of `sinFastDeg` and `cosFastDeg` pass `degToRad(double(n))` to the floating point overload,
which converts to radians once more; with the exact sine and cosine as kernels the results
at `n = 90` differ from those of the floating point overloads at `90.0`. -/
theorem fastDeg_int_overload :
    (∀ (a : Fin 11) (n : Int),
        (Trig.sinDegInt a n : Except Fault (Fp ℝ)) = Trig.sinDeg a (Fp.finite (n : ℝ))
          ∧ (Trig.cosDegInt a n : Except Fault (Fp ℝ)) = Trig.cosDeg a (Fp.finite (n : ℝ)))
      ∧ (∀ (ptr : Fp ℝ → Except Fault (Fp ℝ)) (n : Int),
          Trig.sinFastDegInt ptr n = Trig.sinFastDeg ptr (Trig.degToRad (Fp.finite (n : ℝ)))
            ∧ Trig.cosFastDegInt ptr n
              = Trig.cosFastDeg ptr (Trig.degToRad (Fp.finite (n : ℝ))))
      ∧ Trig.sinFastDegInt (Trig.stdKernel Real.sin) 90
          ≠ Trig.sinFastDeg (Trig.stdKernel Real.sin) (Fp.finite 90)
      ∧ Trig.cosFastDegInt (Trig.stdKernel Real.cos) 90
          ≠ Trig.cosFastDeg (Trig.stdKernel Real.cos) (Fp.finite 90) := by
  obtain ⟨h1, h2, h3, h4⟩ := sin_deg90_bounds
  refine ⟨fun a n => ⟨rfl, rfl⟩, fun ptr n => ⟨rfl, rfl⟩, ?_, ?_⟩
  · intro h
    simp only [Trig.sinFastDegInt, Trig.sinFastDeg, Trig.sinFast, Trig.degToRad,
      Trig.stdKernel, Int.cast_ofNat, reduceCtorEq, if_false, Except.ok.injEq,
      Fp.finite.injEq] at h
    linarith
  · intro h
    simp only [Trig.cosFastDegInt, Trig.cosFastDeg, Trig.cosFast, Trig.degToRad,
      Trig.stdKernel, Int.cast_ofNat, reduceCtorEq, if_false, Except.ok.injEq,
      Fp.finite.injEq] at h
    linarith

/-! ## The sine and cosine series -/

theorem hasDerivAt_sinSeries (n : ℕ) (x : ℝ) :
    HasDerivAt (sinSeries n) (cosSeries n x) x := by
  unfold sinSeries cosSeries
  have h : ∀ k ∈ Finset.range n,
      HasDerivAt (fun x : ℝ => (-1) ^ k * x ^ (2 * k + 1) / ((2 * k + 1).factorial : ℝ))
        ((-1) ^ k * x ^ (2 * k) / ((2 * k).factorial : ℝ)) x := by
    intro k _
    have h1 := ((hasDerivAt_pow (2 * k + 1) x).const_mul ((-1 : ℝ) ^ k)).div_const
      ((2 * k + 1).factorial : ℝ)
    convert h1 using 1
    have hf : ((2 * k + 1).factorial : ℝ) = (2 * k + 1 : ℕ) * ((2 * k).factorial : ℝ) := by
      rw [Nat.factorial_succ]; push_cast; ring
    have h0 : ((2 * k).factorial : ℝ) ≠ 0 := by positivity
    have h2 : ((2 * k + 1 : ℕ) : ℝ) ≠ 0 := by positivity
    rw [hf]
    simp only [Nat.add_sub_cancel]
    field_simp
    ring
  have := HasDerivAt.sum h
  convert this using 1

theorem hasDerivAt_cosSeries_succ (n : ℕ) (x : ℝ) :
    HasDerivAt (cosSeries (n + 1)) (-sinSeries n x) x := by
  unfold sinSeries cosSeries
  have h : ∀ k ∈ Finset.range (n + 1),
      HasDerivAt (fun x : ℝ => (-1) ^ k * x ^ (2 * k) / ((2 * k).factorial : ℝ))
        (if k = 0 then 0 else (-1) ^ k * x ^ (2 * k - 1) / ((2 * k - 1).factorial : ℝ)) x := by
    intro k _
    rcases Nat.eq_zero_or_pos k with hk | hk
    · subst hk
      simpa using hasDerivAt_const x (1 : ℝ)
    · rw [if_neg (by omega)]
      have h1 := ((hasDerivAt_pow (2 * k) x).const_mul ((-1 : ℝ) ^ k)).div_const
        ((2 * k).factorial : ℝ)
      convert h1 using 1
      obtain ⟨j, rfl⟩ : ∃ j, k = j + 1 := ⟨k - 1, by omega⟩
      have e : 2 * (j + 1) - 1 = 2 * j + 1 := by omega
      have e2 : 2 * (j + 1) = (2 * j + 1) + 1 := by omega
      rw [e]
      have hf : ((2 * (j + 1)).factorial : ℝ)
          = ((2 * j + 1 + 1 : ℕ) : ℝ) * ((2 * j + 1).factorial : ℝ) := by
        rw [e2, Nat.factorial_succ]; push_cast; ring
      have h0 : ((2 * j + 1).factorial : ℝ) ≠ 0 := by positivity
      have h2 : ((2 * j + 1 + 1 : ℕ) : ℝ) ≠ 0 := by positivity
      rw [hf]
      push_cast
      field_simp
      ring
  have := HasDerivAt.sum h
  convert this using 1
  rw [Finset.sum_range_succ', ← Finset.sum_neg_distrib]
  simp only [if_true, add_zero]
  apply Finset.sum_congr rfl
  intro k _
  rw [if_neg (by omega)]
  have e : 2 * (k + 1) - 1 = 2 * k + 1 := by omega
  rw [e, pow_succ]
  ring


theorem nonneg_of_hasDerivAt_nonneg (f f' : ℝ → ℝ) (hd : ∀ x, HasDerivAt f (f' x) x)
    (h0 : f 0 = 0) (hf' : ∀ x, 0 ≤ x → 0 ≤ f' x) (x : ℝ) (hx : 0 ≤ x) : 0 ≤ f x := by
  have hmono : MonotoneOn f (Set.Ici 0) := by
    apply monotoneOn_of_deriv_nonneg (convex_Ici 0)
    · exact fun y _ => (hd y).continuousAt.continuousWithinAt
    · exact fun y _ => (hd y).differentiableAt.differentiableWithinAt
    · intro y hy
      rw [interior_Ici] at hy
      rw [(hd y).deriv]
      exact hf' y (le_of_lt hy)
  have := hmono (Set.mem_Ici.mpr le_rfl) (Set.mem_Ici.mpr hx) hx
  rwa [h0] at this

theorem sinSeries_zero (n : ℕ) : sinSeries n (0 : ℝ) = 0 := by
  unfold sinSeries
  apply Finset.sum_eq_zero
  intro k _
  simp

theorem cosSeries_succ_zero (n : ℕ) : cosSeries (n + 1) (0 : ℝ) = 1 := by
  unfold cosSeries
  rw [Finset.sum_range_succ']
  have : ∑ k ∈ Finset.range n, (-1 : ℝ) ^ (k + 1) * 0 ^ (2 * (k + 1)) / ((2 * (k + 1)).factorial : ℝ) = 0 := by
    apply Finset.sum_eq_zero
    intro k _
    simp
  rw [this]; simp

/-- The partial sums of the sine and cosine series alternate around the functions on the
non-negative reals. -/
theorem series_alternate (n : ℕ) :
    (∀ x : ℝ, 0 ≤ x → 0 ≤ (-1) ^ (n + 1) * (Real.cos x - cosSeries (n + 1) x))
      ∧ (∀ x : ℝ, 0 ≤ x → 0 ≤ (-1) ^ (n + 1) * (Real.sin x - sinSeries (n + 1) x)) := by
  induction n with
  | zero =>
    have hc : ∀ x : ℝ, 0 ≤ x → 0 ≤ (-1) ^ (0 + 1) * (Real.cos x - cosSeries (0 + 1) x) := by
      intro x _
      have h1 : cosSeries (0 + 1) x = 1 := by simp [cosSeries]
      rw [h1]
      have := Real.cos_le_one x
      simp only [zero_add, pow_one]; linarith
    refine ⟨hc, ?_⟩
    apply nonneg_of_hasDerivAt_nonneg _ (fun x => (-1) ^ (0 + 1) * (Real.cos x - cosSeries (0 + 1) x))
    · intro x
      exact ((Real.hasDerivAt_sin x).sub (hasDerivAt_sinSeries _ x)).const_mul _
    · simp [sinSeries_zero]
    · exact hc
  | succ m ih =>
    have hc : ∀ x : ℝ, 0 ≤ x →
        0 ≤ (-1) ^ (m + 1 + 1) * (Real.cos x - cosSeries (m + 1 + 1) x) := by
      apply nonneg_of_hasDerivAt_nonneg _
        (fun x => (-1) ^ (m + 1) * (Real.sin x - sinSeries (m + 1) x))
      · intro x
        have h := ((Real.hasDerivAt_cos x).sub (hasDerivAt_cosSeries_succ (m + 1) x)).const_mul
          ((-1 : ℝ) ^ (m + 1 + 1))
        convert h using 1
        rw [pow_succ (-1 : ℝ) (m + 1)]; ring
      · simp [cosSeries_succ_zero]
      · exact ih.2
    refine ⟨hc, ?_⟩
    apply nonneg_of_hasDerivAt_nonneg _
      (fun x => (-1) ^ (m + 1 + 1) * (Real.cos x - cosSeries (m + 1 + 1) x))
    · intro x
      exact ((Real.hasDerivAt_sin x).sub (hasDerivAt_sinSeries _ x)).const_mul _
    · simp [sinSeries_zero]
    · exact hc

theorem abs_le_of_alternate (s d t : ℝ) (hs : s = 1 ∨ s = -1) (h1 : 0 ≤ s * d)
    (h2 : 0 ≤ -s * (d - s * t)) : |d| ≤ t := by
  rcases hs with rfl | rfl
  · rw [abs_le]; constructor <;> nlinarith
  · rw [abs_le]; constructor <;> nlinarith

theorem neg_one_pow_cases (n : ℕ) : ((-1 : ℝ) ^ n = 1) ∨ ((-1 : ℝ) ^ n = -1) :=
  neg_one_pow_eq_or ℝ n

theorem sin_series_bound_nonneg (n : ℕ) (x : ℝ) (hx : 0 ≤ x) :
    |Real.sin x - sinSeries (n + 1) x| ≤ x ^ (2 * (n + 1) + 1) / ((2 * (n + 1) + 1).factorial : ℝ) := by
  have h1 := (series_alternate n).2 x hx
  have h2 := (series_alternate (n + 1)).2 x hx
  have e : sinSeries (n + 1 + 1) x = sinSeries (n + 1) x
      + (-1) ^ (n + 1) * (x ^ (2 * (n + 1) + 1) / ((2 * (n + 1) + 1).factorial : ℝ)) := by
    unfold sinSeries; rw [Finset.sum_range_succ _ (n + 1)]; ring
  apply abs_le_of_alternate _ _ _ (neg_one_pow_cases (n + 1)) h1
  rw [e, pow_succ (-1 : ℝ) (n + 1)] at h2
  linarith

theorem cos_series_bound_nonneg (n : ℕ) (x : ℝ) (hx : 0 ≤ x) :
    |Real.cos x - cosSeries (n + 1) x| ≤ x ^ (2 * (n + 1)) / ((2 * (n + 1)).factorial : ℝ) := by
  have h1 := (series_alternate n).1 x hx
  have h2 := (series_alternate (n + 1)).1 x hx
  have e : cosSeries (n + 1 + 1) x = cosSeries (n + 1) x
      + (-1) ^ (n + 1) * (x ^ (2 * (n + 1)) / ((2 * (n + 1)).factorial : ℝ)) := by
    unfold cosSeries; rw [Finset.sum_range_succ _ (n + 1)]; ring
  apply abs_le_of_alternate _ _ _ (neg_one_pow_cases (n + 1)) h1
  rw [e, pow_succ (-1 : ℝ) (n + 1)] at h2
  linarith


/-! ## Polynomial evaluation -/

theorem hornerLoop_eq_polyEval {α : Type} [LinearOrderedField α] (data : List ℚ) (y : α) :
    hornerLoop data y = polyEval data y := by
  rcases List.eq_nil_or_concat data with h | ⟨d, top, h⟩
  · subst h; rfl
  · subst h
    unfold hornerLoop polyEval
    rw [List.concat_eq_append, List.reverse_append]
    simp only [List.reverse_cons, List.reverse_nil, List.nil_append, List.singleton_append,
      List.foldl_reverse, List.foldr_append, List.foldr_cons, List.foldr_nil, mul_zero,
      add_zero]
    congr 1
    funext c acc
    ring

theorem polyEval_nil {α : Type} [Field α] (y : α) : polyEval [] y = 0 := rfl

theorem polyEval_cons {α : Type} [Field α] (c : ℚ) (cs : List ℚ) (y : α) :
    polyEval (c :: cs) y = (c : α) + y * polyEval cs y := rfl

theorem polyEval_map_neg {α : Type} [Field α] [CharZero α] (cs : List ℚ) (y : α) :
    polyEval (cs.map (fun b => -b)) y = -polyEval cs y := by
  induction cs with
  | nil => simp [polyEval_nil]
  | cons c cs ih => simp only [List.map_cons, polyEval_cons, ih]; push_cast; ring

theorem polyEval_sub {α : Type} [Field α] [CharZero α] (as bs : List ℚ) (y : α) :
    polyEval as y - polyEval bs y = polyEval (polyDiff as bs) y := by
  induction as generalizing bs with
  | nil => simp [polyDiff, polyEval_nil, polyEval_map_neg]
  | cons a as ih =>
    cases bs with
    | nil => simp [polyDiff, polyEval_nil]
    | cons b bs =>
      simp only [polyDiff, polyEval_cons, ← ih]; push_cast; ring

theorem polyEval_abs_nonneg (cs : List ℚ) (Y : ℝ) (hY : 0 ≤ Y) :
    0 ≤ polyEval (cs.map (fun c => |c|)) Y := by
  induction cs with
  | nil => simp [polyEval_nil]
  | cons c cs ih =>
    simp only [List.map_cons, polyEval_cons]
    have : (0 : ℝ) ≤ ((|c| : ℚ) : ℝ) := by exact_mod_cast abs_nonneg c
    positivity

theorem abs_polyEval_le (cs : List ℚ) (y Y : ℝ) (hy : 0 ≤ y) (hY : y ≤ Y) :
    |polyEval cs y| ≤ polyEval (cs.map (fun c => |c|)) Y := by
  induction cs with
  | nil => simp [polyEval_nil]
  | cons c cs ih =>
    simp only [List.map_cons, polyEval_cons]
    have h1 : |(c : ℝ) + y * polyEval cs y| ≤ |(c : ℝ)| + |y * polyEval cs y| := abs_add _ _
    have h2 : |y * polyEval cs y| = y * |polyEval cs y| := by
      rw [abs_mul, abs_of_nonneg hy]
    have h3 : y * |polyEval cs y| ≤ Y * polyEval (cs.map (fun c => |c|)) Y :=
      mul_le_mul hY ih (abs_nonneg _) (le_trans hy hY)
    have h4 : ((|c| : ℚ) : ℝ) = |(c : ℝ)| := by push_cast; rfl
    rw [h4]; linarith

theorem polyEval_ratCast (cs : List ℚ) (y : ℚ) :
    ((polyEval cs y : ℚ) : ℝ) = polyEval cs (y : ℝ) := by
  induction cs with
  | nil => simp [polyEval_nil]
  | cons c cs ih => simp only [polyEval_cons]; push_cast; rw [ih]

theorem sinSeries_ten (x : ℝ) : sinSeries 10 x = x * polyEval sinTaylor (x ^ 2) := by
  simp only [sinSeries, Finset.sum_range_succ, Finset.sum_range_zero, sinTaylor, polyEval,
    List.foldr_cons, List.foldr_nil, Nat.factorial]
  push_cast
  ring

theorem cosSeries_ten (x : ℝ) : cosSeries 10 x = polyEval cosTaylor (x ^ 2) := by
  simp only [cosSeries, Finset.sum_range_succ, Finset.sum_range_zero, cosTaylor, polyEval,
    List.foldr_cons, List.foldr_nil, Nat.factorial]
  push_cast
  ring

theorem sin_taylor_bound (x : ℝ) :
    |Real.sin x - x * polyEval sinTaylor (x ^ 2)| ≤ |x| ^ 21 / 51090942171709440000 := by
  have key : ∀ t : ℝ, 0 ≤ t →
      |Real.sin t - t * polyEval sinTaylor (t ^ 2)| ≤ t ^ 21 / 51090942171709440000 := by
    intro t ht
    have h := sin_series_bound_nonneg 9 t ht
    rw [sinSeries_ten] at h
    have hf : (((2 * (9 + 1) + 1).factorial : ℕ) : ℝ) = 51090942171709440000 := by
      norm_num [Nat.factorial]
    rw [hf] at h
    exact h
  rcases le_or_lt 0 x with hx | hx
  · rw [abs_of_nonneg hx]; exact key x hx
  · have h := key (-x) (by linarith)
    rw [abs_of_neg hx]
    rw [Real.sin_neg, neg_sq] at h
    have e : -Real.sin x - -x * polyEval sinTaylor (x ^ 2)
        = -(Real.sin x - x * polyEval sinTaylor (x ^ 2)) := by ring
    rwa [e, abs_neg] at h

theorem cos_taylor_bound (x : ℝ) :
    |Real.cos x - polyEval cosTaylor (x ^ 2)| ≤ |x| ^ 20 / 2432902008176640000 := by
  have key : ∀ t : ℝ, 0 ≤ t →
      |Real.cos t - polyEval cosTaylor (t ^ 2)| ≤ t ^ 20 / 2432902008176640000 := by
    intro t ht
    have h := cos_series_bound_nonneg 9 t ht
    rw [cosSeries_ten] at h
    have hf : (((2 * (9 + 1)).factorial : ℕ) : ℝ) = 2432902008176640000 := by
      norm_num [Nat.factorial]
    rw [hf] at h
    exact h
  rcases le_or_lt 0 x with hx | hx
  · rw [abs_of_nonneg hx]; exact key x hx
  · have h := key (-x) (by linarith)
    rw [abs_of_neg hx]
    rwa [Real.cos_neg, neg_sq] at h

theorem sq_le_radius_sq (x : ℝ) (hx : |x| ≤ ((evalRadius : ℚ) : ℝ)) :
    0 ≤ x ^ 2 ∧ x ^ 2 ≤ (((evalRadius ^ 2 : ℚ)) : ℝ) := by
  refine ⟨sq_nonneg x, ?_⟩
  push_cast
  rw [← sq_abs x]
  exact pow_le_pow_left₀ (abs_nonneg x) hx 2

theorem sin_inner_error (p : Nat) (x : ℝ) (hx : |x| ≤ ((evalRadius : ℚ) : ℝ)) :
    |sin_inner_polinomial p x - Real.sin x| ≤ ((sinErrQ p : ℚ) : ℝ) := by
  obtain ⟨hy0, hy1⟩ := sq_le_radius_sq x hx
  have hR : (0 : ℝ) ≤ ((evalRadius : ℚ) : ℝ) := le_trans (abs_nonneg x) hx
  have hY : (0 : ℝ) ≤ (((evalRadius ^ 2 : ℚ)) : ℝ) := le_trans hy0 hy1
  have hpoly := abs_polyEval_le (polyDiff (SIN_POLIES.getD p []) sinTaylor) _ _ hy0 hy1
  have hnn := polyEval_abs_nonneg (polyDiff (SIN_POLIES.getD p []) sinTaylor) _ hY
  have ht := sin_taylor_bound x
  have hpow : |x| ^ 21 ≤ (((evalRadius : ℚ)) : ℝ) ^ 21 := pow_le_pow_left₀ (abs_nonneg x) hx 21
  have hE : ((sinErrQ p : ℚ) : ℝ)
      = ((evalRadius : ℚ) : ℝ)
          * polyEval ((polyDiff (SIN_POLIES.getD p []) sinTaylor).map (fun c => |c|))
              (((evalRadius ^ 2 : ℚ)) : ℝ)
        + ((evalRadius : ℚ) : ℝ) ^ 21 / 51090942171709440000 := by
    unfold sinErrQ; push_cast; rw [polyEval_ratCast]; push_cast; rfl
  rw [hE]
  by_cases h0 : x = 0
  · subst h0
    simp only [sin_inner_polinomial, if_true, Real.sin_zero, sub_zero, abs_zero]
    positivity
  · have hs : sin_inner_polinomial p x = polyEval (SIN_POLIES.getD p []) (x ^ 2) * x := by
      simp only [sin_inner_polinomial, if_neg h0, hornerLoop_eq_polyEval, pow_two]
    have e : sin_inner_polinomial p x - Real.sin x
        = x * polyEval (polyDiff (SIN_POLIES.getD p []) sinTaylor) (x ^ 2)
          - (Real.sin x - x * polyEval sinTaylor (x ^ 2)) := by
      rw [hs, ← polyEval_sub]; ring
    rw [e]
    have h1 := abs_sub (x * polyEval (polyDiff (SIN_POLIES.getD p []) sinTaylor) (x ^ 2))
      (Real.sin x - x * polyEval sinTaylor (x ^ 2))
    have h2 : |x * polyEval (polyDiff (SIN_POLIES.getD p []) sinTaylor) (x ^ 2)|
        ≤ ((evalRadius : ℚ) : ℝ)
          * polyEval ((polyDiff (SIN_POLIES.getD p []) sinTaylor).map (fun c => |c|))
              (((evalRadius ^ 2 : ℚ)) : ℝ) := by
      rw [abs_mul]
      exact mul_le_mul hx hpoly (abs_nonneg _) hR
    have h3 : |x| ^ 21 / 51090942171709440000
        ≤ ((evalRadius : ℚ) : ℝ) ^ 21 / 51090942171709440000 :=
      div_le_div_of_nonneg_right hpow (by norm_num)
    linarith

theorem cos_inner_error (p : Nat) (x : ℝ) (hx : |x| ≤ ((evalRadius : ℚ) : ℝ)) :
    |cos_inner_polinomial p x - Real.cos x| ≤ ((cosErrQ p : ℚ) : ℝ) := by
  obtain ⟨hy0, hy1⟩ := sq_le_radius_sq x hx
  have hR : (0 : ℝ) ≤ ((evalRadius : ℚ) : ℝ) := le_trans (abs_nonneg x) hx
  have hY : (0 : ℝ) ≤ (((evalRadius ^ 2 : ℚ)) : ℝ) := le_trans hy0 hy1
  have hpoly := abs_polyEval_le (polyDiff (COS_POLIES.getD p []) cosTaylor) _ _ hy0 hy1
  have hnn := polyEval_abs_nonneg (polyDiff (COS_POLIES.getD p []) cosTaylor) _ hY
  have ht := cos_taylor_bound x
  have hpow : |x| ^ 20 ≤ (((evalRadius : ℚ)) : ℝ) ^ 20 := pow_le_pow_left₀ (abs_nonneg x) hx 20
  have hE : ((cosErrQ p : ℚ) : ℝ)
      = polyEval ((polyDiff (COS_POLIES.getD p []) cosTaylor).map (fun c => |c|))
              (((evalRadius ^ 2 : ℚ)) : ℝ)
        + ((evalRadius : ℚ) : ℝ) ^ 20 / 2432902008176640000 := by
    unfold cosErrQ; push_cast; rw [polyEval_ratCast]; push_cast; rfl
  rw [hE]
  by_cases h0 : x = 0
  · subst h0
    simp only [cos_inner_polinomial, if_true, Real.cos_zero, sub_self, abs_zero]
    positivity
  · have hs : cos_inner_polinomial p x = polyEval (COS_POLIES.getD p []) (x ^ 2) := by
      simp only [cos_inner_polinomial, if_neg h0, hornerLoop_eq_polyEval, pow_two]
    have e : cos_inner_polinomial p x - Real.cos x
        = polyEval (polyDiff (COS_POLIES.getD p []) cosTaylor) (x ^ 2)
          - (Real.cos x - polyEval cosTaylor (x ^ 2)) := by
      rw [hs, ← polyEval_sub]; ring
    rw [e]
    have h1 := abs_sub (polyEval (polyDiff (COS_POLIES.getD p []) cosTaylor) (x ^ 2))
      (Real.cos x - polyEval cosTaylor (x ^ 2))
    have h3 : |x| ^ 20 / 2432902008176640000
        ≤ ((evalRadius : ℚ) : ℝ) ^ 20 / 2432902008176640000 :=
      div_le_div_of_nonneg_right hpow (by norm_num)
    linarith

set_option maxRecDepth 100000 in
theorem sinErrQ_le (p : Nat) (h1 : 1 ≤ p) (h7 : p ≤ 7) : sinErrQ p ≤ polyErr p := by
  interval_cases p
  · norm_num [sinErrQ, polyErr, evalRadius, polyEval, polyDiff, SIN_POLIES, SIN_DEGREE_5,
      sinTaylor, abs_of_neg, abs_of_pos]
  · norm_num [sinErrQ, polyErr, evalRadius, polyEval, polyDiff, SIN_POLIES, SIN_DEGREE_7,
      sinTaylor, abs_of_neg, abs_of_pos]
  · norm_num [sinErrQ, polyErr, evalRadius, polyEval, polyDiff, SIN_POLIES, SIN_DEGREE_9,
      sinTaylor, abs_of_neg, abs_of_pos]
  · norm_num [sinErrQ, polyErr, evalRadius, polyEval, polyDiff, SIN_POLIES, SIN_DEGREE_11,
      sinTaylor, abs_of_neg, abs_of_pos]
  · norm_num [sinErrQ, polyErr, evalRadius, polyEval, polyDiff, SIN_POLIES, SIN_DEGREE_13,
      sinTaylor, abs_of_neg, abs_of_pos]
  · norm_num [sinErrQ, polyErr, evalRadius, polyEval, polyDiff, SIN_POLIES, SIN_DEGREE_15,
      sinTaylor, abs_of_neg, abs_of_pos]
  · norm_num [sinErrQ, polyErr, evalRadius, polyEval, polyDiff, SIN_POLIES, SIN_DEGREE_17,
      sinTaylor, abs_of_neg, abs_of_pos]

set_option maxRecDepth 100000 in
theorem cosErrQ_le (p : Nat) (h1 : 1 ≤ p) (h7 : p ≤ 7) : cosErrQ p ≤ polyErr p := by
  interval_cases p
  · norm_num [cosErrQ, polyErr, evalRadius, polyEval, polyDiff, COS_POLIES, COS_DEGREE_6,
      cosTaylor, abs_of_neg, abs_of_pos]
  · norm_num [cosErrQ, polyErr, evalRadius, polyEval, polyDiff, COS_POLIES, COS_DEGREE_8,
      cosTaylor, abs_of_neg, abs_of_pos]
  · norm_num [cosErrQ, polyErr, evalRadius, polyEval, polyDiff, COS_POLIES, COS_DEGREE_10,
      cosTaylor, abs_of_neg, abs_of_pos]
  · norm_num [cosErrQ, polyErr, evalRadius, polyEval, polyDiff, COS_POLIES, COS_DEGREE_12,
      cosTaylor, abs_of_neg, abs_of_pos]
  · norm_num [cosErrQ, polyErr, evalRadius, polyEval, polyDiff, COS_POLIES, COS_DEGREE_14,
      cosTaylor, abs_of_neg, abs_of_pos]
  · norm_num [cosErrQ, polyErr, evalRadius, polyEval, polyDiff, COS_POLIES, COS_DEGREE_16,
      cosTaylor, abs_of_neg, abs_of_pos]
  · norm_num [cosErrQ, polyErr, evalRadius, polyEval, polyDiff, COS_POLIES, COS_DEGREE_18,
      cosTaylor, abs_of_neg, abs_of_pos]

/-! ## Accuracy of the polynomial path -/

theorem abs_sin_sub_sin_le (a b : ℝ) : |Real.sin a - Real.sin b| ≤ |a - b| := by
  rw [Real.sin_sub_sin, abs_mul, abs_mul]
  have h1 := Real.abs_sin_le_abs (x := (a - b) / 2)
  have h2 := Real.abs_cos_le_one ((a + b) / 2)
  have h3 : |(a - b) / 2| = |a - b| / 2 := by rw [abs_div]; norm_num
  have h4 : (0 : ℝ) ≤ |Real.sin ((a - b) / 2)| := abs_nonneg _
  have h5 : |(2 : ℝ)| = 2 := by norm_num
  rw [h5]
  nlinarith [abs_nonneg (Real.cos ((a + b) / 2)), abs_nonneg (a - b)]

theorem abs_cos_sub_cos_le (a b : ℝ) : |Real.cos a - Real.cos b| ≤ |a - b| := by
  rw [Real.cos_sub_cos, abs_mul, abs_mul]
  have h1 := Real.abs_sin_le_abs (x := (a - b) / 2)
  have h2 := Real.abs_sin_le_one ((a + b) / 2)
  have h3 : |(a - b) / 2| = |a - b| / 2 := by rw [abs_div]; norm_num
  have h4 : (0 : ℝ) ≤ |Real.sin ((a - b) / 2)| := abs_nonneg _
  have h5 : |(-2 : ℝ)| = 2 := by norm_num
  rw [h5]
  nlinarith [abs_nonneg (Real.sin ((a + b) / 2)), abs_nonneg (a - b)]

open Real in
/-- The literal `HALF_PI` lies just below `π/2`. -/
theorem half_pi_gap :
    ((HALF_PI : ℚ) : ℝ) = 1.5707963267948966192
      ∧ 0 < π / 2 - ((HALF_PI : ℚ) : ℝ) ∧ π / 2 - ((HALF_PI : ℚ) : ℝ) < 0.00000000000000000004 := by
  have h : ((HALF_PI : ℚ) : ℝ) = 1.5707963267948966192 := by
    unfold HALF_PI; norm_num
  have h1 := Real.pi_gt_d20
  have h2 := Real.pi_lt_d20
  rw [h]
  refine ⟨rfl, ?_, ?_⟩
  · linarith
  · linarith

theorem quad_close (S C : ℝ → ℝ) (k : Int) (r r' e : ℝ)
    (hS : |S r - Real.sin r'| ≤ e) (hC : |C r - Real.cos r'| ≤ e) :
    |quadSin S C k r - quadSin Real.sin Real.cos k r'| ≤ e
      ∧ |quadCos S C k r - quadCos Real.sin Real.cos k r'| ≤ e := by
  have hS' : |-S r - -Real.sin r'| ≤ e := by
    rw [show -S r - -Real.sin r' = -(S r - Real.sin r') by ring, abs_neg]; exact hS
  have hC' : |-C r - -Real.cos r'| ≤ e := by
    rw [show -C r - -Real.cos r' = -(C r - Real.cos r') by ring, abs_neg]; exact hC
  unfold quadSin quadCos
  constructor <;> split_ifs <;> assumption

theorem polyIndex_range (a : Fin 11) : 1 ≤ polyIndex a ∧ polyIndex a ≤ 7 := by
  fin_cases a <;> simp [polyIndex, SIN_COS_ACC_MAP]

open Real in
/-- Distance of the polynomial path from the true sine and cosine on `[-10π, 10π]`. -/
theorem poly_close (a : Fin 11) (x : ℝ) (hx : |x| ≤ 10 * π) :
    ∃ s c : ℝ, sinPoly a x = .ok s ∧ cosPoly a x = .ok c
      ∧ |s - Real.sin x| ≤ ((polyErr (polyIndex a) : ℚ) : ℝ) + 0.000000000000000001
      ∧ |c - Real.cos x| ≤ ((polyErr (polyIndex a) : ℚ) : ℝ) + 0.000000000000000001 := by
  obtain ⟨hHv, hgap0, hgap1⟩ := half_pi_gap
  obtain ⟨hp1, hp7⟩ := polyIndex_range a
  set p := polyIndex a with hp
  set H : ℝ := ((HALF_PI : ℚ) : ℝ) with hH
  have hpi1 := Real.pi_gt_d2
  have hpi2 := Real.pi_lt_d2
  have hH0 : (0 : ℝ) < H := by rw [hHv]; norm_num
  have hHR : H ≤ ((evalRadius : ℚ) : ℝ) := by
    rw [hHv]; unfold evalRadius; norm_num
  have hinv : ((INV_HALF_PI : ℚ) : ℝ) = 1 / H := by
    unfold INV_HALF_PI; push_cast; rfl
  have hSe : ∀ t : ℝ, |t| ≤ H → |sin_inner_polinomial p t - Real.sin t| ≤ ((polyErr p : ℚ) : ℝ) :=
    fun t ht => le_trans (sin_inner_error p t (le_trans ht hHR))
      (by exact_mod_cast sinErrQ_le p hp1 hp7)
  have hCe : ∀ t : ℝ, |t| ≤ H → |cos_inner_polinomial p t - Real.cos t| ≤ ((polyErr p : ℚ) : ℝ) :=
    fun t ht => le_trans (cos_inner_error p t (le_trans ht hHR))
      (by exact_mod_cast cosErrQ_le p hp1 hp7)
  unfold sinPoly cosPoly
  rw [hinv]
  rcases le_or_lt |x| H with hle | hgt
  · rw [sinPolyWith_of_le _ _ _ _ x hle, cosPolyWith_of_le _ _ _ _ x hle]
    refine ⟨_, _, rfl, rfl, ?_, ?_⟩
    · linarith [hSe x hle]
    · linarith [hCe x hle]
  · have hr : |x / H| < 2147483648 := by
      rw [abs_div, abs_of_pos hH0, div_lt_iff₀ hH0]
      rw [hHv]; nlinarith
    obtain ⟨h1, hq, h3, h4, h5, h6⟩ := reduce_facts x H hH0 hgt hr
    have hsin := sinPolyWith_of_reduced (sin_inner_polinomial p) (cos_inner_polinomial p)
      _ _ x _ _ h1 hq
    have hcos := cosPolyWith_of_reduced (sin_inner_polinomial p) (cos_inner_polinomial p)
      _ _ x _ _ h1 hq
    rw [h3] at hsin hcos
    rw [hsin, hcos]
    set q := truncInt (x / H) with hqdef
    set y := x - (q : ℝ) * H with hydef
    set n : Int := |q| with hn
    have hn0 : (0 : ℝ) ≤ (n : ℝ) := by exact_mod_cast abs_nonneg q
    have hn20 : (n : ℝ) ≤ 20 := by
      have hnH : (n : ℝ) * H ≤ 10 * π := by
        have := abs_nonneg y
        linarith
      by_contra hcon
      rw [not_le] at hcon
      have h21 : (21 : Int) ≤ n := by
        have : (20 : Int) < n := by exact_mod_cast hcon
        omega
      have h21r : (21 : ℝ) ≤ (n : ℝ) := by exact_mod_cast h21
      have : 21 * H ≤ (n : ℝ) * H := mul_le_mul_of_nonneg_right h21r hH0.le
      rw [hHv] at this hnH
      linarith
    set r' : ℝ := |y| - (n : ℝ) * (π / 2 - H) with hr'
    have hrr : |(|y|) - r'| ≤ 0.0000000000000000008 := by
      have e : |y| - r' = (n : ℝ) * (π / 2 - H) := by rw [hr']; ring
      rw [e, abs_of_nonneg (mul_nonneg hn0 hgap0.le)]
      nlinarith
    have hy : |(|y|)| ≤ H := by rw [abs_abs]; exact h4.le
    have hS1 : |sin_inner_polinomial p |y| - Real.sin r'|
        ≤ ((polyErr p : ℚ) : ℝ) + 0.000000000000000001 := by
      have t1 := hSe _ hy
      have t2 := abs_sin_sub_sin_le |y| r'
      have t3 := abs_sub_le (sin_inner_polinomial p |y|) (Real.sin |y|) (Real.sin r')
      linarith
    have hC1 : |cos_inner_polinomial p |y| - Real.cos r'|
        ≤ ((polyErr p : ℚ) : ℝ) + 0.000000000000000001 := by
      have t1 := hCe _ hy
      have t2 := abs_cos_sub_cos_le |y| r'
      have t3 := abs_sub_le (cos_inner_polinomial p |y|) (Real.cos |y|) (Real.cos r')
      linarith
    obtain ⟨hqs, hqc⟩ := quad_close _ _ (n % 4) _ _ _ hS1 hC1
    have hxa : |x| = r' + (n : ℝ) * (π / 2) := by rw [h6, hr']; ring
    have hsa : Real.sin |x| = quadSin Real.sin Real.cos (n % 4) r' := by
      rw [hxa]; exact real_sin_add_quadrants _ _
    have hca : Real.cos |x| = quadCos Real.sin Real.cos (n % 4) r' := by
      rw [hxa]; exact real_cos_add_quadrants _ _
    have hsx : Real.sin x = ((signOf q : Int) : ℝ) * Real.sin |x| := by
      conv_lhs => rw [h5]
      unfold signOf; split_ifs <;> simp
    have hcx : Real.cos x = Real.cos |x| := (Real.cos_abs x).symm
    refine ⟨_, _, rfl, rfl, ?_, ?_⟩
    · rw [hsx, hsa, ← mul_sub, abs_mul]
      have : |((signOf q : Int) : ℝ)| = 1 := by
        unfold signOf; split_ifs <;> simp
      rw [this, one_mul]; exact hqs
    · rw [hcx, hca]; exact hqc

theorem polyErr_le_errorBound (a : Fin 11) :
    2 * (((polyErr (polyIndex a) : ℚ) : ℝ) + 0.000000000000000001) + 0.000000000000000002
      ≤ ((errorBound a : ℚ) : ℝ) := by
  have h : 2 * (polyErr (polyIndex a) + 0.000000000000000001) + 0.000000000000000002
      ≤ errorBound a := by
    fin_cases a <;> norm_num [polyErr, polyIndex, errorBound, SIN_COS_ACC_MAP]
  have h2 : ((2 * (polyErr (polyIndex a) + 0.000000000000000001) + 0.000000000000000002 : ℚ) : ℝ)
      ≤ ((errorBound a : ℚ) : ℝ) := by exact_mod_cast h
  push_cast at h2
  linarith

theorem polyErr_nonneg (a : Fin 11) : (0 : ℝ) ≤ ((polyErr (polyIndex a) : ℚ) : ℝ) := by
  have h : (0 : ℚ) ≤ polyErr (polyIndex a) := by
    fin_cases a <;> norm_num [polyErr, polyIndex, SIN_COS_ACC_MAP]
  exact_mod_cast h

open Real in
/-- C1: for every accuracy level and every real `x` in `[-10π, 10π]`, the polynomial
branches of `Trig::sin` and `Trig::cos`, with the coefficients and `HALF_PI` as exact
rationals, return values within `errorBound(accuracy)` of the true sine and cosine. -/
theorem poly_accuracy (a : Fin 11) (x : ℝ) (hlo : -(10 * π) ≤ x) (hhi : x ≤ 10 * π) :
    ∃ s c : ℝ, sinPoly a x = .ok s ∧ cosPoly a x = .ok c
      ∧ |s - Real.sin x| ≤ ((errorBound a : ℚ) : ℝ)
      ∧ |c - Real.cos x| ≤ ((errorBound a : ℚ) : ℝ) := by
  obtain ⟨s, c, hs, hc, h1, h2⟩ := poly_close a x (abs_le.mpr ⟨hlo, hhi⟩)
  have h3 := polyErr_le_errorBound a
  have h4 := polyErr_nonneg a
  exact ⟨s, c, hs, hc, by linarith, by linarith⟩

open Real in
/-- Witness for C1 at accuracy level `0` and `x = 1`. -/
theorem poly_accuracy_witness :
    (-(10 * π) ≤ (1 : ℝ) ∧ (1 : ℝ) ≤ 10 * π)
      ∧ ∃ s c : ℝ, sinPoly (0 : Fin 11) (1 : ℝ) = .ok s ∧ cosPoly (0 : Fin 11) (1 : ℝ) = .ok c
          ∧ |s - Real.sin 1| ≤ ((errorBound 0 : ℚ) : ℝ)
          ∧ |c - Real.cos 1| ≤ ((errorBound 0 : ℚ) : ℝ) :=
  have h1 : -(10 * π) ≤ (1 : ℝ) := by linarith [Real.pi_gt_three]
  have h2 : (1 : ℝ) ≤ 10 * π := by linarith [Real.pi_gt_three]
  ⟨⟨h1, h2⟩, poly_accuracy 0 1 h1 h2⟩

open Real in
/-- C7: for every accuracy level, every real `x` and every integer `k` with `x` and
`x + 4 * HALF_PI * k` in `[-10π, 10π]`, the polynomial branch of `Trig::sin` returns at the
two arguments values that differ by at most `errorBound(accuracy)`. -/
theorem sin_periodicity (a : Fin 11) (x : ℝ) (k : Int)
    (hx : -(10 * π) ≤ x ∧ x ≤ 10 * π)
    (hy : -(10 * π) ≤ x + 4 * ((HALF_PI : ℚ) : ℝ) * (k : ℝ)
      ∧ x + 4 * ((HALF_PI : ℚ) : ℝ) * (k : ℝ) ≤ 10 * π) :
    ∃ s t : ℝ, sinPoly a x = .ok s
      ∧ sinPoly a (x + 4 * ((HALF_PI : ℚ) : ℝ) * (k : ℝ)) = .ok t
      ∧ |t - s| ≤ ((errorBound a : ℚ) : ℝ) := by
  obtain ⟨hHv, hgap0, hgap1⟩ := half_pi_gap
  obtain ⟨s, -, hs, -, h1, -⟩ := poly_close a x (abs_le.mpr hx)
  obtain ⟨t, -, ht, -, h2, -⟩ := poly_close a _ (abs_le.mpr hy)
  refine ⟨s, t, hs, ht, ?_⟩
  set H : ℝ := ((HALF_PI : ℚ) : ℝ) with hH
  have hpi1 := Real.pi_gt_d2
  have hpi2 := Real.pi_lt_d2
  have hk : |(k : ℝ)| ≤ 10 := by
    have hd : |4 * H * (k : ℝ)| ≤ 20 * π := by
      rw [abs_le]; constructor <;> linarith [hx.1, hx.2, hy.1, hy.2]
    by_contra hcon
    rw [not_le] at hcon
    have h11 : (11 : Int) ≤ |k| := by
      have : (10 : Int) < |k| := by exact_mod_cast hcon
      omega
    have h11r : (11 : ℝ) ≤ |(k : ℝ)| := by exact_mod_cast h11
    rw [abs_mul, abs_of_pos (by rw [hHv]; norm_num : (0 : ℝ) < 4 * H)] at hd
    have : 4 * H * 11 ≤ 4 * H * |(k : ℝ)| :=
      mul_le_mul_of_nonneg_left h11r (by rw [hHv]; norm_num)
    rw [hHv] at this hd
    linarith
  have hper : Real.sin x = Real.sin (x + (k : ℝ) * (2 * π)) :=
    (Real.sin_add_int_mul_two_pi x k).symm
  have hsd : |Real.sin (x + 4 * H * (k : ℝ)) - Real.sin x| ≤ 0.000000000000000002 := by
    rw [hper]
    have h := abs_sin_sub_sin_le (x + 4 * H * (k : ℝ)) (x + (k : ℝ) * (2 * π))
    have e : x + 4 * H * (k : ℝ) - (x + (k : ℝ) * (2 * π)) = -(4 * (π / 2 - H)) * (k : ℝ) := by
      ring
    rw [e, abs_mul, abs_neg, abs_of_pos (by linarith : (0 : ℝ) < 4 * (π / 2 - H))] at h
    have : 4 * (π / 2 - H) * |(k : ℝ)| ≤ 4 * (π / 2 - H) * 10 :=
      mul_le_mul_of_nonneg_left hk (by linarith)
    linarith
  have h3 := polyErr_le_errorBound a
  have e : t - s = (t - Real.sin (x + 4 * H * (k : ℝ)))
      + (Real.sin (x + 4 * H * (k : ℝ)) - Real.sin x) + (Real.sin x - s) := by ring
  have t1 := abs_add (t - Real.sin (x + 4 * H * (k : ℝ))
      + (Real.sin (x + 4 * H * (k : ℝ)) - Real.sin x)) (Real.sin x - s)
  have t2 := abs_add (t - Real.sin (x + 4 * H * (k : ℝ)))
      (Real.sin (x + 4 * H * (k : ℝ)) - Real.sin x)
  have t3 : |Real.sin x - s| = |s - Real.sin x| := abs_sub_comm _ _
  rw [e]
  linarith

open Real in
/-- Witness for C7 at accuracy level `0`, `x = 1` and `k = 1`. -/
theorem sin_periodicity_witness :
    ((-(10 * π) ≤ (1 : ℝ) ∧ (1 : ℝ) ≤ 10 * π)
        ∧ (-(10 * π) ≤ (1 : ℝ) + 4 * ((HALF_PI : ℚ) : ℝ) * ((1 : Int) : ℝ)
          ∧ (1 : ℝ) + 4 * ((HALF_PI : ℚ) : ℝ) * ((1 : Int) : ℝ) ≤ 10 * π))
      ∧ ∃ s t : ℝ, sinPoly (0 : Fin 11) (1 : ℝ) = .ok s
          ∧ sinPoly (0 : Fin 11) ((1 : ℝ) + 4 * ((HALF_PI : ℚ) : ℝ) * ((1 : Int) : ℝ)) = .ok t
          ∧ |t - s| ≤ ((errorBound 0 : ℚ) : ℝ) :=
  have hH : ((HALF_PI : ℚ) : ℝ) = 1.5707963267948966192 := half_pi_gap.1
  have h1 : -(10 * π) ≤ (1 : ℝ) ∧ (1 : ℝ) ≤ 10 * π :=
    ⟨by linarith [Real.pi_gt_three], by linarith [Real.pi_gt_three]⟩
  have h2 : -(10 * π) ≤ (1 : ℝ) + 4 * ((HALF_PI : ℚ) : ℝ) * ((1 : Int) : ℝ)
      ∧ (1 : ℝ) + 4 * ((HALF_PI : ℚ) : ℝ) * ((1 : Int) : ℝ) ≤ 10 * π := by
    rw [hH]; constructor <;> norm_num <;> linarith [Real.pi_gt_three]
  ⟨⟨h1, h2⟩, sin_periodicity 0 1 1 h1 h2⟩

/-! ## Arccosine and arcsine -/

/-- Exact values of the rational approximation at the two ends of its domain. -/
theorem acos_endpoints :
    acos (1 : ℝ) = .ok (-(10727488903590851781 / 3447975156524835625000000000000000))
      ∧ acos (-1 : ℝ)
        = .ok (2 * 1.5707963267948966192
            + 10727488903590851781 / 3447975156524835625000000000000000)
      ∧ asin (1 : ℝ)
        = .ok (1.5707963267948966192
            + 10727488903590851781 / 3447975156524835625000000000000000)
      ∧ asin (-1 : ℝ)
        = .ok (-(1.5707963267948966192
            + 10727488903590851781 / 3447975156524835625000000000000000)) := by
  refine ⟨?_, ?_, ?_, ?_⟩ <;> norm_num [asin, acos, fdiv, HALF_PI]

open Real in
/-- C14 (code departs from its documented bound): at `x = 0.99934` the rational approximation
`Trig::acos` returns a value `v ≤ 0.01958` while the true arccosine is at least `0.0363`, so the
absolute error there exceeds the documented maximum `0.0167`. -/
theorem acos_error_exceeds :
    ∃ v : ℝ, acos (0.99934 : ℝ) = .ok v ∧ v ≤ 0.01958 ∧ 0.0363 ≤ Real.arccos 0.99934
      ∧ 0.0167 < |v - Real.arccos 0.99934| := by
  have hv : ∃ v : ℝ, acos (0.99934 : ℝ) = .ok v ∧ v ≤ 0.01958 := by
    refine ⟨_, by norm_num [acos, fdiv, HALF_PI]; rfl, by norm_num⟩
  obtain ⟨v, hv1, hv2⟩ := hv
  have hcos : (0.99934 : ℝ) ≤ Real.cos 0.0363 := by
    have := Real.one_sub_sq_div_two_le_cos (x := 0.0363)
    norm_num at this ⊢
    linarith
  have hpi := Real.pi_gt_three
  have harc : (0.0363 : ℝ) ≤ Real.arccos 0.99934 := by
    have h1 : Real.arccos (Real.cos 0.0363) = 0.0363 :=
      Real.arccos_cos (by norm_num) (by linarith)
    rw [← h1]
    exact (Real.strictAntiOn_arccos.le_iff_le
      ⟨by linarith [Real.neg_one_le_cos 0.0363], Real.cos_le_one _⟩
      ⟨by norm_num, by norm_num⟩).mpr hcos
  refine ⟨v, hv1, hv2, harc, ?_⟩
  rw [abs_sub_comm, abs_of_nonneg (by linarith)]
  linarith

open Real in
/-- C16: for every `x`, `Trig::asin x` is `HALF_PI - Trig::acos x` (failing exactly when
`Trig::acos` fails its domain assertion), and `Trig::asin 1` returns a value within `0.01` of
`π / 2`. -/
theorem asin_eq_half_pi_sub_acos (x : ℝ) :
    asin x = (acos x).map (fun a => ((HALF_PI : ℚ) : ℝ) - a)
      ∧ ∃ s : ℝ, asin (1 : ℝ) = .ok s ∧ |s - π / 2| ≤ 0.01 := by
  constructor
  · unfold asin
    cases acos x <;> rfl
  · obtain ⟨-, -, h3, -⟩ := acos_endpoints
    have h1 := Real.pi_gt_d20
    have h2 := Real.pi_lt_d20
    refine ⟨_, h3, ?_⟩
    rw [abs_le]
    constructor <;> norm_num at h1 h2 ⊢ <;> linarith

/-! ## Bounds of a polynomial on an interval, by re-expansion around its centre -/

theorem polyEval_add (as bs : List ℚ) (y : ℝ) :
    polyEval (polyAdd as bs) y = polyEval as y + polyEval bs y := by
  induction as generalizing bs with
  | nil => simp [polyAdd, polyEval_nil]
  | cons a as ih =>
    cases bs with
    | nil => simp [polyAdd, polyEval_nil]
    | cons b bs => simp only [polyAdd, polyEval_cons, ih]; push_cast; ring

theorem polyEval_map_mul (m : ℚ) (cs : List ℚ) (y : ℝ) :
    polyEval (cs.map (fun d => m * d)) y = (m : ℝ) * polyEval cs y := by
  induction cs with
  | nil => simp [polyEval_nil]
  | cons c cs ih => simp only [List.map_cons, polyEval_cons, ih]; push_cast; ring

theorem polyEval_shift (cs : List ℚ) (m : ℚ) (t : ℝ) :
    polyEval cs ((m : ℝ) + t) = polyEval (polyShift cs m) t := by
  induction cs with
  | nil => simp [polyShift, polyEval_nil]
  | cons c cs ih =>
    simp only [polyShift, polyEval_add, polyEval_map_mul, polyEval_cons, polyEval_nil, ih]
    push_cast; ring

theorem abs_polyEval_le_radius (cs : List ℚ) (t h : ℝ) (ht : |t| ≤ h) :
    |polyEval cs t| ≤ polyEval (cs.map (fun c => |c|)) h := by
  have hh : 0 ≤ h := le_trans (abs_nonneg t) ht
  induction cs with
  | nil => simp [polyEval_nil]
  | cons c cs ih =>
    simp only [List.map_cons, polyEval_cons]
    have h1 : |(c : ℝ) + t * polyEval cs t| ≤ |(c : ℝ)| + |t * polyEval cs t| := abs_add _ _
    have h3 : |t * polyEval cs t| ≤ h * polyEval (cs.map (fun c => |c|)) h := by
      rw [abs_mul]; exact mul_le_mul ht ih (abs_nonneg _) hh
    have h4 : ((|c| : ℚ) : ℝ) = |(c : ℝ)| := by push_cast; rfl
    rw [h4]; linarith

/-- Bound of a polynomial on the interval of radius `h` around `m`. -/
theorem abs_polyEval_le_on (cs : List ℚ) (m h B : ℚ)
    (hB : polyEval ((polyShift cs m).map (fun c => |c|)) h ≤ B) (y : ℝ)
    (hy : |y - (m : ℝ)| ≤ (h : ℝ)) : |polyEval cs y| ≤ (B : ℝ) := by
  have e : y = (m : ℝ) + (y - m) := by ring
  rw [e, polyEval_shift]
  refine le_trans (abs_polyEval_le_radius _ _ _ hy) ?_
  rw [← polyEval_ratCast]
  exact_mod_cast hB

set_option maxRecDepth 100000 in
set_option maxHeartbeats 2000000 in
theorem atan8_bounds :
    polyEval ((polyShift ATAN_DEGREE_8 1).map (fun c => |c|)) 1 ≤ HALF_PI
      ∧ polyEval ((polyShift ATAN_DEGREE_8 4).map (fun c => |c|)) 2 ≤ HALF_PI
      ∧ polyEval ((polyShift ATAN_DEGREE_8 8).map (fun c => |c|)) 2 ≤ HALF_PI
      ∧ polyEval ((polyShift ATAN_DEGREE_8 12).map (fun c => |c|)) 2 ≤ HALF_PI
      ∧ polyEval ((polyShift ATAN_DEGREE_8 16).map (fun c => |c|)) 2 ≤ HALF_PI
      ∧ polyEval ((polyShift ATAN_DEGREE_8 19).map (fun c => |c|)) 1 ≤ HALF_PI := by
  refine ⟨?_, ?_, ?_, ?_, ?_, ?_⟩ <;>
    norm_num [polyShift, polyAdd, polyEval, ATAN_DEGREE_8, HALF_PI, abs_of_neg, abs_of_pos]


set_option maxRecDepth 100000 in
theorem atan3_bounds :
    polyEval ((polyShift ATAN_DEGREE_3 1).map (fun c => |c|)) 1 ≤ HALF_PI
      ∧ polyEval ((polyShift ATAN_DEGREE_3 3).map (fun c => |c|)) 1 ≤ HALF_PI
      ∧ polyEval ((polyShift ATAN_DEGREE_3 4).map (fun c => |c|)) 1 ≤ HALF_PI := by
  refine ⟨?_, ?_, ?_⟩ <;>
    norm_num [polyShift, polyAdd, polyEval, ATAN_DEGREE_3, HALF_PI, abs_of_neg, abs_of_pos]

theorem atan3_poly_range (y : ℝ) (h0 : 0 ≤ y) (h5 : y ≤ 5) :
    |hornerLoop ATAN_DEGREE_3 y| ≤ ((HALF_PI : ℚ) : ℝ) := by
  obtain ⟨b1, b3, b4⟩ := atan3_bounds
  rw [hornerLoop_eq_polyEval]
  rcases le_or_lt y 2 with h | h
  · exact abs_polyEval_le_on _ 1 1 _ b1 y (by rw [abs_le]; constructor <;> push_cast <;> linarith)
  rcases le_or_lt y 4 with h' | h'
  · exact abs_polyEval_le_on _ 3 1 _ b3 y (by rw [abs_le]; constructor <;> push_cast <;> linarith)
  · exact abs_polyEval_le_on _ 4 1 _ b4 y (by rw [abs_le]; constructor <;> push_cast <;> linarith)

theorem atan8_poly_range (y : ℝ) (h0 : 0 ≤ y) (h20 : y ≤ 20) :
    |hornerLoop ATAN_DEGREE_8 y| ≤ ((HALF_PI : ℚ) : ℝ) := by
  obtain ⟨b1, b4, b8, b12, b16, b19⟩ := atan8_bounds
  rw [hornerLoop_eq_polyEval]
  rcases le_or_lt y 2 with h | h
  · exact abs_polyEval_le_on _ 1 1 _ b1 y (by rw [abs_le]; constructor <;> push_cast <;> linarith)
  rcases le_or_lt y 6 with h' | h'
  · exact abs_polyEval_le_on _ 4 2 _ b4 y (by rw [abs_le]; constructor <;> push_cast <;> linarith)
  rcases le_or_lt y 10 with h'' | h''
  · exact abs_polyEval_le_on _ 8 2 _ b8 y (by rw [abs_le]; constructor <;> push_cast <;> linarith)
  rcases le_or_lt y 14 with h3 | h3
  · exact abs_polyEval_le_on _ 12 2 _ b12 y
      (by rw [abs_le]; constructor <;> push_cast <;> linarith)
  rcases le_or_lt y 18 with h4 | h4
  · exact abs_polyEval_le_on _ 16 2 _ b16 y
      (by rw [abs_le]; constructor <;> push_cast <;> linarith)
  · exact abs_polyEval_le_on _ 19 1 _ b19 y
      (by rw [abs_le]; constructor <;> push_cast <;> linarith)

theorem abs_min_half_pi_le (v : ℝ) (hv : 0 ≤ v) :
    |min ((HALF_PI : ℚ) : ℝ) v| ≤ ((HALF_PI : ℚ) : ℝ) := by
  have hH : (0 : ℝ) ≤ ((HALF_PI : ℚ) : ℝ) := half_pi_gap.1 ▸ (by norm_num)
  rw [abs_of_nonneg (le_min hH hv)]
  exact min_le_left _ _

/-- The value of `Trig::atan` on a positive argument. -/
theorem atan_of_pos (fast : Bool) (y : ℝ) (hy : 0 < y) :
    atan fast y
      = if fast then
          (if y > ((ATAN_APPROX_SWITCH_DEGREE_3 : ℕ) : ℝ) then
            min ((HALF_PI : ℚ) : ℝ)
              (((ATAN_LINEAR_DEGREE_3_A : ℚ) : ℝ) * y + ((ATAN_LINEAR_DEGREE_3_B : ℚ) : ℝ))
          else hornerLoop ATAN_DEGREE_3 y)
        else
          (if y > ((ATAN_APPROX_SWITCH_DEGREE_8 : ℕ) : ℝ) then
            min ((HALF_PI : ℚ) : ℝ)
              (((ATAN_LINEAR_DEGREE_8_A : ℚ) : ℝ) * y + ((ATAN_LINEAR_DEGREE_8_B : ℚ) : ℝ))
          else hornerLoop ATAN_DEGREE_8 y) := by
  have h0 : y ≠ 0 := ne_of_gt hy
  have h1 : y ≥ 0 := hy.le
  simp only [atan, if_neg h0, if_pos h1, Int.cast_one, mul_one, one_mul]

theorem atan_neg {α : Type} [LinearOrderedField α] (fast : Bool) (x : α) :
    atan fast (-x) = -atan fast x := by
  by_cases h0 : x = 0
  · subst h0; simp [atan]
  · have hn0 : -x ≠ 0 := neg_ne_zero.mpr h0
    rcases lt_or_gt_of_ne h0 with hneg | hpos
    · have e1 : ¬ (x ≥ 0) := not_le.mpr hneg
      have e2 : -x ≥ 0 := by linarith
      simp only [atan, if_neg h0, if_neg hn0, if_neg e1, if_pos e2]
      cases fast <;>
        simp only [Bool.false_eq_true, if_false, if_true, Int.cast_one, Int.cast_neg, mul_one,
          mul_neg, neg_mul, one_mul, neg_neg] <;>
        split_ifs <;> ring
    · have e1 : x ≥ 0 := hpos.le
      have e2 : ¬ (-x ≥ 0) := by
        intro h; linarith
      simp only [atan, if_neg h0, if_neg hn0, if_pos e1, if_neg e2]
      cases fast <;>
        simp only [Bool.false_eq_true, if_false, if_true, Int.cast_one, Int.cast_neg, mul_one,
          mul_neg, neg_mul, one_mul, neg_neg] <;>
        split_ifs <;> ring

theorem atan_range_pos (fast : Bool) (y : ℝ) (hy : 0 < y) :
    |atan fast y| ≤ ((HALF_PI : ℚ) : ℝ) := by
  rw [atan_of_pos fast y hy]
  have hA3 : (0 : ℝ) ≤ ((ATAN_LINEAR_DEGREE_3_A : ℚ) : ℝ) := by
    have : (0 : ℚ) ≤ ATAN_LINEAR_DEGREE_3_A := by norm_num [ATAN_LINEAR_DEGREE_3_A]
    exact_mod_cast this
  have hB3 : (0 : ℝ) ≤ ((ATAN_LINEAR_DEGREE_3_B : ℚ) : ℝ) := by
    have : (0 : ℚ) ≤ ATAN_LINEAR_DEGREE_3_B := by norm_num [ATAN_LINEAR_DEGREE_3_B]
    exact_mod_cast this
  have hA8 : (0 : ℝ) ≤ ((ATAN_LINEAR_DEGREE_8_A : ℚ) : ℝ) := by
    have : (0 : ℚ) ≤ ATAN_LINEAR_DEGREE_8_A := by norm_num [ATAN_LINEAR_DEGREE_8_A]
    exact_mod_cast this
  have hB8 : (0 : ℝ) ≤ ((ATAN_LINEAR_DEGREE_8_B : ℚ) : ℝ) := by
    have : (0 : ℚ) ≤ ATAN_LINEAR_DEGREE_8_B := by norm_num [ATAN_LINEAR_DEGREE_8_B]
    exact_mod_cast this
  cases fast
  · simp only [Bool.false_eq_true, if_false]
    split_ifs with h
    · exact abs_min_half_pi_le _ (by positivity)
    · exact atan8_poly_range y hy.le (by
        have := not_lt.mp h
        simpa [ATAN_APPROX_SWITCH_DEGREE_8] using this)
  · simp only [if_true]
    split_ifs with h
    · exact abs_min_half_pi_le _ (by positivity)
    · exact atan3_poly_range y hy.le (by
        have := not_lt.mp h
        simpa [ATAN_APPROX_SWITCH_DEGREE_3] using this)

open Real in
/-- C18: for every real `x` and both modes, `Trig::atan x` lies in `[-HALF_PI, HALF_PI]`, hence
`|atan x| ≤ π / 2`, on the polynomial branch as well as on the clamped linear branch. -/
theorem atan_range (fast : Bool) (x : ℝ) :
    |atan fast x| ≤ ((HALF_PI : ℚ) : ℝ) ∧ |atan fast x| ≤ π / 2 := by
  have hgap := half_pi_gap
  have key : |atan fast x| ≤ ((HALF_PI : ℚ) : ℝ) := by
    rcases lt_trichotomy x 0 with h | h | h
    · have := atan_range_pos fast (-x) (by linarith)
      rwa [atan_neg, abs_neg] at this
    · subst h
      have h0 : atan fast (0 : ℝ) = 0 := by simp [atan]
      rw [h0, abs_zero, hgap.1]; norm_num
    · exact atan_range_pos fast x h
  exact ⟨key, by linarith [hgap.2.1]⟩

open Real in
/-- C17 (code departs from its documented bounds): the fast arctangent at `x = 1` is more than
`0.014` away from `arctan 1`, and the slow arctangent at `x = 105`, where the clamped linear
branch returns `HALF_PI`, is more than `0.009` away from `arctan 105`. -/
theorem atan_error_exceeds :
    0.014 < |atan true (1 : ℝ) - Real.arctan 1|
      ∧ atan false (105 : ℝ) = ((HALF_PI : ℚ) : ℝ)
      ∧ 0.009 < |atan false (105 : ℝ) - Real.arctan 105| := by
  obtain ⟨hHv, hgap0, hgap1⟩ := half_pi_gap
  have hpi1 := Real.pi_gt_d2
  have hpi2 := Real.pi_lt_d2
  refine ⟨?_, ?_, ?_⟩
  · rw [atan_of_pos true 1 (by norm_num), Real.arctan_one]
    have hv : hornerLoop ATAN_DEGREE_3 (1 : ℝ) ≤ 0.7635 := by
      rw [hornerLoop_eq_polyEval]
      norm_num [polyEval, ATAN_DEGREE_3]
    simp only [if_true]
    rw [if_neg (by norm_num [ATAN_APPROX_SWITCH_DEGREE_3])]
    rw [abs_sub_comm, abs_of_nonneg (by linarith)]
    linarith
  · rw [atan_of_pos false 105 (by norm_num)]
    simp only [Bool.false_eq_true, if_false]
    rw [if_pos (by norm_num [ATAN_APPROX_SWITCH_DEGREE_8])]
    apply min_eq_left
    rw [hHv]
    norm_num [ATAN_LINEAR_DEGREE_8_A, ATAN_LINEAR_DEGREE_8_B]
  · have hval : atan false (105 : ℝ) = ((HALF_PI : ℚ) : ℝ) := by
      rw [atan_of_pos false 105 (by norm_num)]
      simp only [Bool.false_eq_true, if_false]
      rw [if_pos (by norm_num [ATAN_APPROX_SWITCH_DEGREE_8])]
      apply min_eq_left
      rw [hHv]
      norm_num [ATAN_LINEAR_DEGREE_8_A, ATAN_LINEAR_DEGREE_8_B]
    have htan : Real.tan 0.0095 ≤ 1 / 105 := by
      rw [Real.tan_eq_sin_div_cos]
      have hs := Real.sin_le (x := 0.0095) (by norm_num)
      have hc := Real.one_sub_sq_div_two_le_cos (x := 0.0095)
      have hc0 : (0 : ℝ) < Real.cos 0.0095 := by norm_num at hc ⊢; linarith
      rw [div_le_iff₀ hc0]
      norm_num at hc hs ⊢
      nlinarith
    have harc : Real.arctan 105 ≤ π / 2 - 0.0095 := by
      have h1 : Real.arctan (Real.tan (π / 2 - 0.0095)) = π / 2 - 0.0095 :=
        Real.arctan_tan (by linarith) (by linarith)
      rw [← h1]
      apply Real.arctan_strictMono.monotone
      rw [Real.tan_pi_div_two_sub]
      have ht0 : 0 < Real.tan 0.0095 := Real.tan_pos_of_pos_of_lt_pi_div_two (by norm_num)
        (by linarith)
      rw [le_inv_comm₀ (by norm_num) ht0]
      simpa using htan
    rw [hval, abs_of_nonneg (by linarith)]
    linarith

/-- C19: for every `x` and both modes, `Trig::atan (-x) = -Trig::atan x` exactly, and
`Trig::atan 0 = 0`. -/
theorem atan_odd {α : Type} [LinearOrderedField α] (fast : Bool) (x : α) :
    atan fast (-x) = -atan fast x ∧ atan fast (0 : α) = 0 :=
  ⟨atan_neg fast x, by simp [atan]⟩

/-! ## Nearest integer and the lookup tables -/

section Nearest
variable {α : Type} [LinearOrderedField α] [FloorRing α]

theorem toInt64_of_abs_lt (t : α) (h : |t| < 9223372036854775808) :
    toInt64 t = .ok (truncInt t)
      ∧ INT64_MIN ≤ truncInt t ∧ truncInt t ≤ INT64_MAX := by
  have h1 := abs_truncInt_le t
  have h2 : ((|truncInt t| : Int) : α) < ((9223372036854775808 : Int) : α) := by
    push_cast; push_cast at h1; linarith
  have h3 : |truncInt t| < 9223372036854775808 := by exact_mod_cast h2
  rw [abs_lt] at h3
  have h4 : INT64_MIN ≤ truncInt t ∧ truncInt t ≤ INT64_MAX := by
    unfold INT64_MIN INT64_MAX; constructor <;> omega
  refine ⟨?_, h4⟩
  unfold toInt64
  rw [if_pos h4]

theorem truncInt_of_nonpos {t : α} (h : t ≤ 0) : truncInt t = ⌈t⌉ := by
  rcases h.lt_or_eq with h | h
  · exact truncInt_of_neg h
  · subst h; simp [truncInt]

/-- The value of `getNearestInt`: the truncation of `x` moved away from zero by
`1/2 - epsilon`. -/
theorem getNearestInt_facts (ε x : α) (hε : 0 < ε) (hε2 : ε ≤ 1 / 2)
    (hx : |x| + 1 / 2 < 9223372036854775808) :
    ∃ n : Int, getNearestInt ε x = .ok n ∧ INT64_MIN ≤ n ∧ n ≤ INT64_MAX
      ∧ (0 < x → (n : α) ≤ x + (1 / 2 - ε) ∧ x + (1 / 2 - ε) < n + 1)
      ∧ (x ≤ 0 → x - (1 / 2 - ε) ≤ n ∧ (n : α) - 1 < x - (1 / 2 - ε)) := by
  rcases lt_or_le 0 x with h | h
  · have e : getNearestInt ε x = toInt64 (x + (1 / 2 - ε)) := by
      simp [getNearestInt, h]
    have hx' : |x| = x := abs_of_pos h
    have ht0 : 0 ≤ x + (1 / 2 - ε) := by linarith
    have ht : |x + (1 / 2 - ε)| < 9223372036854775808 := by
      rw [abs_of_nonneg ht0]; linarith
    obtain ⟨h1, h2, h3⟩ := toInt64_of_abs_lt _ ht
    refine ⟨_, e.trans h1, h2, h3, fun _ => ?_, fun h' => absurd h (not_lt.mpr h')⟩
    rw [truncInt_of_nonneg ht0]
    exact ⟨Int.floor_le _, Int.lt_floor_add_one _⟩
  · have e : getNearestInt ε x = toInt64 (x - (1 / 2 - ε)) := by
      simp [getNearestInt, not_lt.mpr h, sub_eq_add_neg]
    have hx' : |x| = -x := abs_of_nonpos h
    have ht0 : x - (1 / 2 - ε) ≤ 0 := by linarith
    have ht : |x - (1 / 2 - ε)| < 9223372036854775808 := by
      rw [abs_of_nonpos ht0]; linarith
    obtain ⟨h1, h2, h3⟩ := toInt64_of_abs_lt _ ht
    refine ⟨_, e.trans h1, h2, h3, fun h' => absurd h' (not_lt.mpr h), fun _ => ?_⟩
    rw [truncInt_of_nonpos ht0]
    refine ⟨Int.le_ceil _, ?_⟩
    have := Int.ceil_lt_add_one (x - (1 / 2 - ε))
    linarith

theorem getNearestInt_zero (ε : α) (hε : 0 < ε) (hε2 : ε ≤ 1 / 2) :
    getNearestInt ε (0 : α) = .ok 0 := by
  obtain ⟨n, h1, -, -, -, h2⟩ := getNearestInt_facts ε 0 hε hε2 (by norm_num)
  obtain ⟨a, b⟩ := h2 le_rfl
  have ha : ((-1 : Int) : α) < (n : α) := by push_cast; linarith
  have hb : (n : α) < ((1 : Int) : α) := by push_cast; linarith
  have ha' : -1 < n := by exact_mod_cast ha
  have hb' : n < 1 := by exact_mod_cast hb
  have : n = 0 := by omega
  rw [h1, this]

/-- The comparison `index == TableInfo::size` of an `int64_t` with a `size_t`. -/
theorem index_eq_size_iff (n : Int) (size : Nat) (h1 : INT64_MIN ≤ n) (h2 : n ≤ INT64_MAX)
    (hs : (size : Int) < 9223372036854775808) :
    n % 18446744073709551616 = (size : Int) ↔ n = size := by
  unfold INT64_MIN at h1
  unfold INT64_MAX at h2
  constructor
  · intro h; omega
  · intro h; omega

theorem generic_inner_table_eq (ε : α) (info : LUTInfo α) (table : List (α × α)) (y : α)
    (n : Int) (h : getNearestInt ε (y / info.endValue * (info.size : α)) = .ok n)
    (h1 : INT64_MIN ≤ n) (h2 : n ≤ INT64_MAX)
    (hs : (info.size : Int) < 9223372036854775808) :
    generic_inner_table ε info table y
      = tableInterpolate table (y / info.endValue * (info.size : α))
          (if n = (info.size : Int) then n - 1 else n) := by
  simp only [generic_inner_table, h, bind, Except.bind, tableInterpolate,
    index_eq_size_iff n info.size h1 h2 hs]

end Nearest

section Generator
variable {α : Type} [LinearOrderedField α]

/-- The entries produced by the loop of `generateLUT`: entry `i` is `f` at the `i`-th
argument and at the value of the entry before it. -/
theorem generateLUTLoop_spec (f : α → α → Except Fault (α × α)) (step : α) :
    ∀ (n : Nat) (arg prev : α) (rest : List (α × α)),
      generateLUTLoop f step n arg prev = .ok rest →
      rest.length = n
        ∧ ∀ i : Nat, i < n →
            f (arg + (i : α) * step) (if i = 0 then prev else (rest.getD (i - 1) (0, 0)).1)
              = .ok (rest.getD i (0, 0)) := by
  intro n
  induction n with
  | zero =>
    intro arg prev rest h
    simp only [generateLUTLoop, Except.ok.injEq] at h
    subst h
    exact ⟨rfl, fun i hi => absurd hi (Nat.not_lt_zero i)⟩
  | succ n ih =>
    intro arg prev rest h
    unfold generateLUTLoop at h
    cases hf : f arg prev with
    | error e => rw [hf] at h; simp at h
    | ok entry =>
      rw [hf] at h
      dsimp only at h
      cases hl : generateLUTLoop f step n (arg + step) entry.1 with
      | error e => rw [hl] at h; simp at h
      | ok tail =>
        rw [hl] at h
        simp only [Except.ok.injEq] at h
        subst h
        obtain ⟨hlen, hent⟩ := ih (arg + step) entry.1 tail hl
        refine ⟨by simp [hlen], ?_⟩
        intro i hi
        cases i with
        | zero => simpa using hf
        | succ j =>
          have hj := hent j (by omega)
          have e : arg + ((j + 1 : Nat) : α) * step = arg + step + (j : α) * step := by
            push_cast; ring
          rw [e]
          cases j with
          | zero => simpa using hj
          | succ k => simpa using hj

/-- The loop of `generateLUT` returns when `f` returns at every argument it visits. -/
theorem generateLUTLoop_ok (f : α → α → Except Fault (α × α)) (step : α) :
    ∀ (n : Nat) (arg prev : α),
      (∀ i : Nat, i < n → ∀ p : α, ∃ e, f (arg + (i : α) * step) p = .ok e) →
      ∃ rest, generateLUTLoop f step n arg prev = .ok rest := by
  intro n
  induction n with
  | zero => intro arg prev _; exact ⟨[], rfl⟩
  | succ n ih =>
    intro arg prev h
    obtain ⟨entry, he⟩ := h 0 (by omega) prev
    simp only [Nat.cast_zero, zero_mul, add_zero] at he
    obtain ⟨tail, ht⟩ := ih (arg + step) entry.1 (fun i hi p => by
      obtain ⟨e, hp⟩ := h (i + 1) (by omega) p
      refine ⟨e, ?_⟩
      rw [← hp]
      congr 1
      push_cast; ring)
    exact ⟨entry :: tail, by simp only [generateLUTLoop, he, ht]⟩

theorem generateLUT_spec (f : α → α → Except Fault (α × α)) (info : LUTInfo α)
    (table : List (α × α)) (h : generateLUT f info = .ok table) :
    0 < info.size ∧ table.length = info.size
      ∧ ∀ i : Nat, i < info.size →
          f (info.startValue + (i : α) * info.step)
              (if i = 0 then 0 else (table.getD (i - 1) (0, 0)).1)
            = .ok (table.getD i (0, 0)) := by
  unfold generateLUT at h
  by_cases hs : info.size = 0
  · rw [if_pos hs] at h; simp at h
  rw [if_neg hs] at h
  have hpos : 0 < info.size := Nat.pos_of_ne_zero hs
  cases hf : f info.startValue 0 with
  | error e => rw [hf] at h; simp at h
  | ok first =>
    rw [hf] at h
    dsimp only at h
    cases hl : generateLUTLoop f info.step (info.size - 1) (info.startValue + info.step)
        first.1 with
    | error e => rw [hl] at h; simp at h
    | ok tail =>
      rw [hl] at h
      simp only [Except.ok.injEq] at h
      subst h
      obtain ⟨hlen, hent⟩ := generateLUTLoop_spec f info.step _ _ _ _ hl
      refine ⟨hpos, by simp [hlen]; omega, ?_⟩
      intro i hi
      cases i with
      | zero => simpa using hf
      | succ j =>
        have hj := hent j (by omega)
        have e : info.startValue + ((j + 1 : Nat) : α) * info.step
            = info.startValue + info.step + (j : α) * info.step := by
          push_cast; ring
        rw [e]
        cases j with
        | zero => simpa using hj
        | succ k => simpa using hj

theorem generateLUT_ok (f : α → α → Except Fault (α × α)) (info : LUTInfo α)
    (hs : 0 < info.size)
    (h : ∀ i : Nat, i < info.size → ∀ p : α,
      ∃ e, f (info.startValue + (i : α) * info.step) p = .ok e) :
    ∃ table, generateLUT f info = .ok table := by
  obtain ⟨first, hf⟩ := h 0 hs 0
  simp only [Nat.cast_zero, zero_mul, add_zero] at hf
  obtain ⟨tail, ht⟩ := generateLUTLoop_ok f info.step (info.size - 1)
    (info.startValue + info.step) first.1 (fun i hi p => by
      obtain ⟨e, hp⟩ := h (i + 1) (by omega) p
      refine ⟨e, ?_⟩
      rw [← hp]
      congr 1
      push_cast; ring)
  exact ⟨first :: tail, by simp only [generateLUT, if_neg (Nat.pos_iff_ne_zero.mp hs), hf, ht]⟩

/-- The table of `getLUT`: entry `i` holds the value of `Func` at `startValue + i * step` and
that value minus the value of entry `i - 1` (minus `0` for entry `0`). -/
theorem getLUT_entries (Func : α → Except Fault α) (info : LUTInfo α)
    (table : List (α × α)) (h : getLUT Func info = .ok table) :
    0 < info.size ∧ table.length = info.size
      ∧ ∀ i : Nat, i < info.size →
          Func (info.startValue + (i : α) * info.step) = .ok (table.getD i (0, 0)).1
            ∧ (table.getD i (0, 0)).2
              = (table.getD i (0, 0)).1
                - (if i = 0 then 0 else (table.getD (i - 1) (0, 0)).1) := by
  obtain ⟨h0, h1, h2⟩ := generateLUT_spec _ info table h
  refine ⟨h0, h1, fun i hi => ?_⟩
  have := h2 i hi
  cases hF : Func (info.startValue + (i : α) * info.step) with
  | error e => rw [hF] at this; simp at this
  | ok v =>
    rw [hF] at this
    simp only [Except.ok.injEq] at this
    rw [← this]
    exact ⟨rfl, rfl⟩

theorem getLUT_ok (Func : α → Except Fault α) (info : LUTInfo α) (hs : 0 < info.size)
    (h : ∀ i : Nat, i < info.size →
      ∃ v, Func (info.startValue + (i : α) * info.step) = .ok v) :
    ∃ table, getLUT Func info = .ok table := by
  apply generateLUT_ok _ info hs
  intro i hi p
  obtain ⟨v, hv⟩ := h i hi
  exact ⟨(v, v - p), by simp only [hv]⟩

end Generator

/-! ## The tables of the sine and cosine -/

theorem tableAt_natCast {α : Type} (table : List (α × α)) (d : α × α) (i : Nat)
    (h : i < table.length) : tableAt table (i : Int) = .ok (table.getD i d) := by
  unfold tableAt
  rw [if_pos (Int.natCast_nonneg i), Int.toNat_natCast, List.get?_eq_get h,
    List.getD_eq_getElem _ _ h]
  rfl

/-- The value of `Trig::acos` at `1 - relError` for the four relative errors of
`SC_LUT_ACC_MAP`. -/
theorem acos_lut_values :
    (∃ a : ℝ, acos (1 - ((0.1 : ℚ) : ℝ)) = .ok a ∧ 0.44 ≤ a ∧ a ≤ 0.45)
      ∧ (∃ a : ℝ, acos (1 - ((0.01 : ℚ) : ℝ)) = .ok a ∧ 0.155 ≤ a ∧ a ≤ 0.156)
      ∧ (∃ a : ℝ, acos (1 - ((0.001 : ℚ) : ℝ)) = .ok a ∧ 0.0286 ≤ a ∧ a ≤ 0.0287)
      ∧ (∃ a : ℝ, acos (1 - ((0.00001 : ℚ) : ℝ)) = .ok a ∧ 0.0003186 ≤ a ∧ a ≤ 0.0003187) := by
  refine ⟨?_, ?_, ?_, ?_⟩
  · exact ⟨_, by norm_num [acos, fdiv, HALF_PI]; rfl, by norm_num, by norm_num⟩
  · exact ⟨_, by norm_num [acos, fdiv, HALF_PI]; rfl, by norm_num, by norm_num⟩
  · exact ⟨_, by norm_num [acos, fdiv, HALF_PI]; rfl, by norm_num, by norm_num⟩
  · exact ⟨_, by norm_num [acos, fdiv, HALF_PI]; rfl, by norm_num, by norm_num⟩

theorem constLUTSizeFromAcc_eq (r a : ℝ) (N : Nat) (ha : acos (1 - r) = .ok a)
    (hpos : 0 < a) (h1 : (N : ℝ) * (8 * a) ≤ ((M_PI : ℚ) : ℝ))
    (h2 : ((M_PI : ℚ) : ℝ) < ((N : ℝ) + 1) * (8 * a)) (hN : N < 1000000) :
    constLUTSizeFromAcc r 8 = .ok ((N : Int) + 1) := by
  have h8 : (((8 : Int) : ℝ)) ≠ 0 := by norm_num
  have hq0 : 0 ≤ ((M_PI : ℚ) : ℝ) / a / ((8 : Int) : ℝ) := by
    have : (0 : ℝ) ≤ ((M_PI : ℚ) : ℝ) := by
      have : (0 : ℚ) ≤ M_PI := by norm_num [M_PI]
      exact_mod_cast this
    positivity
  have hfl : ⌊((M_PI : ℚ) : ℝ) / a / ((8 : Int) : ℝ)⌋ = (N : Int) := by
    rw [Int.floor_eq_iff]
    push_cast
    constructor
    · rw [div_div, le_div_iff₀ (by positivity)]
      linarith
    · rw [div_div, div_lt_iff₀ (by positivity)]
      linarith
  have htr : truncInt (((M_PI : ℚ) : ℝ) / a / ((8 : Int) : ℝ)) = (N : Int) := by
    rw [truncInt_of_nonneg hq0, hfl]
  have hr1 : INT_MIN ≤ (N : Int) ∧ (N : Int) ≤ INT_MAX := by
    unfold INT_MIN INT_MAX; constructor <;> omega
  have hr2 : INT_MIN ≤ (N : Int) + 1 ∧ (N : Int) + 1 ≤ INT_MAX := by
    unfold INT_MIN INT_MAX; constructor <;> omega
  simp only [constLUTSizeFromAcc, ha, bind, Except.bind, fdiv, if_neg (ne_of_gt hpos),
    if_neg h8, toInt, htr, if_pos hr1, iadd, if_pos hr2]

/-- The members of `LUTInfo<double, Func, SIN_COS_FOLDING_RATIO, acc>`: the sizes are
`1`, `3`, `14` and `1233`. -/
theorem lutInfo_eq (acc : Fin 11) :
    ∃ size : Nat, 0 < size ∧ size < 2000
      ∧ (acc.val = 1 → size = 3)
      ∧ lutInfo SIN_COS_FOLDING_RATIO acc
        = .ok ({ size := size, startValue := 0, endValue := 2 * ((M_PI : ℚ) : ℝ) / 8,
                 step := 2 * ((M_PI : ℚ) : ℝ) / 8 / (size : ℝ) } : LUTInfo ℝ) := by
  obtain ⟨⟨a0, e0, l0, u0⟩, ⟨a1, e1, l1, u1⟩, ⟨a2, e2, l2, u2⟩, ⟨a3, e3, l3, u3⟩⟩ :=
    acos_lut_values
  have hpi : ((M_PI : ℚ) : ℝ) = 3.14159265358979323846 := by
    unfold M_PI; norm_num
  have s0 := constLUTSizeFromAcc_eq _ a0 0 e0 (by linarith)
    (by rw [hpi]; norm_num) (by rw [hpi]; norm_num; linarith) (by norm_num)
  have s1 := constLUTSizeFromAcc_eq _ a1 2 e1 (by linarith)
    (by rw [hpi]; norm_num; linarith) (by rw [hpi]; norm_num; linarith) (by norm_num)
  have s2 := constLUTSizeFromAcc_eq _ a2 13 e2 (by linarith)
    (by rw [hpi]; norm_num; linarith) (by rw [hpi]; norm_num; linarith) (by norm_num)
  have s3 := constLUTSizeFromAcc_eq _ a3 1232 e3 (by linarith)
    (by rw [hpi]; norm_num; linarith) (by rw [hpi]; norm_num; linarith) (by norm_num)
  have key : ∀ (r : ℚ) (N : Nat), N < 1000000 → SC_LUT_ACC_MAP.getD acc.val 0 = r →
      constLUTSizeFromAcc ((r : ℚ) : ℝ) 8 = .ok ((N : Int) + 1) →
      lutInfo SIN_COS_FOLDING_RATIO acc
        = .ok ({ size := N + 1, startValue := 0, endValue := 2 * ((M_PI : ℚ) : ℝ) / 8,
                 step := 2 * ((M_PI : ℚ) : ℝ) / 8 / ((N + 1 : Nat) : ℝ) } : LUTInfo ℝ) := by
    intro r N hN hr hs
    have t1 : toSizeT ((N : Int) + 1) = N + 1 := by
      unfold toSizeT
      rw [Int.emod_eq_of_lt (by omega) (by omega)]
      omega
    have t2 : toSizeT SIN_COS_FOLDING_RATIO = 8 := by
      unfold toSizeT SIN_COS_FOLDING_RATIO; rfl
    have n8 : ((8 : Nat) : ℝ) ≠ 0 := by norm_num
    have nN : ((N + 1 : Nat) : ℝ) ≠ 0 := by positivity
    simp only [lutInfo, hr, SIN_COS_FOLDING_RATIO] at hs ⊢
    simp only [hs, bind, Except.bind, t1, fdiv, pure, Except.pure]
    have t2' : toSizeT 8 = 8 := t2
    rw [t2', if_neg n8]
    dsimp only
    rw [if_neg nN]
    norm_num
  have hacc : acc.val = 0 ∨ acc.val = 1 ∨ acc.val = 2 ∨ (3 ≤ acc.val ∧ acc.val < 11) := by
    have := acc.isLt; omega
  rcases hacc with h | h | h | h
  · exact ⟨1, by norm_num, by norm_num, by omega,
      key 0.1 0 (by norm_num) (by rw [h]; rfl) s0⟩
  · exact ⟨3, by norm_num, by norm_num, fun _ => rfl,
      key 0.01 2 (by norm_num) (by rw [h]; rfl) s1⟩
  · exact ⟨14, by norm_num, by norm_num, by omega,
      key 0.001 13 (by norm_num) (by rw [h]; rfl) s2⟩
  · refine ⟨1233, by norm_num, by norm_num, by omega,
      key 0.00001 1232 (by norm_num) ?_ s3⟩
    obtain ⟨h3, h11⟩ := h
    interval_cases hv : acc.val <;> rfl

theorem cosPoly_of_le {α : Type} [LinearOrderedField α] [FloorRing α] (a : Fin 11) (x : α)
    (h : |x| ≤ ((HALF_PI : ℚ) : α)) :
    cosPoly a x = .ok (cos_inner_polinomial (polyIndex a) x) :=
  cosPolyWith_of_le _ _ _ _ x h

theorem cosTableOver_of_le {α : Type} [LinearOrderedField α] [FloorRing α]
    (cosT sinT : α → Except Fault α) (P inv x : α) (h : |x| ≤ P) :
    cosTableOver cosT sinT P inv x = cosT |x| := by
  simp only [cosTableOver, addRangeReduce_of_le x P inv h, bind, Except.bind, mul_sign_self,
    if_true, pure, Except.pure]
  cases cosT |x| <;> rfl

/-- The cosine table of accuracy `acc`: it is generated, and entry `i` holds the polynomial
cosine at `i * step` and its difference from the value of the entry before. -/
theorem cosLUT_exists (acc : Fin 11) :
    ∃ (info : LUTInfo ℝ) (table : List (ℝ × ℝ)),
      lutInfo SIN_COS_FOLDING_RATIO acc = .ok info
        ∧ getLUT (cosPoly sinCosAccDouble) info = .ok table
        ∧ 0 < info.size ∧ info.size < 2000 ∧ (acc.val = 1 → info.size = 3)
        ∧ info.startValue = 0 ∧ info.endValue = 2 * ((M_PI : ℚ) : ℝ) / 8
        ∧ info.step = info.endValue / (info.size : ℝ)
        ∧ table.length = info.size
        ∧ ∀ i : Nat, i < info.size →
            (table.getD i (0, 0)).1 = cos_inner_polinomial 6 ((i : ℝ) * info.step)
              ∧ (table.getD i (0, 0)).2
                = (table.getD i (0, 0)).1
                  - (if i = 0 then 0 else (table.getD (i - 1) (0, 0)).1) := by
  obtain ⟨size, h0, h1, h2, h3⟩ := lutInfo_eq acc
  have hpi : ((M_PI : ℚ) : ℝ) = 3.14159265358979323846 := by
    unfold M_PI; norm_num
  have hH := half_pi_gap.1
  have hsz : (0 : ℝ) < (size : ℝ) := by exact_mod_cast h0
  have harg : ∀ i : Nat, i < size →
      |(0 : ℝ) + (i : ℝ) * (2 * ((M_PI : ℚ) : ℝ) / 8 / (size : ℝ))|
        ≤ ((HALF_PI : ℚ) : ℝ) := by
    intro i hi
    have hi' : (i : ℝ) ≤ (size : ℝ) := by exact_mod_cast hi.le
    have hi0 : (0 : ℝ) ≤ (i : ℝ) := Nat.cast_nonneg i
    have e : (0 : ℝ) + (i : ℝ) * (2 * ((M_PI : ℚ) : ℝ) / 8 / (size : ℝ))
        = (i : ℝ) / (size : ℝ) * (2 * ((M_PI : ℚ) : ℝ) / 8) := by
      field_simp
      left; ring
    have hr : (i : ℝ) / (size : ℝ) ≤ 1 := (div_le_one hsz).mpr hi'
    have hr0 : 0 ≤ (i : ℝ) / (size : ℝ) := by positivity
    rw [e, hpi, hH, abs_of_nonneg (by positivity)]
    nlinarith
  obtain ⟨table, ht⟩ := getLUT_ok (cosPoly sinCosAccDouble)
    ({ size := size, startValue := 0, endValue := 2 * ((M_PI : ℚ) : ℝ) / 8,
       step := 2 * ((M_PI : ℚ) : ℝ) / 8 / (size : ℝ) } : LUTInfo ℝ) h0
    (fun i hi => ⟨_, cosPoly_of_le _ _ (harg i hi)⟩)
  obtain ⟨-, e1, e2⟩ := getLUT_entries _ _ _ ht
  refine ⟨_, table, h3, ht, h0, h1, h2, rfl, rfl, rfl, e1, ?_⟩
  intro i hi
  obtain ⟨a, b⟩ := e2 i hi
  refine ⟨?_, b⟩
  rw [cosPoly_of_le _ _ (harg i hi)] at a
  simp only [Except.ok.injEq] at a
  rw [← a]
  simp only [zero_add]
  rfl

/-- Entry `0` of every cosine table is `(1, 1)`: the value `1` and, as stored difference,
that value minus `0`. -/
theorem cosLUT_entry_zero (acc : Fin 11) (info : LUTInfo ℝ) (table : List (ℝ × ℝ))
    (hi : lutInfo SIN_COS_FOLDING_RATIO acc = .ok info)
    (ht : getLUT (cosPoly sinCosAccDouble) info = .ok table) :
    0 < table.length ∧ table.getD 0 (0, 0) = (1, 1) := by
  obtain ⟨info', table', hi', ht', h0, -, -, -, -, -, hlen, hent⟩ := cosLUT_exists acc
  rw [hi] at hi'
  simp only [Except.ok.injEq] at hi'
  subst hi'
  rw [ht] at ht'
  simp only [Except.ok.injEq] at ht'
  subst ht'
  obtain ⟨a, b⟩ := hent 0 h0
  have a' : (table.getD 0 (0, 0)).1 = 1 := by
    rw [a]; simp [cos_inner_polinomial]
  have b' : (table.getD 0 (0, 0)).2 = 1 := by
    rw [b, a']; simp
  exact ⟨by omega, Prod.ext a' b'⟩

/-- The table branch of `Trig::cos` at `0`. -/
theorem cosTable_zero (ε : ℝ) (hε : 0 < ε) (hε2 : ε ≤ 1 / 2) (acc : Fin 11) :
    cosTable ε acc 0 = .ok 1 := by
  obtain ⟨info, table, hi, ht, h0, h1, -, -, -, -, hlen, -⟩ := cosLUT_exists acc
  obtain ⟨hl0, hz⟩ := cosLUT_entry_zero acc info table hi ht
  have hq : |(0 : ℝ)| ≤ ((QUARTER_PI : ℚ) : ℝ) := by
    rw [abs_zero]
    have : (0 : ℚ) ≤ QUARTER_PI := by norm_num [QUARTER_PI]
    exact_mod_cast this
  unfold cosTable
  rw [cosTableOver_of_le _ _ _ _ _ hq, abs_zero]
  simp only [lutLookup, hi, ht, bind, Except.bind]
  have hs : (0 : ℝ) / info.endValue * (info.size : ℝ) = 0 := by simp
  have hn : getNearestInt ε ((0 : ℝ) / info.endValue * (info.size : ℝ)) = .ok 0 := by
    rw [hs]; exact getNearestInt_zero ε hε hε2
  rw [generic_inner_table_eq ε info table 0 0 hn (by unfold INT64_MIN; norm_num)
    (by unfold INT64_MAX; norm_num) (by omega), hs]
  have hne : ¬ ((0 : Int) = (info.size : Int)) := by omega
  have hw : wrapInt 0 = 0 := by unfold wrapInt; norm_num
  have hat := tableAt_natCast table (0, 0) 0 hl0
  simp only [Nat.cast_zero] at hat
  simp only [tableInterpolate, if_neg hne, Int.cast_zero, sub_zero, lt_self_iff_false,
    false_and, if_false, hw, hat, hz, bind, Except.bind, pure, Except.pure]
  norm_num

/-- C20: for every accuracy level and `0 < ε ≤ 1/2`, `Trig::cos 0` is exactly `1` on the
polynomial path (body and guarded function) and on the table path, and entry `0` of the
generated cosine table holds the value `1`. -/
theorem cos_zero (ε : ℝ) (hε : 0 < ε) (hε2 : ε ≤ 1 / 2) (acc : Fin 11) :
    cosPoly acc (0 : ℝ) = .ok 1
      ∧ Trig.cos acc (Fp.finite (0 : ℝ)) = .ok (Fp.finite 1)
      ∧ cosTable ε acc 0 = .ok 1
      ∧ ∃ (info : LUTInfo ℝ) (table : List (ℝ × ℝ)),
          lutInfo SIN_COS_FOLDING_RATIO acc = .ok info
            ∧ getLUT (cosPoly sinCosAccDouble) info = .ok table
            ∧ (table.getD 0 (0, 0)).1 = 1 := by
  have hH : |(0 : ℝ)| ≤ ((HALF_PI : ℚ) : ℝ) := by
    rw [abs_zero, half_pi_gap.1]; norm_num
  have hp : cosPoly acc (0 : ℝ) = .ok 1 := by
    rw [cosPoly_of_le acc 0 hH]; simp [cos_inner_polinomial]
  refine ⟨hp, ?_, cosTable_zero ε hε hε2 acc, ?_⟩
  · simp [Trig.cos, hp]
  · obtain ⟨info, table, hi, ht, -⟩ := cosLUT_exists acc
    exact ⟨info, table, hi, ht, by rw [(cosLUT_entry_zero acc info table hi ht).2]⟩

/-- Witness for C20 at `ε = 1/4503599627370496`, the `epsilon` of `double`, and accuracy
`3`. -/
theorem cos_zero_witness :
    (0 : ℝ) < 1 / 4503599627370496 ∧ (1 / 4503599627370496 : ℝ) ≤ 1 / 2
      ∧ cosPoly 3 (0 : ℝ) = .ok 1
      ∧ Trig.cos 3 (Fp.finite (0 : ℝ)) = .ok (Fp.finite 1)
      ∧ cosTable (1 / 4503599627370496 : ℝ) 3 0 = .ok 1
      ∧ ∃ (info : LUTInfo ℝ) (table : List (ℝ × ℝ)),
          lutInfo SIN_COS_FOLDING_RATIO 3 = .ok info
            ∧ getLUT (cosPoly sinCosAccDouble) info = .ok table
            ∧ (table.getD 0 (0, 0)).1 = 1 :=
  ⟨by norm_num, by norm_num, cos_zero (1 / 4503599627370496) (by norm_num) (by norm_num) 3⟩

set_option maxRecDepth 100000 in
/-- The polynomial cosine at the second sample point `M_PI / 12` of the table of accuracy
`1` is below `1`. -/
theorem cos_inner_second_sample :
    cos_inner_polinomial 6 ((1 : ℝ) * (2 * ((M_PI : ℚ) : ℝ) / 8 / 3)) < 1 := by
  have hpi : ((M_PI : ℚ) : ℝ) = 3.14159265358979323846 := by
    unfold M_PI; norm_num
  have hne : ¬ ((1 : ℝ) * (2 * ((M_PI : ℚ) : ℝ) / 8 / 3) = 0) := by
    rw [hpi]; norm_num
  have hl : COS_POLIES.getD 6 [] = COS_DEGREE_16 := rfl
  simp only [cos_inner_polinomial, if_neg hne, hl, hornerLoop_eq_polyEval]
  rw [hpi]
  norm_num [polyEval, COS_DEGREE_16]

/-- C11 (code departs from the interpolation it is meant to be): on the generated cosine table
of accuracy `1` (three entries) and the argument `M_PI / 48`, whose scaled value is `1/4`,
between the samples `0` and `1`, `generic_inner_table` returns `5/4`, and so does the table
path of `Trig::cos`, while the interpolation `value(0) + (s - 0) * (value(1) - value(0))` is
below `1`. -/
theorem generic_inner_table_not_interpolation :
    ∃ (info : LUTInfo ℝ) (table : List (ℝ × ℝ)),
      lutInfo SIN_COS_FOLDING_RATIO 1 = .ok info
        ∧ getLUT (cosPoly sinCosAccDouble) info = .ok table
        ∧ info.size = 3
        ∧ ((M_PI : ℚ) : ℝ) / 48 / info.endValue * (info.size : ℝ) = 1 / 4
        ∧ generic_inner_table (((DBL_EPSILON : ℚ)) : ℝ) info table (((M_PI : ℚ) : ℝ) / 48)
          = .ok (5 / 4)
        ∧ (table.getD 0 (0, 0)).1
            + (1 / 4 - 0) * ((table.getD 1 (0, 0)).1 - (table.getD 0 (0, 0)).1) < 1
        ∧ cosTable (((DBL_EPSILON : ℚ)) : ℝ) 1 (((M_PI : ℚ) : ℝ) / 48) = .ok (5 / 4) := by
  obtain ⟨info, table, hi, ht, h0, h1, h2, h3, h4, h5, hlen, hent⟩ := cosLUT_exists 1
  obtain ⟨hl0, hz⟩ := cosLUT_entry_zero 1 info table hi ht
  have hsize : info.size = 3 := h2 rfl
  have hpi : ((M_PI : ℚ) : ℝ) = 3.14159265358979323846 := by
    unfold M_PI; norm_num
  have hε : (0 : ℝ) < ((DBL_EPSILON : ℚ) : ℝ) := by
    have : (0 : ℚ) < DBL_EPSILON := by norm_num [DBL_EPSILON]
    exact_mod_cast this
  have hε2 : ((DBL_EPSILON : ℚ) : ℝ) ≤ 1 / 4 := by
    have e : ((DBL_EPSILON : ℚ) : ℝ) = 1 / 4503599627370496 := by
      unfold DBL_EPSILON; norm_num
    rw [e]; norm_num
  have hs : ((M_PI : ℚ) : ℝ) / 48 / info.endValue * (info.size : ℝ) = 1 / 4 := by
    rw [h4, hsize, hpi]; norm_num
  have hn : getNearestInt (((DBL_EPSILON : ℚ)) : ℝ)
      (((M_PI : ℚ) : ℝ) / 48 / info.endValue * (info.size : ℝ)) = .ok 0 := by
    rw [hs]
    obtain ⟨n, e, -, -, hp, -⟩ := getNearestInt_facts (((DBL_EPSILON : ℚ)) : ℝ) (1 / 4) hε
      (by linarith) (by rw [abs_of_pos (by norm_num)]; norm_num)
    obtain ⟨a, b⟩ := hp (by norm_num)
    have ha : (n : ℝ) < ((1 : Int) : ℝ) := by push_cast; linarith
    have hb : ((-1 : Int) : ℝ) < (n : ℝ) := by push_cast; linarith
    have ha' : n < 1 := by exact_mod_cast ha
    have hb' : -1 < n := by exact_mod_cast hb
    have : n = 0 := by omega
    rw [e, this]
  have hval : generic_inner_table (((DBL_EPSILON : ℚ)) : ℝ) info table
      (((M_PI : ℚ) : ℝ) / 48) = .ok (5 / 4) := by
    rw [generic_inner_table_eq _ info table _ 0 hn (by unfold INT64_MIN; norm_num)
      (by unfold INT64_MAX; norm_num) (by omega), hs]
    have hne : ¬ ((0 : Int) = (info.size : Int)) := by omega
    have hw : wrapInt 0 = 0 := by unfold wrapInt; norm_num
    have hat := tableAt_natCast table (0, 0) 0 hl0
    simp only [Nat.cast_zero] at hat
    have hd : ¬ ((1 / 4 : ℝ) - ((0 : Int) : ℝ) < 0 ∧ (0 : Int) > 0) := by
      intro h; exact absurd h.2 (by norm_num)
    simp only [tableInterpolate, if_neg hne, if_neg hd, hw, hat, hz, bind, Except.bind, pure,
      Except.pure]
    norm_num
  have hone : (table.getD 1 (0, 0)).1 < 1 := by
    rw [(hent 1 (by omega)).1, h5, h4, hsize]
    have := cos_inner_second_sample
    norm_num at this ⊢
    exact this
  refine ⟨info, table, hi, ht, hsize, hs, hval, ?_, ?_⟩
  · rw [hz]
    simp only
    linarith
  · have hq : |((M_PI : ℚ) : ℝ) / 48| ≤ ((QUARTER_PI : ℚ) : ℝ) := by
      have e : ((QUARTER_PI : ℚ) : ℝ) = 7.853981633974483096e-1 := by
        unfold QUARTER_PI; norm_num
      rw [e, hpi, abs_of_pos (by norm_num)]
      norm_num
    unfold cosTable
    rw [cosTableOver_of_le _ _ _ _ _ hq, abs_of_pos (by rw [hpi]; norm_num)]
    simp only [lutLookup, hi, ht, bind, Except.bind]
    exact hval

/-- C12 (code departs from the forward difference): in every table returned by `getLUT`,
entry `i` holds the value of `Func` at `startValue + i * step` and, as stored difference, that
value minus the value of entry `i - 1`, entry `0` storing its value minus `0`; so the stored
difference is the backward one, not `value(i+1) - value(i)`. -/
theorem getLUT_stores_backward_difference {α : Type} [LinearOrderedField α]
    (Func : α → Except Fault α) (info : LUTInfo α) (table : List (α × α))
    (h : getLUT Func info = .ok table) :
    table.length = info.size
      ∧ ∀ i : Nat, i < info.size →
          Func (info.startValue + (i : α) * info.step) = .ok (table.getD i (0, 0)).1
            ∧ (table.getD i (0, 0)).2
              = (table.getD i (0, 0)).1
                - (if i = 0 then 0 else (table.getD (i - 1) (0, 0)).1) :=
  (getLUT_entries Func info table h).2

/-- The cosine table of accuracy `1`, entry by entry. -/
theorem cosLUT_one_eq :
    getLUT (cosPoly sinCosAccDouble)
        ({ size := 3, startValue := 0, endValue := 2 * ((M_PI : ℚ) : ℝ) / 8,
           step := 2 * ((M_PI : ℚ) : ℝ) / 8 / 3 } : LUTInfo ℝ)
      = .ok [(1, 1),
          (cos_inner_polinomial 6 (2 * ((M_PI : ℚ) : ℝ) / 8 / 3),
            cos_inner_polinomial 6 (2 * ((M_PI : ℚ) : ℝ) / 8 / 3) - 1),
          (cos_inner_polinomial 6 (2 * ((M_PI : ℚ) : ℝ) / 8 / 3 + 2 * ((M_PI : ℚ) : ℝ) / 8 / 3),
            cos_inner_polinomial 6
                (2 * ((M_PI : ℚ) : ℝ) / 8 / 3 + 2 * ((M_PI : ℚ) : ℝ) / 8 / 3)
              - cos_inner_polinomial 6 (2 * ((M_PI : ℚ) : ℝ) / 8 / 3))] := by
  have hpi : ((M_PI : ℚ) : ℝ) = 3.14159265358979323846 := by
    unfold M_PI; norm_num
  have hH := half_pi_gap.1
  have a0 : cosPoly sinCosAccDouble (0 : ℝ) = .ok 1 := by
    rw [cosPoly_of_le _ _ (by rw [abs_zero, hH]; norm_num)]
    simp [cos_inner_polinomial]
  have a1 : cosPoly sinCosAccDouble (2 * ((M_PI : ℚ) : ℝ) / 8 / 3)
      = .ok (cos_inner_polinomial 6 (2 * ((M_PI : ℚ) : ℝ) / 8 / 3)) :=
    cosPoly_of_le _ _ (by rw [hpi, hH, abs_of_pos (by norm_num)]; norm_num)
  have a2 : cosPoly sinCosAccDouble
        (2 * ((M_PI : ℚ) : ℝ) / 8 / 3 + 2 * ((M_PI : ℚ) : ℝ) / 8 / 3)
      = .ok (cos_inner_polinomial 6
          (2 * ((M_PI : ℚ) : ℝ) / 8 / 3 + 2 * ((M_PI : ℚ) : ℝ) / 8 / 3)) :=
    cosPoly_of_le _ _ (by rw [hpi, hH, abs_of_pos (by norm_num)]; norm_num)
  simp [getLUT, generateLUT, generateLUTLoop, a0, a1, a2]

/-- Witness for C12 on the generated cosine table of accuracy `1`. -/
theorem getLUT_stores_backward_difference_witness :
    ∃ table : List (ℝ × ℝ),
      table = [(1, 1),
          (cos_inner_polinomial 6 (2 * ((M_PI : ℚ) : ℝ) / 8 / 3),
            cos_inner_polinomial 6 (2 * ((M_PI : ℚ) : ℝ) / 8 / 3) - 1),
          (cos_inner_polinomial 6 (2 * ((M_PI : ℚ) : ℝ) / 8 / 3 + 2 * ((M_PI : ℚ) : ℝ) / 8 / 3),
            cos_inner_polinomial 6
                (2 * ((M_PI : ℚ) : ℝ) / 8 / 3 + 2 * ((M_PI : ℚ) : ℝ) / 8 / 3)
              - cos_inner_polinomial 6 (2 * ((M_PI : ℚ) : ℝ) / 8 / 3))]
        ∧ getLUT (cosPoly sinCosAccDouble)
            ({ size := 3, startValue := 0, endValue := 2 * ((M_PI : ℚ) : ℝ) / 8,
               step := 2 * ((M_PI : ℚ) : ℝ) / 8 / 3 } : LUTInfo ℝ) = .ok table
        ∧ table.length = 3
        ∧ ∀ i : Nat, i < 3 →
            cosPoly sinCosAccDouble ((0 : ℝ) + (i : ℝ) * (2 * ((M_PI : ℚ) : ℝ) / 8 / 3))
                = .ok (table.getD i (0, 0)).1
              ∧ (table.getD i (0, 0)).2
                = (table.getD i (0, 0)).1
                  - (if i = 0 then 0 else (table.getD (i - 1) (0, 0)).1) :=
  ⟨_, rfl, cosLUT_one_eq, getLUT_stores_backward_difference _ _ _ cosLUT_one_eq⟩

/-! ## Default accuracy -/

set_option maxRecDepth 100000 in
/-- The sine polynomials of index `4` and `6` at `HALF_PI`. -/
theorem sin_inner_half_pi :
    |sin_inner_polinomial 4 (((HALF_PI : ℚ)) : ℝ) - 1| ≤ 0.00000000003
      ∧ |sin_inner_polinomial 6 (((HALF_PI : ℚ)) : ℝ) - 1| ≤ 0.0000000000000002 := by
  have hH := half_pi_gap.1
  have hne : ¬ ((((HALF_PI : ℚ)) : ℝ) = 0) := by rw [hH]; norm_num
  have h4 : SIN_POLIES.getD 4 [] = SIN_DEGREE_11 := rfl
  have h6 : SIN_POLIES.getD 6 [] = SIN_DEGREE_15 := rfl
  constructor
  · simp only [sin_inner_polinomial, if_neg hne, h4, hornerLoop_eq_polyEval]
    rw [hH, abs_le]
    constructor <;> norm_num [polyEval, SIN_DEGREE_11]
  · simp only [sin_inner_polinomial, if_neg hne, h6, hornerLoop_eq_polyEval]
    rw [hH, abs_le]
    constructor <;> norm_num [polyEval, SIN_DEGREE_15]

/-- Claim C21.  At the default accuracy of each precision, level `5` for `float` and level
`7` for `double`, which select the polynomials of index `4` and `6`, the polynomial sine at
`HALF_PI` is within `1e-6` of `1` in exact arithmetic on the stored coefficients, both as
the body `sinPoly` and as `Trig.sin` with its guard. -/
theorem sin_half_pi_default :
    polyIndex sinCosAccFloat = 4 ∧ polyIndex sinCosAccDouble = 6
      ∧ (∃ v : ℝ, sinPoly sinCosAccFloat (((HALF_PI : ℚ)) : ℝ) = .ok v ∧ |v - 1| ≤ 0.000001)
      ∧ (∃ v : ℝ, sinPoly sinCosAccDouble (((HALF_PI : ℚ)) : ℝ) = .ok v
          ∧ |v - 1| ≤ 0.000001)
      ∧ (∃ v : ℝ, Trig.sin sinCosAccFloat (Fp.finite (((HALF_PI : ℚ)) : ℝ))
            = .ok (Fp.finite v) ∧ |v - 1| ≤ 0.000001)
      ∧ (∃ v : ℝ, Trig.sin sinCosAccDouble (Fp.finite (((HALF_PI : ℚ)) : ℝ))
            = .ok (Fp.finite v) ∧ |v - 1| ≤ 0.000001) := by
  obtain ⟨h4, h6⟩ := sin_inner_half_pi
  have hH := half_pi_gap.1
  have hle : |(((HALF_PI : ℚ)) : ℝ)| ≤ (((HALF_PI : ℚ)) : ℝ) := by
    rw [abs_of_pos (by rw [hH]; norm_num)]
  have e5 : sinPoly sinCosAccFloat (((HALF_PI : ℚ)) : ℝ)
      = .ok (sin_inner_polinomial 4 (((HALF_PI : ℚ)) : ℝ)) :=
    sinPolyWith_of_le _ _ _ _ _ hle
  have e7 : sinPoly sinCosAccDouble (((HALF_PI : ℚ)) : ℝ)
      = .ok (sin_inner_polinomial 6 (((HALF_PI : ℚ)) : ℝ)) :=
    sinPolyWith_of_le _ _ _ _ _ hle
  have b4 : |sin_inner_polinomial 4 (((HALF_PI : ℚ)) : ℝ) - 1| ≤ 0.000001 :=
    le_trans h4 (by norm_num)
  have b6 : |sin_inner_polinomial 6 (((HALF_PI : ℚ)) : ℝ) - 1| ≤ 0.000001 :=
    le_trans h6 (by norm_num)
  refine ⟨rfl, rfl, ⟨_, e5, b4⟩, ⟨_, e7, b6⟩, ⟨_, ?_, b4⟩, ⟨_, ?_, b6⟩⟩
  · simp [Trig.sin, e5]
  · simp [Trig.sin, e7]

/-- Claim C27, which the code does not meet.  The default accuracy is
`DP_ERROR_DEGREE_INDEX = 7` for `double` and `SP_ERROR_DEGREE_INDEX = 5` for `float`, but
it is used as an accuracy level and goes through `SIN_COS_ACC_MAP`: `double` selects the
polynomials of index `6`, `SIN_DEGREE_15` and `COS_DEGREE_16`, not the highest ones
`SIN_DEGREE_17` and `COS_DEGREE_18` of level `10`, and `float` selects index `4`,
`SIN_DEGREE_11` and `COS_DEGREE_12`, not the polynomials `SIN_DEGREE_13` and
`COS_DEGREE_14` of index `SP_ERROR_DEGREE_INDEX`. -/
theorem default_accuracy_not_maximal :
    sinCosAccDouble.val = DP_ERROR_DEGREE_INDEX ∧ sinCosAccFloat.val = SP_ERROR_DEGREE_INDEX
      ∧ polyIndex sinCosAccDouble = 6
      ∧ SIN_POLIES.getD (polyIndex sinCosAccDouble) [] = SIN_DEGREE_15
      ∧ COS_POLIES.getD (polyIndex sinCosAccDouble) [] = COS_DEGREE_16
      ∧ polyIndex 10 = 7
      ∧ SIN_POLIES.getD (polyIndex 10) [] = SIN_DEGREE_17
      ∧ COS_POLIES.getD (polyIndex 10) [] = COS_DEGREE_18
      ∧ SIN_DEGREE_15 ≠ SIN_DEGREE_17 ∧ COS_DEGREE_16 ≠ COS_DEGREE_18
      ∧ polyIndex sinCosAccFloat = 4
      ∧ SIN_POLIES.getD (polyIndex sinCosAccFloat) [] = SIN_DEGREE_11
      ∧ COS_POLIES.getD (polyIndex sinCosAccFloat) [] = COS_DEGREE_12
      ∧ SIN_POLIES.getD SP_ERROR_DEGREE_INDEX [] = SIN_DEGREE_13
      ∧ COS_POLIES.getD SP_ERROR_DEGREE_INDEX [] = COS_DEGREE_14
      ∧ SIN_DEGREE_11 ≠ SIN_DEGREE_13 ∧ COS_DEGREE_12 ≠ COS_DEGREE_14 := by
  have len : ∀ a b : List ℚ, a.length ≠ b.length → a ≠ b := fun a b h e => h (by rw [e])
  refine ⟨rfl, rfl, rfl, rfl, rfl, rfl, rfl, rfl, ?_, ?_, rfl, rfl, rfl, rfl, rfl, ?_, ?_⟩
  · exact len _ _ (by simp [SIN_DEGREE_15, SIN_DEGREE_17])
  · exact len _ _ (by simp [COS_DEGREE_16, COS_DEGREE_18])
  · exact len _ _ (by simp [SIN_DEGREE_11, SIN_DEGREE_13])
  · exact len _ _ (by simp [COS_DEGREE_12, COS_DEGREE_14])

/-! ## The Horner loops as sums -/

/-- The Horner value of a coefficient list is the sum of its monomials. -/
theorem polyEval_eq_sum {α : Type} [Field α] (cs : List ℚ) (y : α) :
    polyEval cs y
      = Finset.sum (Finset.range cs.length) (fun i => ((cs.getD i 0 : ℚ) : α) * y ^ i) := by
  induction cs with
  | nil => simp [polyEval]
  | cons c cs ih =>
    have e : polyEval (c :: cs) y = (c : α) + y * polyEval cs y := rfl
    rw [e, ih, List.length_cons, Finset.sum_range_succ', Finset.mul_sum]
    simp only [List.getD_cons_succ, List.getD_cons_zero, pow_zero, mul_one, pow_succ]
    rw [add_comm]
    congr 1
    apply Finset.sum_congr rfl
    intro i _
    ring

/-- The polynomial of index `p` has `p + 2` coefficients for the sine and `p + 3` for the
cosine. -/
theorem polies_length (p : Nat) (hp : p < 8) :
    (SIN_POLIES.getD p []).length = p + 2 ∧ (COS_POLIES.getD p []).length = p + 3 := by
  interval_cases p <;> exact ⟨rfl, rfl⟩

/-- The Horner forms of the two inner polynomials. -/
theorem inner_polinomial_sum {α : Type} [LinearOrderedField α] (p : Nat) (x : α) :
    sin_inner_polinomial p x
        = x * Finset.sum (Finset.range (SIN_POLIES.getD p []).length)
            (fun i => (((SIN_POLIES.getD p []).getD i 0 : ℚ) : α) * x ^ (2 * i))
      ∧ (x ≠ 0 → cos_inner_polinomial p x
        = Finset.sum (Finset.range (COS_POLIES.getD p []).length)
            (fun i => (((COS_POLIES.getD p []).getD i 0 : ℚ) : α) * x ^ (2 * i)))
      ∧ cos_inner_polinomial p (0 : α) = 1 := by
  have hpow : ∀ i : Nat, (x * x) ^ i = x ^ (2 * i) := by
    intro i; rw [← sq, ← pow_mul]
  refine ⟨?_, ?_, by simp [cos_inner_polinomial]⟩
  · unfold sin_inner_polinomial
    by_cases h : x = 0
    · rw [if_pos h, h]; simp
    · rw [if_neg h]
      simp only [hornerLoop_eq_polyEval, polyEval_eq_sum, hpow]
      ring
  · intro h
    unfold cos_inner_polinomial
    rw [if_neg h]
    simp only [hornerLoop_eq_polyEval, polyEval_eq_sum, hpow]

/-- Claim C29.  For every polynomial index `p` in `0..7` and every `x ≠ 0` the Horner loops
compute `sin_inner_polinomial p x = x * Σ c_i x^(2i)` over the `p + 2` coefficients of
`SIN_POLIES[p]` and `cos_inner_polinomial p x = Σ c_i x^(2i)` over the `p + 3` coefficients
of `COS_POLIES[p]`, lowest degree first; at `0` they return `0` and `1`; the sine
polynomial is odd and the cosine polynomial is even. -/
theorem inner_polinomial_horner {α : Type} [LinearOrderedField α] (p : Nat) (hp : p < 8)
    (x : α) (hx : x ≠ 0) :
    (SIN_POLIES.getD p []).length = p + 2 ∧ (COS_POLIES.getD p []).length = p + 3
      ∧ sin_inner_polinomial p x
          = x * Finset.sum (Finset.range (p + 2))
              (fun i => (((SIN_POLIES.getD p []).getD i 0 : ℚ) : α) * x ^ (2 * i))
      ∧ cos_inner_polinomial p x
          = Finset.sum (Finset.range (p + 3))
              (fun i => (((COS_POLIES.getD p []).getD i 0 : ℚ) : α) * x ^ (2 * i))
      ∧ sin_inner_polinomial p (0 : α) = 0 ∧ cos_inner_polinomial p (0 : α) = 1
      ∧ (∀ y : α, sin_inner_polinomial p (-y) = -sin_inner_polinomial p y)
      ∧ (∀ y : α, cos_inner_polinomial p (-y) = cos_inner_polinomial p y) := by
  obtain ⟨l1, l2⟩ := polies_length p hp
  obtain ⟨s, c, c0⟩ := inner_polinomial_sum p x
  refine ⟨l1, l2, ?_, ?_, by simp [sin_inner_polinomial], c0, ?_, ?_⟩
  · rw [s, l1]
  · rw [c hx, l2]
  · intro y
    unfold sin_inner_polinomial
    by_cases h : y = 0
    · simp [h]
    · simp [h, neg_mul_neg]
  · intro y
    unfold cos_inner_polinomial
    by_cases h : y = 0
    · simp [h]
    · simp [h, neg_mul_neg]

/-- Witness for C29 at the polynomial index `3` and `x = 2`. -/
theorem inner_polinomial_horner_witness :
    3 < 8 ∧ (2 : ℚ) ≠ 0
      ∧ (SIN_POLIES.getD 3 []).length = 3 + 2 ∧ (COS_POLIES.getD 3 []).length = 3 + 3
      ∧ sin_inner_polinomial 3 (2 : ℚ)
          = 2 * Finset.sum (Finset.range (3 + 2))
              (fun i => (((SIN_POLIES.getD 3 []).getD i 0 : ℚ) : ℚ) * 2 ^ (2 * i))
      ∧ cos_inner_polinomial 3 (2 : ℚ)
          = Finset.sum (Finset.range (3 + 3))
              (fun i => (((COS_POLIES.getD 3 []).getD i 0 : ℚ) : ℚ) * 2 ^ (2 * i))
      ∧ sin_inner_polinomial 3 (0 : ℚ) = 0 ∧ cos_inner_polinomial 3 (0 : ℚ) = 1
      ∧ (∀ y : ℚ, sin_inner_polinomial 3 (-y) = -sin_inner_polinomial 3 y)
      ∧ (∀ y : ℚ, cos_inner_polinomial 3 (-y) = cos_inner_polinomial 3 y) :=
  ⟨by norm_num, by norm_num, inner_polinomial_horner 3 (by norm_num) 2 (by norm_num)⟩

/-! ## The trailing assertion of the selectors -/

/-- The bits of `a` cleared where `n` has a bit stay below the power of two above `a`. -/
theorem ldiff_lt_two_pow (k a n : Nat) (ha : a < 2 ^ k) : Nat.ldiff a n < 2 ^ k := by
  apply Nat.lt_pow_two_of_testBit
  intro i hi
  rw [Nat.testBit_ldiff]
  have : Nat.testBit a i = false := by
    apply Nat.testBit_lt_two_pow
    exact lt_of_lt_of_le ha (Nat.pow_le_pow_right (by norm_num) hi)
  simp [this]

/-- The masked index `m & 3` of an `int` is one of the four quadrants. -/
theorem land_three_cases (m : Int) :
    Int.land m 3 = 0 ∨ Int.land m 3 = 1 ∨ Int.land m 3 = 2 ∨ Int.land m 3 = 3 := by
  have key : ∃ n : Nat, n < 4 ∧ Int.land m 3 = (n : Int) := by
    cases m with
    | ofNat a =>
      exact ⟨a &&& 3, Nat.and_lt_two_pow a (by norm_num : 3 < 2 ^ 2), rfl⟩
    | negSucc a =>
      exact ⟨Nat.ldiff 3 a, ldiff_lt_two_pow 2 3 a (by norm_num), rfl⟩
  obtain ⟨n, hn, e⟩ := key
  rw [e]
  interval_cases n <;> simp

/-- The masked index `m & 7` of an `int` is one of the eight octants. -/
theorem land_seven_cases (m : Int) :
    Int.land m 7 = 0 ∨ Int.land m 7 = 1 ∨ Int.land m 7 = 2 ∨ Int.land m 7 = 3
      ∨ Int.land m 7 = 4 ∨ Int.land m 7 = 5 ∨ Int.land m 7 = 6 ∨ Int.land m 7 = 7 := by
  have key : ∃ n : Nat, n < 8 ∧ Int.land m 7 = (n : Int) := by
    cases m with
    | ofNat a =>
      exact ⟨a &&& 7, Nat.and_lt_two_pow a (by norm_num : 7 < 2 ^ 3), rfl⟩
    | negSucc a =>
      exact ⟨Nat.ldiff 7 a, ldiff_lt_two_pow 3 7 a (by norm_num), rfl⟩
  obtain ⟨n, hn, e⟩ := key
  rw [e]
  interval_cases n <;> simp

section Assert
variable {α : Type} [LinearOrderedField α] [FloorRing α]

/-- The polynomial cosine with the assertion compiled in is the one without it. -/
theorem cosPolyWithAssert_eq (S C : α → α) (P inv x : α) :
    cosPolyWithAssert S C P inv x = cosPolyWith S C P inv x := by
  unfold cosPolyWithAssert cosPolyWith
  cases h : addRangeReduce x P inv with
  | error e => rfl
  | ok v =>
    obtain ⟨res, y⟩ := v
    simp only [bind, Except.bind]
    by_cases hn : res.noReduciton = true
    · simp [hn]
    · simp only [hn]
      cases hm : imul res.quad (if res.quad ≥ 0 then 1 else -1) with
      | error e => rfl
      | ok m =>
        rcases land_three_cases m with hk | hk | hk | hk <;>
          simp [hk, Pi3by2_2Pi]

/-- The polynomial sine with the assertion compiled in is the one without it. -/
theorem sinPolyWithAssert_eq (S C : α → α) (P inv x : α) :
    sinPolyWithAssert S C P inv x = sinPolyWith S C P inv x := by
  unfold sinPolyWithAssert sinPolyWith
  cases h : addRangeReduce x P inv with
  | error e => rfl
  | ok v =>
    obtain ⟨res, y⟩ := v
    simp only [bind, Except.bind]
    by_cases hn : res.noReduciton = true
    · simp [hn]
    · simp only [hn]
      cases hm : imul res.quad (if res.quad ≥ 0 then 1 else -1) with
      | error e => rfl
      | ok m =>
        rcases land_three_cases m with hk | hk | hk | hk <;>
          simp [hk, Pi3by2_2Pi]

/-- The table cosine with the assertion compiled in is the one without it. -/
theorem cosTableOverAssert_eq (cosT sinT : α → Except Fault α) (P inv x : α) :
    cosTableOverAssert cosT sinT P inv x = cosTableOver cosT sinT P inv x := by
  unfold cosTableOverAssert cosTableOver
  cases h : addRangeReduce x P inv with
  | error e => rfl
  | ok v =>
    obtain ⟨res, y⟩ := v
    simp only [bind, Except.bind]
    by_cases hn : res.noReduciton = true
    · simp [hn]
    · simp only [hn]
      cases hm : iabs res.quad with
      | error e => rfl
      | ok m =>
        have hk := land_seven_cases m
        unfold PiPi3by4_2Pi
        dsimp only
        generalize Int.land m 7 = k at hk ⊢
        rcases hk with rfl | rfl | rfl | rfl | rfl | rfl | rfl | rfl <;> rfl

/-- The tangent with the assertion compiled in is the one without it. -/
theorem tanWithAssert_eq (T : α → Except Fault α) (P inv x : α) :
    tanWithAssert T P inv x = tanWith T P inv x := by
  unfold tanWithAssert tanWith
  cases h : addRangeReduce x P inv with
  | error e => rfl
  | ok v =>
    obtain ⟨res, y⟩ := v
    simp only [bind, Except.bind]
    by_cases hg : y * (((if x ≥ 0 then 1 else -1 : Int) : Int) : α) = 0
        ∧ ((res.quad = 2 * if x ≥ 0 then 1 else -1) ∨ res.quad = 6 * if x ≥ 0 then 1 else -1)
    · rw [if_pos hg, if_pos hg]
    · rw [if_neg hg, if_neg hg]
      cases hm : imul res.quad (if x ≥ 0 then 1 else -1) with
      | error e => rfl
      | ok m =>
        have hk := land_seven_cases m
        unfold PiPi3by4_2Pi
        dsimp only [pure, Except.pure]
        generalize Int.land m 7 = k at hk ⊢
        rcases hk with rfl | rfl | rfl | rfl | rfl | rfl | rfl | rfl <;> rfl

/-- The range reduction reports no other fault than the conversion to `int`. -/
theorem addRangeReduce_error (x P inv : α) (e : Fault)
    (h : addRangeReduce x P inv = .error e) : e = Fault.intConversion := by
  unfold addRangeReduce toInt at h
  split_ifs at h <;> (simp only [Except.error.injEq] at h; exact h.symm)

/-- The polynomial selectors with the assertion compiled in never report it. -/
theorem polyWithAssert_ne_assertion (S C : α → α) (P inv x : α) :
    cosPolyWithAssert S C P inv x ≠ .error Fault.assertion
      ∧ sinPolyWithAssert S C P inv x ≠ .error Fault.assertion := by
  have himul : ∀ a b : Int, imul a b ≠ .error Fault.assertion := by
    intro a b
    unfold imul
    split_ifs <;> simp
  constructor
  · unfold cosPolyWithAssert
    cases h : addRangeReduce x P inv with
    | error e =>
      rw [addRangeReduce_error x P inv e h]
      simp [bind, Except.bind]
    | ok v =>
      obtain ⟨res, y⟩ := v
      simp only [bind, Except.bind]
      by_cases hn : res.noReduciton = true
      · simp [hn, pure, Except.pure]
      · simp only [hn]
        cases hm : imul res.quad (if res.quad ≥ 0 then 1 else -1) with
        | error e =>
          intro hc
          simp [pure, Except.pure] at hc
          rw [hc] at hm
          exact himul _ _ hm
        | ok m =>
          rcases land_three_cases m with hk | hk | hk | hk <;>
            simp [hk, Pi3by2_2Pi, pure, Except.pure]
  · unfold sinPolyWithAssert
    cases h : addRangeReduce x P inv with
    | error e =>
      rw [addRangeReduce_error x P inv e h]
      simp [bind, Except.bind]
    | ok v =>
      obtain ⟨res, y⟩ := v
      simp only [bind, Except.bind]
      by_cases hn : res.noReduciton = true
      · simp [hn, pure, Except.pure]
      · simp only [hn]
        cases hm : imul res.quad (if res.quad ≥ 0 then 1 else -1) with
        | error e =>
          intro hc
          simp [pure, Except.pure] at hc
          rw [hc] at hm
          exact himul _ _ hm
        | ok m =>
          rcases land_three_cases m with hk | hk | hk | hk <;>
            simp [hk, Pi3by2_2Pi, pure, Except.pure]

end Assert

/-- Claim C22.  The masked index of each switch is one of its cases for every `int`, of
either sign: `m & 3` is one of `0..3` and `m & 7` one of `0..7`.  So `Trig::sin` and
`Trig::cos`, on the polynomial and on the table path, and `Trig::tan`, compiled with the
trailing `assert(false && "invalid range")`, are for every argument the functions without
it, whose last branch returns normally: the assertion is never reached.  The polynomial
paths report no assertion at all. -/
theorem switch_default_unreachable {α : Type} [LinearOrderedField α] [FloorRing α] :
    (∀ m : Int, Int.land m Pi3by2_2Pi = 0 ∨ Int.land m Pi3by2_2Pi = 1
        ∨ Int.land m Pi3by2_2Pi = 2 ∨ Int.land m Pi3by2_2Pi = 3)
      ∧ (∀ m : Int, Int.land m PiPi3by4_2Pi = 0 ∨ Int.land m PiPi3by4_2Pi = 1
        ∨ Int.land m PiPi3by4_2Pi = 2 ∨ Int.land m PiPi3by4_2Pi = 3
        ∨ Int.land m PiPi3by4_2Pi = 4 ∨ Int.land m PiPi3by4_2Pi = 5
        ∨ Int.land m PiPi3by4_2Pi = 6 ∨ Int.land m PiPi3by4_2Pi = 7)
      ∧ (∀ (accuracy : Fin 11) (x : α),
          cosPolyWithAssert (sin_inner_polinomial (polyIndex accuracy))
              (cos_inner_polinomial (polyIndex accuracy)) (HALF_PI : α) (INV_HALF_PI : α) x
            = cosPoly accuracy x)
      ∧ (∀ (accuracy : Fin 11) (x : α),
          sinPolyWithAssert (sin_inner_polinomial (polyIndex accuracy))
              (cos_inner_polinomial (polyIndex accuracy)) (HALF_PI : α) (INV_HALF_PI : α) x
            = sinPoly accuracy x)
      ∧ (∀ (epsilon : α) (accuracy : Fin 11) (x : α),
          cosTableOverAssert (lutLookup epsilon (cosPoly sinCosAccDouble) accuracy)
              (lutLookup epsilon (sinPoly sinCosAccDouble) accuracy)
              (QUARTER_PI : α) (INV_QUARTER_PI : α) x
            = cosTable epsilon accuracy x)
      ∧ (∀ (epsilon : α) (accuracy : Fin 11) (x : α),
          cosTableOverAssert (lutLookup epsilon (cosPoly sinCosAccDouble) accuracy)
              (lutLookup epsilon (sinPoly sinCosAccDouble) accuracy)
              (QUARTER_PI : α) (INV_QUARTER_PI : α) ((HALF_PI : α) - x)
            = sinTable epsilon accuracy x)
      ∧ (∀ (fast : Bool) (x : α),
          tanWithAssert (tan_inner_polynomial fast) (QUARTER_PI : α) (INV_QUARTER_PI : α) x
            = tan fast x)
      ∧ (∀ (accuracy : Fin 11) (x : α),
          cosPolyWithAssert (sin_inner_polinomial (polyIndex accuracy))
              (cos_inner_polinomial (polyIndex accuracy)) (HALF_PI : α) (INV_HALF_PI : α) x
            ≠ .error Fault.assertion)
      ∧ (∀ (accuracy : Fin 11) (x : α),
          sinPolyWithAssert (sin_inner_polinomial (polyIndex accuracy))
              (cos_inner_polinomial (polyIndex accuracy)) (HALF_PI : α) (INV_HALF_PI : α) x
            ≠ .error Fault.assertion) :=
  ⟨land_three_cases, land_seven_cases,
    fun _ x => cosPolyWithAssert_eq _ _ _ _ x, fun _ x => sinPolyWithAssert_eq _ _ _ _ x,
    fun _ _ x => cosTableOverAssert_eq _ _ _ _ x,
    fun _ _ _ => cosTableOverAssert_eq _ _ _ _ _,
    fun _ x => tanWithAssert_eq _ _ _ x,
    fun _ x => (polyWithAssert_ne_assertion _ _ _ _ x).1,
    fun _ x => (polyWithAssert_ne_assertion _ _ _ _ x).2⟩

/-! ## Octant reconstruction of the tangent -/

section TanSel
variable {α : Type} [LinearOrderedField α] [FloorRing α]

/-- A fault of the range reduction is the result of the tangent. -/
theorem tanWith_of_error (T : α → Except Fault α) (P inv x : α) (e : Fault)
    (h : addRangeReduce x P inv = .error e) :
    tanWith T P inv x = .error e := by
  simp only [tanWith, h, bind, Except.bind]

/-- The tangent on an argument that needs no reduction. -/
theorem tanWith_of_le (T : α → Except Fault α) (T1 : α → α) (P inv x : α) (h : |x| ≤ P)
    (hT : T |x| = .ok (T1 |x|)) :
    tanWith T P inv x
      = .ok (Fp.finite ((((if x ≥ 0 then 1 else -1 : Int) : Int) : α) * T1 |x|)) := by
  have hg : ¬ (|x| = 0 ∧ (((0 : Int) = 2 * if x ≥ 0 then 1 else -1)
      ∨ (0 : Int) = 6 * if x ≥ 0 then 1 else -1)) := by
    rintro ⟨-, h1 | h1⟩ <;> split_ifs at h1 <;> omega
  have hm : imul 0 (if x ≥ 0 then 1 else -1) = .ok 0 := by
    simp [imul, INT_MIN, INT_MAX]
  have hl : Int.land 0 7 = 0 := by decide
  simp only [tanWith, addRangeReduce_of_le x P inv h, bind, Except.bind, mul_sign_self,
    if_neg hg, hm, PiPi3by4_2Pi, hl, if_true, hT, pure, Except.pure]

/-- The tangent on a reduced argument, by the octant of the reduction. -/
theorem tanWith_of_reduced (T : α → Except Fault α) (T1 : α → α) (P inv x y : α) (q : Int)
    (h : addRangeReduce x P inv = .ok ({ quad := q, noReduciton := false }, y))
    (hq : INT_MIN < q ∧ q ≤ INT_MAX)
    (hs : (if x ≥ 0 then (1 : Int) else -1) = signOf q)
    (hy : y * ((signOf q : Int) : α) = |y|)
    (hg : ¬ (|y| = 0 ∧ (q = 2 * signOf q ∨ q = 6 * signOf q)))
    (h1 : T |y| = .ok (T1 |y|)) (h2 : T (P - |y|) = .ok (T1 (P - |y|)))
    (hd1 : T1 (P - |y|) ≠ 0) (hd2 : |q| % 8 = 2 ∨ |q| % 8 = 6 → T1 |y| ≠ 0) :
    tanWith T P inv x
      = .ok (Fp.finite (((signOf q : Int) : α) * octTan T1 P (|q| % 8) |y|)) := by
  have hk : |q| % 8 = 0 ∨ |q| % 8 = 1 ∨ |q| % 8 = 2 ∨ |q| % 8 = 3 ∨ |q| % 8 = 4
      ∨ |q| % 8 = 5 ∨ |q| % 8 = 6 ∨ |q| % 8 = 7 := by
    have := abs_nonneg q; omega
  simp only [tanWith, h, bind, Except.bind, hs, hy, if_neg hg, imul_signOf q hq,
    PiPi3by4_2Pi, land_seven_eq_mod _ (abs_nonneg q), pure, Except.pure]
  rcases hk with hk | hk | hk | hk | hk | hk | hk | hk
  · simp [hk, octTan, h1]
  · simp only [hk, octTan, h2, fdiv, if_neg hd1]
    norm_num
    ring
  · simp only [hk, octTan, h1, fdiv, if_neg (hd2 (Or.inl hk))]
    norm_num
    ring
  · simp only [hk, octTan, h2]
    norm_num
  · simp [hk, octTan, h1]
  · simp only [hk, octTan, h2, fdiv, if_neg hd1]
    norm_num
    ring
  · simp only [hk, octTan, h1, fdiv, if_neg (hd2 (Or.inr hk))]
    norm_num
    ring
  · simp only [hk, octTan, h2]
    norm_num

end TanSel

open Real in
/-- The exact tangent `m` octants further on. -/
theorem real_tan_add_octants (r : ℝ) (m : Int) :
    Real.tan (r + (m : ℝ) * (π / 4)) = octTan Real.tan (π / 4) (m % 8) r := by
  have hm : m = m % 8 + 8 * (m / 8) := (Int.emod_add_ediv m 8).symm
  have hk : m % 8 = 0 ∨ m % 8 = 1 ∨ m % 8 = 2 ∨ m % 8 = 3 ∨ m % 8 = 4
      ∨ m % 8 = 5 ∨ m % 8 = 6 ∨ m % 8 = 7 := by omega
  have e : r + (m : ℝ) * (π / 4)
      = (r + ((m % 8 : Int) : ℝ) * (π / 4)) + ((2 * (m / 8) : Int) : ℝ) * π := by
    conv_lhs => rw [hm]
    push_cast; ring
  rw [e, Real.tan_add_int_mul_pi]
  have hhalf : ∀ t : ℝ, Real.tan (t + π / 2) = -1 / Real.tan t := by
    intro t
    have : t + π / 2 = π / 2 - (-t) := by ring
    rw [this, Real.tan_pi_div_two_sub, Real.tan_neg, inv_neg, neg_div, one_div]
  have hper : ∀ t : ℝ, Real.tan (t + π) = Real.tan t := by
    intro t
    have := Real.tan_add_int_mul_pi t 1
    simpa using this
  rcases hk with hk | hk | hk | hk | hk | hk | hk | hk <;> rw [hk] <;> simp [octTan]
  · have : r + π / 4 = π / 2 - (π / 4 - r) := by ring
    rw [this, Real.tan_pi_div_two_sub]
  · have : r + 2 * (π / 4) = r + π / 2 := by ring
    rw [this, hhalf, neg_div, one_div]
  · have : r + 3 * (π / 4) = -(π / 4 - r) + π := by ring
    rw [this, hper, Real.tan_neg]
  · have : r + 4 * (π / 4) = r + π := by ring
    rw [this, hper]
  · have : r + 5 * (π / 4) = (π / 2 - (π / 4 - r)) + π := by ring
    rw [this, hper, Real.tan_pi_div_two_sub]
  · have : r + 6 * (π / 4) = (r + π / 2) + π := by ring
    rw [this, hper, hhalf, neg_div, one_div]
  · have : r + 7 * (π / 4) = -(π / 4 - r) + 2 * π := by ring
    have h2 := Real.tan_add_int_mul_pi (-(π / 4 - r)) 2
    push_cast at h2
    rw [this, h2, Real.tan_neg]

open Real in
/-- The tangent selector with the exact tangent on the first octant. -/
theorem tan_exact (T : ℝ → Except Fault ℝ)
    (hT : ∀ t : ℝ, 0 ≤ t → t ≤ π / 4 → T t = .ok (Real.tan t))
    (x : ℝ) (hr : |x / (π / 4)| < 2147483648) (hx : Real.cos x ≠ 0) :
    ∃ (res : ReductionRes) (y : ℝ),
      addRangeReduce x (π / 4) (1 / (π / 4)) = .ok (res, y)
        ∧ tanWith T (π / 4) (1 / (π / 4)) x
          = .ok (Fp.finite ((((if x ≥ 0 then 1 else -1 : Int) : Int) : ℝ)
              * octTan Real.tan (π / 4) (|res.quad| % 8) |y|))
        ∧ tanWith T (π / 4) (1 / (π / 4)) x = .ok (Fp.finite (Real.tan x)) := by
  have hP : (0 : ℝ) < π / 4 := by positivity
  have hodd : ∀ (s : Int) (t : ℝ), (s = 1 ∨ s = -1) →
      Real.tan ((s : ℝ) * t) = (s : ℝ) * Real.tan t := by
    intro s t hs
    rcases hs with rfl | rfl <;> simp [Real.tan_neg]
  rcases le_or_lt |x| (π / 4) with hle | hgt
  · have hv := tanWith_of_le T Real.tan (π / 4) (1 / (π / 4)) x hle (hT _ (abs_nonneg x) hle)
    have hxs : x = (((if x ≥ 0 then 1 else -1 : Int) : Int) : ℝ) * |x| := by
      split_ifs with h
      · rw [abs_of_nonneg h]; simp
      · rw [abs_of_neg (not_le.mp h)]; simp
    have hs : ((if x ≥ 0 then 1 else -1 : Int) = 1 ∨ (if x ≥ 0 then 1 else -1 : Int) = -1) := by
      split_ifs <;> simp
    refine ⟨{ quad := 0, noReduciton := true }, x, addRangeReduce_of_le x _ _ hle, ?_, ?_⟩
    · rw [hv]; simp [octTan]
    · rw [hv]
      conv_rhs => rw [hxs]
      rw [hodd _ _ hs]
  · obtain ⟨h1, hq, h3, h4, h5, h6⟩ := reduce_facts x (π / 4) hP hgt hr
    set q := truncInt (x / (π / 4)) with hqdef
    set y := x - (q : ℝ) * (π / 4) with hydef
    have hy0 : 0 ≤ |y| := abs_nonneg y
    have hm0 : 0 < π / 4 - |y| := by linarith
    have hm1 : π / 4 - |y| ≤ π / 4 := by linarith
    have hxpos : 0 < |x| := lt_trans hP hgt
    have hsq : (signOf q = 1 ∨ signOf q = -1) := by
      unfold signOf; split_ifs <;> simp
    have hs : (if x ≥ 0 then (1 : Int) else -1) = signOf q := by
      rcases hsq with hs1 | hs1
      · rw [hs1] at h5 ⊢
        have : 0 ≤ x := by rw [h5]; simp [hxpos.le]
        rw [if_pos this]
      · rw [hs1] at h5 ⊢
        have : ¬ (x ≥ 0) := by
          rw [h5]; push_cast; intro h; linarith
        rw [if_neg this]
    have hcos : Real.cos x = octCos Real.cos Real.sin (π / 4) (|q| % 8) |y| := by
      rw [← Real.cos_abs x, h6]
      exact real_cos_add_octants _ _
    have hq0 : 0 ≤ |q| := abs_nonneg q
    have htan0 : |q| % 8 = 2 ∨ |q| % 8 = 6 → |y| ≠ 0 := by
      intro hk hy
      apply hx
      rw [hcos, hy]
      rcases hk with hk | hk <;> simp [hk, octCos]
    have hg : ¬ (|y| = 0 ∧ (q = 2 * signOf q ∨ q = 6 * signOf q)) := by
      rintro ⟨hy, hq26⟩
      refine htan0 ?_ hy
      rcases hsq with hs1 | hs1 <;> rw [hs1] at hq26 <;> rcases hq26 with h | h <;>
        rw [h] <;> simp
    have hd1 : Real.tan (π / 4 - |y|) ≠ 0 :=
      ne_of_gt (Real.tan_pos_of_pos_of_lt_pi_div_two hm0 (by linarith))
    have hd2 : |q| % 8 = 2 ∨ |q| % 8 = 6 → Real.tan |y| ≠ 0 := by
      intro hk
      have hpos : 0 < |y| := lt_of_le_of_ne hy0 (Ne.symm (htan0 hk))
      exact ne_of_gt (Real.tan_pos_of_pos_of_lt_pi_div_two hpos (by linarith))
    have hv := tanWith_of_reduced T Real.tan (π / 4) (1 / (π / 4)) x y q h1 hq hs h3 hg
      (hT _ hy0 h4.le) (hT _ hm0.le hm1) hd1 hd2
    refine ⟨_, y, h1, ?_, ?_⟩
    · rw [hv, hs]
    · rw [hv]
      conv_rhs => rw [h5, hodd _ _ hsq, h6, real_tan_add_octants]

open Real in
/-- Claim C28, amended.  With the exact tangent on `[0, π/4]` in place of
`tan_inner_polynomial` and `QUARTER_PI = π/4`, for every real `x` off the asymptotes whose
octant number `x / (π/4)` lies within the range of `int`, the reduction returns a quotient
`quad` and a remainder and `Trig::tan` returns `sign(x)` times `T(r)`, `1/T(π/4 - r)`,
`-1/T(r)`, `-T(π/4 - r)` for `k = 0, 1, 2, 3` and the same again for `k = 4..7`, where
`k = |quad| mod 8` and `r = |remainder|`; this value is `tan x`. -/
theorem tan_octants_exact (T : ℝ → Except Fault ℝ)
    (hT : ∀ t : ℝ, 0 ≤ t → t ≤ π / 4 → T t = .ok (Real.tan t))
    (x : ℝ) (hr : |x / (π / 4)| < 2147483648) (hx : Real.cos x ≠ 0) :
    ∃ (res : ReductionRes) (y : ℝ),
      addRangeReduce x (π / 4) (1 / (π / 4)) = .ok (res, y)
        ∧ tanWith T (π / 4) (1 / (π / 4)) x
          = .ok (Fp.finite ((((if x ≥ 0 then 1 else -1 : Int) : Int) : ℝ)
              * octTan Real.tan (π / 4) (|res.quad| % 8) |y|))
        ∧ tanWith T (π / 4) (1 / (π / 4)) x = .ok (Fp.finite (Real.tan x)) :=
  tan_exact T hT x hr hx

open Real in
/-- Witness for C28 at `x = 2`. -/
theorem tan_octants_exact_witness :
    |(2 : ℝ) / (π / 4)| < 2147483648 ∧ Real.cos 2 ≠ 0
      ∧ ∃ (res : ReductionRes) (y : ℝ),
        addRangeReduce (2 : ℝ) (π / 4) (1 / (π / 4)) = .ok (res, y)
          ∧ tanWith (fun t => .ok (Real.tan t)) (π / 4) (1 / (π / 4)) 2
            = .ok (Fp.finite ((((if (2 : ℝ) ≥ 0 then 1 else -1 : Int) : Int) : ℝ)
                * octTan Real.tan (π / 4) (|res.quad| % 8) |y|))
          ∧ tanWith (fun t => .ok (Real.tan t)) (π / 4) (1 / (π / 4)) 2
            = .ok (Fp.finite (Real.tan 2)) :=
  have h1 : |(2 : ℝ) / (π / 4)| < 2147483648 :=
    abs_div_pi_lt 2 4 (by norm_num) (by norm_num) (by norm_num)
  have h2 : Real.cos 2 ≠ 0 := by
    have hpi1 := Real.pi_gt_three
    have hpi2 := Real.pi_lt_d2
    exact ne_of_lt (Real.cos_neg_of_pi_div_two_lt_of_lt (by linarith) (by linarith))
  ⟨h1, h2, tan_octants_exact (fun t => .ok (Real.tan t)) (fun _ _ _ => rfl) 2 h1 h2⟩

open Real in
/-- Counterexample for C28 as stated: at `x = 2^31 * (π/4)`, which is not an asymptote, the
octant number does not fit an `int` and the conversion in the reduction is undefined. -/
theorem tan_octants_exact_fails :
    Real.cos (2147483648 * (π / 4)) ≠ 0
      ∧ tanWith (fun t => .ok (Real.tan t)) (π / 4) (1 / (π / 4)) (2147483648 * (π / 4))
        = .error Fault.intConversion
      ∧ tanWith (fun t => .ok (Real.tan t)) (π / 4) (1 / (π / 4)) (2147483648 * (π / 4))
        ≠ .ok (Fp.finite (Real.tan (2147483648 * (π / 4)))) := by
  have hP : (0 : ℝ) < π / 4 := by positivity
  have hx : π / 4 < |2147483648 * (π / 4)| := by
    rw [abs_of_pos (by positivity)]; nlinarith
  have ht : (2147483648 * (π / 4)) * (1 / (π / 4)) = (2147483648 : ℝ) := by
    field_simp
  have hq : truncInt ((2147483648 * (π / 4)) * (1 / (π / 4))) = 2147483648 := by
    rw [ht, truncInt_of_nonneg (by norm_num)]
    exact_mod_cast Int.floor_intCast (2147483648 : Int)
  have he : tanWith (fun t => .ok (Real.tan t)) (π / 4) (1 / (π / 4)) (2147483648 * (π / 4))
      = .error Fault.intConversion := by
    apply tanWith_of_error
    apply addRangeReduce_of_gt_error _ _ _ hx
    rw [hq]; unfold INT_MIN INT_MAX; omega
  have hc : Real.cos (2147483648 * (π / 4)) = 1 := by
    have e : (2147483648 * (π / 4) : ℝ) = ((268435456 : Int) : ℝ) * (2 * π) := by
      push_cast; ring
    rw [e]
    have := Real.cos_int_mul_two_pi 268435456
    exact this
  exact ⟨by rw [hc]; norm_num, he, by rw [he]; simp⟩

/-! ## The optimizer: feature word and dispatch slots -/

/-- Below feature id `31` the test `features & (1 << mask)` reads bit `mask`. -/
theorem hasFeature_of_lt (features : Nat) (f : Fin 31) :
    hasFeature features ((f.val : Nat) : Int) = .ok (features.testBit f.val) := by
  obtain ⟨f, hf⟩ := f
  have h1 : toSizeT (wrapInt (2 ^ ((f : Nat) : Int).toNat)) = 2 ^ f := by
    rw [Int.toNat_natCast]
    interval_cases f <;> rfl
  unfold hasFeature
  simp only []
  rw [if_pos ⟨by omega, by omega⟩, h1, Nat.and_two_pow]
  cases features.testBit f <;> simp

/-- From feature id `32` on the shift `1 << mask` of an `int` is undefined. -/
theorem hasFeature_of_ge (features : Nat) (f : Nat) :
    hasFeature features (((32 + f : Nat) : Nat) : Int) = .error Fault.shiftCount := by
  unfold hasFeature
  rw [if_neg (by omega)]

/-- The feature word detected on `cpuOnlyDQ`: the bits `21` and `32`. -/
theorem detectFeatures_cpuOnlyDQ : detectFeatures cpuOnlyDQ = 4297064448 := by
  decide

/-- The four tests of `init` read the bits of SSE, FMA3, AVX and AVX512_F. -/
theorem hasFeature_slots (features : Nat) :
    hasFeature features ((CPU_X86_SSE : Nat) : Int) = .ok (features.testBit 12)
      ∧ hasFeature features ((CPU_X86_FMA3 : Nat) : Int) = .ok (features.testBit 23)
      ∧ hasFeature features ((CPU_X86_AVX : Nat) : Int) = .ok (features.testBit 21)
      ∧ hasFeature features ((CPU_X86_AVX512_F : Nat) : Int) = .ok (features.testBit 26) :=
  ⟨hasFeature_of_lt features ⟨12, by norm_num⟩, hasFeature_of_lt features ⟨23, by norm_num⟩,
    hasFeature_of_lt features ⟨21, by norm_num⟩, hasFeature_of_lt features ⟨26, by norm_num⟩⟩

/-- The slot assignment of `init` as a total function of the build and the feature word. -/
theorem init_eq (build : Build) (cpu : Cpu) (s : Optimizer) :
    Optimizer.init build cpu s
      = .ok (Optimizer.assigned
          ((!build.sse2 || (detectFeatures cpu).testBit 12) && build.fma
            && (detectFeatures cpu).testBit 23)
          (build.sse2 && (detectFeatures cpu).testBit 12)
          (build.avx && (detectFeatures cpu).testBit 21)
          (build.avx512f && (detectFeatures cpu).testBit 26)
          (detectFeatures cpu) s) := by
  obtain ⟨b1, b2, b3, b4⟩ := build
  have hfe : ∀ t : Optimizer, (assignTrig t).features = t.features := fun _ => rfl
  have hfv : ∀ t : Optimizer, (assignVec4f t).features = t.features := fun _ => rfl
  have hfd : ∀ t : Optimizer, (assignVec4d t).features = t.features := fun _ => rfl
  simp only [Optimizer.init, assignSse, assignFma, assignAvx, assignAvx512, bind, Except.bind,
    Optimizer.assigned]
  cases b1 <;> cases b2 <;> cases b3 <;> cases b4 <;>
    cases h12 : (detectFeatures cpu).testBit 12 <;>
    cases h23 : (detectFeatures cpu).testBit 23 <;>
    cases h21 : (detectFeatures cpu).testBit 21 <;>
    cases h26 : (detectFeatures cpu).testBit 26 <;>
    simp [hasFeature_slots, hfe, hfv, hfd, h12, h23, h21, h26]

/-- The feature word of the assigned state. -/
theorem assigned_features (c1 c2 c3 c4 : Bool) (F : Nat) (s : Optimizer) :
    (Optimizer.assigned c1 c2 c3 c4 F s).features = F := by
  cases c1 <;> cases c2 <;> cases c3 <;> cases c4 <;> rfl

/-- The slots of the assigned state, group by group. -/
theorem assigned_groups (c1 c2 c3 c4 : Bool) (F : Nat) (s : Optimizer) :
    (Optimizer.assigned c1 c2 c3 c4 F s).trig
        = (if c1 then List.replicate 6 TrigKernel.sseImplementation else s.trig)
      ∧ (Optimizer.assigned c1 c2 c3 c4 F s).vec4f
        = (if c2 then List.replicate 8 ArithKernel.intrinImplementation else s.vec4f)
      ∧ (Optimizer.assigned c1 c2 c3 c4 F s).vec4d
        = (if c3 then List.replicate 8 ArithKernel.intrinImplementation else s.vec4d)
      ∧ (Optimizer.assigned c1 c2 c3 c4 F s).matrix4
        = (if c4 then List.replicate 8 ArithKernel.intrinImplementation else s.matrix4) := by
  cases c1 <;> cases c2 <;> cases c3 <;> cases c4 <;> exact ⟨rfl, rfl, rfl, rfl⟩

/-- Assigning the same groups again changes nothing. -/
theorem assigned_idempotent (c1 c2 c3 c4 : Bool) (F : Nat) (s : Optimizer) :
    Optimizer.assigned c1 c2 c3 c4 F (Optimizer.assigned c1 c2 c3 c4 F s)
      = Optimizer.assigned c1 c2 c3 c4 F s := by
  cases s
  cases c1 <;> cases c2 <;> cases c3 <;> cases c4 <;>
    simp only [Optimizer.assigned, assignTrig, assignVec4f, assignVec4d, assignMatrix4,
      if_true, if_false, Bool.false_eq_true]

/-- Claim C23, which the code does not meet.  `hasFeature` tests `features & (1 << mask)`
with the shift done on an `int`.  For the feature ids `0..30` it returns bit `f` of the
feature word, and on the empty word of the state before `init` it returns false for the ids
`0..31`.  For `f = 31`, `CPU_X86_AVX512_BW`, the mask is `INT_MIN`, which converts to the
bits `31..63`: after `init` on a processor reporting AVX and AVX512_DQ the word is
`2^21 + 2^32`, bit `31` is clear, and `hasFeature` returns true.  For every `f` from `32`
on, such as `CPU_X86_AVX512_DQ` whose bit `init` did set with `1ull << f`, the shift count
is not below the width of `int` and the result is undefined. -/
theorem hasFeature_int_shift :
    (∀ (features : Nat) (f : Fin 31),
        hasFeature features ((f.val : Nat) : Int) = .ok (features.testBit f.val))
      ∧ (∀ f : Fin 32, hasFeature 0 ((f.val : Nat) : Int) = .ok false)
      ∧ (∀ (build : Build) (s : Optimizer), ∃ s1 : Optimizer,
          Optimizer.init build cpuOnlyDQ s = .ok s1 ∧ s1.features = 4297064448)
      ∧ Nat.testBit 4297064448 CPU_X86_AVX512_BW = false
      ∧ hasFeature 4297064448 ((CPU_X86_AVX512_BW : Nat) : Int) = .ok true
      ∧ Nat.testBit 4297064448 CPU_X86_AVX512_DQ = true
      ∧ hasFeature 4297064448 ((CPU_X86_AVX512_DQ : Nat) : Int) = .error Fault.shiftCount
      ∧ (∀ (features : Nat) (f : Nat),
          hasFeature features (((32 + f : Nat) : Nat) : Int) = .error Fault.shiftCount) := by
  have h31 : toSizeT (wrapInt (2 ^ (((31 : Nat) : Int)).toNat)) = 18446744071562067968 := by
    decide
  have hBW : hasFeature 4297064448 ((CPU_X86_AVX512_BW : Nat) : Int) = .ok true := by
    unfold hasFeature CPU_X86_AVX512_BW
    rw [if_pos ⟨by omega, by omega⟩, h31]
    congr 1
  have hDQ : hasFeature 4297064448 ((CPU_X86_AVX512_DQ : Nat) : Int)
      = .error Fault.shiftCount := by
    unfold hasFeature CPU_X86_AVX512_DQ
    rw [if_neg (by omega)]
  have tBW : Nat.testBit 4297064448 CPU_X86_AVX512_BW = false := by
    unfold CPU_X86_AVX512_BW; decide
  have tDQ : Nat.testBit 4297064448 CPU_X86_AVX512_DQ = true := by
    unfold CPU_X86_AVX512_DQ; decide
  refine ⟨hasFeature_of_lt, ?_, ?_, tBW, hBW, tDQ, hDQ, hasFeature_of_ge⟩
  · intro f
    obtain ⟨f, hf⟩ := f
    unfold hasFeature
    rw [if_pos ⟨by omega, by omega⟩]
    simp
  · intro build s
    refine ⟨_, init_eq build cpuOnlyDQ s, ?_⟩
    rw [assigned_features, detectFeatures_cpuOnlyDQ]

/-- Claim C24.  Before `init` the feature word is empty and every arithmetic slot holds
its fallback kernel, the `sinCos` slots hold the fallback and the `sin` and `cos` slots the
functions of the standard library.  After `init`, built with SSE2, FMA, AVX and AVX512F,
the `float` 4-vector slots hold the accelerated kernels exactly when the bit of SSE is set
in the detected feature word, the `sin`, `cos` and `sinCos` slots exactly when the bits of
SSE and FMA3 are both set, the `double` 4-vector slots exactly when the bit of AVX is set
and the 4x4 matrix slots exactly when the bit of AVX512_F is set; a slot that is not
assigned holds what it held before. -/
theorem init_slots (cpu : Cpu) :
    Optimizer.start.features = 0
      ∧ Optimizer.start.vec4f = List.replicate 8 ArithKernel.fallbackImplementation
      ∧ Optimizer.start.vec4d = List.replicate 8 ArithKernel.fallbackImplementation
      ∧ Optimizer.start.matrix4 = List.replicate 8 ArithKernel.fallbackImplementation
      ∧ Optimizer.start.trig
        = [TrigKernel.fallbackImplementation, TrigKernel.fallbackImplementation,
           TrigKernel.stdLibrary, TrigKernel.stdLibrary, TrigKernel.stdLibrary,
           TrigKernel.stdLibrary]
      ∧ ∃ s : Optimizer,
          Optimizer.init { sse2 := true, fma := true, avx := true, avx512f := true } cpu
              Optimizer.start = .ok s
            ∧ s.features = detectFeatures cpu
            ∧ s.vec4f = List.replicate 8
                (if s.features.testBit CPU_X86_SSE then ArithKernel.intrinImplementation
                 else ArithKernel.fallbackImplementation)
            ∧ s.trig
              = (if s.features.testBit CPU_X86_SSE && s.features.testBit CPU_X86_FMA3 then
                  List.replicate 6 TrigKernel.sseImplementation
                 else Optimizer.start.trig)
            ∧ s.vec4d = List.replicate 8
                (if s.features.testBit CPU_X86_AVX then ArithKernel.intrinImplementation
                 else ArithKernel.fallbackImplementation)
            ∧ s.matrix4 = List.replicate 8
                (if s.features.testBit CPU_X86_AVX512_F then ArithKernel.intrinImplementation
                 else ArithKernel.fallbackImplementation) := by
  refine ⟨rfl, rfl, rfl, rfl, rfl, _, init_eq _ cpu Optimizer.start, ?_⟩
  obtain ⟨g1, g2, g3, g4⟩ := assigned_groups
    ((!true || (detectFeatures cpu).testBit 12) && true && (detectFeatures cpu).testBit 23)
    (true && (detectFeatures cpu).testBit 12) (true && (detectFeatures cpu).testBit 21)
    (true && (detectFeatures cpu).testBit 26) (detectFeatures cpu) Optimizer.start
  rw [assigned_features, g1, g2, g3, g4]
  simp only [CPU_X86_SSE, CPU_X86_FMA3, CPU_X86_AVX, CPU_X86_AVX512_F, Bool.not_true,
    Bool.false_or, Bool.true_and, Bool.and_true]
  refine ⟨trivial, ?_, trivial, ?_, ?_⟩
  · by_cases h : (detectFeatures cpu).testBit 12 = true <;> simp [h]; rfl
  · by_cases h : (detectFeatures cpu).testBit 21 = true <;> simp [h]; rfl
  · by_cases h : (detectFeatures cpu).testBit 26 = true <;> simp [h]; rfl

/-- Claim C26.  For a fixed processor and build, `init` returns, and calling it again on
the state it returned gives that state again: the feature word, hence every `hasFeature`
result, and every slot are those after one call. -/
theorem init_idempotent (build : Build) (cpu : Cpu) (s : Optimizer) :
    ∃ s1 : Optimizer,
      Optimizer.init build cpu s = .ok s1
        ∧ Optimizer.init build cpu s1 = .ok s1
        ∧ (Optimizer.init build cpu s >>= Optimizer.init build cpu)
          = Optimizer.init build cpu s
        ∧ s1.features = detectFeatures cpu := by
  have key : ∀ t : Optimizer, ∃ t1 : Optimizer, Optimizer.init build cpu t = .ok t1
      ∧ Optimizer.init build cpu t1 = .ok t1 ∧ t1.features = detectFeatures cpu := by
    intro t
    refine ⟨_, init_eq build cpu t, ?_, assigned_features _ _ _ _ _ _⟩
    rw [init_eq build cpu, assigned_idempotent]
  obtain ⟨s1, h1, h2, h3⟩ := key s
  refine ⟨s1, h1, h2, ?_, h3⟩
  rw [h1]
  exact h2

/-! ## Fallback and intrinsic kernels -/

section Kernels
variable {α : Type}

/-- The fallback kernel of a 4-vector slot stores the element-wise `a op b` at `result`. -/
theorem vecFallback_eq (op : α → α → α) (a b result : Nat) (mem : VecMem α) :
    vecFallback op a b result mem
      = Function.update mem result (fun i => op (mem a i) (mem b i)) := by
  funext p i
  unfold vecFallback storeVec
  by_cases hp : p = result
  · subst hp
    by_cases ha : a = p <;> by_cases hb : b = p <;>
      fin_cases i <;> simp [Function.update, ha, hb]
  · simp [Function.update, hp]

/-- The fallback kernel of a vector and scalar slot stores `a op b` at `result`. -/
theorem vecSingleFallback_eq (op : α → α → α) (a : Nat) (b : α) (result : Nat)
    (mem : VecMem α) :
    vecSingleFallback op a b result mem
      = Function.update mem result (fun i => op (mem a i) b) := by
  funext p i
  unfold vecSingleFallback storeVec
  by_cases hp : p = result
  · subst hp
    by_cases ha : a = p <;> fin_cases i <;> simp [Function.update, ha]
  · simp [Function.update, hp]

/-- The accelerated kernel of a 4-vector slot on aligned addresses. -/
theorem vecIntrin_eq (op : α → α → α) (T : Precision) (a b result : Nat) (mem : VecMem α)
    (ha : a % vecAlignment T = 0) (hb : b % vecAlignment T = 0)
    (hr : result % vecAlignment T = 0) :
    vecIntrin op T a b result mem
      = .ok (Function.update mem result (fun i => op (mem a i) (mem b i))) := by
  simp [vecIntrin, simdLoad, simdStore, ha, hb, hr, bind, Except.bind]

/-- The accelerated kernel of a vector and scalar slot on aligned addresses. -/
theorem vecSingleIntrin_eq (op : α → α → α) (T : Precision) (a : Nat) (b : α)
    (result : Nat) (mem : VecMem α)
    (ha : a % vecAlignment T = 0) (hr : result % vecAlignment T = 0) :
    vecSingleIntrin op T a b result mem
      = .ok (Function.update mem result (fun i => op (mem a i) b)) := by
  simp [vecSingleIntrin, simdLoad, simdStore, ha, hr, bind, Except.bind]

/-- The fallback kernel of a 4x4 matrix slot computes `a op= b` in place, whatever `result` is. -/
theorem matrixFallback_eq (op : α → α → α) (a b result : Nat) (mem : MatMem α) :
    matrixFallback op a b result mem
      = Function.update mem a (fun i j => op (mem a i j) (mem b i j)) := by
  funext p i j
  unfold matrixFallback storeMat
  by_cases hp : p = a
  · subst hp
    by_cases hb : b = p <;>
      fin_cases i <;> fin_cases j <;> simp [Function.update, hb]
  · simp [Function.update, hp]

/-- The fallback kernel of a matrix and scalar slot computes `a op= b` in place. -/
theorem matrixSingleFallback_eq (op : α → α → α) (a : Nat) (b : α) (result : Nat)
    (mem : MatMem α) :
    matrixSingleFallback op a b result mem
      = Function.update mem a (fun i j => op (mem a i j) b) := by
  funext p i j
  unfold matrixSingleFallback storeMat
  by_cases hp : p = a
  · subst hp
    fin_cases i <;> fin_cases j <;> simp [Function.update]
  · simp [Function.update, hp]

/-- The accelerated kernel of a 4x4 matrix slot on aligned addresses stores at `result`. -/
theorem matrixIntrin_eq (op : α → α → α) (a b result : Nat) (mem : MatMem α)
    (ha : a % 64 = 0) (hb : b % 64 = 0) (hr : result % 64 = 0) :
    matrixIntrin op a b result mem
      = .ok (Function.update mem result (fun i j => op (mem a i j) (mem b i j))) := by
  simp [matrixIntrin, simdLoad, simdStore, ha, hb, hr, bind, Except.bind]

/-- The accelerated kernel of a matrix and scalar slot on aligned addresses. -/
theorem matrixSingleIntrin_eq (op : α → α → α) (a : Nat) (b : α) (result : Nat)
    (mem : MatMem α) (ha : a % 64 = 0) (hr : result % 64 = 0) :
    matrixSingleIntrin op a b result mem
      = .ok (Function.update mem result (fun i j => op (mem a i j) b)) := by
  simp [matrixSingleIntrin, simdLoad, simdStore, ha, hr, bind, Except.bind]

end Kernels

/-- Claim C25, amended.  For each of the sixteen slots of the 4-wide vectors and each
triple of addresses aligned as the accelerated kernel requires, the accelerated kernel ends
in the state of the fallback kernel, which is the memory with the element-wise `a op b`
stored at `result` and nothing else changed, also when `result` is not `a`.  For the
sixteen slots of the 4x4 matrix the two kernels end in the same state when `result` is the
object `a`, as in every call of `matrix.hpp`: the fallback kernel computes `a op= b` in
place and does not touch `result`, while the accelerated kernel stores `a op b` at
`result` and leaves `a` unchanged. -/
theorem kernels_agree {α : Type} [Sub α] [Add α] [Mul α] [Div α] (T : Precision)
    (va vb vr ma mb mr : Nat) (s : α) (vmem : VecMem α) (mmem : MatMem α)
    (hva : va % vecAlignment T = 0) (hvb : vb % vecAlignment T = 0)
    (hvr : vr % vecAlignment T = 0)
    (hma : ma % 64 = 0) (hmb : mb % 64 = 0) (hmr : mr % 64 = 0) :
    subVecIntrinImplementation T va vb vr vmem
        = .ok (subVecFallbackImplementation va vb vr vmem)
      ∧ subVecFallbackImplementation va vb vr vmem
        = Function.update vmem vr (fun i => vmem va i - vmem vb i)
      ∧ addVecIntrinImplementation T va vb vr vmem
        = .ok (addVecFallbackImplementation va vb vr vmem)
      ∧ addVecFallbackImplementation va vb vr vmem
        = Function.update vmem vr (fun i => vmem va i + vmem vb i)
      ∧ mulVecIntrinImplementation T va vb vr vmem
        = .ok (mulVecFallbackImplementation va vb vr vmem)
      ∧ mulVecFallbackImplementation va vb vr vmem
        = Function.update vmem vr (fun i => vmem va i * vmem vb i)
      ∧ divVecIntrinImplementation T va vb vr vmem
        = .ok (divVecFallbackImplementation va vb vr vmem)
      ∧ divVecFallbackImplementation va vb vr vmem
        = Function.update vmem vr (fun i => vmem va i / vmem vb i)
      ∧ subVecSingleIntrinImplementation T va s vr vmem
        = .ok (subVecSingleFallbackImplementation va s vr vmem)
      ∧ subVecSingleFallbackImplementation va s vr vmem
        = Function.update vmem vr (fun i => vmem va i - s)
      ∧ addVecSingleIntrinImplementation T va s vr vmem
        = .ok (addVecSingleFallbackImplementation va s vr vmem)
      ∧ addVecSingleFallbackImplementation va s vr vmem
        = Function.update vmem vr (fun i => vmem va i + s)
      ∧ mulVecSingleIntrinImplementation T va s vr vmem
        = .ok (mulVecSingleFallbackImplementation va s vr vmem)
      ∧ mulVecSingleFallbackImplementation va s vr vmem
        = Function.update vmem vr (fun i => vmem va i * s)
      ∧ divVecSingleIntrinImplementation T va s vr vmem
        = .ok (divVecSingleFallbackImplementation va s vr vmem)
      ∧ divVecSingleFallbackImplementation va s vr vmem
        = Function.update vmem vr (fun i => vmem va i / s)
      ∧ subMatrixIntrinImplementation ma mb ma mmem
        = .ok (subMatrixFallbackImplementation ma mb ma mmem)
      ∧ subMatrixFallbackImplementation ma mb mr mmem
        = Function.update mmem ma (fun i j => mmem ma i j - mmem mb i j)
      ∧ subMatrixIntrinImplementation ma mb mr mmem
        = .ok (Function.update mmem mr (fun i j => mmem ma i j - mmem mb i j))
      ∧ addMatrixIntrinImplementation ma mb ma mmem
        = .ok (addMatrixFallbackImplementation ma mb ma mmem)
      ∧ addMatrixFallbackImplementation ma mb mr mmem
        = Function.update mmem ma (fun i j => mmem ma i j + mmem mb i j)
      ∧ addMatrixIntrinImplementation ma mb mr mmem
        = .ok (Function.update mmem mr (fun i j => mmem ma i j + mmem mb i j))
      ∧ mulMatrixIntrinImplementation ma mb ma mmem
        = .ok (mulMatrixFallbackImplementation ma mb ma mmem)
      ∧ mulMatrixFallbackImplementation ma mb mr mmem
        = Function.update mmem ma (fun i j => mmem ma i j * mmem mb i j)
      ∧ mulMatrixIntrinImplementation ma mb mr mmem
        = .ok (Function.update mmem mr (fun i j => mmem ma i j * mmem mb i j))
      ∧ divMatrixIntrinImplementation ma mb ma mmem
        = .ok (divMatrixFallbackImplementation ma mb ma mmem)
      ∧ divMatrixFallbackImplementation ma mb mr mmem
        = Function.update mmem ma (fun i j => mmem ma i j / mmem mb i j)
      ∧ divMatrixIntrinImplementation ma mb mr mmem
        = .ok (Function.update mmem mr (fun i j => mmem ma i j / mmem mb i j))
      ∧ subMatrixSingleIntrinImplementation ma s ma mmem
        = .ok (subMatrixSingleFallbackImplementation ma s ma mmem)
      ∧ subMatrixSingleFallbackImplementation ma s mr mmem
        = Function.update mmem ma (fun i j => mmem ma i j - s)
      ∧ subMatrixSingleIntrinImplementation ma s mr mmem
        = .ok (Function.update mmem mr (fun i j => mmem ma i j - s))
      ∧ addMatrixSingleIntrinImplementation ma s ma mmem
        = .ok (addMatrixSingleFallbackImplementation ma s ma mmem)
      ∧ addMatrixSingleFallbackImplementation ma s mr mmem
        = Function.update mmem ma (fun i j => mmem ma i j + s)
      ∧ addMatrixSingleIntrinImplementation ma s mr mmem
        = .ok (Function.update mmem mr (fun i j => mmem ma i j + s))
      ∧ mulMatrixSingleIntrinImplementation ma s ma mmem
        = .ok (mulMatrixSingleFallbackImplementation ma s ma mmem)
      ∧ mulMatrixSingleFallbackImplementation ma s mr mmem
        = Function.update mmem ma (fun i j => mmem ma i j * s)
      ∧ mulMatrixSingleIntrinImplementation ma s mr mmem
        = .ok (Function.update mmem mr (fun i j => mmem ma i j * s))
      ∧ divMatrixSingleIntrinImplementation ma s ma mmem
        = .ok (divMatrixSingleFallbackImplementation ma s ma mmem)
      ∧ divMatrixSingleFallbackImplementation ma s mr mmem
        = Function.update mmem ma (fun i j => mmem ma i j / s)
      ∧ divMatrixSingleIntrinImplementation ma s mr mmem
        = .ok (Function.update mmem mr (fun i j => mmem ma i j / s)) := by
  simp only [subVecFallbackImplementation, subVecSingleFallbackImplementation,
    subVecIntrinImplementation, subVecSingleIntrinImplementation,
    subMatrixFallbackImplementation, subMatrixSingleFallbackImplementation,
    subMatrixIntrinImplementation, subMatrixSingleIntrinImplementation,
    addVecFallbackImplementation, addVecSingleFallbackImplementation,
    addVecIntrinImplementation, addVecSingleIntrinImplementation,
    addMatrixFallbackImplementation, addMatrixSingleFallbackImplementation,
    addMatrixIntrinImplementation, addMatrixSingleIntrinImplementation,
    mulVecFallbackImplementation, mulVecSingleFallbackImplementation,
    mulVecIntrinImplementation, mulVecSingleIntrinImplementation,
    mulMatrixFallbackImplementation, mulMatrixSingleFallbackImplementation,
    mulMatrixIntrinImplementation, mulMatrixSingleIntrinImplementation,
    divVecFallbackImplementation, divVecSingleFallbackImplementation,
    divVecIntrinImplementation, divVecSingleIntrinImplementation,
    divMatrixFallbackImplementation, divMatrixSingleFallbackImplementation,
    divMatrixIntrinImplementation, divMatrixSingleIntrinImplementation]
  simp only [vecFallback_eq, vecSingleFallback_eq, matrixFallback_eq, matrixSingleFallback_eq,
    vecIntrin_eq _ T va vb vr vmem hva hvb hvr, vecSingleIntrin_eq _ T va s vr vmem hva hvr,
    matrixIntrin_eq _ ma mb ma mmem hma hmb hma, matrixIntrin_eq _ ma mb mr mmem hma hmb hmr,
    matrixSingleIntrin_eq _ ma s ma mmem hma hma, matrixSingleIntrin_eq _ ma s mr mmem hma hmr,
    and_self]

/-- Witness for C25 on `float` vectors at the addresses `0`, `16`, `32`, matrices at the
addresses `0`, `64`, `128` and the scalar `2`. -/
theorem kernels_agree_witness :
    0 % vecAlignment Precision.float = 0 ∧ 16 % vecAlignment Precision.float = 0
      ∧ 32 % vecAlignment Precision.float = 0
      ∧ 0 % 64 = 0 ∧ 64 % 64 = 0 ∧ 128 % 64 = 0
      ∧ subVecIntrinImplementation Precision.float 0 16 32 exampleVecMem
        = .ok (subVecFallbackImplementation 0 16 32 exampleVecMem)
      ∧ subVecFallbackImplementation 0 16 32 exampleVecMem
        = Function.update exampleVecMem 32 (fun i => exampleVecMem 0 i - exampleVecMem 16 i)
      ∧ addVecIntrinImplementation Precision.float 0 16 32 exampleVecMem
        = .ok (addVecFallbackImplementation 0 16 32 exampleVecMem)
      ∧ addVecFallbackImplementation 0 16 32 exampleVecMem
        = Function.update exampleVecMem 32 (fun i => exampleVecMem 0 i + exampleVecMem 16 i)
      ∧ mulVecIntrinImplementation Precision.float 0 16 32 exampleVecMem
        = .ok (mulVecFallbackImplementation 0 16 32 exampleVecMem)
      ∧ mulVecFallbackImplementation 0 16 32 exampleVecMem
        = Function.update exampleVecMem 32 (fun i => exampleVecMem 0 i * exampleVecMem 16 i)
      ∧ divVecIntrinImplementation Precision.float 0 16 32 exampleVecMem
        = .ok (divVecFallbackImplementation 0 16 32 exampleVecMem)
      ∧ divVecFallbackImplementation 0 16 32 exampleVecMem
        = Function.update exampleVecMem 32 (fun i => exampleVecMem 0 i / exampleVecMem 16 i)
      ∧ subVecSingleIntrinImplementation Precision.float 0 (2 : ℚ) 32 exampleVecMem
        = .ok (subVecSingleFallbackImplementation 0 (2 : ℚ) 32 exampleVecMem)
      ∧ subVecSingleFallbackImplementation 0 (2 : ℚ) 32 exampleVecMem
        = Function.update exampleVecMem 32 (fun i => exampleVecMem 0 i - (2 : ℚ))
      ∧ addVecSingleIntrinImplementation Precision.float 0 (2 : ℚ) 32 exampleVecMem
        = .ok (addVecSingleFallbackImplementation 0 (2 : ℚ) 32 exampleVecMem)
      ∧ addVecSingleFallbackImplementation 0 (2 : ℚ) 32 exampleVecMem
        = Function.update exampleVecMem 32 (fun i => exampleVecMem 0 i + (2 : ℚ))
      ∧ mulVecSingleIntrinImplementation Precision.float 0 (2 : ℚ) 32 exampleVecMem
        = .ok (mulVecSingleFallbackImplementation 0 (2 : ℚ) 32 exampleVecMem)
      ∧ mulVecSingleFallbackImplementation 0 (2 : ℚ) 32 exampleVecMem
        = Function.update exampleVecMem 32 (fun i => exampleVecMem 0 i * (2 : ℚ))
      ∧ divVecSingleIntrinImplementation Precision.float 0 (2 : ℚ) 32 exampleVecMem
        = .ok (divVecSingleFallbackImplementation 0 (2 : ℚ) 32 exampleVecMem)
      ∧ divVecSingleFallbackImplementation 0 (2 : ℚ) 32 exampleVecMem
        = Function.update exampleVecMem 32 (fun i => exampleVecMem 0 i / (2 : ℚ))
      ∧ subMatrixIntrinImplementation 0 64 0 exampleMatMem
        = .ok (subMatrixFallbackImplementation 0 64 0 exampleMatMem)
      ∧ subMatrixFallbackImplementation 0 64 128 exampleMatMem
        = Function.update exampleMatMem 0 (fun i j => exampleMatMem 0 i j - exampleMatMem 64 i j)
      ∧ subMatrixIntrinImplementation 0 64 128 exampleMatMem
        = .ok (Function.update exampleMatMem 128 (fun i j => exampleMatMem 0 i j - exampleMatMem 64 i j))
      ∧ addMatrixIntrinImplementation 0 64 0 exampleMatMem
        = .ok (addMatrixFallbackImplementation 0 64 0 exampleMatMem)
      ∧ addMatrixFallbackImplementation 0 64 128 exampleMatMem
        = Function.update exampleMatMem 0 (fun i j => exampleMatMem 0 i j + exampleMatMem 64 i j)
      ∧ addMatrixIntrinImplementation 0 64 128 exampleMatMem
        = .ok (Function.update exampleMatMem 128 (fun i j => exampleMatMem 0 i j + exampleMatMem 64 i j))
      ∧ mulMatrixIntrinImplementation 0 64 0 exampleMatMem
        = .ok (mulMatrixFallbackImplementation 0 64 0 exampleMatMem)
      ∧ mulMatrixFallbackImplementation 0 64 128 exampleMatMem
        = Function.update exampleMatMem 0 (fun i j => exampleMatMem 0 i j * exampleMatMem 64 i j)
      ∧ mulMatrixIntrinImplementation 0 64 128 exampleMatMem
        = .ok (Function.update exampleMatMem 128 (fun i j => exampleMatMem 0 i j * exampleMatMem 64 i j))
      ∧ divMatrixIntrinImplementation 0 64 0 exampleMatMem
        = .ok (divMatrixFallbackImplementation 0 64 0 exampleMatMem)
      ∧ divMatrixFallbackImplementation 0 64 128 exampleMatMem
        = Function.update exampleMatMem 0 (fun i j => exampleMatMem 0 i j / exampleMatMem 64 i j)
      ∧ divMatrixIntrinImplementation 0 64 128 exampleMatMem
        = .ok (Function.update exampleMatMem 128 (fun i j => exampleMatMem 0 i j / exampleMatMem 64 i j))
      ∧ subMatrixSingleIntrinImplementation 0 (2 : ℚ) 0 exampleMatMem
        = .ok (subMatrixSingleFallbackImplementation 0 (2 : ℚ) 0 exampleMatMem)
      ∧ subMatrixSingleFallbackImplementation 0 (2 : ℚ) 128 exampleMatMem
        = Function.update exampleMatMem 0 (fun i j => exampleMatMem 0 i j - (2 : ℚ))
      ∧ subMatrixSingleIntrinImplementation 0 (2 : ℚ) 128 exampleMatMem
        = .ok (Function.update exampleMatMem 128 (fun i j => exampleMatMem 0 i j - (2 : ℚ)))
      ∧ addMatrixSingleIntrinImplementation 0 (2 : ℚ) 0 exampleMatMem
        = .ok (addMatrixSingleFallbackImplementation 0 (2 : ℚ) 0 exampleMatMem)
      ∧ addMatrixSingleFallbackImplementation 0 (2 : ℚ) 128 exampleMatMem
        = Function.update exampleMatMem 0 (fun i j => exampleMatMem 0 i j + (2 : ℚ))
      ∧ addMatrixSingleIntrinImplementation 0 (2 : ℚ) 128 exampleMatMem
        = .ok (Function.update exampleMatMem 128 (fun i j => exampleMatMem 0 i j + (2 : ℚ)))
      ∧ mulMatrixSingleIntrinImplementation 0 (2 : ℚ) 0 exampleMatMem
        = .ok (mulMatrixSingleFallbackImplementation 0 (2 : ℚ) 0 exampleMatMem)
      ∧ mulMatrixSingleFallbackImplementation 0 (2 : ℚ) 128 exampleMatMem
        = Function.update exampleMatMem 0 (fun i j => exampleMatMem 0 i j * (2 : ℚ))
      ∧ mulMatrixSingleIntrinImplementation 0 (2 : ℚ) 128 exampleMatMem
        = .ok (Function.update exampleMatMem 128 (fun i j => exampleMatMem 0 i j * (2 : ℚ)))
      ∧ divMatrixSingleIntrinImplementation 0 (2 : ℚ) 0 exampleMatMem
        = .ok (divMatrixSingleFallbackImplementation 0 (2 : ℚ) 0 exampleMatMem)
      ∧ divMatrixSingleFallbackImplementation 0 (2 : ℚ) 128 exampleMatMem
        = Function.update exampleMatMem 0 (fun i j => exampleMatMem 0 i j / (2 : ℚ))
      ∧ divMatrixSingleIntrinImplementation 0 (2 : ℚ) 128 exampleMatMem
        = .ok (Function.update exampleMatMem 128 (fun i j => exampleMatMem 0 i j / (2 : ℚ))) :=
  ⟨rfl, rfl, rfl, rfl, rfl, rfl,
    kernels_agree Precision.float 0 16 32 0 64 128 (2 : ℚ) exampleVecMem exampleMatMem
      rfl rfl rfl rfl rfl rfl⟩

/-- Counterexample for C25 as stated: the subtraction slot of the 4x4 matrix with `a` at
address `0`, `b` at address `64` and `result` at address `128`, a different object.  The
accelerated kernel stores `a - b` at `result` and leaves `a` unchanged; the fallback kernel
leaves `result` unchanged and overwrites `a` with `a - b`. -/
theorem matrix_fallback_ignores_result :
    (∃ m : MatMem ℚ, subMatrixIntrinImplementation 0 64 128 exampleMatMem = .ok m
        ∧ m 128 = (fun i j => exampleMatMem 0 i j - exampleMatMem 64 i j)
        ∧ m 0 = exampleMatMem 0)
      ∧ subMatrixFallbackImplementation 0 64 128 exampleMatMem 128 = exampleMatMem 128
      ∧ subMatrixFallbackImplementation 0 64 128 exampleMatMem 0
        = (fun i j => exampleMatMem 0 i j - exampleMatMem 64 i j)
      ∧ subMatrixFallbackImplementation 0 64 128 exampleMatMem 128 0 0 = 129
      ∧ exampleMatMem 0 0 0 - exampleMatMem 64 0 0 = -64
      ∧ subMatrixIntrinImplementation 0 64 128 exampleMatMem
        ≠ .ok (subMatrixFallbackImplementation 0 64 128 exampleMatMem) := by
  have hi := matrixIntrin_eq (fun x y : ℚ => x - y) 0 64 128 exampleMatMem rfl rfl rfl
  have hf := matrixFallback_eq (fun x y : ℚ => x - y) 0 64 128 exampleMatMem
  have h129 : subMatrixFallbackImplementation 0 64 128 exampleMatMem 128 0 0 = 129 := by
    unfold subMatrixFallbackImplementation
    rw [hf]
    norm_num [Function.update, exampleMatMem]
  have h64 : exampleMatMem 0 0 0 - exampleMatMem 64 0 0 = -64 := by
    norm_num [exampleMatMem]
  refine ⟨⟨_, hi, ?_, ?_⟩, ?_, ?_, h129, h64, ?_⟩
  · simp [Function.update]
  · simp [Function.update]
  · unfold subMatrixFallbackImplementation
    rw [hf]
    simp [Function.update]
  · unfold subMatrixFallbackImplementation
    rw [hf]
    simp [Function.update]
  · unfold subMatrixIntrinImplementation
    rw [hi]
    intro h
    have h1 := congrFun (congrFun (congrFun (Except.ok.inj h) 128) 0) 0
    rw [h129] at h1
    norm_num [Function.update, exampleMatMem] at h1

/-! ## The operators of the matrix classes -/

/-- A loop of single updates over a list without repetition updates the listed positions. -/
theorem foldlM_update {n : Nat} {β : Type} (F : Fin n → β → β)
    (step : (Fin n → β) → Fin n → Except Fault (Fin n → β))
    (hstep : ∀ d j, step d j = .ok (Function.update d j (F j (d j))))
    (l : List (Fin n)) (hl : l.Nodup) (data : Fin n → β) :
    l.foldlM step data = .ok (fun j => if j ∈ l then F j (data j) else data j) := by
  induction l generalizing data with
  | nil => simp [List.foldlM]; rfl
  | cons a l ih =>
    rw [List.foldlM_cons, hstep]
    have hn := (List.nodup_cons.mp hl)
    show l.foldlM step _ = _
    rw [ih hn.2]
    congr 1
    funext j
    by_cases hja : j = a
    · subst hja
      simp [hn.1]
    · by_cases hjl : j ∈ l <;> simp [hja, hjl, Function.update_noteq]

/-- A loop of single updates over all indices, highest first, updates every position. -/
theorem foldlM_finRange_update {n : Nat} {β : Type} (F : Fin n → β → β)
    (step : (Fin n → β) → Fin n → Except Fault (Fin n → β))
    (hstep : ∀ d j, step d j = .ok (Function.update d j (F j (d j))))
    (data : Fin n → β) :
    (List.finRange n).reverse.foldlM step data = .ok (fun j => F j (data j)) := by
  rw [foldlM_update F step hstep _ (List.nodup_reverse.mpr (List.nodup_finRange n))]
  simp

/-- The statement `_data[k] op= v` for a total element operation. -/
theorem assignAt_total {n : Nat} {β γ : Type} (f : β → γ → β) (data : Fin n → β) (k : Fin n)
    (v : γ) :
    assignAt (fun x y => .ok (f x y)) data k v = .ok (Function.update data k (f (data k) v)) :=
  rfl

/-- The loop of `Matrix<T,1,D>` with a matrix argument is element-wise. -/
theorem vectorAssign_total {D : Nat} {α : Type} (f : α → α → α) (data m : Fin D → α) :
    vectorAssign (fun x y => .ok (f x y)) data m = .ok (fun j => f (data j) (m j)) := by
  unfold vectorAssign
  exact foldlM_finRange_update (fun j x => f x (m j)) _ (fun d j => rfl) data

/-- The loop of `Matrix<T,1,D>` with a scalar argument is element-wise. -/
theorem vectorAssignScalar_total {D : Nat} {α : Type} (f : α → α → α) (data : Fin D → α)
    (m : α) :
    vectorAssignScalar (fun x y => .ok (f x y)) data m = .ok (fun j => f (data j) m) := by
  unfold vectorAssignScalar
  exact foldlM_finRange_update (fun _ x => f x m) _ (fun d j => rfl) data

/-- The inner loop over the columns of row `i`, over a list without repetition. -/
theorem foldlM_update_row {R C : Nat} {α : Type} (i : Fin R) (F : Fin C → α → α)
    (step : (Fin R → Fin C → α) → Fin C → Except Fault (Fin R → Fin C → α))
    (hstep : ∀ d j, step d j = .ok (Function.update d i (Function.update (d i) j (F j (d i j)))))
    (l : List (Fin C)) (hl : l.Nodup) (data : Fin R → Fin C → α) :
    l.foldlM step data
      = .ok (Function.update data i (fun j => if j ∈ l then F j (data i j) else data i j)) := by
  induction l generalizing data with
  | nil => simp [List.foldlM]; rfl
  | cons a l ih =>
    rw [List.foldlM_cons, hstep]
    have hn := (List.nodup_cons.mp hl)
    show l.foldlM step _ = _
    rw [ih hn.2]
    congr 1
    funext i2
    by_cases hi : i2 = i
    · subst hi
      simp only [Function.update_same]
      funext j
      by_cases hja : j = a
      · subst hja
        simp [hn.1]
      · by_cases hjl : j ∈ l <;> simp [hja, hjl, Function.update_noteq]
    · simp [Function.update_noteq hi]

/-- The inner loop over all columns of row `i`. -/
theorem foldlM_finRange_update_row {R C : Nat} {α : Type} (i : Fin R) (F : Fin C → α → α)
    (step : (Fin R → Fin C → α) → Fin C → Except Fault (Fin R → Fin C → α))
    (hstep : ∀ d j, step d j = .ok (Function.update d i (Function.update (d i) j (F j (d i j)))))
    (data : Fin R → Fin C → α) :
    (List.finRange C).reverse.foldlM step data
      = .ok (Function.update data i (fun j => F j (data i j))) := by
  rw [foldlM_update_row i F step hstep _ (List.nodup_reverse.mpr (List.nodup_finRange C))]
  simp

/-- The loops of `Matrix<T,R,C>` with a matrix argument are element-wise. -/
theorem matrixAssign_total {R C : Nat} {α : Type} (f : α → α → α)
    (data m : Fin R → Fin C → α) :
    matrixAssign (fun x y => .ok (f x y)) data m = .ok (fun i j => f (data i j) (m i j)) := by
  unfold matrixAssign
  refine foldlM_finRange_update (fun i row => fun j => f (row j) (m i j)) _ (fun d i => ?_) data
  exact foldlM_finRange_update_row i (fun j x => f x (m i j)) _ (fun d j => rfl) d

/-- The loops of `Matrix<T,R,C>` with a scalar argument are element-wise. -/
theorem matrixAssignScalar_total {R C : Nat} {α : Type} (f : α → α → α)
    (data : Fin R → Fin C → α) (m : α) :
    matrixAssignScalar (fun x y => .ok (f x y)) data m = .ok (fun i j => f (data i j) m) := by
  unfold matrixAssignScalar
  refine foldlM_finRange_update (fun _ row => fun j => f (row j) m) _ (fun d i => ?_) data
  exact foldlM_finRange_update_row i (fun _ x => f x m) _ (fun d j => rfl) d

/-- The unrolled body with two components is element-wise. -/
theorem assign2_total {β γ : Type} (f : β → γ → β) (data : Fin 2 → β) (m : Fin 2 → γ) :
    assign2 (fun x y => .ok (f x y)) data m = .ok (fun j => f (data j) (m j)) := by
  show Except.ok _ = _
  congr 1
  funext j
  fin_cases j <;> simp [Function.update]

/-- The unrolled scalar body with two components is element-wise. -/
theorem assignScalar2_total {β γ : Type} (f : β → γ → β) (data : Fin 2 → β) (m : γ) :
    assignScalar2 (fun x y => .ok (f x y)) data m = .ok (fun j => f (data j) m) := by
  show Except.ok _ = _
  congr 1
  funext j
  fin_cases j <;> simp [Function.update]

/-- The unrolled body with three components is element-wise. -/
theorem assign3_total {β γ : Type} (f : β → γ → β) (data : Fin 3 → β) (m : Fin 3 → γ) :
    assign3 (fun x y => .ok (f x y)) data m = .ok (fun j => f (data j) (m j)) := by
  show Except.ok _ = _
  congr 1
  funext j
  fin_cases j <;> simp [Function.update]

/-- The unrolled scalar body with three components is element-wise. -/
theorem assignScalar3_total {β γ : Type} (f : β → γ → β) (data : Fin 3 → β) (m : γ) :
    assignScalar3 (fun x y => .ok (f x y)) data m = .ok (fun j => f (data j) m) := by
  show Except.ok _ = _
  congr 1
  funext j
  fin_cases j <;> simp [Function.update]

/-- The unrolled body with four components is element-wise. -/
theorem assign4_total {β γ : Type} (f : β → γ → β) (data : Fin 4 → β) (m : Fin 4 → γ) :
    assign4 (fun x y => .ok (f x y)) data m = .ok (fun j => f (data j) (m j)) := by
  show Except.ok _ = _
  congr 1
  funext j
  fin_cases j <;> simp [Function.update]

/-- The unrolled scalar body with four components is element-wise. -/
theorem assignScalar4_total {β γ : Type} (f : β → γ → β) (data : Fin 4 → β) (m : γ) :
    assignScalar4 (fun x y => .ok (f x y)) data m = .ok (fun j => f (data j) m) := by
  show Except.ok _ = _
  congr 1
  funext j
  fin_cases j <;> simp [Function.update]

/-- The operators of `Matrix<T,2,2>` with a matrix argument are element-wise. -/
theorem Matrix22_opAssign_total {α : Type} (f : α → α → α) (data m : Fin 2 → Fin 2 → α) :
    Matrix22.opAssign (fun x y => .ok (f x y)) data m = .ok (fun i j => f (data i j) (m i j)) := by
  unfold Matrix22.opAssign
  have h : Matrix12.opAssign (fun x y => (.ok (f x y) : Except Fault α))
      = fun r v => .ok ((fun (r v : Fin 2 → α) => fun j => f (r j) (v j)) r v) := by
    funext r v
    exact assign2_total f r v
  rw [h, assign2_total]

/-- The operators of `Matrix<T,2,2>` with a scalar argument are element-wise. -/
theorem Matrix22_opAssignScalar_total {α : Type} (f : α → α → α) (data : Fin 2 → Fin 2 → α)
    (m : α) :
    Matrix22.opAssignScalar (fun x y => .ok (f x y)) data m = .ok (fun i j => f (data i j) m) := by
  unfold Matrix22.opAssignScalar
  have h : Matrix12.opAssignScalar (fun x y => (.ok (f x y) : Except Fault α))
      = fun r v => .ok ((fun (r : Fin 2 → α) (v : α) => fun j => f (r j) v) r v) := by
    funext r v
    exact assignScalar2_total f r v
  rw [h, assignScalar2_total]

/-- The operators of `Matrix<T,3,3>` with a matrix argument are element-wise. -/
theorem Matrix33_opAssign_total {α : Type} (f : α → α → α) (data m : Fin 3 → Fin 3 → α) :
    Matrix33.opAssign (fun x y => .ok (f x y)) data m = .ok (fun i j => f (data i j) (m i j)) := by
  unfold Matrix33.opAssign
  have h : Matrix13.opAssign (fun x y => (.ok (f x y) : Except Fault α))
      = fun r v => .ok ((fun (r v : Fin 3 → α) => fun j => f (r j) (v j)) r v) := by
    funext r v
    exact assign3_total f r v
  rw [h, assign3_total]

/-- The operators of `Matrix<T,3,3>` with a scalar argument are element-wise. -/
theorem Matrix33_opAssignScalar_total {α : Type} (f : α → α → α) (data : Fin 3 → Fin 3 → α)
    (m : α) :
    Matrix33.opAssignScalar (fun x y => .ok (f x y)) data m = .ok (fun i j => f (data i j) m) := by
  unfold Matrix33.opAssignScalar
  have h : Matrix13.opAssignScalar (fun x y => (.ok (f x y) : Except Fault α))
      = fun r v => .ok ((fun (r : Fin 3 → α) (v : α) => fun j => f (r j) v) r v) := by
    funext r v
    exact assignScalar3_total f r v
  rw [h, assignScalar3_total]

/-- The operators of the primary `Matrix<T,4,4>` with a matrix argument are element-wise. -/
theorem Matrix44_opAssign_total {α : Type} (f : α → α → α) (data m : Fin 4 → Fin 4 → α) :
    Matrix44.opAssign (Matrix14.opAssign (fun x y => .ok (f x y))) data m
      = .ok (fun i j => f (data i j) (m i j)) := by
  unfold Matrix44.opAssign
  have h : Matrix14.opAssign (fun x y => (.ok (f x y) : Except Fault α))
      = fun r v => .ok ((fun (r v : Fin 4 → α) => fun j => f (r j) (v j)) r v) := by
    funext r v
    exact assign4_total f r v
  rw [h, assign4_total]

/-- The operators of the primary `Matrix<T,4,4>` with a scalar argument are element-wise. -/
theorem Matrix44_opAssignScalar_total {α : Type} (f : α → α → α) (data : Fin 4 → Fin 4 → α)
    (m : α) :
    Matrix44.opAssignScalar (Matrix14.opAssignScalar (fun x y => .ok (f x y))) data m
      = .ok (fun i j => f (data i j) m) := by
  unfold Matrix44.opAssignScalar
  have h : Matrix14.opAssignScalar (fun x y => (.ok (f x y) : Except Fault α))
      = fun r v => .ok ((fun (r : Fin 4 → α) (v : α) => fun j => f (r j) v) r v) := by
    funext r v
    exact assignScalar4_total f r v
  rw [h, assignScalar4_total]

/-- The alignment of a 4-vector is not zero. -/
theorem vecAlignment_pos (T : Precision) : vecAlignment T ≠ 0 := by
  cases T <;> simp [vecAlignment]

/-- The operators of `Matrix<float,1,4>` and `Matrix<double,1,4>` with a matrix argument are
element-wise with either kernel in the slot. -/
theorem MatrixSimd14_opAssign_eq {α : Type} (T : Precision) (slot : ArithKernel)
    (op : α → α → α) (data m : Fin 4 → α) :
    MatrixSimd14.opAssign T slot op data m = .ok (fun i => op (data i) (m i)) := by
  unfold MatrixSimd14.opAssign callVec
  cases slot
  · simp [vecFallback_eq, vecAlignment_pos]
  · simp only []
    rw [vecIntrin_eq _ T 0 (vecAlignment T) 0 _ (by simp) (by simp) (by simp)]
    simp [vecAlignment_pos]

/-- The operators of `Matrix<float,1,4>` with a scalar argument are element-wise with either
kernel in the slot. -/
theorem MatrixFloat14_opAssignScalar_eq {α : Type} (slot : ArithKernel)
    (op : α → α → α) (data : Fin 4 → α) (m : α) :
    MatrixFloat14.opAssignScalar slot op data m = .ok (fun i => op (data i) m) := by
  unfold MatrixFloat14.opAssignScalar callVecSingle
  cases slot
  · simp [vecSingleFallback_eq]
  · simp only []
    rw [vecSingleIntrin_eq _ Precision.float 0 m 0 _ (by simp) (by simp)]
    simp

/-- The operators of `Matrix<double,1,4>` with a scalar argument apply the scalar converted to
`float`, with either kernel in the slot. -/
theorem MatrixDouble14_opAssignScalar_eq {α : Type} [LinearOrderedField α] [FloorRing α]
    (slot : ArithKernel) (op : α → α → α) (data : Fin 4 → α) (s : α) :
    MatrixDouble14.opAssignScalar slot op data s
      = (floatCast s).map (fun m => fun i => op (data i) m) := by
  unfold MatrixDouble14.opAssignScalar callVecSingle
  cases floatCast s with
  | error e => rfl
  | ok m =>
    cases slot
    · simp [vecSingleFallback_eq, Except.map]
    · simp only []
      rw [vecSingleIntrin_eq _ Precision.double 0 m 0 _ (by simp) (by simp)]
      simp [Except.map]

/-- The operators of `Matrix<float,4,4>` with a matrix argument are element-wise with either
kernel in the slot. -/
theorem MatrixFloat44_opAssign_eq {α : Type} (slot : ArithKernel)
    (op : α → α → α) (data m : Fin 4 → Fin 4 → α) :
    MatrixFloat44.opAssign slot op data m = .ok (fun i j => op (data i j) (m i j)) := by
  unfold MatrixFloat44.opAssign callMatrix
  cases slot
  · simp [matrixFallback_eq]
  · simp only []
    rw [matrixIntrin_eq _ 0 64 0 _ (by simp) (by simp) (by simp)]
    simp

/-- The operators of `Matrix<float,4,4>` with a scalar argument are element-wise with either
kernel in the slot. -/
theorem MatrixFloat44_opAssignScalar_eq {α : Type} (slot : ArithKernel)
    (op : α → α → α) (data : Fin 4 → Fin 4 → α) (m : α) :
    MatrixFloat44.opAssignScalar slot op data m = .ok (fun i j => op (data i j) m) := by
  unfold MatrixFloat44.opAssignScalar callMatrixSingle
  cases slot
  · simp [matrixSingleFallback_eq]
  · simp only []
    rw [matrixSingleIntrin_eq _ 0 m 0 _ (by simp) (by simp)]
    simp

/-- The `double` `1 + 2^-30` converts to the `float` `1`. -/
theorem floatCast_near_one : floatCast (1 + 1 / 2 ^ 30 : ℚ) = .ok 1 := by
  have hx : |(1 + 1 / 2 ^ 30 : ℚ)| = 1 + 1 / 2 ^ 30 := abs_of_pos (by norm_num)
  have hlog : Int.log 2 (1 + 1 / 2 ^ 30 : ℚ) = 0 := by
    rw [Int.log_of_one_le_right _ (by norm_num)]
    have : ⌊(1 + 1 / 2 ^ 30 : ℚ)⌋₊ = 1 := by
      rw [Nat.floor_eq_iff (by norm_num)]
      norm_num
    rw [this]
    simp
  have hfl : ⌊(1 + 1 / 2 ^ 30 : ℚ) / (2 : ℚ) ^ ((0 : Int) - 23)⌋ = 8388608 := by
    rw [Int.floor_eq_iff]
    norm_num
  unfold floatCast
  rw [hx, if_neg (by norm_num [FLT_MAX]), if_neg (by norm_num)]
  simp only [hlog]
  rw [show max (0 : Int) (-126) = 0 by decide]
  unfold roundHalfEven
  rw [hfl, if_pos (by norm_num)]
  norm_num

/-- The unrolled scalar body with four components, for an operation that returns on the
given scalar. -/
theorem assignScalar4_of_ok {β γ : Type} (op : β → γ → Except Fault β) (g : β → β) (m : γ)
    (h : ∀ r, op r m = .ok (g r)) (data : Fin 4 → β) :
    assignScalar4 op data m = .ok (fun j => g (data j)) := by
  unfold assignScalar4 assignAt
  simp only [h, bind, Except.bind, pure, Except.pure]
  congr 1
  funext j
  fin_cases j <;> simp [Function.update]

/-- The scalar operators of the primary `Matrix<double,4,4>`, whose rows are
`Matrix<double,1,4>`, apply the scalar converted to `float`. -/
theorem Matrix44_double_opAssignScalar_eq {α : Type} [LinearOrderedField α] [FloorRing α]
    (slot : ArithKernel) (op : α → α → α) (data : Fin 4 → Fin 4 → α) (s m : α)
    (hs : floatCast s = .ok m) :
    Matrix44.opAssignScalar (MatrixDouble14.opAssignScalar slot op) data s
      = .ok (fun i j => op (data i j) m) := by
  unfold Matrix44.opAssignScalar
  have h : ∀ r : Fin 4 → α,
      MatrixDouble14.opAssignScalar slot op r s = .ok ((fun r => fun j => op (r j) m) r) := by
    intro r
    rw [MatrixDouble14_opAssignScalar_eq, hs]
    rfl
  exact assignScalar4_of_ok _ _ s h data

/-- The scalars of the tests, `2` and `3`, are unchanged by the conversion to `float`. -/
theorem floatCast_test_values : floatCast (2 : ℚ) = .ok 2 ∧ floatCast (3 : ℚ) = .ok 3 := by
  have hl2 : Int.log 2 (2 : ℚ) = 1 := by
    rw [Int.log_of_one_le_right _ (by norm_num)]
    have : ⌊(2 : ℚ)⌋₊ = 2 := by
      rw [Nat.floor_eq_iff (by norm_num)]
      norm_num
    rw [this]
    simp [Nat.log]
  have hl3 : Int.log 2 (3 : ℚ) = 1 := by
    rw [Int.log_of_one_le_right _ (by norm_num)]
    have : ⌊(3 : ℚ)⌋₊ = 3 := by
      rw [Nat.floor_eq_iff (by norm_num)]
      norm_num
    rw [this]
    simp [Nat.log]
  have hf2 : ⌊(2 : ℚ) / (2 : ℚ) ^ ((1 : Int) - 23)⌋ = 8388608 := by
    rw [Int.floor_eq_iff]
    norm_num
  have hf3 : ⌊(3 : ℚ) / (2 : ℚ) ^ ((1 : Int) - 23)⌋ = 12582912 := by
    rw [Int.floor_eq_iff]
    norm_num
  constructor
  · unfold floatCast
    rw [abs_of_pos (by norm_num : (0 : ℚ) < 2), if_neg (by norm_num [FLT_MAX]),
      if_neg (by norm_num)]
    simp only [hl2]
    rw [show max (1 : Int) (-126) = 1 by decide]
    unfold roundHalfEven
    rw [hf2, if_pos (by norm_num)]
    norm_num
  · unfold floatCast
    rw [abs_of_pos (by norm_num : (0 : ℚ) < 3), if_neg (by norm_num [FLT_MAX]),
      if_neg (by norm_num)]
    simp only [hl3]
    rw [show max (1 : Int) (-126) = 1 by decide]
    unfold roundHalfEven
    rw [hf3, if_pos (by norm_num)]
    norm_num

/-- The part of C30 that holds.  For a total element operation `f` the compound operators
of the primary classes, `Matrix<T,1,D>`, `Matrix<T,R,C>`, the unrolled `1x2`, `1x3`, `1x4`,
`2x2`, `3x3`, `4x4`, and of `Matrix<T,1,1>` apart from its `-=` with a matrix, return the
element-wise result; so do, with either kernel in the slot, the operators of
`Matrix<float,1,4>`, `Matrix<float,4,4>` and the operators of `Matrix<double,1,4>` with a
matrix argument. -/
theorem matrix_operators_elementwise {α : Type} (f : α → α → α) (slot : ArithKernel)
    (T : Precision) :
    (∀ (D : Nat) (a b : Fin D → α),
        vectorAssign (fun x y => .ok (f x y)) a b = .ok (fun j => f (a j) (b j)))
      ∧ (∀ (D : Nat) (a : Fin D → α) (s : α),
        vectorAssignScalar (fun x y => .ok (f x y)) a s = .ok (fun j => f (a j) s))
      ∧ (∀ (R C : Nat) (a b : Fin R → Fin C → α),
        matrixAssign (fun x y => .ok (f x y)) a b = .ok (fun i j => f (a i j) (b i j)))
      ∧ (∀ (R C : Nat) (a : Fin R → Fin C → α) (s : α),
        matrixAssignScalar (fun x y => .ok (f x y)) a s = .ok (fun i j => f (a i j) s))
      ∧ (∀ a b : Fin 2 → α,
        Matrix12.opAssign (fun x y => .ok (f x y)) a b = .ok (fun j => f (a j) (b j)))
      ∧ (∀ (a : Fin 2 → α) (s : α),
        Matrix12.opAssignScalar (fun x y => .ok (f x y)) a s = .ok (fun j => f (a j) s))
      ∧ (∀ a b : Fin 3 → α,
        Matrix13.opAssign (fun x y => .ok (f x y)) a b = .ok (fun j => f (a j) (b j)))
      ∧ (∀ (a : Fin 3 → α) (s : α),
        Matrix13.opAssignScalar (fun x y => .ok (f x y)) a s = .ok (fun j => f (a j) s))
      ∧ (∀ a b : Fin 4 → α,
        Matrix14.opAssign (fun x y => .ok (f x y)) a b = .ok (fun j => f (a j) (b j)))
      ∧ (∀ (a : Fin 4 → α) (s : α),
        Matrix14.opAssignScalar (fun x y => .ok (f x y)) a s = .ok (fun j => f (a j) s))
      ∧ (∀ a b : Fin 2 → Fin 2 → α,
        Matrix22.opAssign (fun x y => .ok (f x y)) a b = .ok (fun i j => f (a i j) (b i j)))
      ∧ (∀ (a : Fin 2 → Fin 2 → α) (s : α),
        Matrix22.opAssignScalar (fun x y => .ok (f x y)) a s = .ok (fun i j => f (a i j) s))
      ∧ (∀ a b : Fin 3 → Fin 3 → α,
        Matrix33.opAssign (fun x y => .ok (f x y)) a b = .ok (fun i j => f (a i j) (b i j)))
      ∧ (∀ (a : Fin 3 → Fin 3 → α) (s : α),
        Matrix33.opAssignScalar (fun x y => .ok (f x y)) a s = .ok (fun i j => f (a i j) s))
      ∧ (∀ a b : Fin 4 → Fin 4 → α,
        Matrix44.opAssign (Matrix14.opAssign (fun x y => .ok (f x y))) a b
          = .ok (fun i j => f (a i j) (b i j)))
      ∧ (∀ (a : Fin 4 → Fin 4 → α) (s : α),
        Matrix44.opAssignScalar (Matrix14.opAssignScalar (fun x y => .ok (f x y))) a s
          = .ok (fun i j => f (a i j) s))
      ∧ (∀ a b : α, Matrix11.opAssign (fun x y => .ok (f x y)) a b = .ok (f a b))
      ∧ (∀ a s : α, Matrix11.opAssignScalar (fun x y => .ok (f x y)) a s = .ok (f a s))
      ∧ (∀ a b : Fin 4 → α,
        MatrixSimd14.opAssign T slot f a b = .ok (fun j => f (a j) (b j)))
      ∧ (∀ (a : Fin 4 → α) (s : α),
        MatrixFloat14.opAssignScalar slot f a s = .ok (fun j => f (a j) s))
      ∧ (∀ a b : Fin 4 → Fin 4 → α,
        MatrixFloat44.opAssign slot f a b = .ok (fun i j => f (a i j) (b i j)))
      ∧ (∀ (a : Fin 4 → Fin 4 → α) (s : α),
        MatrixFloat44.opAssignScalar slot f a s = .ok (fun i j => f (a i j) s))
      ∧ (∀ a b : Fin 4 → Fin 4 → α,
        Matrix44.opAssign (MatrixSimd14.opAssign Precision.double slot f) a b
          = .ok (fun i j => f (a i j) (b i j))) := by
  refine ⟨fun _ => vectorAssign_total f, fun _ => vectorAssignScalar_total f,
    fun _ _ => matrixAssign_total f, fun _ _ => matrixAssignScalar_total f,
    assign2_total f, assignScalar2_total f, assign3_total f, assignScalar3_total f,
    assign4_total f, assignScalar4_total f,
    Matrix22_opAssign_total f, Matrix22_opAssignScalar_total f,
    Matrix33_opAssign_total f, Matrix33_opAssignScalar_total f,
    Matrix44_opAssign_total f, Matrix44_opAssignScalar_total f,
    fun _ _ => rfl, fun _ _ => rfl,
    MatrixSimd14_opAssign_eq T slot f, MatrixFloat14_opAssignScalar_eq slot f,
    MatrixFloat44_opAssign_eq slot f, MatrixFloat44_opAssignScalar_eq slot f, ?_⟩
  intro a b
  unfold Matrix44.opAssign
  have h : MatrixSimd14.opAssign Precision.double slot f
      = fun r v => .ok ((fun (r v : Fin 4 → α) => fun j => f (r j) (v j)) r v) := by
    funext r v
    exact MatrixSimd14_opAssign_eq Precision.double slot f r v
  rw [h, assign4_total]

/-- Claim C30, which the code does not meet.  The scalar operators of the specialisation
`Matrix<double,1,4>` take their argument as `float`: with either kernel in the slot,
`a op s` applies the scalar converted to `float` to every element.  For the zero vector
and `s = 1 + 2^-30`, a `double`, `a + s` is the vector of `1`, not of `1 + 2^-30`; the
primary `Matrix<double,4,4>`, whose rows are of this class, returns the matrix of `1` on
the same input; for `s = 10^39`, beyond the range of `float`, the conversion is undefined.
The operator `a -= b` of `Matrix<T,1,1>`, which `a - b` calls, subscripts the scalar
member and is ill-formed for every element type. -/
theorem matrix_double_scalar_narrowed :
    (∀ (slot : ArithKernel) (op : ℚ → ℚ → ℚ) (data : Fin 4 → ℚ) (s : ℚ),
        MatrixDouble14.opAssignScalar slot op data s
          = (floatCast s).map (fun m => fun i => op (data i) m))
      ∧ floatCast (1 + 1 / 2 ^ 30 : ℚ) = .ok 1
      ∧ (∀ slot : ArithKernel,
          MatrixDouble14.opAssignScalar slot (fun x y => x + y) (fun _ => (0 : ℚ))
              (1 + 1 / 2 ^ 30)
            = .ok (fun _ => 1))
      ∧ (∀ slot : ArithKernel,
          MatrixDouble14.opAssignScalar slot (fun x y => x + y) (fun _ => (0 : ℚ))
              (1 + 1 / 2 ^ 30)
            ≠ .ok (fun _ => 0 + (1 + 1 / 2 ^ 30)))
      ∧ (∀ slot : ArithKernel,
          Matrix44.opAssignScalar
              (MatrixDouble14.opAssignScalar slot (fun x y => x + y)) (fun _ _ => (0 : ℚ))
              (1 + 1 / 2 ^ 30)
            = .ok (fun _ _ => 1))
      ∧ (∀ (slot : ArithKernel) (data : Fin 4 → ℚ),
          MatrixDouble14.opAssignScalar slot (fun x y => x + y) data (10 ^ 39)
            = .error Fault.floatConversion)
      ∧ (∀ a b : ℚ, Matrix11.subAssign a b = .error Fault.illFormed) := by
  have h1 : ∀ slot : ArithKernel,
      MatrixDouble14.opAssignScalar slot (fun x y => x + y) (fun _ => (0 : ℚ))
          (1 + 1 / 2 ^ 30) = .ok (fun _ => 1) := by
    intro slot
    rw [MatrixDouble14_opAssignScalar_eq, floatCast_near_one]
    simp [Except.map]
  have hbig : floatCast (10 ^ 39 : ℚ) = .error Fault.floatConversion := by
    unfold floatCast
    rw [if_pos (by rw [abs_of_pos (by norm_num)]; norm_num [FLT_MAX])]
  refine ⟨MatrixDouble14_opAssignScalar_eq, floatCast_near_one, h1, ?_, ?_, ?_, fun _ _ => rfl⟩
  · intro slot h
    rw [h1 slot] at h
    have h0 := congrFun (Except.ok.inj h) 0
    norm_num at h0
  · intro slot
    rw [Matrix44_double_opAssignScalar_eq slot _ _ _ 1 floatCast_near_one]
    simp
  · intro slot data
    rw [MatrixDouble14_opAssignScalar_eq, hbig]
    rfl

/-! ## Safety of the inverse cosine, the tables and the tangent -/

/-! ## The arccosine on its domain -/

/-- On `[-1, 1]` the denominator of `Trig::acos` is positive and the function returns the
rational expression. -/
theorem acos_of_mem {α : Type} [LinearOrderedField α] (x : α) (h1 : -1 ≤ x) (h2 : x ≤ 1) :
    0 < 1 + ((-1.2845906244690837 : ℚ) : α) * (x * x)
          + ((0.295624144969963174 : ℚ) : α) * (x * x * x * x)
      ∧ acos x = .ok (((HALF_PI : ℚ) : α)
          + (((-0.939115566365855 : ℚ) : α) * x
              + ((0.9217841528914573 : ℚ) : α) * (x * x * x))
            / (1 + ((-1.2845906244690837 : ℚ) : α) * (x * x)
                + ((0.295624144969963174 : ℚ) : α) * (x * x * x * x))) := by
  have hu0 : 0 ≤ x * x := mul_self_nonneg x
  have hu1 : x * x ≤ 1 := by nlinarith
  have hd : 0 < 1 + ((-1.2845906244690837 : ℚ) : α) * (x * x)
      + ((0.295624144969963174 : ℚ) : α) * (x * x * x * x) := by
    push_cast
    nlinarith
  refine ⟨hd, ?_⟩
  unfold acos
  rw [if_pos ⟨h1, h2⟩]
  simp only [fdiv, if_neg hd.ne']

/-- Claim C39.  For every `x` in `[-1, 1]` the denominator `1 + c3 x^2 + c4 x^4` of
`Trig::acos` is strictly positive; `acos` and `asin` return at `x` and at `-x` without a
division by zero, `acos(x) + acos(-x) = 2 * HALF_PI` and `asin(-x) = -asin(x)`. -/
theorem acos_domain_safe {α : Type} [LinearOrderedField α] (x : α) (h1 : -1 ≤ x)
    (h2 : x ≤ 1) :
    0 < 1 + ((-1.2845906244690837 : ℚ) : α) * (x * x)
          + ((0.295624144969963174 : ℚ) : α) * (x * x * x * x)
      ∧ ∃ a b : α, acos x = .ok a ∧ acos (-x) = .ok b
          ∧ a + b = 2 * ((HALF_PI : ℚ) : α)
          ∧ asin x = .ok (((HALF_PI : ℚ) : α) - a)
          ∧ asin (-x) = .ok (-(((HALF_PI : ℚ) : α) - a)) := by
  obtain ⟨hd, ha⟩ := acos_of_mem x h1 h2
  obtain ⟨-, hb⟩ := acos_of_mem (-x) (by linarith) (by linarith)
  have e2 : -x * -x = x * x := by ring
  have e3 : x * x * -x = -(x * x * x) := by ring
  have e4 : -(x * x * x) * -x = x * x * x * x := by ring
  rw [e2, e3, e4] at hb
  refine ⟨hd, _, _, ha, hb, ?_, ?_, ?_⟩
  · field_simp
    ring
  · simp only [asin, ha]
  · simp only [asin, hb]
    congr 1
    field_simp
    ring

/-- Witness for C39 at `x = 1/2`. -/
theorem acos_domain_safe_witness :
    (-1 : ℚ) ≤ 1 / 2 ∧ (1 / 2 : ℚ) ≤ 1
      ∧ 0 < 1 + ((-1.2845906244690837 : ℚ) : ℚ) * ((1 / 2 : ℚ) * (1 / 2))
          + ((0.295624144969963174 : ℚ) : ℚ) * ((1 / 2 : ℚ) * (1 / 2) * (1 / 2) * (1 / 2))
      ∧ ∃ a b : ℚ, acos (1 / 2 : ℚ) = .ok a ∧ acos (-(1 / 2 : ℚ)) = .ok b
          ∧ a + b = 2 * ((HALF_PI : ℚ) : ℚ)
          ∧ asin (1 / 2 : ℚ) = .ok (((HALF_PI : ℚ) : ℚ) - a)
          ∧ asin (-(1 / 2 : ℚ)) = .ok (-(((HALF_PI : ℚ) : ℚ) - a)) :=
  ⟨by norm_num, by norm_num, acos_domain_safe (1 / 2 : ℚ) (by norm_num) (by norm_num)⟩

/-! ## Bounds of the table lookups -/

/-- The remainder of the range reduction is within the period. -/
theorem addRangeReduce_remainder_le {α : Type} [LinearOrderedField α] [FloorRing α]
    (x P : α) (hP : 0 < P) (res : ReductionRes) (r : α)
    (h : addRangeReduce x P (1 / P) = .ok (res, r)) :
    |r| ≤ P ∧ (res.noReduciton = false → |r| < P) := by
  rcases le_or_lt |x| P with hle | hgt
  · rw [addRangeReduce_of_le x P _ hle] at h
    simp only [Except.ok.injEq, Prod.mk.injEq] at h
    obtain ⟨h1, h2⟩ := h
    subst h1 h2
    exact ⟨hle, fun hc => by simp at hc⟩
  · by_cases hr : INT_MIN ≤ truncInt (x / P) ∧ truncInt (x / P) ≤ INT_MAX
    · obtain ⟨h1, -, -, -, h5, -, -⟩ := addRangeReduce_of_gt_facts x P hP hgt hr
      rw [h1] at h
      simp only [Except.ok.injEq, Prod.mk.injEq] at h
      obtain ⟨-, h2⟩ := h
      subst h2
      exact ⟨h5.le, fun _ => h5⟩
    · rw [addRangeReduce_of_gt_error x P _ hgt (by rwa [mul_one_div])] at h
      simp at h

/-- Every argument the table branch of `Trig::cos` hands to a lookup lies in
`[0, quarterPi]`: lookups that fault outside this interval give the same result. -/
theorem cosTableOver_args_in_range {α : Type} [LinearOrderedField α] [FloorRing α]
    (cosT sinT : α → Except Fault α) (P : α) (hP : 0 < P) (x : α) :
    cosTableOver cosT sinT P (1 / P) x
      = cosTableOver (fun y => if 0 ≤ y ∧ y ≤ P then cosT y else .error Fault.outOfBounds)
          (fun y => if 0 ≤ y ∧ y ≤ P then sinT y else .error Fault.outOfBounds)
          P (1 / P) x := by
  unfold cosTableOver
  cases h : addRangeReduce x P (1 / P) with
  | error e => rfl
  | ok v =>
    obtain ⟨res, r⟩ := v
    obtain ⟨hr, -⟩ := addRangeReduce_remainder_le x P hP res r h
    have h1 : (0 ≤ |r| ∧ |r| ≤ P) := ⟨abs_nonneg r, hr⟩
    have h2 : (0 ≤ P - |r| ∧ P - |r| ≤ P) := ⟨by linarith, by linarith [abs_nonneg r]⟩
    simp only [bind, Except.bind, mul_sign_self, if_pos h1, if_pos h2]

/-- With lookups that return on `[0, quarterPi]`, the table branch of `Trig::cos` returns
or reports a fault of the integer arithmetic of the reduction. -/
theorem cosTableOver_returns {α : Type} [LinearOrderedField α] [FloorRing α]
    (cosT sinT : α → Except Fault α) (P : α) (hP : 0 < P) (x : α)
    (hc : ∀ y : α, 0 ≤ y → y ≤ P → ∃ v, cosT y = .ok v)
    (hs : ∀ y : α, 0 ≤ y → y ≤ P → ∃ v, sinT y = .ok v) :
    (∃ v, cosTableOver cosT sinT P (1 / P) x = .ok v)
      ∨ cosTableOver cosT sinT P (1 / P) x = .error Fault.intConversion
      ∨ cosTableOver cosT sinT P (1 / P) x = .error Fault.intOverflow := by
  unfold cosTableOver
  cases h : addRangeReduce x P (1 / P) with
  | error e =>
    rw [addRangeReduce_error x P _ e h]
    right; left; rfl
  | ok v =>
    obtain ⟨res, r⟩ := v
    obtain ⟨hr, -⟩ := addRangeReduce_remainder_le x P hP res r h
    obtain ⟨c1, hc1⟩ := hc |r| (abs_nonneg r) hr
    obtain ⟨c2, hc2⟩ := hc (P - |r|) (by linarith) (by linarith [abs_nonneg r])
    obtain ⟨s1, hs1⟩ := hs |r| (abs_nonneg r) hr
    obtain ⟨s2, hs2⟩ := hs (P - |r|) (by linarith) (by linarith [abs_nonneg r])
    simp only [bind, Except.bind, mul_sign_self, hc1, hc2, hs1, hs2, pure, Except.pure]
    by_cases hn : res.noReduciton = true
    · left; simp [hn]
    · simp only [hn]
      cases hm : iabs res.quad with
      | error e =>
        right; right
        have : e = Fault.intOverflow := by
          unfold iabs ineg at hm
          split_ifs at hm
          simp_all
        rw [this]; rfl
      | ok m =>
        left
        have hk := land_seven_cases m
        unfold PiPi3by4_2Pi
        dsimp only
        generalize Int.land m 7 = k at hk ⊢
        rcases hk with rfl | rfl | rfl | rfl | rfl | rfl | rfl | rfl <;> simp

/-- The tables of the table branch are generated: for a function that returns on
`[-HALF_PI, HALF_PI]` the table of every accuracy exists and has `size` entries, `size`
being at least `1`. -/
theorem lut_generated (Func : ℝ → Except Fault ℝ)
    (hF : ∀ t : ℝ, |t| ≤ ((HALF_PI : ℚ) : ℝ) → ∃ v, Func t = .ok v) (acc : Fin 11) :
    ∃ (info : LUTInfo ℝ) (table : List (ℝ × ℝ)),
      lutInfo SIN_COS_FOLDING_RATIO acc = .ok info
        ∧ getLUT Func info = .ok table
        ∧ 1 ≤ info.size ∧ info.size < 2000
        ∧ info.endValue = 2 * ((M_PI : ℚ) : ℝ) / 8
        ∧ table.length = info.size := by
  obtain ⟨size, h0, h1, h2, h3⟩ := lutInfo_eq acc
  have hpi : ((M_PI : ℚ) : ℝ) = 3.14159265358979323846 := by
    unfold M_PI; norm_num
  have hH := half_pi_gap.1
  have hsz : (0 : ℝ) < (size : ℝ) := by exact_mod_cast h0
  have harg : ∀ i : Nat, i < size →
      |(0 : ℝ) + (i : ℝ) * (2 * ((M_PI : ℚ) : ℝ) / 8 / (size : ℝ))|
        ≤ ((HALF_PI : ℚ) : ℝ) := by
    intro i hi
    have hi' : (i : ℝ) ≤ (size : ℝ) := by exact_mod_cast hi.le
    have hi0 : (0 : ℝ) ≤ (i : ℝ) := Nat.cast_nonneg i
    have e : (0 : ℝ) + (i : ℝ) * (2 * ((M_PI : ℚ) : ℝ) / 8 / (size : ℝ))
        = (i : ℝ) / (size : ℝ) * (2 * ((M_PI : ℚ) : ℝ) / 8) := by
      field_simp
      left; ring
    have hr : (i : ℝ) / (size : ℝ) ≤ 1 := (div_le_one hsz).mpr hi'
    have hr0 : 0 ≤ (i : ℝ) / (size : ℝ) := by positivity
    rw [e, hpi, hH, abs_of_nonneg (by positivity)]
    nlinarith
  obtain ⟨table, ht⟩ := getLUT_ok Func
    ({ size := size, startValue := 0, endValue := 2 * ((M_PI : ℚ) : ℝ) / 8,
       step := 2 * ((M_PI : ℚ) : ℝ) / 8 / (size : ℝ) } : LUTInfo ℝ) h0
    (fun i hi => hF _ (harg i hi))
  obtain ⟨-, e1, -⟩ := getLUT_entries _ _ _ ht
  exact ⟨_, table, h3, ht, h0, h1, rfl, e1⟩

/-- The value index and the gradient index of `generic_inner_table` on an argument in
`[0, QUARTER_PI]`: both lie in `[0, size - 1]` and the lookup returns. -/
theorem table_index_in_bounds (ε : ℝ) (hε : 0 < ε) (hε2 : ε ≤ 1 / 2) (info : LUTInfo ℝ)
    (table : List (ℝ × ℝ)) (y : ℝ) (h0 : 1 ≤ info.size) (h1 : info.size < 2000)
    (hend : info.endValue = 2 * ((M_PI : ℚ) : ℝ) / 8) (hlen : table.length = info.size)
    (hy0 : 0 ≤ y) (hy1 : y ≤ ((QUARTER_PI : ℚ) : ℝ)) :
    ∃ (n index gradIndex : Int) (v : ℝ),
      getNearestInt ε (y / info.endValue * (info.size : ℝ)) = .ok n
        ∧ index = (if n % 18446744073709551616 = (info.size : Int) then n - 1 else n)
        ∧ gradIndex
          = wrapInt (if y / info.endValue * (info.size : ℝ) - (index : ℝ) < 0 ∧ index > 0
              then index - 1 else index)
        ∧ 0 ≤ index ∧ index ≤ (info.size : Int) - 1
        ∧ 0 ≤ gradIndex ∧ gradIndex ≤ (info.size : Int) - 1
        ∧ generic_inner_table ε info table y = .ok v := by
  have hpi : ((M_PI : ℚ) : ℝ) = 3.14159265358979323846 := by
    unfold M_PI; norm_num
  have hq : ((QUARTER_PI : ℚ) : ℝ) = 0.7853981633974483096 := by
    unfold QUARTER_PI; norm_num
  have hsz : (1 : ℝ) ≤ (info.size : ℝ) := by exact_mod_cast h0
  have hsz2 : (info.size : ℝ) < 2000 := by exact_mod_cast h1
  have he0 : (0 : ℝ) < info.endValue := by rw [hend, hpi]; norm_num
  have hye : y < info.endValue := by rw [hend, hpi]; rw [hq] at hy1; linarith
  set s := y / info.endValue * (info.size : ℝ) with hs
  have hs0 : 0 ≤ s := by positivity
  have hs1 : s < (info.size : ℝ) := by
    have : y / info.endValue < 1 := (div_lt_one he0).mpr hye
    calc s = y / info.endValue * (info.size : ℝ) := rfl
      _ < 1 * (info.size : ℝ) := by
        apply mul_lt_mul_of_pos_right this (by linarith)
      _ = (info.size : ℝ) := one_mul _
  obtain ⟨n, hn, hn1, hn2, hp, hneg⟩ := getNearestInt_facts ε s hε hε2
    (by rw [abs_of_nonneg hs0]; linarith)
  have hn0 : 0 ≤ n := by
    rcases lt_or_le 0 s with hpos | hnp
    · obtain ⟨-, b⟩ := hp hpos
      have : (0 : ℝ) < (n : ℝ) + 1 := by linarith
      have : (0 : Int) < n + 1 := by exact_mod_cast this
      omega
    · obtain ⟨a, -⟩ := hneg hnp
      have hs00 : s = 0 := le_antisymm hnp hs0
      have : (-1 : ℝ) < (n : ℝ) := by rw [hs00] at a; linarith
      have : (-1 : Int) < n := by exact_mod_cast this
      omega
  have hnle : n ≤ (info.size : Int) := by
    rcases lt_or_le 0 s with hpos | hnp
    · obtain ⟨a, -⟩ := hp hpos
      have : (n : ℝ) < (info.size : ℝ) + 1 := by linarith
      have : n < (info.size : Int) + 1 := by exact_mod_cast this
      omega
    · obtain ⟨-, b⟩ := hneg hnp
      have hs00 : s = 0 := le_antisymm hnp hs0
      have : (n : ℝ) < 1 := by rw [hs00] at b; linarith
      have : n < 1 := by exact_mod_cast this
      omega
  have hiff := index_eq_size_iff n info.size hn1 hn2 (by omega)
  have hidx : ∀ index : Int,
      index = (if n % 18446744073709551616 = (info.size : Int) then n - 1 else n) →
      0 ≤ index ∧ index ≤ (info.size : Int) - 1 := by
    intro index hi
    by_cases hc : n = (info.size : Int)
    · rw [if_pos (hiff.mpr hc)] at hi; omega
    · rw [if_neg (fun h => hc (hiff.mp h))] at hi; omega
  obtain ⟨index, hindex⟩ : ∃ index : Int,
      index = (if n % 18446744073709551616 = (info.size : Int) then n - 1 else n) :=
    ⟨_, rfl⟩
  obtain ⟨hi0, hi1⟩ := hidx index hindex
  obtain ⟨g, hgdef⟩ : ∃ g : Int,
      g = (if s - (index : ℝ) < 0 ∧ index > 0 then index - 1 else index) := ⟨_, rfl⟩
  have hb : 0 ≤ g ∧ g ≤ (info.size : Int) - 1 := by
    split_ifs at hgdef with hc
    · obtain ⟨-, hc2⟩ := hc; omega
    · omega
  have hgw : wrapInt g = g := by unfold wrapInt; omega
  obtain ⟨i, hi⟩ : ∃ i : Nat, index = (i : Int) := Int.eq_ofNat_of_zero_le hi0
  obtain ⟨j, hj⟩ : ∃ j : Nat, g = (j : Int) := Int.eq_ofNat_of_zero_le hb.1
  have hat1 := tableAt_natCast table (0, 0) i (by omega)
  have hat2 := tableAt_natCast table (0, 0) j (by omega)
  have hgen : generic_inner_table ε info table y
      = .ok ((table.getD i (0, 0)).1 + (s - (index : ℝ)) * (table.getD j (0, 0)).2) := by
    rw [generic_inner_table_eq ε info table y n hn hn1 hn2 (by omega)]
    have hidx2 : (if n = (info.size : Int) then n - 1 else n) = index := by
      rw [hindex]
      by_cases hc : n = (info.size : Int)
      · rw [if_pos hc, if_pos (hiff.mpr hc)]
      · rw [if_neg hc, if_neg (fun h => hc (hiff.mp h))]
    rw [hidx2]
    have hgw2 : wrapInt (j : Int) = (j : Int) := by rw [← hj]; exact hgw
    simp only [tableInterpolate, ← hs, ← hgdef, hj, hgw2]
    rw [hi]
    simp only [hat1, hat2, bind, Except.bind, pure, Except.pure]
  exact ⟨n, index, wrapInt g, _, hn, hindex, by rw [hgdef], hi0, hi1,
    by rw [hgw]; exact hb.1, by rw [hgw]; exact hb.2, hgen⟩

/-- The lookup of the table branch on an argument in `[0, QUARTER_PI]`: the table exists,
has `size >= 1` entries, both indices lie in `[0, size - 1]` and the lookup returns. -/
theorem lutLookup_in_bounds (ε : ℝ) (hε : 0 < ε) (hε2 : ε ≤ 1 / 2)
    (Func : ℝ → Except Fault ℝ)
    (hF : ∀ t : ℝ, |t| ≤ ((HALF_PI : ℚ) : ℝ) → ∃ v, Func t = .ok v) (acc : Fin 11) (y : ℝ)
    (hy0 : 0 ≤ y) (hy1 : y ≤ ((QUARTER_PI : ℚ) : ℝ)) :
    ∃ (info : LUTInfo ℝ) (table : List (ℝ × ℝ)) (n index gradIndex : Int) (v : ℝ),
      lutInfo SIN_COS_FOLDING_RATIO acc = .ok info
        ∧ getLUT Func info = .ok table
        ∧ 1 ≤ info.size ∧ table.length = info.size
        ∧ getNearestInt ε (y / info.endValue * (info.size : ℝ)) = .ok n
        ∧ index = (if n % 18446744073709551616 = (info.size : Int) then n - 1 else n)
        ∧ gradIndex
          = wrapInt (if y / info.endValue * (info.size : ℝ) - (index : ℝ) < 0
              ∧ index > 0 then index - 1 else index)
        ∧ 0 ≤ index ∧ index ≤ (info.size : Int) - 1
        ∧ 0 ≤ gradIndex ∧ gradIndex ≤ (info.size : Int) - 1
        ∧ lutLookup ε Func acc y = .ok v := by
  obtain ⟨info, table, hi, ht, h0, h1, hend, hlen⟩ := lut_generated Func hF acc
  obtain ⟨n, index, gradIndex, v, a1, a2, a3, a4, a5, a6, a7, a8⟩ :=
    table_index_in_bounds ε hε hε2 info table y h0 h1 hend hlen hy0 hy1
  refine ⟨info, table, n, index, gradIndex, v, hi, ht, h0, hlen, a1, a2, a3, a4, a5, a6, a7,
    ?_⟩
  simp only [lutLookup, hi, ht, bind, Except.bind, a8]

/-- The polynomial sine and cosine return on `[-HALF_PI, HALF_PI]`. -/
theorem poly_returns_of_le (a : Fin 11) (t : ℝ) (h : |t| ≤ ((HALF_PI : ℚ) : ℝ)) :
    (∃ v, cosPoly a t = .ok v) ∧ ∃ v, sinPoly a t = .ok v :=
  ⟨⟨_, cosPoly_of_le a t h⟩, ⟨_, sinPolyWith_of_le _ _ _ _ t h⟩⟩

/-- The table branches never leave their tables. -/
theorem table_no_out_of_bounds (ε : ℝ) (hε : 0 < ε) (hε2 : ε ≤ 1 / 2) (accuracy : Fin 11)
    (x : ℝ) : cosTable ε accuracy x ≠ .error Fault.outOfBounds := by
  have hP : (0 : ℝ) < ((QUARTER_PI : ℚ) : ℝ) := by
    have : (0 : ℚ) < QUARTER_PI := by norm_num [QUARTER_PI]
    exact_mod_cast this
  have hi : ((INV_QUARTER_PI : ℚ) : ℝ) = 1 / ((QUARTER_PI : ℚ) : ℝ) := by
    unfold INV_QUARTER_PI; push_cast; rfl
  unfold cosTable
  rw [hi]
  have hc : ∀ y : ℝ, 0 ≤ y → y ≤ ((QUARTER_PI : ℚ) : ℝ) →
      ∃ v, lutLookup ε (cosPoly sinCosAccDouble) accuracy y = .ok v := by
    intro y h0 h1
    obtain ⟨_, _, _, _, _, v, -, -, -, -, -, -, -, -, -, -, -, hv⟩ :=
      lutLookup_in_bounds ε hε hε2 _ (fun t ht => (poly_returns_of_le _ t ht).1) accuracy y
        h0 h1
    exact ⟨v, hv⟩
  have hs : ∀ y : ℝ, 0 ≤ y → y ≤ ((QUARTER_PI : ℚ) : ℝ) →
      ∃ v, lutLookup ε (sinPoly sinCosAccDouble) accuracy y = .ok v := by
    intro y h0 h1
    obtain ⟨_, _, _, _, _, v, -, -, -, -, -, -, -, -, -, -, -, hv⟩ :=
      lutLookup_in_bounds ε hε hε2 _ (fun t ht => (poly_returns_of_le _ t ht).2) accuracy y
        h0 h1
    exact ⟨v, hv⟩
  rcases cosTableOver_returns _ _ _ hP x hc hs with ⟨v, h⟩ | h | h <;> rw [h] <;> simp

/-- Claim C37.  For every finite `x` and every accuracy level, the table branches of
`Trig::cos` and `Trig::sin` hand to `generic_inner_table` only arguments in
`[0, QUARTER_PI]`: lookups that fault outside this interval give the same results.  For
every argument in that interval and both tables, the table has `size >= 1` entries, the
value index and the gradient index lie in `[0, size - 1]` and the lookup returns.  So
neither branch leaves its table. -/
theorem table_lookups_in_bounds (ε : ℝ) (hε : 0 < ε) (hε2 : ε ≤ 1 / 2) (accuracy : Fin 11)
    (x : ℝ) :
    cosTable ε accuracy x
        = cosTableOver
          (fun y => if 0 ≤ y ∧ y ≤ ((QUARTER_PI : ℚ) : ℝ)
            then lutLookup ε (cosPoly sinCosAccDouble) accuracy y else .error Fault.outOfBounds)
          (fun y => if 0 ≤ y ∧ y ≤ ((QUARTER_PI : ℚ) : ℝ)
            then lutLookup ε (sinPoly sinCosAccDouble) accuracy y else .error Fault.outOfBounds)
          ((QUARTER_PI : ℚ) : ℝ) ((INV_QUARTER_PI : ℚ) : ℝ) x
      ∧ sinTable ε accuracy x
        = cosTableOver
          (fun y => if 0 ≤ y ∧ y ≤ ((QUARTER_PI : ℚ) : ℝ)
            then lutLookup ε (cosPoly sinCosAccDouble) accuracy y else .error Fault.outOfBounds)
          (fun y => if 0 ≤ y ∧ y ≤ ((QUARTER_PI : ℚ) : ℝ)
            then lutLookup ε (sinPoly sinCosAccDouble) accuracy y else .error Fault.outOfBounds)
          ((QUARTER_PI : ℚ) : ℝ) ((INV_QUARTER_PI : ℚ) : ℝ) (((HALF_PI : ℚ) : ℝ) - x)
      ∧ (∀ y : ℝ, 0 ≤ y → y ≤ ((QUARTER_PI : ℚ) : ℝ) →
          ∃ (info : LUTInfo ℝ) (table : List (ℝ × ℝ)) (n index gradIndex : Int) (v : ℝ),
            lutInfo SIN_COS_FOLDING_RATIO accuracy = .ok info
              ∧ getLUT (cosPoly sinCosAccDouble) info = .ok table
              ∧ 1 ≤ info.size ∧ table.length = info.size
              ∧ getNearestInt ε (y / info.endValue * (info.size : ℝ)) = .ok n
              ∧ index = (if n % 18446744073709551616 = (info.size : Int) then n - 1 else n)
              ∧ gradIndex
                = wrapInt (if y / info.endValue * (info.size : ℝ) - (index : ℝ) < 0
                    ∧ index > 0 then index - 1 else index)
              ∧ 0 ≤ index ∧ index ≤ (info.size : Int) - 1
              ∧ 0 ≤ gradIndex ∧ gradIndex ≤ (info.size : Int) - 1
              ∧ lutLookup ε (cosPoly sinCosAccDouble) accuracy y = .ok v)
      ∧ (∀ y : ℝ, 0 ≤ y → y ≤ ((QUARTER_PI : ℚ) : ℝ) →
          ∃ (info : LUTInfo ℝ) (table : List (ℝ × ℝ)) (n index gradIndex : Int) (v : ℝ),
            lutInfo SIN_COS_FOLDING_RATIO accuracy = .ok info
              ∧ getLUT (sinPoly sinCosAccDouble) info = .ok table
              ∧ 1 ≤ info.size ∧ table.length = info.size
              ∧ getNearestInt ε (y / info.endValue * (info.size : ℝ)) = .ok n
              ∧ index = (if n % 18446744073709551616 = (info.size : Int) then n - 1 else n)
              ∧ gradIndex
                = wrapInt (if y / info.endValue * (info.size : ℝ) - (index : ℝ) < 0
                    ∧ index > 0 then index - 1 else index)
              ∧ 0 ≤ index ∧ index ≤ (info.size : Int) - 1
              ∧ 0 ≤ gradIndex ∧ gradIndex ≤ (info.size : Int) - 1
              ∧ lutLookup ε (sinPoly sinCosAccDouble) accuracy y = .ok v)
      ∧ cosTable ε accuracy x ≠ .error Fault.outOfBounds
      ∧ sinTable ε accuracy x ≠ .error Fault.outOfBounds := by
  have hP : (0 : ℝ) < ((QUARTER_PI : ℚ) : ℝ) := by
    have : (0 : ℚ) < QUARTER_PI := by norm_num [QUARTER_PI]
    exact_mod_cast this
  have hi : ((INV_QUARTER_PI : ℚ) : ℝ) = 1 / ((QUARTER_PI : ℚ) : ℝ) := by
    unfold INV_QUARTER_PI; push_cast; rfl
  refine ⟨?_, ?_, ?_, ?_, table_no_out_of_bounds ε hε hε2 accuracy x, ?_⟩
  · unfold cosTable
    rw [hi]
    exact cosTableOver_args_in_range _ _ _ hP x
  · unfold sinTable cosTable
    rw [hi]
    exact cosTableOver_args_in_range _ _ _ hP _
  · intro y h0 h1
    exact lutLookup_in_bounds ε hε hε2 _ (fun t ht => (poly_returns_of_le _ t ht).1)
      accuracy y h0 h1
  · intro y h0 h1
    exact lutLookup_in_bounds ε hε hε2 _ (fun t ht => (poly_returns_of_le _ t ht).2)
      accuracy y h0 h1
  · unfold sinTable
    exact table_no_out_of_bounds ε hε hε2 accuracy _

/-- Witness for C37 at the `epsilon` of `double`, accuracy `3` and `x = 10`. -/
theorem table_lookups_in_bounds_witness :
    (0 : ℝ) < 1 / 4503599627370496 ∧ (1 / 4503599627370496 : ℝ) ≤ 1 / 2
      ∧ cosTable (1 / 4503599627370496 : ℝ) 3 (10 : ℝ)
        = cosTableOver
          (fun y => if 0 ≤ y ∧ y ≤ ((QUARTER_PI : ℚ) : ℝ)
            then lutLookup (1 / 4503599627370496 : ℝ) (cosPoly sinCosAccDouble) 3 y else .error Fault.outOfBounds)
          (fun y => if 0 ≤ y ∧ y ≤ ((QUARTER_PI : ℚ) : ℝ)
            then lutLookup (1 / 4503599627370496 : ℝ) (sinPoly sinCosAccDouble) 3 y else .error Fault.outOfBounds)
          ((QUARTER_PI : ℚ) : ℝ) ((INV_QUARTER_PI : ℚ) : ℝ) (10 : ℝ)
      ∧ sinTable (1 / 4503599627370496 : ℝ) 3 (10 : ℝ)
        = cosTableOver
          (fun y => if 0 ≤ y ∧ y ≤ ((QUARTER_PI : ℚ) : ℝ)
            then lutLookup (1 / 4503599627370496 : ℝ) (cosPoly sinCosAccDouble) 3 y else .error Fault.outOfBounds)
          (fun y => if 0 ≤ y ∧ y ≤ ((QUARTER_PI : ℚ) : ℝ)
            then lutLookup (1 / 4503599627370496 : ℝ) (sinPoly sinCosAccDouble) 3 y else .error Fault.outOfBounds)
          ((QUARTER_PI : ℚ) : ℝ) ((INV_QUARTER_PI : ℚ) : ℝ) (((HALF_PI : ℚ) : ℝ) - (10 : ℝ))
      ∧ (∀ y : ℝ, 0 ≤ y → y ≤ ((QUARTER_PI : ℚ) : ℝ) →
          ∃ (info : LUTInfo ℝ) (table : List (ℝ × ℝ)) (n index gradIndex : Int) (v : ℝ),
            lutInfo SIN_COS_FOLDING_RATIO 3 = .ok info
              ∧ getLUT (cosPoly sinCosAccDouble) info = .ok table
              ∧ 1 ≤ info.size ∧ table.length = info.size
              ∧ getNearestInt (1 / 4503599627370496 : ℝ) (y / info.endValue * (info.size : ℝ)) = .ok n
              ∧ index = (if n % 18446744073709551616 = (info.size : Int) then n - 1 else n)
              ∧ gradIndex
                = wrapInt (if y / info.endValue * (info.size : ℝ) - (index : ℝ) < 0
                    ∧ index > 0 then index - 1 else index)
              ∧ 0 ≤ index ∧ index ≤ (info.size : Int) - 1
              ∧ 0 ≤ gradIndex ∧ gradIndex ≤ (info.size : Int) - 1
              ∧ lutLookup (1 / 4503599627370496 : ℝ) (cosPoly sinCosAccDouble) 3 y = .ok v)
      ∧ (∀ y : ℝ, 0 ≤ y → y ≤ ((QUARTER_PI : ℚ) : ℝ) →
          ∃ (info : LUTInfo ℝ) (table : List (ℝ × ℝ)) (n index gradIndex : Int) (v : ℝ),
            lutInfo SIN_COS_FOLDING_RATIO 3 = .ok info
              ∧ getLUT (sinPoly sinCosAccDouble) info = .ok table
              ∧ 1 ≤ info.size ∧ table.length = info.size
              ∧ getNearestInt (1 / 4503599627370496 : ℝ) (y / info.endValue * (info.size : ℝ)) = .ok n
              ∧ index = (if n % 18446744073709551616 = (info.size : Int) then n - 1 else n)
              ∧ gradIndex
                = wrapInt (if y / info.endValue * (info.size : ℝ) - (index : ℝ) < 0
                    ∧ index > 0 then index - 1 else index)
              ∧ 0 ≤ index ∧ index ≤ (info.size : Int) - 1
              ∧ 0 ≤ gradIndex ∧ gradIndex ≤ (info.size : Int) - 1
              ∧ lutLookup (1 / 4503599627370496 : ℝ) (sinPoly sinCosAccDouble) 3 y = .ok v)
      ∧ cosTable (1 / 4503599627370496 : ℝ) 3 (10 : ℝ) ≠ .error Fault.outOfBounds
      ∧ sinTable (1 / 4503599627370496 : ℝ) 3 (10 : ℝ) ≠ .error Fault.outOfBounds :=
  ⟨by norm_num, by norm_num,
    table_lookups_in_bounds (1 / 4503599627370496) (by norm_num) (by norm_num) 3 10⟩

/-! ## Divisions of the tangent -/

/-- The scaled argument of `tan_inner_polynomial` on `[0, QUARTER_PI]` lies in `[0, 1]`. -/
theorem tan_scaled_range {α : Type} [LinearOrderedField α] (x : α) (hx0 : 0 ≤ x)
    (hx1 : x ≤ ((QUARTER_PI : ℚ) : α)) :
    0 ≤ x * ((INV_QUARTER_PI : ℚ) : α) ∧ x * ((INV_QUARTER_PI : ℚ) : α) ≤ 1
      ∧ (x * ((INV_QUARTER_PI : ℚ) : α) = 0 ↔ x = 0) := by
  have hq : (0 : α) < ((QUARTER_PI : ℚ) : α) := by
    have : (0 : ℚ) < QUARTER_PI := by norm_num [QUARTER_PI]
    exact_mod_cast this
  have hi : ((INV_QUARTER_PI : ℚ) : α) = 1 / ((QUARTER_PI : ℚ) : α) := by
    unfold INV_QUARTER_PI; push_cast; rfl
  rw [hi]
  refine ⟨by positivity, ?_, ?_⟩
  · rw [mul_one_div, div_le_one hq]; exact hx1
  · rw [mul_one_div, div_eq_zero_iff]
    constructor
    · rintro (h | h)
      · exact h
      · exact absurd h hq.ne'
    · intro h; exact Or.inl h

/-- On `[0, QUARTER_PI]` both denominators of `tan_inner_polynomial` are non-zero, the
function returns, and its value is zero only at zero. -/
theorem tan_inner_polynomial_ok {α : Type} [LinearOrderedField α] (fast : Bool) (x : α)
    (hx0 : 0 ≤ x) (hx1 : x ≤ ((QUARTER_PI : ℚ) : α)) :
    ((TAN_DEGREE_2.getD 1 0 : ℚ) : α)
        + x * ((INV_QUARTER_PI : ℚ) : α) * (x * ((INV_QUARTER_PI : ℚ) : α)) ≠ 0
      ∧ ((TAN_DEGREE_4.getD 2 0 : ℚ) : α)
        + x * ((INV_QUARTER_PI : ℚ) : α) * (x * ((INV_QUARTER_PI : ℚ) : α))
          * (((TAN_DEGREE_4.getD 3 0 : ℚ) : α)
            + x * ((INV_QUARTER_PI : ℚ) : α) * (x * ((INV_QUARTER_PI : ℚ) : α))) ≠ 0
      ∧ ∃ v : α, tan_inner_polynomial fast x = .ok v ∧ (v = 0 ↔ x = 0) := by
  obtain ⟨h0, h1, hz⟩ := tan_scaled_range x hx0 hx1
  unfold tan_inner_polynomial
  simp only []
  generalize x * ((INV_QUARTER_PI : ℚ) : α) = t at h0 h1 hz ⊢
  have c20 : ((TAN_DEGREE_2.getD 0 0 : ℚ) : α) = -3.6112171 := by
    simp [TAN_DEGREE_2]
  have c21 : ((TAN_DEGREE_2.getD 1 0 : ℚ) : α) = -4.6133253 := by
    simp [TAN_DEGREE_2]
  have c40 : ((TAN_DEGREE_4.getD 0 0 : ℚ) : α) = 211.849369664121 := by
    simp [TAN_DEGREE_4]
  have c41 : ((TAN_DEGREE_4.getD 1 0 : ℚ) : α) = -12.5288887278440 := by
    simp [TAN_DEGREE_4]
  have c42 : ((TAN_DEGREE_4.getD 2 0 : ℚ) : α) = 269.7350131214121 := by
    simp [TAN_DEGREE_4]
  have c43 : ((TAN_DEGREE_4.getD 3 0 : ℚ) : α) = -71.4145309347748 := by
    simp [TAN_DEGREE_4]
  rw [c20, c21, c40, c41, c42, c43]
  have ht2 : t * t ≤ 1 := by nlinarith
  have ht0 : 0 ≤ t * t := mul_self_nonneg t
  have d2 : (-4.6133253 : α) + t * t < 0 := by linarith
  have d4 : (0 : α) < 269.7350131214121 + t * t * (-71.4145309347748 + t * t) := by
    nlinarith
  have n4 : (0 : α) < 211.849369664121 + -12.5288887278440 * (t * t) := by nlinarith
  refine ⟨d2.ne, d4.ne', ?_⟩
  cases fast
  · refine ⟨_, by simp only [Bool.false_eq_true, if_false, fdiv, if_neg d4.ne']; rfl, ?_⟩
    rw [div_eq_zero_iff, mul_eq_zero, ← hz]
    constructor
    · rintro ((h | h) | h)
      · exact h
      · exact absurd h n4.ne'
      · exact absurd h d4.ne'
    · intro h; exact Or.inl (Or.inl h)
  · refine ⟨_, by simp only [if_true, fdiv, if_neg d2.ne]; rfl, ?_⟩
    rw [div_eq_zero_iff, mul_eq_zero, ← hz]
    constructor
    · rintro ((h | h) | h)
      · exact h
      · norm_num at h
      · exact absurd h d2.ne
    · intro h; exact Or.inl (Or.inl h)

/-- The tangent divides by zero only at a zero remainder in octant `2` or `6`. -/
theorem tan_no_div_by_zero {α : Type} [LinearOrderedField α] [FloorRing α] (fast : Bool)
    (y : α) (res : ReductionRes) (r : α)
    (h : addRangeReduce y ((QUARTER_PI : ℚ) : α) ((INV_QUARTER_PI : ℚ) : α) = .ok (res, r))
    (hc : r ≠ 0 ∨ (|res.quad| % 8 ≠ 2 ∧ |res.quad| % 8 ≠ 6)) :
    tan fast y ≠ .error Fault.divByZero := by
  have hP : (0 : α) < ((QUARTER_PI : ℚ) : α) := by
    have : (0 : ℚ) < QUARTER_PI := by norm_num [QUARTER_PI]
    exact_mod_cast this
  have hi : ((INV_QUARTER_PI : ℚ) : α) = 1 / ((QUARTER_PI : ℚ) : α) := by
    unfold INV_QUARTER_PI; push_cast; rfl
  obtain ⟨T1, hT, hT0⟩ : ∃ T1 : α → α,
      (∀ t : α, 0 ≤ t → t ≤ ((QUARTER_PI : ℚ) : α) →
        tan_inner_polynomial fast t = .ok (T1 t))
      ∧ (∀ t : α, 0 < t → t ≤ ((QUARTER_PI : ℚ) : α) → T1 t ≠ 0) := by
    refine ⟨fun t => match tan_inner_polynomial fast t with | .ok v => v | .error _ => 0,
      ?_, ?_⟩
    · intro t h0 h1
      obtain ⟨-, -, v, hv, -⟩ := tan_inner_polynomial_ok fast t h0 h1
      simp only [hv]
    · intro t h0 h1
      obtain ⟨-, -, v, hv, hz⟩ := tan_inner_polynomial_ok fast t h0.le h1
      simp only [hv]
      exact fun hv0 => h0.ne' (hz.mp hv0)
  unfold tan
  rcases le_or_lt |y| ((QUARTER_PI : ℚ) : α) with hle | hgt
  · rw [tanWith_of_le _ T1 _ _ y hle (hT _ (abs_nonneg y) hle)]
    simp
  · rw [hi] at h ⊢
    by_cases hr : INT_MIN ≤ truncInt (y / ((QUARTER_PI : ℚ) : α))
        ∧ truncInt (y / ((QUARTER_PI : ℚ) : α)) ≤ INT_MAX
    · obtain ⟨h1, h2, h3, h4, h5, h6, h7⟩ :=
        addRangeReduce_of_gt_facts y _ hP hgt hr
      rw [h1] at h
      simp only [Except.ok.injEq, Prod.mk.injEq] at h
      obtain ⟨hres, hrr⟩ := h
      subst hres
      simp only [] at hc
      set q := truncInt (y / ((QUARTER_PI : ℚ) : α)) with hqdef
      have hy0 : y ≠ 0 := by
        intro h0; rw [h0, abs_zero] at hgt; linarith
      have hs : (if y ≥ 0 then (1 : Int) else -1) = signOf q := by
        unfold signOf
        rcases lt_or_gt_of_ne hy0 with hn | hp
        · rw [if_neg (not_le.mpr hn), if_neg (not_le.mpr (h4 hn))]
        · rw [if_pos hp.le, if_pos (h3 hp).le]
      have hyr : r * ((signOf q : Int) : α) = |r| := by
        rw [← hrr]
        unfold signOf
        rcases lt_or_gt_of_ne hy0 with hn | hp
        · rw [if_neg (not_le.mpr (h4 hn)), abs_of_nonpos (h7 hn)]; push_cast; ring
        · rw [if_pos (h3 hp).le, abs_of_nonneg (h6 hp)]; push_cast; ring
      have hrlt : |r| < ((QUARTER_PI : ℚ) : α) := by rw [← hrr]; exact h5
      by_cases hmin : q = INT_MIN
      · have hsm : signOf q = -1 := by
          rw [hmin]; unfold signOf INT_MIN; norm_num
        have him : imul q (-1) = .error Fault.intOverflow := by
          rw [hmin]; unfold imul INT_MIN INT_MAX; norm_num
        have hg : ¬ (r * (((-1 : Int) : Int) : α) = 0 ∧ (q = 2 * -1 ∨ q = 6 * -1)) := by
          rintro ⟨-, h26 | h26⟩ <;> rw [hmin] at h26 <;> unfold INT_MIN at h26 <;> omega
        simp only [tanWith, h1, hrr, bind, Except.bind, hs, hsm, if_neg hg, him, pure,
          Except.pure]
        simp
      · have hq : INT_MIN < q ∧ q ≤ INT_MAX := ⟨lt_of_le_of_ne hr.1 (Ne.symm hmin), hr.2⟩
        by_cases hg : |r| = 0 ∧ (q = 2 * signOf q ∨ q = 6 * signOf q)
        · simp only [tanWith, h1, hrr, bind, Except.bind, hs, hyr, if_pos hg, pure,
            Except.pure]
          simp
        · have hd2 : |q| % 8 = 2 ∨ |q| % 8 = 6 → T1 |r| ≠ 0 := by
            intro hk
            apply hT0 _ _ hrlt.le
            rcases hc with hc | hc
            · exact abs_pos.mpr hc
            · rcases hk with hk | hk
              · exact absurd hk hc.1
              · exact absurd hk hc.2
          rw [tanWith_of_reduced _ T1 _ _ y r q (by rw [h1, hrr]) hq hs hyr hg
            (hT _ (abs_nonneg r) hrlt.le) (hT _ (by linarith) (by linarith [abs_nonneg r]))
            (hT0 _ (by linarith) (by linarith [abs_nonneg r])) hd2]
          simp
    · rw [addRangeReduce_of_gt_error y _ _ hgt (by rwa [mul_one_div])] at h
      simp at h

/-- Claim C38.  For every `x` in `[0, QUARTER_PI]` and both modes the denominator of
`tan_inner_polynomial` is not zero, the function returns and its value is zero only at
`x = 0`; so `Trig::tan` never divides by zero on an argument whose range reduction returns
a non-zero remainder or an octant `|quad| mod 8` other than `2` and `6`. -/
theorem tan_divisions_safe {α : Type} [LinearOrderedField α] [FloorRing α] (fast : Bool)
    (x : α) (hx0 : 0 ≤ x) (hx1 : x ≤ ((QUARTER_PI : ℚ) : α)) :
    ((TAN_DEGREE_2.getD 1 0 : ℚ) : α)
        + x * ((INV_QUARTER_PI : ℚ) : α) * (x * ((INV_QUARTER_PI : ℚ) : α)) ≠ 0
      ∧ ((TAN_DEGREE_4.getD 2 0 : ℚ) : α)
        + x * ((INV_QUARTER_PI : ℚ) : α) * (x * ((INV_QUARTER_PI : ℚ) : α))
          * (((TAN_DEGREE_4.getD 3 0 : ℚ) : α)
            + x * ((INV_QUARTER_PI : ℚ) : α) * (x * ((INV_QUARTER_PI : ℚ) : α))) ≠ 0
      ∧ (∃ v : α, tan_inner_polynomial fast x = .ok v ∧ (v = 0 ↔ x = 0))
      ∧ ∀ (y : α) (res : ReductionRes) (r : α),
          addRangeReduce y ((QUARTER_PI : ℚ) : α) ((INV_QUARTER_PI : ℚ) : α) = .ok (res, r) →
          (r ≠ 0 ∨ (|res.quad| % 8 ≠ 2 ∧ |res.quad| % 8 ≠ 6)) →
          tan fast y ≠ .error Fault.divByZero := by
  obtain ⟨h1, h2, h3⟩ := tan_inner_polynomial_ok fast x hx0 hx1
  exact ⟨h1, h2, h3, fun y res r h hc => tan_no_div_by_zero fast y res r h hc⟩

/-- Witness for C38 at `x = 1/2` in the fast mode. -/
theorem tan_divisions_safe_witness :
    ((0 : ℚ) ≤ 1 / 2 ∧ (1 / 2 : ℚ) ≤ ((QUARTER_PI : ℚ) : ℚ))
      ∧ (∃ v : ℚ, tan_inner_polynomial true (1 / 2 : ℚ) = .ok v ∧ (v = 0 ↔ (1 / 2 : ℚ) = 0))
      ∧ ∀ (y : ℚ) (res : ReductionRes) (r : ℚ),
          addRangeReduce y ((QUARTER_PI : ℚ) : ℚ) ((INV_QUARTER_PI : ℚ) : ℚ) = .ok (res, r) →
          (r ≠ 0 ∨ (|res.quad| % 8 ≠ 2 ∧ |res.quad| % 8 ≠ 6)) →
          tan true y ≠ .error Fault.divByZero :=
  ⟨⟨by norm_num, by norm_num [QUARTER_PI]⟩,
    (tan_divisions_safe true (1 / 2 : ℚ) (by norm_num) (by norm_num [QUARTER_PI])).2.2⟩

/-! ## The accelerated kernels -/

/-! ## The SSE kernels and the polynomial path -/

/-- The polynomial index each overload of `inner_poly_intrin` evaluates: `3` for `float`
(`SIN_DEGREE_9`, `COS_DEGREE_10`), `7` for `double` (`SIN_DEGREE_17`, `COS_DEGREE_18`). -/
theorem inner_poly_intrin_eq {α : Type} [LinearOrderedField α] (x : α) (hx : x ≠ 0) :
    inner_poly_intrin Precision.float x true = sin_inner_polinomial 3 x
      ∧ inner_poly_intrin Precision.float x false = cos_inner_polinomial 3 x
      ∧ inner_poly_intrin Precision.double x true = sin_inner_polinomial 7 x
      ∧ inner_poly_intrin Precision.double x false = cos_inner_polinomial 7 x := by
  refine ⟨?_, ?_, ?_, ?_⟩
  · simp only [inner_poly_intrin, inner_poly_intrin_float, sin_inner_polinomial, if_neg hx,
      if_true, fmadd, coeff]
    rfl
  · simp only [inner_poly_intrin, inner_poly_intrin_float, cos_inner_polinomial, if_neg hx,
      Bool.false_eq_true, if_false, fmadd, coeff]
    rfl
  · simp only [inner_poly_intrin, inner_poly_intrin_double, sin_inner_polinomial, if_neg hx,
      if_true, fmadd, coeff]
    rfl
  · simp only [inner_poly_intrin, inner_poly_intrin_double, cos_inner_polinomial, if_neg hx,
      Bool.false_eq_true, if_false, fmadd, coeff]
    rfl

/-- The tail of the scalar kernels is `sign` times the inner polynomial, zero included. -/
theorem fastSSETail_eq {α : Type} [LinearOrderedField α] (sign : Int) (x : α) :
    fastSSETail Precision.float sign true x = (sign : α) * sin_inner_polinomial 3 x
      ∧ fastSSETail Precision.float sign false x = (sign : α) * cos_inner_polinomial 3 x
      ∧ fastSSETail Precision.double sign true x = (sign : α) * sin_inner_polinomial 7 x
      ∧ fastSSETail Precision.double sign false x = (sign : α) * cos_inner_polinomial 7 x := by
  by_cases hx : x = 0
  · subst hx
    simp [fastSSETail, sin_inner_polinomial, cos_inner_polinomial]
  · obtain ⟨h1, h2, h3, h4⟩ := inner_poly_intrin_eq x hx
    simp only [fastSSETail, if_neg hx, h1, h2, h3, h4, and_self]

/-- The scalar kernels over the polynomials of index `p`: the selectors of `Trig::sin`
and `Trig::cos`. -/
theorem fastSSE_eq_selector {α : Type} [LinearOrderedField α] [FloorRing α]
    (T : Precision) (p : Nat)
    (hs : ∀ (sign : Int) (x : α),
      fastSSETail T sign true x = (sign : α) * sin_inner_polinomial p x)
    (hc : ∀ (sign : Int) (x : α),
      fastSSETail T sign false x = (sign : α) * cos_inner_polinomial p x)
    (x : α) :
    sinFastSSEImplementation T x
        = sinPolyWith (sin_inner_polinomial p) (cos_inner_polinomial p)
            ((HALF_PI : ℚ) : α) ((INV_HALF_PI : ℚ) : α) x
      ∧ cosFastSSEImplementation T x
        = cosPolyWith (sin_inner_polinomial p) (cos_inner_polinomial p)
            ((HALF_PI : ℚ) : α) ((INV_HALF_PI : ℚ) : α) x := by
  constructor
  · unfold sinFastSSEImplementation sinPolyWith
    cases h : addRangeReduce x ((HALF_PI : ℚ) : α) ((INV_HALF_PI : ℚ) : α) with
    | error e => rfl
    | ok v =>
      obtain ⟨res, y⟩ := v
      simp only [bind, Except.bind, sinFastSSEControl]
      by_cases hn : res.noReduciton = true
      · simp [hn, hs, pure, Except.pure]
      · simp only [hn]
        cases hm : imul res.quad (if res.quad ≥ 0 then 1 else -1) with
        | error e => rfl
        | ok m =>
          rcases land_three_cases m with hk | hk | hk | hk <;>
            simp [hk, Pi3by2_2Pi, hs, hc, pure, Except.pure]
  · unfold cosFastSSEImplementation cosPolyWith
    cases h : addRangeReduce x ((HALF_PI : ℚ) : α) ((INV_HALF_PI : ℚ) : α) with
    | error e => rfl
    | ok v =>
      obtain ⟨res, y⟩ := v
      simp only [bind, Except.bind, cosFastSSEControl]
      by_cases hn : res.noReduciton = true
      · simp [hn, hc, pure, Except.pure]
      · simp only [hn]
        cases hm : imul res.quad (if res.quad ≥ 0 then 1 else -1) with
        | error e => rfl
        | ok m =>
          rcases land_three_cases m with hk | hk | hk | hk <;>
            simp [hk, Pi3by2_2Pi, hs, hc, pure, Except.pure]

/-! ## The pair kernel -/

/-- The bodies of the scalar kernels are the polynomial paths of accuracy `10` for
`double` and `3` for `float`. -/
theorem fastSSE_eq_poly {α : Type} [LinearOrderedField α] [FloorRing α] (v : α) :
    sinFastSSEImplementation Precision.double v = sinPoly 10 v
      ∧ cosFastSSEImplementation Precision.double v = cosPoly 10 v
      ∧ sinFastSSEImplementation Precision.float v = sinPoly 3 v
      ∧ cosFastSSEImplementation Precision.float v = cosPoly 3 v := by
  have hd := fastSSE_eq_selector Precision.double 7
    (fun sign x => (fastSSETail_eq sign x).2.2.1) (fun sign x => (fastSSETail_eq sign x).2.2.2) v
  have hf := fastSSE_eq_selector Precision.float 3
    (fun sign x => (fastSSETail_eq sign x).1) (fun sign x => (fastSSETail_eq sign x).2.1) v
  exact ⟨hd.1, hd.2, hf.1, hf.2⟩

/-- The slot kernels and the public functions off `+infinity`. -/
theorem sse_kernel_eq_trig {α : Type} [LinearOrderedField α] [FloorRing α] (x : Fp α)
    (hx : x ≠ Fp.posInf) :
    Trig.sinFastSSE Precision.double x = Trig.sin 10 x
      ∧ Trig.cosFastSSE Precision.double x = Trig.cos 10 x
      ∧ Trig.sinFastSSE Precision.float x = Trig.sin 3 x
      ∧ Trig.cosFastSSE Precision.float x = Trig.cos 3 x := by
  cases x with
  | finite v =>
    obtain ⟨h1, h2, h3, h4⟩ := fastSSE_eq_poly v
    simp only [Trig.sinFastSSE, Trig.cosFastSSE, Trig.sseKernel, Trig.sin, Trig.cos, h1, h2,
      h3, h4, reduceCtorEq, if_false, and_self]
  | posInf => exact absurd rfl hx
  | negInf =>
    simp only [Trig.sinFastSSE, Trig.cosFastSSE, Trig.sseKernel, Trig.sin, Trig.cos,
      reduceCtorEq, if_false, and_self]
  | nan =>
    simp only [Trig.sinFastSSE, Trig.cosFastSSE, Trig.sseKernel, Trig.sin, Trig.cos,
      reduceCtorEq, if_false, and_self]

/-- Claim C35, amended.  With the fused multiply-add exact, the accelerated scalar kernels
coincide with the polynomial path on every argument other than `+infinity`:
`sinFastSSEImplementation<double>` with `Trig::sin<double, 10, true>`,
`cosFastSSEImplementation<double>` with `Trig::cos<double, 10, true>`, and the `float`
kernels with `Trig::sin<float, 3, true>` and `Trig::cos<float, 3, true>`; on finite
arguments the bodies agree, faults of the range reduction included. -/
theorem sse_kernels_eq_poly {α : Type} [LinearOrderedField α] [FloorRing α] (x : Fp α)
    (hx : x ≠ Fp.posInf) :
    Trig.sinFastSSE Precision.double x = Trig.sin 10 x
      ∧ Trig.cosFastSSE Precision.double x = Trig.cos 10 x
      ∧ Trig.sinFastSSE Precision.float x = Trig.sin 3 x
      ∧ Trig.cosFastSSE Precision.float x = Trig.cos 3 x
      ∧ ∀ v : α, sinFastSSEImplementation Precision.double v = sinPoly 10 v
          ∧ cosFastSSEImplementation Precision.double v = cosPoly 10 v
          ∧ sinFastSSEImplementation Precision.float v = sinPoly 3 v
          ∧ cosFastSSEImplementation Precision.float v = cosPoly 3 v := by
  obtain ⟨h1, h2, h3, h4⟩ := sse_kernel_eq_trig x hx
  exact ⟨h1, h2, h3, h4, fastSSE_eq_poly⟩

/-- Witness for C35 at `x = 2`. -/
theorem sse_kernels_eq_poly_witness :
    (Fp.finite (2 : ℚ)) ≠ Fp.posInf
      ∧ Trig.sinFastSSE Precision.double (Fp.finite (2 : ℚ)) = Trig.sin 10 (Fp.finite 2)
      ∧ Trig.cosFastSSE Precision.double (Fp.finite (2 : ℚ)) = Trig.cos 10 (Fp.finite 2)
      ∧ Trig.sinFastSSE Precision.float (Fp.finite (2 : ℚ)) = Trig.sin 3 (Fp.finite 2)
      ∧ Trig.cosFastSSE Precision.float (Fp.finite (2 : ℚ)) = Trig.cos 3 (Fp.finite 2)
      ∧ ∀ v : ℚ, sinFastSSEImplementation Precision.double v = sinPoly 10 v
          ∧ cosFastSSEImplementation Precision.double v = cosPoly 10 v
          ∧ sinFastSSEImplementation Precision.float v = sinPoly 3 v
          ∧ cosFastSSEImplementation Precision.float v = cosPoly 3 v :=
  ⟨by simp, sse_kernels_eq_poly (Fp.finite (2 : ℚ)) (by simp)⟩

/-- Counterexample for C35 as stated: at `+infinity` `Trig::sin` and `Trig::cos` return a
NaN from their guard, while the kernels, which have no guard, hand the infinity to the
range reduction and its undefined conversion to `int`. -/
theorem sse_kernels_differ_at_infinity :
    Trig.sin 10 (Fp.posInf : Fp ℚ) = .ok Fp.nan
      ∧ Trig.sinFastSSE Precision.double (Fp.posInf : Fp ℚ) = .error Fault.intConversion
      ∧ Trig.sinFastSSE Precision.double (Fp.posInf : Fp ℚ) ≠ Trig.sin 10 Fp.posInf
      ∧ Trig.cos 10 (Fp.posInf : Fp ℚ) = .ok Fp.nan
      ∧ Trig.cosFastSSE Precision.double (Fp.posInf : Fp ℚ) = .error Fault.intConversion
      ∧ Trig.cosFastSSE Precision.double (Fp.posInf : Fp ℚ) ≠ Trig.cos 10 Fp.posInf
      ∧ Trig.sinFastSSE Precision.float (Fp.posInf : Fp ℚ) ≠ Trig.sin 3 Fp.posInf
      ∧ Trig.cosFastSSE Precision.float (Fp.posInf : Fp ℚ) ≠ Trig.cos 3 Fp.posInf := by
  simp [Trig.sin, Trig.cos, Trig.sinFastSSE, Trig.cosFastSSE, Trig.sseKernel]

/-- The comparison loop over a test that returns at every index below `n`: it finds a
difference exactly when one of the indices has one. -/
theorem compareLoop_spec (differ : Nat → Except Fault Bool) (d : Nat → Bool) (n : Nat)
    (h : ∀ i, i < n → differ i = .ok (d i)) :
    compareLoop differ n = .ok (decide (∃ i, i < n ∧ d i = true)) := by
  induction n with
  | zero => simp [compareLoop]
  | succ n ih =>
    rw [compareLoop, h n (Nat.lt_succ_self n)]
    cases hd : d n with
    | true =>
      simp only [Except.ok.injEq]
      symm
      rw [decide_eq_true_iff]
      exact ⟨n, Nat.lt_succ_self n, hd⟩
    | false =>
      simp only
      rw [ih (fun i hi => h i (Nat.lt_succ_of_lt hi))]
      congr 1
      rw [decide_eq_decide]
      constructor
      · rintro ⟨i, hi, hdi⟩
        exact ⟨i, Nat.lt_succ_of_lt hi, hdi⟩
      · rintro ⟨i, hi, hdi⟩
        rcases Nat.lt_succ_iff_lt_or_eq.mp hi with h1 | h1
        · exact ⟨i, h1, hdi⟩
        · subst h1
          rw [hd] at hdi
          exact absurd hdi (by decide)

/-- The comparison loop faults at once when the test faults at the first index tried. -/
theorem compareLoop_fault (differ : Nat → Except Fault Bool) (n : Nat) (e : Fault)
    (h : differ n = .error e) : compareLoop differ (n + 1) = .error e := by
  rw [compareLoop, h]

/-- The test of the vector classes at an index inside the vector. -/
theorem vectorDiffer_of_lt {D : Nat} {α : Type} [DecidableEq α] (lhs rhs : Fin D → α)
    (i : Nat) (h : i < D) :
    vectorDiffer lhs rhs i = .ok (decide (lhs ⟨i, h⟩ ≠ rhs ⟨i, h⟩)) := by
  simp [vectorDiffer, subscript, h]

/-- On vectors `a != b` returns whether the vectors differ. -/
theorem vector_operatorNe {D : Nat} {α : Type} [DecidableEq α] (lhs rhs : Fin D → α) :
    operatorNe D (vectorDiffer lhs rhs) = .ok (decide (lhs ≠ rhs)) := by
  unfold operatorNe
  rw [compareLoop_spec _ (fun i => if h : i < D then decide (lhs ⟨i, h⟩ ≠ rhs ⟨i, h⟩) else false)
    D (fun i hi => by rw [vectorDiffer_of_lt lhs rhs i hi]; simp only [dif_pos hi])]
  congr 1
  rw [decide_eq_decide]
  constructor
  · rintro ⟨i, hi, hd⟩ heq
    rw [dif_pos hi, decide_eq_true_iff] at hd
    exact hd (by rw [heq])
  · intro hne
    by_contra hcon
    apply hne
    funext j
    by_contra hj
    exact hcon ⟨j.val, j.isLt, by rw [dif_pos j.isLt, decide_eq_true_iff]; exact hj⟩

/-- On vectors `a == b` returns whether the vectors are equal. -/
theorem vector_operatorEq {D : Nat} {α : Type} [DecidableEq α] (lhs rhs : Fin D → α) :
    operatorEq D (vectorDiffer lhs rhs) = .ok (decide (lhs = rhs)) := by
  have h := vector_operatorNe lhs rhs
  unfold operatorNe at h
  unfold operatorEq
  rw [h]
  simp

/-- The test of the matrix classes at a row inside the matrix. -/
theorem matrixDiffer_of_lt {R C : Nat} {α : Type} [DecidableEq α]
    (lhs rhs : Fin R → Fin C → α) (i : Nat) (h : i < R) :
    matrixDiffer lhs rhs i = .ok (decide (lhs ⟨i, h⟩ ≠ rhs ⟨i, h⟩)) := by
  simp only [matrixDiffer, subscript, h, dif_pos]
  exact vector_operatorNe _ _

/-- The test of the matrix classes at a row outside the matrix. -/
theorem matrixDiffer_of_ge {R C : Nat} {α : Type} [DecidableEq α]
    (lhs rhs : Fin R → Fin C → α) (i : Nat) (h : R ≤ i) :
    matrixDiffer lhs rhs i = .error Fault.assertion := by
  simp [matrixDiffer, subscript, Nat.not_lt.mpr h]

/-- On a matrix with at least as many rows as columns, `a != b` returns whether one of the
first `C` rows differs: the loop runs over the number of columns. -/
theorem matrix_operatorNe {R C : Nat} {α : Type} [DecidableEq α]
    (lhs rhs : Fin R → Fin C → α) (hRC : C ≤ R) :
    operatorNe C (matrixDiffer lhs rhs)
      = .ok (decide (∃ i : Fin R, i.val < C ∧ lhs i ≠ rhs i)) := by
  unfold operatorNe
  rw [compareLoop_spec _ (fun i => if h : i < R then decide (lhs ⟨i, h⟩ ≠ rhs ⟨i, h⟩) else false)
    C (fun i hi => by
      rw [matrixDiffer_of_lt lhs rhs i (lt_of_lt_of_le hi hRC)]
      simp only [dif_pos (lt_of_lt_of_le hi hRC)])]
  congr 1
  rw [decide_eq_decide]
  constructor
  · rintro ⟨i, hi, hd⟩
    rw [dif_pos (lt_of_lt_of_le hi hRC), decide_eq_true_iff] at hd
    exact ⟨⟨i, lt_of_lt_of_le hi hRC⟩, hi, hd⟩
  · rintro ⟨i, hi, hd⟩
    exact ⟨i.val, hi, by rw [dif_pos i.isLt, decide_eq_true_iff]; exact hd⟩

/-- On a matrix with at least as many rows as columns, `a == b` returns whether the first
`C` rows are equal. -/
theorem matrix_operatorEq {R C : Nat} {α : Type} [DecidableEq α]
    (lhs rhs : Fin R → Fin C → α) (hRC : C ≤ R) :
    operatorEq C (matrixDiffer lhs rhs)
      = .ok (decide (∀ i : Fin R, i.val < C → lhs i = rhs i)) := by
  have h := matrix_operatorNe lhs rhs hRC
  unfold operatorNe at h
  unfold operatorEq
  rw [h]
  simp only [Except.ok.injEq]
  rw [← decide_not, decide_eq_decide]
  push_neg
  rfl

/-- On a square matrix the two operators compare all the elements. -/
theorem square_operators {n : Nat} {α : Type} [DecidableEq α] (lhs rhs : Fin n → Fin n → α) :
    operatorEq n (matrixDiffer lhs rhs) = .ok (decide (lhs = rhs))
      ∧ operatorNe n (matrixDiffer lhs rhs) = .ok (decide (lhs ≠ rhs)) := by
  rw [matrix_operatorEq lhs rhs (le_refl n), matrix_operatorNe lhs rhs (le_refl n)]
  constructor
  · congr 1
    rw [decide_eq_decide]
    constructor
    · intro h
      funext i
      exact h i i.isLt
    · intro h i _
      rw [h]
  · congr 1
    rw [decide_eq_decide]
    constructor
    · rintro ⟨i, _, hd⟩ heq
      exact hd (by rw [heq])
    · intro hne
      by_contra hcon
      apply hne
      funext i
      by_contra hi
      exact hcon ⟨i, i.isLt, hi⟩

/-- On a matrix with more columns than rows both operators subscript a row outside the
matrix at their first step. -/
theorem wide_operators {R C : Nat} {α : Type} [DecidableEq α] (lhs rhs : Fin R → Fin C → α)
    (hRC : R < C) :
    operatorEq C (matrixDiffer lhs rhs) = .error Fault.assertion
      ∧ operatorNe C (matrixDiffer lhs rhs) = .error Fault.assertion := by
  obtain ⟨k, rfl⟩ : ∃ k, C = k + 1 := ⟨C - 1, by omega⟩
  have h := compareLoop_fault (matrixDiffer lhs rhs) k Fault.assertion
    (matrixDiffer_of_ge lhs rhs k (by omega))
  unfold operatorEq operatorNe
  rw [h]
  exact ⟨rfl, rfl⟩

/-- On `Matrix<float,4,4>` the operator `!=` compares the addresses of the rows of its two
parameters, which are two objects: it returns `true`. -/
theorem float44_operatorNe (lhsAddr rhsAddr : Nat) (h : lhsAddr ≠ rhsAddr) :
    operatorNe 4 (MatrixFloat44.constDiffer lhsAddr rhsAddr) = .ok true := by
  have h3 : MatrixFloat44.constDiffer lhsAddr rhsAddr 3 = .ok true := by
    simp [MatrixFloat44.constDiffer, h]
  unfold operatorNe
  rw [compareLoop, h3]

/-- Claim C31, which the code does not meet.  Both operators run
`for (std::size_t i = Col; i--;)` over the test `lhs[i] != rhs[i]`, where `operator[]` of a
matrix yields row `i`: the loop counts columns and subscripts rows.  On vectors and on
square matrices the operators are as claimed.  On a matrix with more rows than columns the
rows from `C` on are never compared: two `3 x 2` matrices that differ only in the last row
are equal for `==` and not different for `!=`.  On a matrix with more columns than rows
the first step subscripts a row outside the matrix.  On `Matrix<float,4,4>` the `const`
`operator[]` yields an array, `!=` compares the addresses of the rows of its two
parameters and returns `true` for equal matrices, while `==` returns `true` on them: the
test of the library has this assertion commented out. -/
theorem comparison_loops_over_columns :
    (∀ (D : Nat) (a b : Fin D → ℚ),
        operatorEq D (vectorDiffer a b) = .ok (decide (a = b))
          ∧ operatorNe D (vectorDiffer a b) = .ok (decide (a ≠ b)))
      ∧ (∀ (n : Nat) (a b : Fin n → Fin n → ℚ),
        operatorEq n (matrixDiffer a b) = .ok (decide (a = b))
          ∧ operatorNe n (matrixDiffer a b) = .ok (decide (a ≠ b)))
      ∧ operatorEq 2 (matrixDiffer (fun (_ : Fin 3) (_ : Fin 2) => (1 : ℚ))
          (fun (i : Fin 3) (_ : Fin 2) => if i.val = 2 then (2 : ℚ) else 1)) = .ok true
      ∧ operatorNe 2 (matrixDiffer (fun (_ : Fin 3) (_ : Fin 2) => (1 : ℚ))
          (fun (i : Fin 3) (_ : Fin 2) => if i.val = 2 then (2 : ℚ) else 1)) = .ok false
      ∧ (fun (_ : Fin 3) (_ : Fin 2) => (1 : ℚ)) 2 0
          ≠ (fun (i : Fin 3) (_ : Fin 2) => if i.val = 2 then (2 : ℚ) else 1) 2 0
      ∧ (∀ a b : Fin 2 → Fin 3 → ℚ,
        operatorEq 3 (matrixDiffer a b) = .error Fault.assertion
          ∧ operatorNe 3 (matrixDiffer a b) = .error Fault.assertion)
      ∧ (∀ a : Fin 4 → Fin 4 → ℚ,
        operatorEq 4 (matrixDiffer a a) = .ok true
          ∧ operatorNe 4 (MatrixFloat44.constDiffer 0 64) = .ok true) := by
  refine ⟨fun D a b => ⟨vector_operatorEq a b, vector_operatorNe a b⟩,
    fun n a b => square_operators a b, ?_, ?_, ?_,
    fun a b => wide_operators a b (by decide), ?_⟩
  · rw [matrix_operatorEq _ _ (by decide), Except.ok.injEq, decide_eq_true_iff]
    intro i hi
    funext j
    simp only [if_neg (show ¬ i.val = 2 by omega)]
  · rw [matrix_operatorNe _ _ (by decide), Except.ok.injEq, decide_eq_false_iff_not]
    rintro ⟨i, hi, hd⟩
    apply hd
    funext j
    simp only [if_neg (show ¬ i.val = 2 by omega)]
  · norm_num
  · intro a
    refine ⟨?_, float44_operatorNe 0 64 (by decide)⟩
    rw [(square_operators a a).1]
    simp

/-- The operators with the scalar on the left, on the generic classes: the scalar is the
right operand of the element operation. -/
theorem scalarLeft_elementwise {α : Type} (f : α → α → α) :
    (∀ (D : Nat) (s : α) (M : Fin D → α),
        scalarLeft (vectorAssignScalar (fun x y => .ok (f x y))) s M
          = .ok (fun j => f (M j) s))
      ∧ (∀ (R C : Nat) (s : α) (M : Fin R → Fin C → α),
        scalarLeft (matrixAssignScalar (fun x y => .ok (f x y))) s M
          = .ok (fun i j => f (M i j) s)) :=
  ⟨fun _ s M => vectorAssignScalar_total f M s, fun _ _ s M => matrixAssignScalar_total f M s⟩

/-- Claim C32, which the code does not meet.  Each operator with the scalar on the left is
`operator op(const U rhs, Matrix lhs) { return lhs op= rhs; }`: it returns the value of the
operator with the scalar on the right.  So `s + M = M + s` and `s * M = M * s`, as
claimed, but also `s - M = M - s` and `s / M = M / s`: on every matrix
`(s - M)[i][j] = M[i][j] - s` and `(s / M)[i][j] = M[i][j] / s`.  For `s = 1` and the
`2 x 2` matrix of `3`, `s - M` is the matrix of `2`, not of `-2`; for `s = 6`, `s / M` is
the matrix of `1/2`, not of `2`. -/
theorem scalar_left_not_symmetric :
    (∀ (R C : Nat) (s : ℚ) (M : Fin R → Fin C → ℚ),
        scalarLeft (matrixAssignScalar (fun x y => .ok (x - y))) s M
            = .ok (fun i j => M i j - s)
          ∧ scalarLeft (matrixAssignScalar (fun x y => .ok (x / y))) s M
            = .ok (fun i j => M i j / s)
          ∧ scalarLeft (matrixAssignScalar (fun x y => .ok (x + y))) s M
            = matrixAssignScalar (fun x y => .ok (x + y)) M s
          ∧ scalarLeft (matrixAssignScalar (fun x y => .ok (x * y))) s M
            = matrixAssignScalar (fun x y => .ok (x * y)) M s
          ∧ scalarLeft (matrixAssignScalar (fun x y => .ok (x + y))) s M
            = .ok (fun i j => s + M i j)
          ∧ scalarLeft (matrixAssignScalar (fun x y => .ok (x * y))) s M
            = .ok (fun i j => s * M i j))
      ∧ (∀ (D : Nat) (s : ℚ) (M : Fin D → ℚ),
        scalarLeft (vectorAssignScalar (fun x y => .ok (x - y))) s M
            = .ok (fun j => M j - s)
          ∧ scalarLeft (vectorAssignScalar (fun x y => .ok (x / y))) s M
            = .ok (fun j => M j / s))
      ∧ scalarLeft (Matrix22.opAssignScalar (fun x y => .ok (x - y))) (1 : ℚ) (fun _ _ => 3)
          = .ok (fun _ _ => 2)
      ∧ scalarLeft (Matrix22.opAssignScalar (fun x y => .ok (x - y))) (1 : ℚ) (fun _ _ => 3)
          ≠ .ok (fun _ _ => 1 - 3)
      ∧ scalarLeft (Matrix22.opAssignScalar (fun x y => .ok (x / y))) (6 : ℚ) (fun _ _ => 3)
          = .ok (fun _ _ => 1 / 2)
      ∧ scalarLeft (Matrix22.opAssignScalar (fun x y => .ok (x / y))) (6 : ℚ) (fun _ _ => 3)
          ≠ .ok (fun _ _ => 6 / 3) := by
  have hsub : scalarLeft (Matrix22.opAssignScalar (fun x y => .ok (x - y))) (1 : ℚ)
      (fun _ _ => 3) = .ok (fun _ _ => 2) := by
    unfold scalarLeft
    rw [Matrix22_opAssignScalar_total]
    norm_num
  have hdiv : scalarLeft (Matrix22.opAssignScalar (fun x y => .ok (x / y))) (6 : ℚ)
      (fun _ _ => 3) = .ok (fun _ _ => 1 / 2) := by
    unfold scalarLeft
    rw [Matrix22_opAssignScalar_total]
    norm_num
  refine ⟨fun R C s M => ⟨(scalarLeft_elementwise _).2 R C s M,
      (scalarLeft_elementwise _).2 R C s M, rfl, rfl, ?_, ?_⟩,
    fun D s M => ⟨(scalarLeft_elementwise _).1 D s M, (scalarLeft_elementwise _).1 D s M⟩,
    hsub, ?_, hdiv, ?_⟩
  · rw [(scalarLeft_elementwise _).2 R C s M]
    congr 1
    funext i j
    exact add_comm _ _
  · rw [(scalarLeft_elementwise _).2 R C s M]
    congr 1
    funext i j
    exact mul_comm _ _
  · rw [hsub]
    intro h
    have h2 := congrFun (congrFun (Except.ok.inj h) 0) 0
    norm_num at h2
  · rw [hdiv]
    intro h
    have h2 := congrFun (congrFun (Except.ok.inj h) 0) 0
    norm_num at h2

/-- The first step of the loop of `length` reads the element at index `Size + 1`. -/
theorem vectorLengthLoop_first {D : Nat} {α : Type} [Add α] [Mul α] (data : Fin D → α)
    (accum : α) (h0 : 0 < D) (h1 : D + 1 < 18446744073709551616) :
    vectorLengthLoop data D accum = .error Fault.outOfBounds := by
  rw [vectorLengthLoop]
  have hD : D % 18446744073709551616 = D := Nat.mod_eq_of_lt (by omega)
  have hD1 : (D + 1) % 18446744073709551616 = D + 1 := Nat.mod_eq_of_lt h1
  rw [if_neg (by omega), hD1]
  simp [readAt]

/-- The first step of the loop of `unit` reads the element at index `Size + 1`. -/
theorem vectorUnitLoop_first {D : Nat} {α : Type} [Mul α] (k : α) (data : Fin D → α)
    (h0 : 0 < D) (h1 : D + 1 < 18446744073709551616) :
    vectorUnitLoop k data D = .error Fault.outOfBounds := by
  rw [vectorUnitLoop]
  have hD : D % 18446744073709551616 = D := Nat.mod_eq_of_lt (by omega)
  have hD1 : (D + 1) % 18446744073709551616 = D + 1 := Nat.mod_eq_of_lt h1
  rw [if_neg (by omega), hD1]
  simp [readAt]

/-- Claim C40, which the code does not meet.  The loops of `Matrix<T,1,D>::length` and
`Matrix<T,1,D>::unit` are written `for (std::size_t i = Size; i++; ...)`: the index counts
up from `Size`, so the first element read is `_data[Size + 1]`, outside the array, and no
element at an index below `D` is read.  For every generic vector of `D` components,
`1 <= D` and `D + 1 < 2^64`, and every element values, `length()` and `unit()` are
undefined at their first step; the sum of squares of the claim is never computed. -/
theorem vector_length_out_of_bounds {α : Type} [LinearOrderedField α] (D : Nat)
    (sqrtFloat : α → α) (data : Fin D → α) (h0 : 0 < D)
    (h1 : D + 1 < 18446744073709551616) :
    readAt data ((D + 1) % 18446744073709551616) = .error Fault.outOfBounds
      ∧ (∀ accum : α, vectorLengthLoop data D accum = .error Fault.outOfBounds)
      ∧ Vector.length sqrtFloat data = .error Fault.outOfBounds
      ∧ Vector.length sqrtFloat data ≠ .ok (sqrtFloat (∑ i, data i * data i))
      ∧ Vector.unit sqrtFloat data = .error Fault.outOfBounds := by
  have h : Vector.length sqrtFloat data = .error Fault.outOfBounds := by
    unfold Vector.length
    rw [vectorLengthLoop_first data 0 h0 h1]
  refine ⟨?_, fun accum => vectorLengthLoop_first data accum h0 h1, h, ?_, ?_⟩
  · rw [Nat.mod_eq_of_lt h1]
    simp [readAt]
  · rw [h]
    simp
  · unfold Vector.unit
    rw [h]

/-- The vector `(3, 4, 0, 0, 0)` of the generic class with `D = 5`: `length()` does not
return `5`. -/
theorem vector_length_out_of_bounds_witness :
    (0 < 5 ∧ 5 + 1 < 18446744073709551616)
      ∧ Vector.length (fun x : ℚ => x) (fun i : Fin 5 => if i.val = 0 then 3 else if i.val = 1 then 4 else 0)
          = .error Fault.outOfBounds :=
  ⟨⟨by decide, by decide⟩,
    (vector_length_out_of_bounds 5 (fun x : ℚ => x)
      (fun i : Fin 5 => if i.val = 0 then 3 else if i.val = 1 then 4 else 0)
      (by decide) (by decide)).2.2.1⟩

/-! ## Determinant and inverse -/

/-- A descending loop keeps an invariant indexed by the number of indices left. -/
theorem loopDown_invariant {σ : Type} (body : Nat → σ → Except Fault σ)
    (P : Nat → σ → Prop) :
    ∀ (n : Nat) (s : σ), P n s →
      (∀ i s, i < n → P (i + 1) s → ∃ t, body i s = .ok t ∧ P i t) →
      ∃ t, loopDown body n s = .ok t ∧ P 0 t := by
  intro n
  induction n with
  | zero =>
    intro s h0 _
    exact ⟨s, rfl, h0⟩
  | succ n ih =>
    intro s h0 hstep
    obtain ⟨t, ht, hP⟩ := hstep n s (Nat.lt_succ_self n) h0
    obtain ⟨u, hu, hPu⟩ := ih t hP (fun i s hi hPi => hstep i s (Nat.lt_succ_of_lt hi) hPi)
    refine ⟨u, ?_, hPu⟩
    rw [loopDown, ht]
    exact hu

/-- An ascending loop keeps an invariant indexed by the number of indices done. -/
theorem loopUp_invariant {σ : Type} (body : Nat → σ → Except Fault σ)
    (P : Nat → σ → Prop) :
    ∀ (n : Nat) (s : σ), P 0 s →
      (∀ i s, i < n → P i s → ∃ t, body i s = .ok t ∧ P (i + 1) t) →
      ∃ t, loopUp body n s = .ok t ∧ P n t := by
  intro n
  induction n with
  | zero =>
    intro s h0 _
    exact ⟨s, rfl, h0⟩
  | succ n ih =>
    intro s h0 hstep
    obtain ⟨t, ht, hP⟩ := ih s h0 (fun i s hi hPi => hstep i s (Nat.lt_succ_of_lt hi) hPi)
    obtain ⟨u, hu, hPu⟩ := hstep n t (Nat.lt_succ_self n) hP
    refine ⟨u, ?_, hPu⟩
    rw [loopUp, ht]
    exact hu

/-- The expression `m[i][j]` with both indices inside the matrix. -/
theorem elemAt_of_lt {R C : Nat} {α : Type} (m : Fin R → Fin C → α) (i j : Nat)
    (hi : i < R) (hj : j < C) : elemAt m i j = .ok (m ⟨i, hi⟩ ⟨j, hj⟩) := by
  simp [elemAt, subscript, hi, hj]

/-- The statement `result[i][j] = v` with both indices inside the matrix changes that
element only. -/
theorem assignElem_of_lt {R C : Nat} {α : Type} (result : Fin R → Fin C → α) (i j : Nat)
    (v : α) (hi : i < R) (hj : j < C) :
    ∃ t, assignElem result i j v = .ok t
      ∧ ∀ a b, t a b = if a.val = i ∧ b.val = j then v else result a b := by
  unfold assignElem
  rw [dif_pos hi, dif_pos hj]
  refine ⟨_, rfl, ?_⟩
  intro a b
  by_cases ha : a = ⟨i, hi⟩
  · subst ha
    by_cases hb : b = ⟨j, hj⟩
    · subst hb
      simp
    · have hb2 : ¬ b.val = j := fun h => hb (Fin.ext h)
      simp [Function.update, hb, hb2]
  · have ha2 : ¬ a.val = i := fun h => ha (Fin.ext h)
    simp [Function.update, ha, ha2]

/-- The decrement of a non-zero `std::size_t`. -/
theorem decr_of_pos (n : Nat) (h0 : 0 < n) (h1 : n < 18446744073709551616) :
    decr n = n - 1 := by
  unfold decr
  omega

/-- The value of the index that skips `p`. -/
theorem succAbove_val {n : Nat} (p : Fin (n + 1)) (b : Fin n) :
    (p.succAbove b).val = if b.val < p.val then b.val else b.val + 1 := by
  by_cases h : b.val < p.val
  · rw [if_pos h, Fin.succAbove_of_castSucc_lt p b (by exact h)]
    rfl
  · rw [if_neg h, Fin.succAbove_of_le_castSucc p b (by
      rw [Fin.le_def]
      exact Nat.le_of_not_lt h)]
    rfl

/-- The inner loop of `submatrix` copies row `i` without column `q` into row `si` of the
result. -/
theorem submatrix_row {R C : Nat} {α : Type} (m : Fin (R + 1) → Fin (C + 1) → α)
    (i : Fin (R + 1)) (q : Fin (C + 1)) (si : Fin R) (res : Fin R → Fin C → α)
    (hC : C + 1 < 18446744073709551616) :
    ∃ t, loopDown (submatrixColumnStep m q.val i.val) (C + 1) (si.val, C, res) = .ok t
      ∧ t.1 = si.val
      ∧ ∀ a b, t.2.2 a b = if a = si then m i (q.succAbove b) else res a b := by
  obtain ⟨f, hf⟩ : ∃ f : Nat → Nat, ∀ j, f j = if j ≤ q.val then j else j - 1 :=
    ⟨_, fun _ => rfl⟩
  have hq := q.isLt
  have hf0 : f 0 = 0 := by rw [hf]; simp
  have hfC : f (C + 1) = C := by rw [hf, if_neg (by omega)]; omega
  have hflt : ∀ j, j < q.val → f (j + 1) = j + 1 ∧ f j = j := by
    intro j hj
    rw [hf, hf, if_pos (by omega), if_pos (by omega)]
    exact ⟨rfl, rfl⟩
  have hfeq : f (q.val + 1) = q.val ∧ f q.val = q.val := by
    rw [hf, hf, if_neg (by omega), if_pos (le_refl _)]
    exact ⟨by omega, rfl⟩
  have hfgt : ∀ j, q.val < j → f (j + 1) = j ∧ f j = j - 1 := by
    intro j hj
    rw [hf, hf, if_neg (by omega), if_neg (by omega)]
    exact ⟨by omega, rfl⟩
  have key := loopDown_invariant (submatrixColumnStep m q.val i.val)
    (fun j st => st.1 = si.val ∧ st.2.1 = f j
      ∧ ∀ a b, st.2.2 a b
          = if a = si ∧ f j ≤ b.val then m i (q.succAbove b) else res a b)
    (C + 1) (si.val, C, res)
    (by
      refine ⟨rfl, hfC.symm, ?_⟩
      intro a b
      have hb := b.isLt
      rw [if_neg]
      rintro ⟨_, h⟩
      omega)
    (by
      rintro j ⟨s1, s2, s3⟩ hj ⟨h1, h2, h3⟩
      simp only at h1 h2 h3
      unfold submatrixColumnStep
      by_cases hjq : j = q.val
      · rw [if_neg (by simpa using hjq)]
        subst hjq
        refine ⟨_, rfl, h1, ?_, ?_⟩
        · show s2 = f q.val
          rw [h2, hfeq.1, hfeq.2]
        · intro a b
          show s3 a b = _
          rw [h3, hfeq.1, hfeq.2]
      · rw [if_pos hjq, elemAt_of_lt m i.val j i.isLt (by omega)]
        simp only
        by_cases hlt : j < q.val
        · obtain ⟨e1, e2⟩ := hflt j hlt
          have hd : decr s2 = j := by
            rw [h2, e1, decr_of_pos (j + 1) (by omega) (by omega)]
            omega
          rw [hd, h1]
          obtain ⟨t, ht, hta⟩ := assignElem_of_lt s3 si.val j (m i ⟨j, by omega⟩)
            si.isLt (by omega)
          rw [ht]
          refine ⟨_, rfl, rfl, e2.symm, ?_⟩
          intro a b
          show t a b = _
          rw [hta, h3]
          simp only [e1, e2]
          by_cases ha : a = si
          · subst ha
            by_cases hb : b.val = j
            · have hsucc : q.succAbove b = ⟨j, by omega⟩ := by
                apply Fin.ext
                rw [succAbove_val, if_pos (by omega)]
                exact hb
              rw [if_pos ⟨rfl, hb⟩, if_pos ⟨rfl, by omega⟩, hsucc]
            · rw [if_neg (fun h => hb h.2)]
              by_cases hb2 : j + 1 ≤ b.val
              · rw [if_pos ⟨rfl, hb2⟩, if_pos ⟨rfl, by omega⟩]
              · rw [if_neg (fun h => hb2 h.2), if_neg]
                rintro ⟨_, h⟩
                omega
          · have ha2 : ¬ a.val = si.val := fun h => ha (Fin.ext h)
            rw [if_neg (fun h => ha2 h.1), if_neg (fun h => ha h.1), if_neg (fun h => ha h.1)]
        · have hgt : q.val < j := by omega
          obtain ⟨e1, e2⟩ := hfgt j hgt
          have hd : decr s2 = j - 1 := by
            rw [h2, e1, decr_of_pos j (by omega) (by omega)]
          rw [hd, h1]
          obtain ⟨t, ht, hta⟩ := assignElem_of_lt s3 si.val (j - 1) (m i ⟨j, by omega⟩)
            si.isLt (by omega)
          rw [ht]
          refine ⟨_, rfl, rfl, e2.symm, ?_⟩
          intro a b
          show t a b = _
          rw [hta, h3]
          simp only [e1, e2]
          by_cases ha : a = si
          · subst ha
            by_cases hb : b.val = j - 1
            · have hsucc : q.succAbove b = ⟨j, by omega⟩ := by
                apply Fin.ext
                rw [succAbove_val, if_neg (by omega)]
                simp only
                omega
              rw [if_pos ⟨rfl, hb⟩, if_pos ⟨rfl, by omega⟩, hsucc]
            · rw [if_neg (fun h => hb h.2)]
              by_cases hb2 : j ≤ b.val
              · rw [if_pos ⟨rfl, hb2⟩, if_pos ⟨rfl, by omega⟩]
              · rw [if_neg (fun h => hb2 h.2), if_neg]
                rintro ⟨_, h⟩
                omega
          · have ha2 : ¬ a.val = si.val := fun h => ha (Fin.ext h)
            rw [if_neg (fun h => ha2 h.1), if_neg (fun h => ha h.1), if_neg (fun h => ha h.1)])
  obtain ⟨t, ht, h1, _, h3⟩ := key
  refine ⟨t, ht, h1, ?_⟩
  intro a b
  rw [h3, hf0]
  simp

/-- The generic `submatrix` returns the matrix without row `p` and column `q`. -/
theorem submatrix_eq {R C : Nat} {α : Type} (ind : Nat → Nat → α)
    (m : Fin (R + 1) → Fin (C + 1) → α) (p : Fin (R + 1)) (q : Fin (C + 1))
    (hR : R + 1 < 18446744073709551616) (hC : C + 1 < 18446744073709551616) :
    submatrix ind m p.val q.val = .ok (fun a b => m (p.succAbove a) (q.succAbove b)) := by
  obtain ⟨g, hg⟩ : ∃ g : Nat → Nat, ∀ j, g j = if j ≤ p.val then j else j - 1 :=
    ⟨_, fun _ => rfl⟩
  have hp := p.isLt
  have hg0 : g 0 = 0 := by rw [hg]; simp
  have hgR : g (R + 1) = R := by rw [hg, if_neg (by omega)]; omega
  have hglt : ∀ j, j < p.val → g (j + 1) = j + 1 ∧ g j = j := by
    intro j hj
    rw [hg, hg, if_pos (by omega), if_pos (by omega)]
    exact ⟨rfl, rfl⟩
  have hgeq : g (p.val + 1) = p.val ∧ g p.val = p.val := by
    rw [hg, hg, if_neg (by omega), if_pos (le_refl _)]
    exact ⟨by omega, rfl⟩
  have hggt : ∀ j, p.val < j → g (j + 1) = j ∧ g j = j - 1 := by
    intro j hj
    rw [hg, hg, if_neg (by omega), if_neg (by omega)]
    exact ⟨by omega, rfl⟩
  have key := loopDown_invariant (submatrixRowStep m p.val q.val)
    (fun n st => st.1 = g n
      ∧ ∀ a b, g n ≤ a.val → st.2.2 a b = m (p.succAbove a) (q.succAbove b))
    (R + 1) (R, 0, fun i j => ind i.val j.val)
    (by
      refine ⟨hgR.symm, ?_⟩
      intro a b h
      have ha := a.isLt
      rw [hgR] at h
      omega)
    (by
      rintro i ⟨s1, s2, s3⟩ hi ⟨h1, h3⟩
      simp only at h1 h3
      unfold submatrixRowStep
      by_cases hip : i = p.val
      · rw [if_neg (by simpa using hip)]
        subst hip
        refine ⟨_, rfl, ?_, ?_⟩
        · show s1 = g p.val
          rw [h1, hgeq.1, hgeq.2]
        · intro a b h
          show s3 a b = _
          rw [hgeq.2] at h
          exact h3 a b (by rw [hgeq.1]; exact h)
      · rw [if_pos hip]
        simp only
        by_cases hlt : i < p.val
        · obtain ⟨e1, e2⟩ := hglt i hlt
          have hd : decr s1 = i := by
            rw [h1, e1, decr_of_pos (i + 1) (by omega) (by omega)]
            omega
          rw [hd]
          obtain ⟨t, ht, ht1, ht2⟩ := submatrix_row m ⟨i, hi⟩ q ⟨i, by omega⟩ s3 hC
          refine ⟨t, ht, ?_, ?_⟩
          · rw [ht1]
            exact e2.symm
          · intro a b h
            rw [e2] at h
            rw [ht2]
            by_cases ha : a = ⟨i, by omega⟩
            · rw [if_pos ha]
              have hsucc : p.succAbove a = ⟨i, hi⟩ := by
                apply Fin.ext
                rw [succAbove_val, ha, if_pos (by exact hlt)]
              rw [hsucc]
            · rw [if_neg ha]
              have ha2 : a.val ≠ i := fun h => ha (Fin.ext h)
              exact h3 a b (by rw [e1]; omega)
        · have hgt : p.val < i := by omega
          obtain ⟨e1, e2⟩ := hggt i hgt
          have hd : decr s1 = i - 1 := by
            rw [h1, e1, decr_of_pos i (by omega) (by omega)]
          rw [hd]
          obtain ⟨t, ht, ht1, ht2⟩ := submatrix_row m ⟨i, hi⟩ q ⟨i - 1, by omega⟩ s3 hC
          refine ⟨t, ht, ?_, ?_⟩
          · rw [ht1]
            exact e2.symm
          · intro a b h
            rw [e2] at h
            rw [ht2]
            by_cases ha : a = ⟨i - 1, by omega⟩
            · rw [if_pos ha]
              have hsucc : p.succAbove a = ⟨i, hi⟩ := by
                apply Fin.ext
                rw [succAbove_val, ha, if_neg (by simp only; omega)]
                simp only
                omega
              rw [hsucc]
            · rw [if_neg ha]
              have ha2 : a.val ≠ i - 1 := fun h => ha (Fin.ext h)
              exact h3 a b (by rw [e1]; omega))
  obtain ⟨t, ht, _, h3⟩ := key
  unfold submatrix
  rw [if_pos ⟨p.isLt, q.isLt⟩, ht]
  simp only [Except.ok.injEq]
  funext a b
  exact h3 a b (by rw [hg0]; exact Nat.zero_le _)

/-- The part of a sum below `k + 1` is the part below `k` and the term at `k`. -/
theorem sum_below_succ {N : Nat} {α : Type} [AddCommMonoid α] (f : Fin N → α) (k : Nat)
    (hk : k < N) :
    (∑ i : Fin N, if i.val < k + 1 then f i else 0)
      = (∑ i : Fin N, if i.val < k then f i else 0) + f ⟨k, hk⟩ := by
  have h : ∀ i : Fin N, (if i.val < k + 1 then f i else 0)
      = (if i.val < k then f i else 0) + (if i = ⟨k, hk⟩ then f i else 0) := by
    intro i
    by_cases h1 : i.val < k
    · have h2 : i ≠ ⟨k, hk⟩ := fun h => by rw [h] at h1; exact absurd h1 (lt_irrefl _)
      rw [if_pos h1, if_pos (by omega), if_neg h2, add_zero]
    · by_cases h2 : i.val = k
      · rw [if_neg h1, if_pos (by omega), if_pos (Fin.ext h2), zero_add]
      · have h3 : i ≠ ⟨k, hk⟩ := fun h => h2 (by rw [h])
        rw [if_neg h1, if_neg (by omega), if_neg h3, add_zero]
  rw [Finset.sum_congr rfl (fun i _ => h i), Finset.sum_add_distrib]
  simp

/-- The loop of the generic `determinant` sums the cofactor expansion along the first row,
when `det` is the determinant of the matrices one smaller. -/
theorem cofactor_loop {n : Nat} {α : Type} [CommRing α] (ind : Nat → Nat → α)
    (det : (Fin (n + 1) → Fin (n + 1) → α) → Except Fault α)
    (hdet : ∀ s, det s = .ok (Matrix.det (Matrix.of s)))
    (m : Fin (n + 2) → Fin (n + 2) → α) (hn : n + 2 < 18446744073709551616) :
    ∃ st, loopUp (cofactorStep ind det m) (n + 2) (1, 0) = .ok st
      ∧ st.2 = Matrix.det (Matrix.of m) := by
  have key := loopUp_invariant (cofactorStep ind det m)
    (fun k st => st.1 = (-1) ^ k
      ∧ st.2 = ∑ i : Fin (n + 2), if i.val < k then
          (-1) ^ i.val * m 0 i * Matrix.det (Matrix.of (fun a b => m (Fin.succ a) (i.succAbove b)))
        else 0)
    (n + 2) (1, 0)
    (by simp)
    (by
      rintro k ⟨o, r⟩ hk ⟨h1, h2⟩
      simp only at h1 h2
      unfold cofactorStep
      have hsub := submatrix_eq ind m 0 ⟨k, hk⟩ hn hn
      rw [elemAt_of_lt m 0 k (by omega) hk]
      simp only
      rw [show submatrix ind m 0 k = submatrix ind m (0 : Fin (n + 2)).val
        (⟨k, hk⟩ : Fin (n + 2)).val from rfl, hsub]
      simp only
      rw [hdet]
      refine ⟨_, rfl, ?_, ?_⟩
      · simp only
        rw [h1, pow_succ]
      · simp only
        rw [sum_below_succ _ k hk, h2, h1]
        congr 1
        simp only [Fin.succAbove_zero]
        push_cast
        rfl)
  obtain ⟨st, hst, _, h2⟩ := key
  refine ⟨st, hst, ?_⟩
  rw [h2, Matrix.det_succ_row_zero]
  apply Finset.sum_congr rfl
  intro i _
  rw [if_pos i.isLt]
  rfl

/-- The function `determinant` returns the determinant of the matrix, in every
dimension. -/
theorem determinant_eq {α : Type} [CommRing α] (ind : Nat → Nat → α) :
    ∀ (n : Nat) (m : Fin (n + 1) → Fin (n + 1) → α), n + 1 < 18446744073709551616 →
      determinant ind (n + 1) m = .ok (Matrix.det (Matrix.of m)) := by
  intro n
  induction n with
  | zero =>
    intro m _
    rw [Matrix.det_fin_one]
    rfl
  | succ k ih =>
    intro m hk
    match k, ih, m, hk with
    | 0, _, m, _ =>
      rw [Matrix.det_fin_two]
      rfl
    | 1, _, m, _ =>
      rw [Matrix.det_fin_three]
      simp only [determinant, Matrix.of_apply, Except.ok.injEq]
      ring
    | k + 2, ih, m, hk =>
      obtain ⟨st, hst, h2⟩ := cofactor_loop ind (determinant ind (k + 3))
        (fun s => ih s (by omega)) m hk
      rw [determinant, hst]
      simp only [h2]

/-- The loops that fill `result[i][j]` with `entry(i, j)` return the matrix of the
entries. -/
theorem fillDown_eq {R C : Nat} {α : Type} (ind : Nat → Nat → α)
    (entry : Nat → Nat → Except Fault α) (F : Fin R → Fin C → α)
    (h : ∀ (i j : Nat) (hi : i < R) (hj : j < C), entry i j = .ok (F ⟨i, hi⟩ ⟨j, hj⟩)) :
    fillDown ind entry = .ok F := by
  unfold fillDown
  obtain ⟨t, ht, hP⟩ := loopDown_invariant
    (fun i result => loopDown (fillStep entry i) C result)
    (fun n (res : Fin R → Fin C → α) => ∀ a b, n ≤ a.val → res a b = F a b)
    R (fun i j => ind i.val j.val)
    (by
      intro a b hn
      exact absurd a.isLt (by omega))
    (by
      intro i res hi hP
      obtain ⟨t, ht, hQ⟩ := loopDown_invariant
        (fillStep entry i)
        (fun k (res : Fin R → Fin C → α) =>
          (∀ a b, i + 1 ≤ a.val → res a b = F a b)
            ∧ ∀ b, k ≤ b.val → res ⟨i, hi⟩ b = F ⟨i, hi⟩ b)
        C res
        ⟨hP, fun b hb => absurd b.isLt (by omega)⟩
        (by
          rintro j res2 hj ⟨hQ1, hQ2⟩
          unfold fillStep
          rw [h i j hi hj]
          obtain ⟨t, ht, hta⟩ := assignElem_of_lt res2 i j (F ⟨i, hi⟩ ⟨j, hj⟩) hi hj
          refine ⟨t, ht, ?_, ?_⟩
          · intro a b ha
            rw [hta, if_neg (fun hc => by omega)]
            exact hQ1 a b ha
          · intro b hb
            rw [hta]
            by_cases hbj : b.val = j
            · rw [if_pos ⟨rfl, hbj⟩]
              congr 1
              exact Fin.ext hbj.symm
            · rw [if_neg (fun hc => hbj hc.2)]
              exact hQ2 b (by omega))
      refine ⟨t, ht, ?_⟩
      intro a b ha
      by_cases hai : a.val = i
      · have e : a = ⟨i, hi⟩ := Fin.ext hai
        rw [e]
        exact hQ.2 b (Nat.zero_le _)
      · exact hQ.1 a b (by omega))
  rw [ht]
  congr 1
  funext a b
  exact hP a b (Nat.zero_le _)

/-- The function `transpose` returns the transposed matrix. -/
theorem transpose_eq {R C : Nat} {α : Type} (ind : Nat → Nat → α)
    (matrix : Fin R → Fin C → α) :
    transpose ind matrix = .ok (fun a b => matrix b a) := by
  unfold transpose
  obtain ⟨t, ht, hP⟩ := loopDown_invariant
    (fun i result => loopDown (transposeStep matrix i) C result)
    (fun n (res : Fin C → Fin R → α) => ∀ a b, n ≤ b.val → res a b = matrix b a)
    R (fun i j => ind i.val j.val)
    (by
      intro a b hn
      exact absurd b.isLt (by omega))
    (by
      intro i res hi hP
      obtain ⟨t, ht, hQ⟩ := loopDown_invariant
        (transposeStep matrix i)
        (fun k (res : Fin C → Fin R → α) =>
          (∀ a b, i + 1 ≤ b.val → res a b = matrix b a)
            ∧ ∀ a, k ≤ a.val → res a ⟨i, hi⟩ = matrix ⟨i, hi⟩ a)
        C res
        ⟨hP, fun a ha => absurd a.isLt (by omega)⟩
        (by
          rintro j res2 hj ⟨hQ1, hQ2⟩
          unfold transposeStep
          rw [elemAt_of_lt matrix i j hi hj]
          obtain ⟨t, ht, hta⟩ := assignElem_of_lt res2 j i (matrix ⟨i, hi⟩ ⟨j, hj⟩) hj hi
          refine ⟨t, ht, ?_, ?_⟩
          · intro a b hb
            rw [hta, if_neg (fun hc => by omega)]
            exact hQ1 a b hb
          · intro a ha
            rw [hta]
            by_cases haj : a.val = j
            · rw [if_pos ⟨haj, rfl⟩]
              congr 1
              exact Fin.ext haj.symm
            · rw [if_neg (fun hc => haj hc.1)]
              exact hQ2 a (by omega))
      refine ⟨t, ht, ?_⟩
      intro a b hb
      by_cases hbi : b.val = i
      · have e : b = ⟨i, hi⟩ := Fin.ext hbi
        rw [e]
        exact hQ.2 a (Nat.zero_le _)
      · exact hQ.1 a b (by omega))
  rw [ht]
  congr 1
  funext a b
  exact hP a b (Nat.zero_le _)

/-- The loops of `invert` over the signs multiply every element by its sign. -/
theorem applySigns_eq {n : Nat} {α : Type} [Ring α] (result : Fin n → Fin n → α) :
    applySigns result = .ok (fun a b => result a b * sing a.val b.val) := by
  unfold applySigns
  obtain ⟨t, ht, hP⟩ := loopUp_invariant
    (fun i res => loopUp (signStep i) n res)
    (fun k (res : Fin n → Fin n → α) => ∀ a b,
      res a b = if a.val < k then result a b * sing a.val b.val else result a b)
    n result
    (by
      intro a b
      rw [if_neg (Nat.not_lt_zero _)])
    (by
      intro i res hi hP
      obtain ⟨t, ht, hQ⟩ := loopUp_invariant
        (signStep i)
        (fun k (res : Fin n → Fin n → α) => ∀ a b,
          res a b = if a.val < i ∨ (a.val = i ∧ b.val < k)
            then result a b * sing a.val b.val else result a b)
        n res
        (by
          intro a b
          rw [hP]
          by_cases ha : a.val < i
          · rw [if_pos ha, if_pos (Or.inl ha)]
          · rw [if_neg ha, if_neg]
            rintro (h | ⟨_, h⟩)
            · exact ha h
            · exact Nat.not_lt_zero _ h)
        (by
          intro j res2 hj hQ
          unfold signStep
          rw [elemAt_of_lt res2 i j hi hj, hQ, if_neg (by
            rintro (h | ⟨_, h⟩)
            · exact lt_irrefl _ h
            · exact lt_irrefl _ h)]
          obtain ⟨t, ht, hta⟩ := assignElem_of_lt res2 i j
            (result ⟨i, hi⟩ ⟨j, hj⟩ * sing i j) hi hj
          refine ⟨t, ht, ?_⟩
          intro a b
          rw [hta]
          by_cases hab : a.val = i ∧ b.val = j
          · obtain ⟨ha, hb⟩ := hab
            have ea : a = ⟨i, hi⟩ := Fin.ext ha
            have eb : b = ⟨j, hj⟩ := Fin.ext hb
            subst ea
            subst eb
            rw [if_pos ⟨rfl, rfl⟩, if_pos (Or.inr ⟨rfl, Nat.lt_succ_self _⟩)]
          · rw [if_neg hab, hQ]
            by_cases hc : a.val < i ∨ (a.val = i ∧ b.val < j)
            · rw [if_pos hc, if_pos]
              rcases hc with h | ⟨h1, h2⟩
              · exact Or.inl h
              · exact Or.inr ⟨h1, Nat.lt_succ_of_lt h2⟩
            · rw [if_neg hc, if_neg]
              rintro (h | ⟨h1, h2⟩)
              · exact hc (Or.inl h)
              · rcases Nat.lt_succ_iff_lt_or_eq.mp h2 with h3 | h3
                · exact hc (Or.inr ⟨h1, h3⟩)
                · exact hab ⟨h1, h3⟩)
      refine ⟨t, ht, ?_⟩
      intro a b
      rw [hQ]
      by_cases ha : a.val < i + 1
      · rw [if_pos ha, if_pos]
        rcases Nat.lt_succ_iff_lt_or_eq.mp ha with h | h
        · exact Or.inl h
        · exact Or.inr ⟨h, b.isLt⟩
      · rw [if_neg ha, if_neg]
        rintro (h | ⟨h, _⟩)
        · exact ha (Nat.lt_succ_of_lt h)
        · exact ha (by rw [h]; exact Nat.lt_succ_self _))
  rw [ht]
  congr 1
  funext a b
  rw [hP, if_pos a.isLt]

/-- The lambda `sing` is the power of `-1`: the sum of the indices wraps at `2^64`, an
even number. -/
theorem sing_eq {α : Type} [Ring α] (i j : Nat) : (sing i j : α) = (-1) ^ (i + j) := by
  unfold sing
  rw [Nat.mod_mod_of_dvd (i + j) (by norm_num : 2 ∣ 18446744073709551616)]
  by_cases he : (i + j) % 2 = 0
  · rw [if_pos he, Even.neg_one_pow (Nat.even_iff.mpr he)]
  · rw [if_neg he, Odd.neg_one_pow (Nat.odd_iff.mpr (by omega))]

/-- The function `minor` returns the determinants of the submatrices. -/
theorem minor_eq {α : Type} [CommRing α] (ind : Nat → Nat → α) (n : Nat)
    (m : Fin (n + 2) → Fin (n + 2) → α) (hn : n + 2 < 18446744073709551616) :
    minor ind (n + 2) m
      = .ok (fun i j => Matrix.det (Matrix.of (fun a b => m (i.succAbove a) (j.succAbove b)))) := by
  match n, m, hn with
  | 0, m, _ =>
    rw [minor]
    apply fillDown_eq
    intro i j hi hj
    rw [Matrix.det_fin_one]
    have hi2 : i = 0 ∨ i = 1 := by omega
    have hj2 : j = 0 ∨ j = 1 := by omega
    rcases hi2 with rfl | rfl <;> rcases hj2 with rfl | rfl <;> rfl
  | n + 1, m, hn =>
    rw [minor]
    apply fillDown_eq
    intro i j hi hj
    have hsub := submatrix_eq ind m ⟨i, hi⟩ ⟨j, hj⟩ hn hn
    simp only at hsub
    rw [hsub]
    exact determinant_eq ind (n + 1) _ (by omega)

/-- The function `invert` with a pointer: it stores whether the determinant is not zero
and, when it is not, divides the adjugate by the determinant with the operator `/=` of
the class. -/
theorem invert_eq {α : Type} [Field α] [DecidableEq α] (ind : Nat → Nat → α) (n : Nat)
    (divAssign : (Fin (n + 2) → Fin (n + 2) → α) → α
      → Except Fault (Fin (n + 2) → Fin (n + 2) → α))
    (d : Fin (n + 2) → Fin (n + 2) → α) (b : Bool) (hn : n + 2 < 18446744073709551616) :
    invert ind (n + 2) divAssign d (some b)
      = if Matrix.det (Matrix.of d) = 0 then .ok (fun i j => ind i.val j.val, some false)
        else (divAssign (fun i j => Matrix.adjugate (Matrix.of d) i j)
          (Matrix.det (Matrix.of d))).map (fun R => (R, some true)) := by
  have hdet : determinant ind (n + 2) d = .ok (Matrix.det (Matrix.of d)) :=
    determinant_eq ind (n + 1) d hn
  unfold invert
  rw [if_neg (by omega), hdet]
  simp only [Option.isSome_some, true_and]
  by_cases h0 : Matrix.det (Matrix.of d) = 0
  · rw [if_pos h0, if_pos h0]
  · rw [if_neg h0, if_neg h0, minor_eq ind n d hn]
    simp only
    rw [applySigns_eq]
    simp only
    rw [transpose_eq]
    simp only
    have hadj : (fun (a b : Fin (n + 2)) =>
        Matrix.det (Matrix.of (fun x y => d (b.succAbove x) (a.succAbove y)))
          * sing b.val a.val)
        = fun i j => Matrix.adjugate (Matrix.of d) i j := by
      funext a b
      rw [Matrix.adjugate_fin_succ_eq_det_submatrix,
        sing_eq b.val a.val, mul_comm]
      rfl
    rw [hadj]
    cases divAssign (fun i j => Matrix.adjugate (Matrix.of d) i j) (Matrix.det (Matrix.of d))
      <;> rfl

/-- The adjugate divided by a non-zero determinant is a right inverse. -/
theorem adjugate_div_inverse {α : Type} [Field α] {n : Nat}
    (d : Fin n → Fin n → α) (h0 : Matrix.det (Matrix.of d) ≠ 0) (i j : Fin n) :
    ∑ k, d i k * (Matrix.adjugate (Matrix.of d) k j / Matrix.det (Matrix.of d))
      = if i = j then 1 else 0 := by
  have h := congrFun (congrFun (Matrix.mul_adjugate (Matrix.of d)) i) j
  rw [Matrix.mul_apply] at h
  simp only [Matrix.of_apply, Matrix.smul_apply, Matrix.one_apply, smul_eq_mul] at h
  have e : ∑ k, d i k * (Matrix.adjugate (Matrix.of d) k j / Matrix.det (Matrix.of d))
      = (∑ k, d i k * Matrix.adjugate (Matrix.of d) k j) / Matrix.det (Matrix.of d) := by
    rw [Finset.sum_div]
    apply Finset.sum_congr rfl
    intro k _
    rw [mul_div_assoc]
  rw [e, h]
  by_cases hij : i = j
  · rw [if_pos hij, mul_one, div_self h0]
  · rw [if_neg hij, mul_zero, zero_div]

/-- With an operator `/=` that divides every element, `invert(d, &ok)` sets `ok` exactly
when the determinant is not zero and then returns the inverse. -/
theorem invert_inverse {α : Type} [Field α] [DecidableEq α] (ind : Nat → Nat → α) (n : Nat)
    (divAssign : (Fin (n + 2) → Fin (n + 2) → α) → α
      → Except Fault (Fin (n + 2) → Fin (n + 2) → α))
    (hdiv : ∀ M s, divAssign M s = .ok (fun i j => M i j / s))
    (d : Fin (n + 2) → Fin (n + 2) → α) (b : Bool) (hn : n + 2 < 18446744073709551616) :
    ∃ R flag, invert ind (n + 2) divAssign d (some b) = .ok (R, some flag)
      ∧ (flag = true ↔ Matrix.det (Matrix.of d) ≠ 0)
      ∧ (Matrix.det (Matrix.of d) ≠ 0 →
          ∀ i j, ∑ k, d i k * R k j = if i = j then 1 else 0) := by
  rw [invert_eq ind n divAssign d b hn, hdiv]
  by_cases h0 : Matrix.det (Matrix.of d) = 0
  · rw [if_pos h0]
    exact ⟨_, false, rfl, by simp [h0], fun h => absurd h0 h⟩
  · rw [if_neg h0]
    exact ⟨_, true, rfl, by simp [h0], fun _ i j => adjugate_div_inverse d h0 i j⟩

/-- The determinant of the example matrix. -/
theorem exampleDiagonal_det : Matrix.det (Matrix.of exampleDiagonal) = 1 + 1 / 2 ^ 30 := by
  have h : Matrix.of exampleDiagonal
      = Matrix.diagonal (fun i : Fin 4 => if i.val = 0 then (1 + 1 / 2 ^ 30 : ℚ) else 1) := by
    funext i j
    simp only [Matrix.of_apply, exampleDiagonal, Matrix.diagonal_apply]
  rw [h, Matrix.det_diagonal, Fin.prod_univ_four,
    if_pos (show (0 : Fin 4).val = 0 from rfl),
    if_neg (show ¬ (1 : Fin 4).val = 0 by decide),
    if_neg (show ¬ (2 : Fin 4).val = 0 by decide),
    if_neg (show ¬ (3 : Fin 4).val = 0 by decide)]
  norm_num

/-- On the example matrix the primary `Matrix<double,4,4>` divides the adjugate by the
determinant converted to `float`, which is `1`: the product with the result has
`1 + 2^-30` in the corner. -/
theorem invert_double_example (slot : ArithKernel) (ind : Nat → Nat → ℚ) (b : Bool) :
    ∃ R, invert ind 4
        (Matrix44.opAssignScalar (MatrixDouble14.opAssignScalar slot (fun x y => x / y)))
        exampleDiagonal (some b) = .ok (R, some true)
      ∧ ∑ k, exampleDiagonal 0 k * R k 0 = 1 + 1 / 2 ^ 30 := by
  have h := invert_eq ind 2
    (Matrix44.opAssignScalar (MatrixDouble14.opAssignScalar slot (fun x y => x / y)))
    exampleDiagonal b (by norm_num)
  rw [exampleDiagonal_det, if_neg (by norm_num),
    Matrix44_double_opAssignScalar_eq slot _ _ _ 1 floatCast_near_one] at h
  refine ⟨_, h, ?_⟩
  have h2 := congrFun (congrFun (Matrix.mul_adjugate (Matrix.of exampleDiagonal)) 0) 0
  rw [Matrix.mul_apply, exampleDiagonal_det] at h2
  simp only [Matrix.of_apply, Matrix.smul_apply, Matrix.one_apply, smul_eq_mul, if_true,
    mul_one] at h2
  simp only [div_one]
  exact h2

/-- Claim C33.  For every square matrix `m` of dimension 1, 2, 3 or 4 over a commutative
ring, `determinant(m)` returns, and its value is the determinant of `m` as Mathlib defines
it, the Leibniz sum over the permutations (`Matrix.det_apply`): the conversion of the
`1 x 1` matrix, the closed forms for `2 x 2` and `3 x 3`, and for `4 x 4` the loop over the
first row with `submatrix(m, 0, i)`, which is `m` without row `0` and column `i`.  The
contents of the result of `submatrix` before the loops do not matter.  The same holds in
every dimension `n + 1` below `2^64`, where the loop calls itself on the submatrices. -/
theorem determinant_is_leibniz {α : Type} [CommRing α] (ind : Nat → Nat → α) :
    (∀ m : Fin 1 → Fin 1 → α, determinant ind 1 m = .ok (Matrix.det (Matrix.of m)))
      ∧ (∀ m : Fin 2 → Fin 2 → α, determinant ind 2 m = .ok (Matrix.det (Matrix.of m)))
      ∧ (∀ m : Fin 3 → Fin 3 → α, determinant ind 3 m = .ok (Matrix.det (Matrix.of m)))
      ∧ (∀ m : Fin 4 → Fin 4 → α, determinant ind 4 m = .ok (Matrix.det (Matrix.of m)))
      ∧ (∀ (m : Fin 4 → Fin 4 → α) (i : Fin 4),
          submatrix ind m 0 i.val = .ok (fun a b => m a.succ (i.succAbove b)))
      ∧ (∀ m : Fin 4 → Fin 4 → α,
          Matrix.det (Matrix.of m)
            = ∑ σ : Equiv.Perm (Fin 4), Equiv.Perm.sign σ • ∏ i, m (σ i) i)
      ∧ (∀ (n : Nat) (m : Fin (n + 1) → Fin (n + 1) → α), n + 1 < 18446744073709551616 →
          determinant ind (n + 1) m = .ok (Matrix.det (Matrix.of m))) := by
  refine ⟨fun m => determinant_eq ind 0 m (by norm_num),
    fun m => determinant_eq ind 1 m (by norm_num),
    fun m => determinant_eq ind 2 m (by norm_num),
    fun m => determinant_eq ind 3 m (by norm_num), ?_, ?_,
    fun n m hn => determinant_eq ind n m hn⟩
  · intro m i
    have h := submatrix_eq ind m 0 i (by norm_num) (by norm_num)
    rw [Fin.succAbove_zero] at h
    exact h
  · intro m
    rw [Matrix.det_apply]
    rfl

/-- Claim C34, which the code does not meet.  With an operator `/=` that divides every
element by the scalar, as the ones of `Matrix<T,2,2>`, `Matrix<T,3,3>`, the primary
`Matrix<T,4,4>` over the primary rows, `Matrix<float,4,4>` and the generic `Matrix<T,R,C>`,
`invert(d, &ok)` sets `ok` exactly when `determinant(d) != 0` and then returns the
adjugate divided by the determinant, the inverse.  The rows of `Matrix<double,4,4>` are
`Matrix<double,1,4>`, whose `operator/=` takes a `float`: `result /= det` divides by the
determinant converted to `float`.  For the diagonal matrix of `1 + 2^-30, 1, 1, 1` the
determinant `1 + 2^-30` converts to `1`, `ok` is set, and the product of `d` with the
result has `1 + 2^-30` in place of `1` at `[0][0]`.  For a `1 x 1` matrix `invert` cannot
be instantiated. -/
theorem invert_double_not_inverse :
    (∀ (n : Nat) (ind : Nat → Nat → ℚ)
        (divAssign : (Fin (n + 2) → Fin (n + 2) → ℚ) → ℚ
          → Except Fault (Fin (n + 2) → Fin (n + 2) → ℚ))
        (d : Fin (n + 2) → Fin (n + 2) → ℚ) (b : Bool),
        n + 2 < 18446744073709551616 →
        (∀ M s, divAssign M s = .ok (fun i j => M i j / s)) →
        ∃ R flag, invert ind (n + 2) divAssign d (some b) = .ok (R, some flag)
          ∧ (flag = true ↔ Matrix.det (Matrix.of d) ≠ 0)
          ∧ (Matrix.det (Matrix.of d) ≠ 0 →
              ∀ i j, ∑ k, d i k * R k j = if i = j then 1 else 0))
      ∧ (∀ (M : Fin 2 → Fin 2 → ℚ) (s : ℚ),
          Matrix22.opAssignScalar (fun x y => .ok (x / y)) M s = .ok (fun i j => M i j / s))
      ∧ (∀ (M : Fin 3 → Fin 3 → ℚ) (s : ℚ),
          Matrix33.opAssignScalar (fun x y => .ok (x / y)) M s = .ok (fun i j => M i j / s))
      ∧ (∀ (M : Fin 4 → Fin 4 → ℚ) (s : ℚ),
          Matrix44.opAssignScalar (Matrix14.opAssignScalar (fun x y => .ok (x / y))) M s
            = .ok (fun i j => M i j / s))
      ∧ (∀ (slot : ArithKernel) (M : Fin 4 → Fin 4 → ℚ) (s : ℚ),
          MatrixFloat44.opAssignScalar slot (fun x y => x / y) M s
            = .ok (fun i j => M i j / s))
      ∧ (∀ (n : Nat) (M : Fin n → Fin n → ℚ) (s : ℚ),
          matrixAssignScalar (fun x y => .ok (x / y)) M s = .ok (fun i j => M i j / s))
      ∧ (∀ (slot : ArithKernel) (ind : Nat → Nat → ℚ) (b : Bool),
          ∃ R, invert ind 4
              (Matrix44.opAssignScalar
                (MatrixDouble14.opAssignScalar slot (fun x y => x / y)))
              exampleDiagonal (some b) = .ok (R, some true)
            ∧ ∑ k, exampleDiagonal 0 k * R k 0 = 1 + 1 / 2 ^ 30
            ∧ ∑ k, exampleDiagonal 0 k * R k 0 ≠ 1)
      ∧ (∀ (ind : Nat → Nat → ℚ) (divAssign : (Fin 1 → Fin 1 → ℚ) → ℚ
            → Except Fault (Fin 1 → Fin 1 → ℚ)) (d : Fin 1 → Fin 1 → ℚ) (c : Option Bool),
          invert ind 1 divAssign d c = .error Fault.illFormed) := by
  refine ⟨fun n ind divAssign d b hn hdiv => invert_inverse ind n divAssign hdiv d b hn,
    fun M s => Matrix22_opAssignScalar_total _ M s,
    fun M s => Matrix33_opAssignScalar_total _ M s,
    fun M s => Matrix44_opAssignScalar_total _ M s,
    fun slot M s => MatrixFloat44_opAssignScalar_eq slot _ M s,
    fun n M s => matrixAssignScalar_total _ M s, ?_, ?_⟩
  · intro slot ind b
    obtain ⟨R, hR, hsum⟩ := invert_double_example slot ind b
    refine ⟨R, hR, hsum, ?_⟩
    rw [hsum]
    norm_num
  · intro ind divAssign d c
    rfl

end Geometrix
